import Mathlib

/-!
The hash-consed, reference-counted term store (`atermpp/source/memory.cpp`)

A shallow embedding of the term store of `memory.cpp`.

* A node (`detail::_aterm`) is identified by its address, a natural number counted in
  machine words.  `Store.mem` gives, for every address, the header fields of the node
  stored there and the payload words that follow the header.
* The bucket chains of `aterm::hashtable` and the free lists of `terminfo`, which the
  source links through the intrusive field `next`, are represented by the list of the
  addresses on the chain, head first.  The lists stand for the links as long as every
  node is on at most one chain, and on that chain once; this holds in the stores between
  public operations (`Public`, `Kept`).  The namespace `linked` holds a second embedding
  of the same functions that keeps the field `next`, for the stores in which a node is
  pushed on a free list while it is still on another chain.
* `assert` is a failure in builds without `NDEBUG` and does nothing in builds with it;
  `Config.ndebug` selects the build.
* The macros and constants of the headers (`START`, `COMBINE`, `FINISH`, `ARG_OFFSET`,
  `TERM_SIZE_INT`, `TERM_SIZE_APPL`, `MIN_TERM_SIZE`, `BLOCK_SIZE`, the numbers of the
  predefined function symbols and the arity of every symbol) are parameters, collected in
  `Config`.
* The two places where the run-time system can refuse memory (`calloc` in
  `allocate_block`, `std::vector::resize` in `resize_hashtable`) take their outcome from
  an `Env`.
* `at_free_term` and `at_reduce_reference_count` call each other; the recursion is
  bounded by a `fuel` argument, and running out of it is a failure of its own.
* The class `aterm` of the handles is not in the source at hand.  Its two uses in
  `memory.cpp`, `increase_reference_count<false>` and the handle assignment
  `arg[i] = aterm()` of the debug variant of `at_free_term`, follow the handle semantics
  of the specification (copy is retain, drop is release).

After the term store come the embeddings of `old_data/data_equation.h`
(`is_well_typed`), `utilities/test_utilities.h` (the rewrite strategies of the tests, with
the function-local `static` as a state), `pbes/detail/enumerate_quantifiers_builder.h`
(`enumerate_quantifiers`, with the enumerator, the rewriter and the traits of the terms
as parameters) and `pbes/detail/lps2pbes_par.h` and `pbes/detail/lps2pbes_rhs.h` (the
traversers behind `Par` and `RHS`, over an inductive type of state formulas).
-/

namespace atermpp

/-- Ways in which an operation of the store can fail to return normally. -/
inductive Fault where
  /-- An `assert` failed (only in builds without `NDEBUG`). -/
  | assertion_failed
  /-- A `std::runtime_error` was thrown. -/
  | runtime_error
  /-- A null pointer was dereferenced. -/
  | null_dereference
  /-- A `std::vector` was indexed outside its bounds. -/
  | out_of_bounds
  /-- The recursion bound of the model was exhausted. -/
  | out_of_fuel
  /-- An integer was divided by zero. -/
  | division_by_zero
  deriving DecidableEq, Repr

/-- The build flag, macros and constants that `memory.cpp` takes from its headers. -/
structure Config where
  /-- Whether `NDEBUG` is defined (release build). -/
  ndebug : Bool
  START : Nat → Nat
  COMBINE : Nat → Nat → Nat
  FINISH : Nat → Nat
  ARG_OFFSET : Nat
  TERM_SIZE_INT : Nat
  TERM_SIZE_APPL : Nat → Nat
  MIN_TERM_SIZE : Nat
  BLOCK_SIZE : Nat
  /-- The number of the default function symbol `function_symbol()`. -/
  AS_DEFAULT : Nat
  /-- The number of `AS_INT`. -/
  AS_INT : Nat
  /-- The number of `AS_EMPTY_LIST`. -/
  AS_EMPTY_LIST : Nat
  /-- The arity of the function symbol with the given number. -/
  arity : Nat → Nat
  /-- The address of the node a default-constructed handle `aterm()` refers to. -/
  default_aterm : Nat

/-- The answers of the run-time system during one operation. -/
structure Env where
  /-- Whether `new_hashtable.resize` throws `std::bad_alloc`. -/
  bad_alloc : Bool
  /-- The result of `calloc(1, sizeof(Block))`: the address of the `data` of the new block,
  or `none` for `NULL`. -/
  calloc : Option Nat

/-- The node `detail::_aterm` together with the payload words that follow its header:
`arg i` is the machine word at offset `ARG_OFFSET + i` (an argument of an application, or
the word holding the value of an integer). -/
structure _aterm where
  m_function_symbol : Nat
  reference_count : Nat
  arg : Nat → Nat

/-- The part of `Block` the allocator uses. -/
structure Block where
  data : Nat
  end_ : Nat
  size : Nat
  deriving DecidableEq, Repr

/-- The entry `TermInfo` of `terminfo`: `at_block` is the chain of blocks through
`next_by_size` and `at_freelist` the chain of free nodes through `next`. -/
structure TermInfo where
  at_block : List Block
  top_at_blocks : Nat
  at_freelist : List Nat
  deriving DecidableEq, Repr

/-- The global state of `memory.cpp`.  `terminfo` is indexed by the size class; the vector
is grown by `AT_allocate` before it is indexed, so it is a total map here. -/
structure Store where
  mem : Nat → _aterm
  terminfo : Nat → TermInfo
  total_nodes : Nat
  table_class : Nat
  table_size : Nat
  table_mask : Nat
  hashtable : List (List Nat)

/-- The number of values of `size_t` (a 64-bit machine word). -/
def SIZE_T_RANGE : Nat := 18446744073709551616

/-- The decrement `--x` of a `size_t`: it wraps around at zero. -/
def size_t_dec (x : Nat) : Nat := if x = 0 then SIZE_T_RANGE - 1 else x - 1

/-- The machine word in which the union of `aterm_int` holds `val` after
`reserved = 0; value = val`: the 32-bit pattern of the `int`, the other bits zero. -/
def int_word (val : Int) : Nat := (val % 4294967296).toNat

/-- The `int` read through the member `value` of the union from a machine word, as its
32-bit pattern. -/
def word_value (w : Nat) : Nat := w % 4294967296

/-- The `int` that the member `value` of the union reads from a machine word: the two's
complement value of its 32-bit pattern. -/
def int_value (w : Nat) : Int :=
  if word_value w < 2147483648 then (word_value w : Int)
  else (word_value w : Int) - 4294967296

/-- The values of the C++ type `int` (32 bits). -/
def is_int (val : Int) : Prop := -2147483648 ≤ val ∧ val < 2147483648

instance (val : Int) : Decidable (is_int val) := by
  unfold is_int
  infer_instance

/-- Store `t` at address `a`. -/
def Store.write (s : Store) (a : Nat) (t : _aterm) : Store :=
  { s with mem := fun x => if x = a then t else s.mem x }

/-- Replace the chain of bucket `i`. -/
def Store.set_bucket (s : Store) (i : Nat) (chain : List Nat) : Store :=
  { s with hashtable := s.hashtable.set i chain }

/-- Replace the entry of size class `size` in `terminfo`. -/
def Store.set_terminfo (s : Store) (size : Nat) (ti : TermInfo) : Store :=
  { s with terminfo := fun x => if x = size then ti else s.terminfo x }

/-- The size in words of a term: `term_size`. -/
def term_size (cfg : Config) (t : _aterm) : Nat :=
  if t.m_function_symbol = cfg.AS_INT then cfg.TERM_SIZE_INT
  else cfg.TERM_SIZE_APPL (cfg.arity t.m_function_symbol)

/-- The structural hash `hash_number(t, size)`: the words `ARG_OFFSET .. size - 1` of the
node are combined into the start value of its function symbol. -/
def hash_number (cfg : Config) (t : _aterm) (size : Nat) : Nat :=
  cfg.FINISH ((List.range (size - cfg.ARG_OFFSET)).foldl
    (fun hnr i => cfg.COMBINE hnr (t.arg i)) (cfg.START t.m_function_symbol))

/-- `AT_hashnumber`. -/
def AT_hashnumber (cfg : Config) (t : _aterm) : Nat :=
  hash_number cfg t (term_size cfg t)

/-- The inner `while` loop of `resize_hashtable` on one old chain: every node of the chain
is pushed on the front of its bucket in the new table. -/
def rehash_chain (cfg : Config) (mem : Nat → _aterm) (mask : Nat) :
    List Nat → List (List Nat) → Except Fault (List (List Nat))
  | [], new_hashtable => .ok new_hashtable
  | aterm_walker :: next, new_hashtable =>
    if !cfg.ndebug && (mem aterm_walker).reference_count = 0 then .error .assertion_failed
    else
      let hnr := hash_number cfg (mem aterm_walker) (term_size cfg (mem aterm_walker)) &&& mask
      if !cfg.ndebug && ¬ hnr < new_hashtable.length then .error .assertion_failed
      else
        match new_hashtable[hnr]? with
        | none => .error .out_of_bounds
        | some chain =>
          if !cfg.ndebug && chain.head? = some aterm_walker then .error .assertion_failed
          else rehash_chain cfg mem mask next (new_hashtable.set hnr (aterm_walker :: chain))

/-- The outer `for` loop of `resize_hashtable` over the buckets of the old table. -/
def rehash_all (cfg : Config) (mem : Nat → _aterm) (mask : Nat) :
    List (List Nat) → List (List Nat) → Except Fault (List (List Nat))
  | [], new_hashtable => .ok new_hashtable
  | p :: rest, new_hashtable =>
    match rehash_chain cfg mem mask p new_hashtable with
    | .error e => .error e
    | .ok new_hashtable1 => rehash_all cfg mem mask rest new_hashtable1

/-- `resize_hashtable`. -/
def resize_hashtable (cfg : Config) (env : Env) (s : Store) : Except Fault Store :=
  let table_class := s.table_class + 1
  let table_size := 2 ^ table_class
  let table_mask := table_size - 1
  if env.bad_alloc then
    .ok { s with table_class := table_class - 1,
                 table_size := 2 ^ (table_class - 1),
                 table_mask := 2 ^ (table_class - 1) - 1 }
  else
    match rehash_all cfg s.mem table_mask s.hashtable (List.replicate table_size []) with
    | .error e => .error e
    | .ok new_hashtable =>
      .ok { s with table_class := table_class, table_size := table_size,
                   table_mask := table_mask, hashtable := new_hashtable }

/-- `check_that_all_objects_are_free`: its first statement is `return true`. -/
def check_that_all_objects_are_free (_cfg : Config) (_s : Store) : Bool := true

/-- `allocate_block`. When `calloc` returns `NULL` the `std::runtime_error` is constructed
but not thrown, and `newblock->end` is written through the null pointer; the value that is
written is computed first, and `BLOCK_SIZE % size` divides by zero for the size 0.  Of the
assertions, `size < terminfo.size()` holds after the resize in `AT_allocate`,
`ti->at_block != NULL` holds after the assignment, and the alignment of the block is a
property of `calloc`; the other two are checked here. -/
def allocate_block (cfg : Config) (env : Env) (size : Nat) (s : Store) : Except Fault Store :=
  if !cfg.ndebug && ¬ cfg.MIN_TERM_SIZE ≤ size then .error .assertion_failed
  else if size = 0 then .error .division_by_zero
  else
    match env.calloc with
    | none => .error .null_dereference
    | some data =>
      let ti := s.terminfo size
      let newblock : Block :=
        { data := data, end_ := data + (cfg.BLOCK_SIZE - cfg.BLOCK_SIZE % size), size := size }
      if !cfg.ndebug && ti.at_freelist ≠ [] then .error .assertion_failed
      else
        .ok (s.set_terminfo size
          { ti with at_block := newblock :: ti.at_block, top_at_blocks := newblock.data })

/-- The two bump-allocation branches of `AT_allocate`: take the cell at `top_at_blocks`,
advance the pointer, clear the count and construct the default function symbol. -/
def bump_allocate (cfg : Config) (size : Nat) (s : Store) : Nat × Store :=
  let ti := s.terminfo size
  let at_ := ti.top_at_blocks
  let s1 := s.set_terminfo size { ti with top_at_blocks := ti.top_at_blocks + size }
  (at_, s1.write at_ { s1.mem at_ with reference_count := 0,
                                       m_function_symbol := cfg.AS_DEFAULT })

/-- The part of `AT_allocate` after the decision to resize: choose the cell. -/
def AT_allocate_cell (cfg : Config) (env : Env) (size : Nat) (s : Store) :
    Except Fault (Nat × Store) :=
  let ti := s.terminfo size
  if (match ti.at_block.head? with
      | some b => decide (ti.top_at_blocks < b.end_)
      | none => false) then
    .ok (bump_allocate cfg size s)
  else
    match ti.at_freelist with
    | at_ :: next =>
      if !cfg.ndebug && ti.at_block = [] then .error .assertion_failed
      else if !cfg.ndebug && ti.at_block.head?.map Block.end_ ≠ some ti.top_at_blocks then
        .error .assertion_failed
      else if !cfg.ndebug && (s.mem at_).reference_count ≠ 0 then .error .assertion_failed
      else .ok (at_, s.set_terminfo size { ti with at_freelist := next })
    | [] =>
      match allocate_block cfg env size s with
      | .error e => .error e
      | .ok s1 => .ok (bump_allocate cfg size s1)

/-- `AT_allocate`.  The vector `terminfo` is a total map here, so its resize has no
effect; `total_nodes` is bounded by the number of cells in memory, so its increment does
not wrap around. -/
def AT_allocate (cfg : Config) (env : Env) (size : Nat) (s : Store) :
    Except Fault (Nat × Store) :=
  match (if s.total_nodes ≥ s.table_size then resize_hashtable cfg env s else .ok s) with
  | .error e => .error e
  | .ok s1 =>
    match AT_allocate_cell cfg env size s1 with
    | .error e => .error e
    | .ok (at_, s2) => .ok (at_, { s2 with total_nodes := s2.total_nodes + 1 })

/-- The `do ... while` loop of `AT_freeTerm` on a non-empty chain: unlink `t`; `none` when
the end of the chain is reached without meeting `t`. -/
def unlink (t : Nat) : List Nat → Option (List Nat)
  | [] => none
  | cur :: next => if cur = t then some next else (unlink t next).map (fun l => cur :: l)

/-- `AT_freeTerm`: remove a term from the hashtable. -/
def AT_freeTerm (cfg : Config) (t : Nat) (s : Store) : Except Fault Store :=
  let hnr := hash_number cfg (s.mem t) (term_size cfg (s.mem t)) &&& s.table_mask
  match s.hashtable[hnr]? with
  | none => .error .out_of_bounds
  | some [] => .error .runtime_error
  | some (cur :: next) =>
    match unlink t (cur :: next) with
    | some chain => .ok { s.set_bucket hnr chain with total_nodes := size_t_dec s.total_nodes }
    | none => if cfg.ndebug then .ok s else .error .assertion_failed

/-- Modelled from the spec: `increase_reference_count<false>`, a template of a header that
is not in the source at hand, is the `retain` of the spec: it increments the reference
count and has no other effect.  The count of a node is bounded by the number of handles
and arguments in memory, so the increment does not wrap around. -/
def increase_reference_count (t : Nat) (s : Store) : Store :=
  s.write t { s.mem t with reference_count := (s.mem t).reference_count + 1 }

/-- Modelled from the spec: the handle assignment `arg[i] = aterm()` of the debug variant of
`at_free_term` ("overwrite-with-empty-term in debug"); the class `aterm` with its default
constructor, assignment and destructor is not in the source at hand.  The specification
says of the handles: "creating a handle increments a count, dropping a handle decrements
it" and "Copy increments the refcount (`retain`); drop decrements it (`release`)".
Accordingly a handle is made for the default term (retain), it is assigned to the argument
(the copy retains the default term, the handle that is overwritten is dropped, which
releases the term the argument referred to, and the word is overwritten), and the
temporary handle is dropped again (release).  In all, the term the argument referred to is
released once and the default term keeps one reference more than before, held by the
argument word of the node that is being destroyed.  `reduce` is
`at_reduce_reference_count`. -/
def assign_default_aterm (cfg : Config) (reduce : Nat → Store → Except Fault Store)
    (t i : Nat) (s : Store) : Except Fault Store :=
  let s1 := increase_reference_count cfg.default_aterm s
  let s2 := increase_reference_count cfg.default_aterm s1
  match reduce ((s2.mem t).arg i) s2 with
  | .error e => .error e
  | .ok s3 =>
    let s4 := s3.write t { s3.mem t with
      arg := fun j => if j = i then cfg.default_aterm else (s3.mem t).arg j }
    reduce cfg.default_aterm s4

/-- The `for` loop of `at_free_term` over the arguments of `t`, from index `i` on; the
bound `arity()` is read from the node in every round, as in the source.  `n` bounds the
number of rounds. -/
def free_arguments (cfg : Config) (reduce : Nat → Store → Except Fault Store) (t : Nat) :
    Nat → Nat → Store → Except Fault Store
  | n, i, s =>
    if i < cfg.arity (s.mem t).m_function_symbol then
      match n with
      | 0 => .error .out_of_fuel
      | n + 1 =>
        match (if cfg.ndebug then reduce ((s.mem t).arg i) s
               else assign_default_aterm cfg reduce t i s) with
        | .error e => .error e
        | .ok s1 => free_arguments cfg reduce t n (i + 1) s1
    else .ok s

/-- The body of `at_free_term`, with `reduce` for the calls of
`at_reduce_reference_count` and `n` the bound on the rounds of the loop.  The last two
statements, `t->next = ti->at_freelist; ti->at_freelist = t;`, write the field `next` that
also links the bucket chains; the lists of this embedding stand for those links as long as
`t` is on no bucket chain and on no free list when it is pushed, which is the case in the
stores of `Public` (see `free_lists_apart` and `linked.at_free_term_body`, which keeps the
field). -/
def at_free_term_body (cfg : Config) (reduce : Nat → Store → Except Fault Store) (n : Nat)
    (t : Nat) (s : Store) : Except Fault Store :=
  if !cfg.ndebug && (s.mem t).m_function_symbol = cfg.AS_EMPTY_LIST then
    (fun _ => .ok s) (check_that_all_objects_are_free cfg s)
  else if !cfg.ndebug && (s.mem t).reference_count ≠ 0 then .error .assertion_failed
  else
    let size := term_size cfg (s.mem t)
    match AT_freeTerm cfg t s with
    | .error e => .error e
    | .ok s1 =>
      match free_arguments cfg reduce t n 0 s1 with
      | .error e => .error e
      | .ok s2 =>
        let s3 := s2.write t { s2.mem t with m_function_symbol := cfg.AS_DEFAULT }
        let ti := s3.terminfo size
        .ok (s3.set_terminfo size { ti with at_freelist := t :: ti.at_freelist })

/-- `at_reduce_reference_count`; `fuel` bounds the depth of the recursion through
`at_free_term` and the rounds of each of its loops. -/
def at_reduce_reference_count (cfg : Config) : Nat → Nat → Store → Except Fault Store
  | 0, _, _ => .error .out_of_fuel
  | fuel + 1, t, s =>
    if !cfg.ndebug && (s.mem t).reference_count = 0 then .error .assertion_failed
    else
      let s1 := s.write t { s.mem t with
        reference_count := size_t_dec (s.mem t).reference_count }
      if (s1.mem t).reference_count = 0 then
        at_free_term_body cfg (at_reduce_reference_count cfg fuel) fuel t s1
      else .ok s1

/-- `at_free_term`. -/
def at_free_term (cfg : Config) (fuel : Nat) (t : Nat) (s : Store) : Except Fault Store :=
  at_free_term_body cfg (at_reduce_reference_count cfg fuel) fuel t s

/-- The `while` loop of `aterm::aterm(const function_symbol&)`: search the chain for a node
with function symbol `sym`; the result is the node and the chain without it. -/
def find_symbol (mem : Nat → _aterm) (sym : Nat) : List Nat → Option (Nat × List Nat)
  | [] => none
  | cur :: next =>
    if (mem cur).m_function_symbol = sym then some (cur, next)
    else (find_symbol mem sym next).map (fun r => (r.1, cur :: r.2))

/-- The constructor `aterm::aterm(const function_symbol &sym)`; the result is `m_term`. -/
def aterm (cfg : Config) (env : Env) (sym : Nat) (s : Store) : Except Fault (Nat × Store) :=
  if !cfg.ndebug && cfg.arity sym ≠ 0 then .error .assertion_failed
  else
    let hnr := cfg.FINISH (cfg.START sym)
    match s.hashtable[hnr &&& s.table_mask]? with
    | none => .error .out_of_bounds
    | some chain =>
      match find_symbol s.mem sym chain with
      | some (cur, others) =>
        .ok (cur, increase_reference_count cur
          (s.set_bucket (hnr &&& s.table_mask) (cur :: others)))
      | none =>
        match AT_allocate cfg env (cfg.TERM_SIZE_APPL 0) s with
        | .error e => .error e
        | .ok (cur, s1) =>
          let hnr1 := hnr &&& s1.table_mask
          let s2 := s1.write cur { s1.mem cur with m_function_symbol := sym }
          match s2.hashtable[hnr1]? with
          | none => .error .out_of_bounds
          | some chain1 =>
            .ok (cur, increase_reference_count cur (s2.set_bucket hnr1 (cur :: chain1)))

/-- The `while` loop of `aterm_int::aterm_int`: the first node of the chain with function
symbol `AS_INT` and value `val`. -/
def find_int (cfg : Config) (mem : Nat → _aterm) (word : Nat) : List Nat → Option Nat
  | [] => none
  | cur :: next =>
    if (mem cur).m_function_symbol ≠ cfg.AS_INT ∨
        word_value ((mem cur).arg 0) ≠ word_value word then
      find_int cfg mem word next
    else some cur

/-- The end of `aterm_int::aterm_int`: the assertion on the hash, and the retain. -/
def aterm_int_finish (cfg : Config) (hnr cur : Nat) (s : Store) : Except Fault (Nat × Store) :=
  if !cfg.ndebug && (hnr &&& s.table_mask) ≠
      (hash_number cfg (s.mem cur) cfg.TERM_SIZE_INT &&& s.table_mask) then
    .error .assertion_failed
  else .ok (cur, increase_reference_count cur s)

/-- The hash computed at the start of `aterm_int::aterm_int`:
`FINISH(COMBINE(START(AS_INT.number()), HN(_val.reserved)))`.  The macro `HN` is in a
header that is not in the source at hand; it is the conversion of a machine word to
`HashNumber`, which leaves the word as it is. -/
def int_hash (cfg : Config) (val : Int) : Nat :=
  cfg.FINISH (cfg.COMBINE (cfg.START cfg.AS_INT) (int_word val))

/-- The three assignments of `aterm_int::aterm_int` to a new cell: the function symbol
becomes `AS_INT`, the word of the union becomes `reserved` (and `value`, which is part of
that word, the value). -/
def int_node (cfg : Config) (reserved : Nat) (t : _aterm) : _aterm :=
  { t with m_function_symbol := cfg.AS_INT,
           arg := fun j => if j = 0 then reserved else t.arg j }

/-- The constructor `aterm_int::aterm_int(int val)`; the result is `m_term`. -/
def aterm_int (cfg : Config) (env : Env) (val : Int) (s : Store) :
    Except Fault (Nat × Store) :=
  let reserved := int_word val
  let hnr := int_hash cfg val
  match s.hashtable[hnr &&& s.table_mask]? with
  | none => .error .out_of_bounds
  | some chain =>
    match find_int cfg s.mem reserved chain with
    | some cur => aterm_int_finish cfg hnr cur s
    | none =>
      match AT_allocate cfg env cfg.TERM_SIZE_INT s with
      | .error e => .error e
      | .ok (cur, s1) =>
        let hnr1 := hnr &&& s1.table_mask
        let s2 := s1.write cur (int_node cfg reserved (s1.mem cur))
        match s2.hashtable[hnr1]? with
        | none => .error .out_of_bounds
        | some chain1 => aterm_int_finish cfg hnr1 cur (s2.set_bucket hnr1 (cur :: chain1))

end atermpp

namespace atermpp

/-! ## Sequences of operations -/

/-- The constructor `aterm_int(val)` called `n` times in succession; `env k` gives the
answers of the run-time system for the call after which `k` calls remain.  The result
lists the nodes returned, first call first. -/
def aterm_int_n (cfg : Config) (env : Nat → Env) (val : Int) :
    Nat → Store → Except Fault (List Nat × Store)
  | 0, s => .ok ([], s)
  | k + 1, s =>
    match aterm_int cfg (env k) val s with
    | .error e => .error e
    | .ok (m, s1) =>
      match aterm_int_n cfg env val k s1 with
      | .error e => .error e
      | .ok (ms, s2) => .ok (m :: ms, s2)

/-- `at_reduce_reference_count(t)` called `n` times in succession. -/
def release_n (cfg : Config) (fuel t : Nat) : Nat → Store → Except Fault Store
  | 0, s => .ok s
  | k + 1, s =>
    match at_reduce_reference_count cfg fuel t s with
    | .error e => .error e
    | .ok s1 => release_n cfg fuel t k s1

/-- The store `s` with the reference count of the node at `c` set to `r`. -/
def with_count (s : Store) (c r : Nat) : Store :=
  s.write c { s.mem c with reference_count := r }

/-! ## The invariants of the store -/

/-- The nodes of the hash table: the nodes on the bucket chains, bucket after bucket. -/
def nodes (s : Store) : List Nat := s.hashtable.flatten

/-- The bucket a node belongs in: `hash_number(node, term_size(node)) & table_mask`. -/
def bucket_of (cfg : Config) (s : Store) (a : Nat) : Nat :=
  hash_number cfg (s.mem a) (term_size cfg (s.mem a)) &&& s.table_mask

/-- Table consistency: every node of the hash table is in exactly one bucket, once, and
that bucket is `hash_number(node, term_size(node)) & table_mask`. -/
def table_consistent (cfg : Config) (s : Store) : Prop :=
  (∀ i < s.hashtable.length, ∀ a ∈ s.hashtable.getD i [], i = bucket_of cfg s a) ∧
  ∀ chain ∈ s.hashtable, chain.Nodup

/-- Two nodes have the same function symbol and the same payload: the same word of the
union for `AS_INT` nodes (the word holds the integer value), the same arguments for an
application (no condition beyond the symbol when the arity is 0). -/
def same_term (cfg : Config) (t u : _aterm) : Prop :=
  t.m_function_symbol = u.m_function_symbol ∧
  if t.m_function_symbol = cfg.AS_INT then t.arg 0 = u.arg 0
  else ∀ i < cfg.arity t.m_function_symbol, t.arg i = u.arg i

/-- Uniqueness: the hash table holds no two distinct nodes with the same function symbol
and the same payload. -/
def unique (cfg : Config) (s : Store) : Prop :=
  ∀ a ∈ nodes s, ∀ b ∈ nodes s, same_term cfg (s.mem a) (s.mem b) → a = b

/-- Two nodes have the same function symbol and the same payload, where the payload of an
`AS_INT` node is the integer read through the member `value` of the union. -/
def same_value_term (cfg : Config) (t u : _aterm) : Prop :=
  t.m_function_symbol = u.m_function_symbol ∧
  if t.m_function_symbol = cfg.AS_INT then int_value (t.arg 0) = int_value (u.arg 0)
  else ∀ i < cfg.arity t.m_function_symbol, t.arg i = u.arg i

/-- Uniqueness with the integer value as the payload of the `AS_INT` nodes. -/
def unique_by_value (cfg : Config) (s : Store) : Prop :=
  ∀ a ∈ nodes s, ∀ b ∈ nodes s, same_value_term cfg (s.mem a) (s.mem b) → a = b

/-- The `AS_INT` nodes of the table hold zero-extended words: the bits of the word of the
union that are not part of `value` are zero, as `aterm_int` writes them. -/
def zero_extended (cfg : Config) (s : Store) : Prop :=
  ∀ a ∈ nodes s, (s.mem a).m_function_symbol = cfg.AS_INT → (s.mem a).arg 0 < 4294967296

instance (cfg : Config) (s : Store) : Decidable (zero_extended cfg s) := by
  unfold zero_extended
  infer_instance

instance (cfg : Config) (s : Store) : Decidable (table_consistent cfg s) := by
  unfold table_consistent
  infer_instance

instance (cfg : Config) (t u : _aterm) : Decidable (same_term cfg t u) := by
  unfold same_term
  infer_instance

instance (cfg : Config) (s : Store) : Decidable (unique cfg s) := by
  unfold unique
  infer_instance

/-- The relation between a store and a later store in which the buckets of the hash table
have only lost nodes or changed the order of their nodes, and the nodes still in the table
kept their function symbol and payload. -/
structure Stable (s s1 : Store) : Prop where
  mask : s1.table_mask = s.table_mask
  len : s1.hashtable.length = s.hashtable.length
  sub : ∀ i, (s1.hashtable.getD i []).Subperm (s.hashtable.getD i [])
  frame : ∀ a ∈ nodes s1, (s1.mem a).m_function_symbol = (s.mem a).m_function_symbol ∧
    (s1.mem a).arg = (s.mem a).arg

/-- An operation on the store is safe when, started in a consistent table, it only removes
nodes from the table and leaves the nodes that stay as they are. -/
def Safe (cfg : Config) (f : Store → Except Fault Store) : Prop :=
  ∀ s s1, table_consistent cfg s → f s = .ok s1 → Stable s s1

/-- The store after the node `t` of the store `s` has been destroyed without a cascade:
the count of `t` is 0, the chain of its bucket is `chain1`, `total_nodes` is decremented,
the function symbol of `t` is the default one and `t` heads the free list of its size
class. -/
def released_store (cfg : Config) (s : Store) (t : Nat) (chain1 : List Nat) : Store :=
  { mem := fun x =>
      if x = t then { s.mem t with reference_count := 0, m_function_symbol := cfg.AS_DEFAULT }
      else s.mem x
    terminfo := fun x =>
      if x = term_size cfg (s.mem t) then
        { s.terminfo x with at_freelist := t :: (s.terminfo x).at_freelist }
      else s.terminfo x
    total_nodes := size_t_dec s.total_nodes
    table_class := s.table_class
    table_size := s.table_size
    table_mask := s.table_mask
    hashtable := s.hashtable.set (bucket_of cfg s t) chain1 }

/-! ## Liveness -/

/-- The arguments of a node: the payload words at the positions below the arity of its
function symbol. -/
def arguments (cfg : Config) (t : _aterm) : List Nat :=
  (List.range (cfg.arity t.m_function_symbol)).map t.arg

/-- The number of argument positions of the nodes in the hash table that point at `a`. -/
def inrefs (cfg : Config) (s : Store) (a : Nat) : Nat :=
  ((nodes s).map (fun b => (arguments cfg (s.mem b)).count a)).sum

/-- Liveness, for a store extended with the outstanding handles (`handles a` is the number
of handles that point at `a`): the reference count of every node is the number of handles
that point at it plus the number of argument positions of nodes in the hash table that
point at it. -/
def live (cfg : Config) (s : Store) (handles : Nat → Nat) : Prop :=
  ∀ a, (s.mem a).reference_count = handles a + inrefs cfg s a

/-- The handles after a constructor has returned a handle on `n`. -/
def add_handle (handles : Nat → Nat) (n : Nat) : Nat → Nat :=
  fun a => if a = n then handles a + 1 else handles a

/-- The handles after a handle on `t` has been dropped. -/
def drop_handle (handles : Nat → Nat) (t : Nat) : Nat → Nat :=
  fun a => if a = t then handles a - 1 else handles a

/-- The hash table is closed under arguments: the arguments of its nodes are nodes of the
table. -/
def closed (cfg : Config) (s : Store) : Prop :=
  ∀ b ∈ nodes s, ∀ a ∈ arguments cfg (s.mem b), a ∈ nodes s

instance (cfg : Config) (s : Store) : Decidable (closed cfg s) := by
  unfold closed
  infer_instance

/-- The state of a release in progress: `pending` lists the references that have been
given up but whose count has not been decremented yet. -/
structure Releasing (cfg : Config) (s : Store) (handles : Nat → Nat) (pending : List Nat) :
    Prop where
  count : ∀ a, (s.mem a).reference_count = handles a + inrefs cfg s a + pending.count a
  consistent : table_consistent cfg s
  closed : closed cfg s
  pending_mem : ∀ p ∈ pending, p ∈ nodes s

/-! ## Concrete configurations and stores used to instantiate the theorems -/

/-- A configuration with a three-word header: the hash of the headers' style
(`(hnr << 1) ^ (hnr >> 1) ^ w`), four predefined symbols and some symbols with arguments. -/
def example_config (ndebug : Bool) : Config where
  ndebug := ndebug
  START := fun w => w
  COMBINE := fun hnr w => ((2 * hnr) ^^^ (hnr / 2)) ^^^ w
  FINISH := fun hnr => hnr
  ARG_OFFSET := 3
  TERM_SIZE_INT := 4
  TERM_SIZE_APPL := fun k => 3 + k
  MIN_TERM_SIZE := 3
  BLOCK_SIZE := 8192
  AS_DEFAULT := 0
  AS_INT := 1
  AS_EMPTY_LIST := 3
  arity := fun sym => if sym = 2 then 2 else if sym = 10 then 1 else 0
  default_aterm := 7

/-- A run-time system that grants every request; new blocks start at address `base`. -/
def example_env (base : Nat) : Env := { bad_alloc := false, calloc := some base }

/-- Modelled from the spec: the initial values of the globals of `memory.cpp`, the store
before any term is made.  The macros `AT_TABLE_SIZE` and `AT_TABLE_MASK` of the
initializers are in a header that is not in the source at hand; following the spec (the
table size is a power of two, the mask is the size minus one) and the assignments of
`resize_hashtable`, the size is `2^table_class` and the mask is the size minus one.
`INITIAL_TERM_TABLE_CLASS` is the parameter `table_class`; every word of memory is zero,
no block is allocated and the hash table is empty. -/
def initial_store (table_class : Nat) : Store where
  mem := fun _ => { m_function_symbol := 0, reference_count := 0, arg := fun _ => 0 }
  terminfo := fun _ => { at_block := [], top_at_blocks := 0, at_freelist := [] }
  total_nodes := 0
  table_class := table_class
  table_size := 2 ^ table_class
  table_mask := 2 ^ table_class - 1
  hashtable := List.replicate (2 ^ table_class) []

/-- The result of an operation that is known to succeed. -/
def run {α : Type} (d : α) : Except Fault α → α
  | .ok a => a
  | .error _ => d

end atermpp


namespace atermpp

/-- The store after `aterm_int(5)` in the initial store of class 2 (release build). -/
def store_with_5 : Store :=
  (run (0, initial_store 2)
    (aterm_int (example_config true) (example_env 1000) 5 (initial_store 2))).2

/-- The store after `aterm(sym)` for the nullary symbol 4 in the initial store of class 2
(debug build). -/
def store_with_symbol_4 : Store :=
  (run (0, initial_store 2)
    (aterm (example_config false) (example_env 1000) 4 (initial_store 2))).2

/-- The store after `aterm_int(5)`, `aterm_int(6)` and `aterm(4)` in the initial store of
class 2 (release build): three nodes in one block each. -/
def store_with_three : Store :=
  (run (0, initial_store 2) (aterm (example_config true) (example_env 3000) 4
    (run (0, initial_store 2) (aterm_int (example_config true) (example_env 2000) 6
      store_with_5)).2)).2

/-- The store after `aterm_int(5)` and `aterm_int(6)` in the initial store of class 1
(release build): the table of two buckets holds two nodes, so the next allocation grows
it. -/
def store_full : Store :=
  (run (0, initial_store 1) (aterm_int (example_config true) (example_env 2000) 6
    (run (0, initial_store 1)
      (aterm_int (example_config true) (example_env 1000) 5 (initial_store 1))).2)).2

/-- The store `store_with_5` in which the block of the integer size class is full and the
free list of that class holds the node at 1000, which is also in the hash table. -/
def store_free_list_in_table : Store :=
  store_with_5.set_terminfo 4
    { at_block := [{ data := 1000, end_ := 1004, size := 4 }],
      top_at_blocks := 1004,
      at_freelist := [1000] }

/-- The store `store_with_5` with `table_class` 3 although the table has four buckets and
the mask is 3. -/
def store_wrong_class : Store := { store_with_5 with table_class := 3 }

/-- A store of class 2 with two nodes in bucket 0: the nullary application `x` (symbol 4)
at 3001 and the application `f(x)` (symbol 10, arity 1) at 3100, each with count 1: `x`
is referenced by `f(x)`, and `f(x)` by a handle. -/
def store_f_of_x : Store where
  mem := fun a =>
    if a = 3001 then { m_function_symbol := 4, reference_count := 1, arg := fun _ => 0 }
    else if a = 3100 then
      { m_function_symbol := 10, reference_count := 1, arg := fun i => if i = 0 then 3001 else 0 }
    else { m_function_symbol := 0, reference_count := 0, arg := fun _ => 0 }
  terminfo := fun _ => { at_block := [], top_at_blocks := 0, at_freelist := [] }
  total_nodes := 2
  table_class := 2
  table_size := 4
  table_mask := 3
  hashtable := [[3100, 3001], [], [], []]

/-- The handles of `store_f_of_x`: one handle on `f(x)`. -/
def handles_f_of_x : Nat → Nat := fun a => if a = 3100 then 1 else 0

/-- The store `store_f_of_x` without `f(x)` in the table: the node at 3100 is only
referenced by a handle, and so is `x`. -/
def store_outside_table : Store := { store_f_of_x with hashtable := [[3001], [], [], []] }

/-- The handles of `store_outside_table`: one on the node at 3100 and one on `x`. -/
def handles_outside_table : Nat → Nat := fun a => if a = 3100 ∨ a = 3001 then 1 else 0

/-- The initial store of class 2 in which the word at 1000, in memory not yet allocated,
holds the count 2. -/
def store_counted_cell : Store :=
  (initial_store 2).write 1000 { m_function_symbol := 0, reference_count := 2, arg := fun _ => 0 }

/-- The handles of `store_counted_cell`: two handles on address 1000. -/
def handles_counted_cell : Nat → Nat := fun a => if a = 1000 then 2 else 0

/-- The store after `aterm(AS_EMPTY_LIST)` in the initial store of class 2 (debug build):
the table holds the empty list, with one reference. -/
def store_with_empty_list : Store :=
  (run (0, initial_store 2)
    (aterm (example_config false) (example_env 1000) 3 (initial_store 2))).2

/-- The store `store_with_5` with the node of 5 on the chain of bucket 0 instead of the
bucket of its hash, 3. -/
def store_wrong_bucket : Store := { store_with_5 with hashtable := [[1000], [], [], []] }

/-- The store `store_with_three` in which the block of the integer size class is full and
the free list of that class holds the free cell at 2000. -/
def store_free_cell : Store :=
  store_with_three.set_terminfo 4
    { at_block := [{ data := 1000, end_ := 1008, size := 4 }],
      top_at_blocks := 1008,
      at_freelist := [2000] }

end atermpp

namespace atermpp

/-! ## The steps of a release, the allocator and the shape of the table -/

/-- A relation between a store and a later store that holds across each of the elementary
steps a release is made of: a write to a node, the unlinking of a node from its bucket
with the decrement of `total_nodes`, and the push of a node on a free list. -/
structure ReleaseSteps (R : Store → Store → Prop) : Prop where
  refl : ∀ s, R s s
  trans : ∀ s s1 s2, R s s1 → R s1 s2 → R s s2
  write : ∀ s a t, R s (s.write a t)
  unlink : ∀ s i chain,
    R s { s.set_bucket i chain with total_nodes := size_t_dec s.total_nodes }
  push : ∀ s size t, R s (s.set_terminfo size
    { s.terminfo size with at_freelist := t :: (s.terminfo size).at_freelist })

/-- The later store has the table variables of the earlier one and as many buckets. -/
def same_table_variables (s s1 : Store) : Prop :=
  s1.table_class = s.table_class ∧ s1.table_size = s.table_size ∧
  s1.table_mask = s.table_mask ∧ s1.hashtable.length = s.hashtable.length

/-- Every size class of the later store has the blocks and the bump pointer it had in the
earlier one, and its free list ends with the free list it had. -/
def allocator_grows (s s1 : Store) : Prop :=
  ∀ c, (s1.terminfo c).at_block = (s.terminfo c).at_block ∧
    (s1.terminfo c).top_at_blocks = (s.terminfo c).top_at_blocks ∧
    (s.terminfo c).at_freelist <:+ (s1.terminfo c).at_freelist

end atermpp

namespace atermpp

/-- The debug configuration `example_config false` with blocks of four words, so that a
block holds one cell of the size class 3 of the nullary applications. -/
def small_block_config : Config := { example_config false with BLOCK_SIZE := 4 }

/-- The store after `aterm(AS_EMPTY_LIST)` in the initial store of class 2, in the debug
build with small blocks: the only block of size class 3 is full and holds the empty list,
and the free list of the class is empty. -/
def store_empty_list_small_block : Store :=
  (run (0, initial_store 2)
    (aterm small_block_config (example_env 1000) 3 (initial_store 2))).2

/-- The store `store_with_empty_list` in which the block of size class 3 has been filled:
the bump pointer is at the end of the block, and the free list of the class is empty. -/
def store_empty_list_block_full : Store :=
  store_with_empty_list.set_terminfo 3
    { at_block := [{ data := 1000, end_ := 9190, size := 3 }],
      top_at_blocks := 9190,
      at_freelist := [] }

end atermpp

namespace atermpp

/-- The store `store_with_three` in which the block of the integer size class ends after
its two nodes, at 1000 and 1004: the block is full and the free list of the class is
empty. -/
def store_int_block_full : Store :=
  store_with_three.set_terminfo 4
    { at_block := [{ data := 1000, end_ := 1008, size := 4 }],
      top_at_blocks := 1008,
      at_freelist := [] }

end atermpp

namespace atermpp

/-! ## Size classes, the shape of the table and the reachable stores -/

/-- The record of the sizes passed to `AT_allocate` after a node has been created at `n`
with a cell of `size` words. -/
def record_size (sizes : Nat → Nat) (n size : Nat) : Nat → Nat :=
  fun a => if a = n then size else sizes a

/-- Size-class correctness, for a store extended with the record `sizes` of the size that
was passed to `AT_allocate` when the node at an address was created: for every node of the
hash table, that size is `term_size(node)`. -/
def size_class_correct (cfg : Config) (s : Store) (sizes : Nat → Nat) : Prop :=
  ∀ a ∈ nodes s, term_size cfg (s.mem a) = sizes a

instance (cfg : Config) (s : Store) (sizes : Nat → Nat) :
    Decidable (size_class_correct cfg s sizes) := by
  unfold size_class_correct
  infer_instance

/-- The shape of the table: `table_size` is `2^table_class`, `table_mask` is
`table_size - 1` and the vector `hashtable` has `table_size` buckets. -/
def table_shape (s : Store) : Prop :=
  s.table_size = 2 ^ s.table_class ∧ s.table_mask = s.table_size - 1 ∧
  s.hashtable.length = s.table_size

instance (s : Store) : Decidable (table_shape s) := by
  unfold table_shape
  infer_instance

/-- The stores that the functions of `memory.cpp` reach from an initial store, called in
any order with any arguments and any answers of the run-time system. -/
inductive Reachable (cfg : Config) : Store → Prop
  | initial (table_class : Nat) : Reachable cfg (initial_store table_class)
  | aterm_int (env : Env) (val : Int) (s : Store) (n : Nat) (s1 : Store) :
      Reachable cfg s → aterm_int cfg env val s = .ok (n, s1) → Reachable cfg s1
  | aterm (env : Env) (sym : Nat) (s : Store) (n : Nat) (s1 : Store) :
      Reachable cfg s → aterm cfg env sym s = .ok (n, s1) → Reachable cfg s1
  | at_reduce_reference_count (fuel t : Nat) (s s1 : Store) :
      Reachable cfg s → at_reduce_reference_count cfg fuel t s = .ok s1 → Reachable cfg s1
  | at_free_term (fuel t : Nat) (s s1 : Store) :
      Reachable cfg s → at_free_term cfg fuel t s = .ok s1 → Reachable cfg s1
  | AT_allocate (env : Env) (size : Nat) (s : Store) (n : Nat) (s1 : Store) :
      Reachable cfg s → AT_allocate cfg env size s = .ok (n, s1) → Reachable cfg s1
  | resize_hashtable (env : Env) (s s1 : Store) :
      Reachable cfg s → resize_hashtable cfg env s = .ok s1 → Reachable cfg s1

end atermpp

namespace atermpp

/-- The later store has a table of the right shape that is at least as large as the table
of the earlier one. -/
def table_kept_or_grown (s s1 : Store) : Prop :=
  table_shape s1 ∧ s.table_class ≤ s1.table_class ∧ s.table_size ≤ s1.table_size

end atermpp

namespace atermpp

/-- The store `store_with_three` with, at address 5000, a node for the integer 2 that is
not in the hash table.  The bucket of its hash is bucket 0, which holds the nodes at 3000
and 1004. -/
def store_with_absent_node : Store :=
  store_with_three.write 5000
    { m_function_symbol := 1, reference_count := 0, arg := fun i => if i = 0 then 2 else 0 }

end atermpp

namespace atermpp

/-- The store after `aterm_int(2)` and `aterm_int(6)` in the initial store of class 2 and
the release of the only reference of the node of 2 (release build): the node of 2, at
1000, has been destroyed and heads the free list of the integer size class; the node of
6, at 1004, is alone in bucket 0. -/
def store_2_released : Store :=
  run (initial_store 2) (at_reduce_reference_count (example_config true) 2 1000
    (run (0, initial_store 2) (aterm_int (example_config true) (example_env 1000) 6
      (run (0, initial_store 2)
        (aterm_int (example_config true) (example_env 1000) 2 (initial_store 2))).2)).2)

end atermpp

namespace mcrl2.old_data

/-! ## The conditional data equation (`old_data/data_equation.h`) -/

/-- The class `data_equation` with its four members.  The classes `data_variable_list`
and `data_expression` are declared in headers that are not in the source at hand; they are
type parameters. -/
structure data_equation (data_variable_list data_expression : Type) where
  m_variables : data_variable_list
  m_condition : data_expression
  m_lhs : data_expression
  m_rhs : data_expression

/-- `data_equation::variables`. -/
def data_equation.variables {V E : Type} (e : data_equation V E) : V := e.m_variables

/-- `data_equation::condition`. -/
def data_equation.condition {V E : Type} (e : data_equation V E) : E := e.m_condition

/-- `data_equation::lhs`. -/
def data_equation.lhs {V E : Type} (e : data_equation V E) : E := e.m_lhs

/-- `data_equation::rhs`. -/
def data_equation.rhs {V E : Type} (e : data_equation V E) : E := e.m_rhs

/-- `data_equation::is_well_typed`.  The member function `data_expression::sort()` is
declared in a header that is not in the source at hand and is the parameter `sort`; the
sorts are compared with `!=`.  The message written to `std::cerr` is not modelled. -/
def data_equation.is_well_typed {V E S : Type} [DecidableEq S] (sort : E → S)
    (e : data_equation V E) : Bool :=
  if sort e.m_lhs ≠ sort e.m_rhs then false
  else true

end mcrl2.old_data


namespace atermpp

/-! ## The state of a store between and during releases -/

/-- The handles when `k` further references are held on the node at `d`. -/
def leak (handles : Nat → Nat) (d k : Nat) : Nat → Nat :=
  fun a => if a = d then handles a + k else handles a

/-- A sound store with a release in progress (`pending` lists the references that have
been given up but not yet taken from the counts): the counts are exact, the table is
consistent and closed under arguments, every node of the table has a positive count
(but, in a debug build, a node of the empty list, which `at_free_term` leaves in the
table), `total_nodes` is the number of nodes of the table, the nodes on the free lists
have count 0 and are not in the table, and in a debug build the default term, to which
`arg[i] = aterm()` refers, is neither a node of the table nor on a free list. -/
structure Sound (cfg : Config) (s : Store) (handles : Nat → Nat) (pending : List Nat) :
    Prop where
  releasing : Releasing cfg s handles pending
  positive : ∀ a ∈ nodes s, 0 < (s.mem a).reference_count ∨
    (cfg.ndebug = false ∧ (s.mem a).m_function_symbol = cfg.AS_EMPTY_LIST)
  counted : s.total_nodes = (nodes s).length
  free_zero : ∀ c, ∀ a ∈ (s.terminfo c).at_freelist, (s.mem a).reference_count = 0
  apart : ∀ c, ∀ a ∈ (s.terminfo c).at_freelist, a ∉ nodes s
  default_outside : cfg.ndebug = false →
    cfg.default_aterm ∉ nodes s ∧ ∀ c, cfg.default_aterm ∉ (s.terminfo c).at_freelist

/-- What a release, or a part of one, has done between the store `s`, sound with the
references `given_up ++ pending` given up, and the store `s1`: `s1` is sound with
`pending` still to do, with further references on the default term in a debug build; the
table has only lost nodes; the allocator has kept its blocks and only pushed on its free
lists; what is outside the table has kept symbol, payload and (the default term of a debug
build apart) count; and every node that left the table is on the free list of its size
class. -/
structure Released (cfg : Config) (s s1 : Store) (handles : Nat → Nat) (pending : List Nat) :
    Prop where
  sound : ∃ k, (cfg.ndebug = true → k = 0) ∧
    Sound cfg s1 (leak handles cfg.default_aterm k) pending
  stable : Stable s s1
  grows : allocator_grows s s1
  outside : ∀ x, x ∉ nodes s →
    (s1.mem x).m_function_symbol = (s.mem x).m_function_symbol ∧
    (s1.mem x).arg = (s.mem x).arg ∧
    (cfg.ndebug = true ∨ x ≠ cfg.default_aterm →
      (s1.mem x).reference_count = (s.mem x).reference_count)
  reclaimed : ∀ a ∈ nodes s, a ∉ nodes s1 →
    a ∈ (s1.terminfo (term_size cfg (s.mem a))).at_freelist

/-- The behaviour of a release on a sound store: when the callback `reduce` returns, it
has released the first of the references given up. -/
def Releases (cfg : Config) (reduce : Nat → Store → Except Fault Store) : Prop :=
  ∀ a s s1 h P, Sound cfg s h (a :: P) → reduce a s = .ok s1 → Released cfg s s1 h P

end atermpp


namespace atermpp

/-! ## Chains of nodes -/

/-- A chain of nodes: every node has reference count 1, and each node after the first is
an argument of the node before it (its last argument in a right-nested chain). -/
def is_chain (cfg : Config) (s : Store) : List Nat → Prop
  | [] => True
  | [a] => (s.mem a).reference_count = 1
  | a :: b :: l =>
    (s.mem a).reference_count = 1 ∧ b ∈ arguments cfg (s.mem a) ∧ is_chain cfg s (b :: l)

/-- The chain property can be decided. -/
def is_chain_decidable (cfg : Config) (s : Store) : (l : List Nat) → Decidable (is_chain cfg s l)
  | [] => isTrue trivial
  | [a] => inferInstanceAs (Decidable ((s.mem a).reference_count = 1))
  | a :: b :: l =>
    let _ := is_chain_decidable cfg s (b :: l)
    inferInstanceAs (Decidable ((s.mem a).reference_count = 1 ∧
      b ∈ arguments cfg (s.mem a) ∧ is_chain cfg s (b :: l)))

instance (cfg : Config) (s : Store) (l : List Nat) : Decidable (is_chain cfg s l) :=
  is_chain_decidable cfg s l

/-- A store with the term `f([])`: the empty list at 3001 and, at 3100, the application of
the unary symbol 10 to it, which holds the only reference to it. -/
def store_f_of_empty_list : Store where
  mem := fun a =>
    if a = 3001 then { m_function_symbol := 3, reference_count := 1, arg := fun _ => 0 }
    else if a = 3100 then
      { m_function_symbol := 10, reference_count := 1, arg := fun i => if i = 0 then 3001 else 0 }
    else { m_function_symbol := 0, reference_count := 0, arg := fun _ => 0 }
  terminfo := fun _ => { at_block := [], top_at_blocks := 0, at_freelist := [] }
  total_nodes := 2
  table_class := 2
  table_size := 4
  table_mask := 3
  hashtable := [[3100], [], [], [3001]]

end atermpp

namespace atermpp

/-- A chain of nodes in which each node after the first is the first argument of the node
before it: every node has reference count 1. -/
def is_first_argument_chain (cfg : Config) (s : Store) : List Nat → Prop
  | [] => True
  | [a] => (s.mem a).reference_count = 1
  | a :: b :: l =>
    (s.mem a).reference_count = 1 ∧ 0 < cfg.arity (s.mem a).m_function_symbol ∧
    (s.mem a).arg 0 = b ∧ is_first_argument_chain cfg s (b :: l)

/-- The property of a chain through the first arguments can be decided. -/
def is_first_argument_chain_decidable (cfg : Config) (s : Store) :
    (l : List Nat) → Decidable (is_first_argument_chain cfg s l)
  | [] => isTrue trivial
  | [a] => inferInstanceAs (Decidable ((s.mem a).reference_count = 1))
  | a :: b :: l =>
    let _ := is_first_argument_chain_decidable cfg s (b :: l)
    inferInstanceAs (Decidable ((s.mem a).reference_count = 1 ∧
      0 < cfg.arity (s.mem a).m_function_symbol ∧
      (s.mem a).arg 0 = b ∧ is_first_argument_chain cfg s (b :: l)))

instance (cfg : Config) (s : Store) (l : List Nat) :
    Decidable (is_first_argument_chain cfg s l) :=
  is_first_argument_chain_decidable cfg s l

end atermpp

namespace atermpp

/-! ## The two builds -/

/-- The debug build of a configuration: `NDEBUG` is not defined. -/
def debug_build (cfg : Config) : Config := { cfg with ndebug := false }

/-- The release build of a configuration: `NDEBUG` is defined. -/
def release_build (cfg : Config) : Config := { cfg with ndebug := true }

/-- The store `sd` of a debug build agrees with the store `sr` of a release build: they
have the same hash table, allocator (blocks and free lists) and counters, the same
function symbols, the same reference counts but for the default term at `d`, on which
the debug variant of `at_free_term` keeps references, and the same payloads in the nodes
of the table (the debug variant overwrites the arguments of the nodes it frees). -/
structure Agree (d : Nat) (sd sr : Store) : Prop where
  hashtable : sd.hashtable = sr.hashtable
  terminfo : sd.terminfo = sr.terminfo
  total_nodes : sd.total_nodes = sr.total_nodes
  table_class : sd.table_class = sr.table_class
  table_size : sd.table_size = sr.table_size
  table_mask : sd.table_mask = sr.table_mask
  symbol : ∀ a, (sd.mem a).m_function_symbol = (sr.mem a).m_function_symbol
  count : ∀ a, a ≠ d → (sd.mem a).reference_count = (sr.mem a).reference_count
  arg : ∀ a ∈ nodes sd, (sd.mem a).arg = (sr.mem a).arg

end atermpp

namespace atermpp

/-! ## The stores of the public operations -/

/-- The stores that the public operations reach from an initial store: the constructors
`aterm_int` and `aterm` and the release `at_reduce_reference_count`, called in any order
with any arguments, with run-time systems that satisfy `P`. -/
inductive Constructed (cfg : Config) (P : Env → Prop) : Store → Prop
  | initial (table_class : Nat) : Constructed cfg P (initial_store table_class)
  | aterm_int (env : Env) (val : Int) (s : Store) (n : Nat) (s1 : Store) :
      P env → Constructed cfg P s → aterm_int cfg env val s = .ok (n, s1) →
      Constructed cfg P s1
  | aterm (env : Env) (sym : Nat) (s : Store) (n : Nat) (s1 : Store) :
      P env → Constructed cfg P s → aterm cfg env sym s = .ok (n, s1) →
      Constructed cfg P s1
  | at_reduce_reference_count (fuel t : Nat) (s s1 : Store) :
      Constructed cfg P s → at_reduce_reference_count cfg fuel t s = .ok s1 →
      Constructed cfg P s1

/-- The block at the head of the blocks of the size class `c` holds the bump pointer, a
whole number of cells lies between the pointer and the end of the block, and the block
ends within the `BLOCK_SIZE` words of its data. -/
def blocks_fit (cfg : Config) (s : Store) (c : Nat) : Prop :=
  ∀ b, (s.terminfo c).at_block.head? = some b →
    b.data ≤ (s.terminfo c).top_at_blocks ∧ (s.terminfo c).top_at_blocks ≤ b.end_ ∧
    c ∣ (b.end_ - (s.terminfo c).top_at_blocks) ∧ b.end_ ≤ b.data + cfg.BLOCK_SIZE

/-- The sum of the lengths of the bucket chains of the hash table. -/
def chain_lengths (s : Store) : Nat := (s.hashtable.map List.length).sum

/-- A step that keeps the count of the nodes: if `total_nodes` was the number of nodes of
the table before, it is so afterwards, and it has not grown. -/
def keeps_count (s s1 : Store) : Prop :=
  s.total_nodes = (nodes s).length →
    s1.total_nodes = (nodes s1).length ∧ s1.total_nodes ≤ s.total_nodes

end atermpp

namespace mcrl2.utilities

/-! ## `test_utilities.h` -/

/-- The values of `data::rewrite_strategy` that `test_utilities.h` uses; the enumeration
is declared in a header that is not in the source at hand. -/
inductive rewrite_strategy where
  | jitty
  | jitty_prover
  | jitty_compiling
  | jitty_compiling_prover
  deriving DecidableEq, Repr

/-- The macros that `initialise_test_rewrite_strategies` tests with `#ifdef`. -/
structure Macros where
  MCRL2_TEST_COMPILERS : Bool
  MCRL2_JITTYC_AVAILABLE : Bool

/-- `initialise_test_rewrite_strategies`. -/
def initialise_test_rewrite_strategies (m : Macros) (with_prover : Bool) :
    List rewrite_strategy :=
  let result : List rewrite_strategy := []
  let result := result ++ [rewrite_strategy.jitty]
  let result := if with_prover then result ++ [rewrite_strategy.jitty_prover] else result
  if m.MCRL2_TEST_COMPILERS && m.MCRL2_JITTYC_AVAILABLE then
    let result := result ++ [rewrite_strategy.jitty_compiling]
    if with_prover then result ++ [rewrite_strategy.jitty_compiling_prover] else result
  else result

/-- `get_test_rewrite_strategies`.  The function-local `static` vector is part of the
state: `none` until the first call has initialised it.  The result is the vector the
returned reference refers to, and the state after the call. -/
def get_test_rewrite_strategies (m : Macros) (with_prover : Bool)
    (rewrite_strategies : Option (List rewrite_strategy)) :
    List rewrite_strategy × Option (List rewrite_strategy) :=
  match rewrite_strategies with
  | none =>
    let r := initialise_test_rewrite_strategies m with_prover
    (r, some r)
  | some r => (r, some r)

/-- A sequence of calls of `get_test_rewrite_strategies`, from the state `st` of the
static vector: the results of the calls, in order. -/
def get_test_rewrite_strategies_calls (m : Macros) :
    List Bool → Option (List rewrite_strategy) → List (List rewrite_strategy)
  | [], _ => []
  | with_prover :: rest, st =>
    (get_test_rewrite_strategies m with_prover st).1 ::
      get_test_rewrite_strategies_calls m rest (get_test_rewrite_strategies m with_prover st).2

end mcrl2.utilities

namespace mcrl2.pbes_system.detail

/-! ## `enumerate_quantifiers_builder.h` -/

/-- What ends a run of `enumerate_quantifiers` other than the end of its loop; `S` is the
state of the run. -/
inductive Abort (S : Type) where
  /-- The exception `enumerate_quantifier_stop_early`, with the state at the `throw`. -/
  | stop_early (st : S)
  /-- A `std::vector` was indexed, or an iterator dereferenced, outside its bounds. -/
  | out_of_bounds
  /-- The bound of the model on the rounds of the `while` loop was exhausted. -/
  | out_of_fuel

/-- The template parameters of `enumerate_quantifiers` and the traits of its terms: `V`
are the variables, `T` the data terms, `P` the pbes terms and `G` the states of the data
enumerator and the rewriter, which are passed by reference: `enumerate` and `pbesr` may
change them (the enumerator makes fresh variables). -/
structure Enumeration (V T P G : Type) where
  variable2term : V → T
  enumerate : G → T → List T × G
  pbesr : G → P → (V → Option T) → P × G
  stop : P → Bool
  is_constant : P → Bool
  data_is_constant : T → Bool
  /-- The order of the set `A` of pbes terms. -/
  less : P → P → Bool
  join : List P → P

/-- The assignment `sigma[v] = t` of a map substitution. -/
def sigma_assign {V T : Type} [DecidableEq V] (sigma : V → Option T) (v : V) (t : T) :
    V → Option T :=
  fun u => if u = v then some t else sigma u

/-- The call `sigma.erase(v)` of a map substitution. -/
def sigma_erase {V T : Type} [DecidableEq V] (sigma : V → Option T) (v : V) : V → Option T :=
  fun u => if u = v then none else sigma u

/-- The place of a new element in the list of the elements of an ordered set. -/
def ordered_insert {P : Type} (less : P → P → Bool) (c : P) : List P → List P
  | [] => [c]
  | a :: l => if less c a then c :: a :: l else a :: ordered_insert less c l

/-- The call `A.insert(c)` of the ordered set `atermpp::set`; the set is the list of its
elements in the order `less` of the set, the order in which `A.begin()` to `A.end()` runs
through them. -/
def set_insert {P : Type} [DecidableEq P] (less : P → P → Bool) (A : List P) (c : P) :
    List P :=
  if c ∈ A then A else ordered_insert less c A

/-- The substitution `sigma` and the local variables `A`, `D` and `todo` of
`enumerate_quantifiers`, and the state of the data enumerator and the rewriter.  An element `(v, t, k)` of
`todo` holds the `unsigned int` `k` as a natural number below `2^32`. -/
structure State (V T P G : Type) where
  sigma : V → Option T
  A : List P
  D : List (List T)
  todo : List (V × T × Nat)
  datae : G

/-- The first `for` loop of `enumerate_quantifiers`, from the `unsigned int` `j` on: it
fills `D` and `todo`. -/
def fill_D_and_todo {V T P G : Type} (e : Enumeration V T P G) :
    List V → Nat → List (List T) × List (V × T × Nat) → List (List T) × List (V × T × Nat)
  | [], _, acc => acc
  | i :: rest, j, (D, todo) =>
    let t := e.variable2term i
    fill_D_and_todo e rest ((j + 1) % 4294967296) (D ++ [[t]], todo ++ [(i, t, j)])

/-- A `for` loop over the elements of a vector with a body that may throw. -/
def for_each {T S E : Type} (body : T → S → Except E S) : List T → S → Except E S
  | [], st => .ok st
  | d :: ds, st =>
    match body d st with
    | .error a => .error a
    | .ok st1 => for_each body ds st1

/-- Modelled from the spec: `core::foreach_sequence(D, x.begin(), action, assign)`, of the
header core/sequence.h, which is not in the source at hand, as the comment at
`enumerate_quantifiers_sequence_action` describes it: for every sequence of elements of
the vectors of `D`, `assign` is called on each variable of `x` with its element, and then
the action.  An element of a vector of `D` beyond the end of `x` dereferences the iterator
outside its bounds. -/
def foreach_sequence {V T S E : Type} (out_of_bounds : E) (action : S → Except E S)
    (assign : V → T → S → S) : List (List T) → List V → S → Except E S
  | [], _, st => action st
  | Dj :: _, [], st => if Dj.isEmpty then .ok st else .error out_of_bounds
  | Dj :: rest, v :: x, st =>
    for_each (fun d st1 => foreach_sequence out_of_bounds action assign rest x
      (assign v d st1)) Dj st

/-- The call operator of `enumerate_quantifiers_sequence_action`; `sigma_` is the
member of the action, the copy of the substitution made when the action was made, and the
state holds the set `A` and the flag `is_constant` to which the action refers, and the
state of the rewriter. -/
def sequence_action {V T P G : Type} [DecidableEq P] (e : Enumeration V T P G) (phi : P)
    (sigma_ : V → Option T) (p : State V T P G × Bool) :
    Except (Abort (State V T P G)) (State V T P G × Bool) :=
  let c := e.pbesr p.1.datae phi sigma_
  let st := { p.1 with datae := c.2 }
  if e.stop c.1 then .error (.stop_early st)
  else if e.is_constant c.1 then .ok ({ st with A := set_insert e.less st.A c.1 }, p.2)
  else .ok (st, false)

/-- The call operator of `enumerate_quantifiers_sequence_assign`. -/
def sequence_assign {V T P G : Type} [DecidableEq V] (v : V) (t : T)
    (p : State V T P G × Bool) : State V T P G × Bool :=
  ({ p.1 with sigma := sigma_assign p.1.sigma v t }, p.2)

/-- The `for` loop of `enumerate_quantifiers` over the terms `z` that the enumerator gave
for the element `(xk, y, k)` of `todo`; the state holds the locals `Dk` and
`is_constant` too. -/
def enumerate_terms {V T P G : Type} [DecidableEq V] [DecidableEq P]
    (e : Enumeration V T P G) (x : List V) (phi : P) (xk : V) (k : Nat) :
    List T → State V T P G × List T × Bool →
    Except (Abort (State V T P G)) (State V T P G × List T × Bool)
  | [], acc => .ok acc
  | i :: z, (st, Dk, is_constant) =>
    let st1 := { st with sigma := sigma_assign st.sigma xk i }
    if k < st1.D.length then
      let st2 := { st1 with D := st1.D.set k [i] }
      match foreach_sequence Abort.out_of_bounds (sequence_action e phi st2.sigma)
          sequence_assign st2.D x (st2, is_constant) with
      | .error a => .error a
      | .ok (st3, is_constant1) =>
        if !is_constant1 then
          let Dk1 := Dk ++ [i]
          let st4 := if !e.data_is_constant i then
            { st3 with todo := st3.todo ++ [(xk, i, k)] } else st3
          enumerate_terms e x phi xk k z (st4, Dk1, is_constant1)
        else enumerate_terms e x phi xk k z (st3, Dk, is_constant1)
    else .error .out_of_bounds

/-- The body of the `while` loop of `enumerate_quantifiers` for the element `front` of
`todo`, which has been taken from the queue. -/
def process_front {V T P G : Type} [DecidableEq V] [DecidableEq P]
    (e : Enumeration V T P G) (x : List V) (phi : P) (front : V × T × Nat)
    (st : State V T P G) : Except (Abort (State V T P G)) (State V T P G) :=
  let xk := front.1
  let y := front.2.1
  let k := front.2.2
  match st.D[k]? with
  | none => .error .out_of_bounds
  | some Dk =>
    let z := e.enumerate st.datae y
    match enumerate_terms e x phi xk k z.1 ({ st with datae := z.2 }, Dk, false) with
    | .error a => .error a
    | .ok (st1, Dk1, _) =>
      if k < st1.D.length then .ok { st1 with D := st1.D.set k Dk1 }
      else .error .out_of_bounds

/-- The `while` loop of `enumerate_quantifiers`; `fuel` bounds its rounds. -/
def enumerate_loop {V T P G : Type} [DecidableEq V] [DecidableEq P]
    (e : Enumeration V T P G) (x : List V) (phi : P) :
    Nat → State V T P G → Except (Abort (State V T P G)) (State V T P G)
  | fuel, st =>
    match st.todo with
    | [] => .ok st
    | front :: rest =>
      match fuel with
      | 0 => .error .out_of_fuel
      | fuel + 1 =>
        match process_front e x phi front { st with todo := rest } with
        | .error a => .error a
        | .ok st1 => enumerate_loop e x phi fuel st1

/-- The state of `enumerate_quantifiers` before its `while` loop. -/
def initial_state {V T P G : Type} (e : Enumeration V T P G) (x : List V)
    (sigma : V → Option T) (datae : G) : State V T P G :=
  { sigma := sigma, A := [], D := (fill_D_and_todo e x 0 ([], [])).1,
    todo := (fill_D_and_todo e x 0 ([], [])).2, datae := datae }

/-- `enumerate_quantifiers`; `stop` and `join` are fields of `e`.  The result is the
returned term, and the substitution `sigma` and the state of the data enumerator and the
rewriter after the call. -/
def enumerate_quantifiers {V T P G : Type} [DecidableEq V] [DecidableEq P]
    (e : Enumeration V T P G) (x : List V) (phi : P) (sigma : V → Option T) (datae : G)
    (stop_value : P) (fuel : Nat) :
    Except (Abort (State V T P G)) (P × (V → Option T) × G) :=
  match enumerate_loop e x phi fuel (initial_state e x sigma datae) with
  | .error (.stop_early st) => .ok (stop_value, st.sigma, st.datae)
  | .error a => .error a
  | .ok st => .ok (e.join st.A, x.foldl sigma_erase st.sigma, st.datae)

/-- The invariant of `todo` that the comment in `enumerate_quantifiers` states: every
element `(v, t, k)` has `v == x[k]`, with `k` an index of `x`; and `D` has an entry for
every variable of `x`. -/
def todo_invariant {V T P G : Type} (x : List V) (st : State V T P G) : Prop :=
  st.D.length = x.length ∧ ∀ el ∈ st.todo, x[el.2.2]? = some el.1

/-- What holds of the state with which a part of the enumeration ends, the state it
returns or the state at the early stop, and that it does not end with an access out of
bounds. -/
def ends_with {V T P G α : Type} (R : State V T P G → Prop) (proj : α → State V T P G) :
    Except (Abort (State V T P G)) α → Prop
  | .ok a => R (proj a)
  | .error (.stop_early st) => R st
  | .error .out_of_bounds => False
  | .error .out_of_fuel => True

/-- The later state has as many sequences in `D` as the earlier one, and its queue `todo`
starts with the queue of the earlier one: elements have only been pushed at the back. -/
def queue_grows {V T P G : Type} (st st1 : State V T P G) : Prop :=
  st1.D.length = st.D.length ∧ st.todo <+: st1.todo

end mcrl2.pbes_system.detail

namespace mcrl2.pbes_system.detail

/-! ## `lps2pbes_par.h` and `lps2pbes_rhs.h` -/

/-- The state formulas, as far as the traversers of `lps2pbes_par.h` and `lps2pbes_rhs.h`
look into them: `D` are the data expressions, `A` the action and regular formulas, `V` the
data variables and `N` the names of the fixpoint variables.  The classes are declared in
headers that are not in the source at hand. -/
inductive state_formula (D A V N : Type) where
  | data_expression (x : D)
  | true_
  | false_
  | not_ (operand : state_formula D A V N)
  | and_ (left right : state_formula D A V N)
  | or_ (left right : state_formula D A V N)
  | imp (left right : state_formula D A V N)
  | forall_ (variables_ : List V) (body : state_formula D A V N)
  | exists_ (variables_ : List V) (body : state_formula D A V N)
  | must (formula : A) (operand : state_formula D A V N)
  | may (formula : A) (operand : state_formula D A V N)
  | yaled
  | yaled_timed (time_stamp : D)
  | delay
  | delay_timed (time_stamp : D)
  | variable (name : N) (arguments : List D)
  | nu (name : N) (assignments : List (V × D)) (operand : state_formula D A V N)
  | mu (name : N) (assignments : List (V × D)) (operand : state_formula D A V N)

/-- The operators for which `rhs_traverser` throws `mcrl2::runtime_error`. -/
inductive Unsupported where
  /-- The text "rhs_traverser: negation is not supported!". -/
  | negation
  /-- The text "rhs_traverser: implication is not supported!". -/
  | implication
  /-- The text "rhs_traverser: yaled is not supported!". -/
  | yaled
  /-- The text "rhs_traverser: delay is not supported!". -/
  | delay
  deriving DecidableEq, Repr

/-- What ends a traversal other than its end. -/
inductive Fault where
  /-- An `mcrl2::runtime_error` was thrown. -/
  | runtime_error (what : Unsupported)
  /-- The member `back` or `pop_back` was called on an empty `result_stack`. -/
  | empty_stack
  deriving DecidableEq, Repr

/-- `data::left_hand_sides`, of a header that is not in the source at hand: the variables
of the assignments. -/
def left_hand_sides {D V : Type} (assignments : List (V × D)) : List V :=
  assignments.map Prod.fst

/-- The member `join` of `par_traverser`: the two topmost elements of the stack are
replaced by their concatenation.  The top of the stack (the `back` of the vector) is the
head of the list. -/
def par_traverser.join {V : Type} (result_stack : List (List V)) :
    Except Fault (List (List V)) :=
  match result_stack with
  | right :: left :: rest => .ok ((left ++ right) :: rest)
  | _ => .error .empty_stack

/-- The traversal `apply` of `par_traverser` for the name `X` and the list `l`.
Modelled from the spec: the base class `state_formula_traverser`, of the header
modal_formula/traverser.h, which is not in the source at hand, is read as the traversal
of the state formulas: for a node it calls `enter`, applies itself to the operands that
are state formulas, from left to right, and calls `leave`; data expressions, action
formulas and time stamps are not traversed.  The members `apply` and `leave` of
`par_traverser` are those of the source; a call of `Par` makes a traverser with an empty
stack and returns its `top`. -/
def par_traverser.apply {D A V N : Type} [DecidableEq N] (X : N) :
    List V → state_formula D A V N → List (List V) → Except Fault (List (List V))
  | _, .data_expression _, st => .ok ([] :: st)
  | _, .true_, st => .ok ([] :: st)
  | _, .false_, st => .ok ([] :: st)
  | l, .not_ operand, st => par_traverser.apply X l operand st
  | l, .and_ left right, st =>
    match par_traverser.apply X l left st with
    | .error e => .error e
    | .ok st1 =>
      match par_traverser.apply X l right st1 with
      | .error e => .error e
      | .ok st2 => par_traverser.join st2
  | l, .or_ left right, st =>
    match par_traverser.apply X l left st with
    | .error e => .error e
    | .ok st1 =>
      match par_traverser.apply X l right st1 with
      | .error e => .error e
      | .ok st2 => par_traverser.join st2
  | l, .imp left right, st =>
    match par_traverser.apply X l left st with
    | .error e => .error e
    | .ok st1 =>
      match par_traverser.apply X l right st1 with
      | .error e => .error e
      | .ok st2 => par_traverser.join st2
  | l, .forall_ variables_ body, st =>
    match par_traverser.apply X (l ++ variables_) body [] with
    | .error e => .error e
    | .ok [] => .error .empty_stack
    | .ok (top :: _) => .ok (top :: st)
  | l, .exists_ variables_ body, st =>
    match par_traverser.apply X (l ++ variables_) body [] with
    | .error e => .error e
    | .ok [] => .error .empty_stack
    | .ok (top :: _) => .ok (top :: st)
  | l, .must _ operand, st => par_traverser.apply X l operand st
  | l, .may _ operand, st => par_traverser.apply X l operand st
  | _, .yaled, st => .ok ([] :: st)
  | _, .yaled_timed _, st => .ok ([] :: st)
  | _, .delay, st => .ok ([] :: st)
  | _, .delay_timed _, st => .ok ([] :: st)
  | _, .variable _ _, st => .ok ([] :: st)
  | l, .nu name assignments operand, st =>
    if name = X then .ok (l :: st)
    else
      match par_traverser.apply X (l ++ left_hand_sides assignments) operand [] with
      | .error e => .error e
      | .ok [] => .error .empty_stack
      | .ok (top :: _) => .ok (top :: st)
  | l, .mu name assignments operand, st =>
    if name = X then .ok (l :: st)
    else
      match par_traverser.apply X (l ++ left_hand_sides assignments) operand [] with
      | .error e => .error e
      | .ok [] => .error .empty_stack
      | .ok (top :: _) => .ok (top :: st)

/-- `Par`: a traverser with an empty stack is applied to `x`, and its `top` is returned. -/
def Par {D A V N : Type} [DecidableEq N] (X : N) (l : List V) (x : state_formula D A V N) :
    Except Fault (List V) :=
  match par_traverser.apply X l x [] with
  | .error e => .error e
  | .ok [] => .error .empty_stack
  | .ok (top :: _) => .ok top

/-- The structural recursion that is claimed for `Par`: the empty list for `true`,
`false`, a data expression, a variable instantiation, `yaled`, `delay` and their timed
forms; that of the operand for `not`, `must` and `may`; the concatenation of those of the
operands for `and`, `or` and `imp`; that of the body with the variables appended to `l`
for `forall` and `exists`; `l` for a `mu` or `nu` that binds `X`; and that of the operand
with the left-hand sides of the assignments appended to `l` for a `mu` or `nu` that binds
another name. -/
def Par_recursion {D A V N : Type} [DecidableEq N] (X : N) :
    List V → state_formula D A V N → List V
  | _, .data_expression _ => []
  | _, .true_ => []
  | _, .false_ => []
  | l, .not_ operand => Par_recursion X l operand
  | l, .and_ left right => Par_recursion X l left ++ Par_recursion X l right
  | l, .or_ left right => Par_recursion X l left ++ Par_recursion X l right
  | l, .imp left right => Par_recursion X l left ++ Par_recursion X l right
  | l, .forall_ variables_ body => Par_recursion X (l ++ variables_) body
  | l, .exists_ variables_ body => Par_recursion X (l ++ variables_) body
  | l, .must _ operand => Par_recursion X l operand
  | l, .may _ operand => Par_recursion X l operand
  | _, .yaled => []
  | _, .yaled_timed _ => []
  | _, .delay => []
  | _, .delay_timed _ => []
  | _, .variable _ _ => []
  | l, .nu name assignments operand =>
    if name = X then l else Par_recursion X (l ++ left_hand_sides assignments) operand
  | l, .mu name assignments operand =>
    if name = X then l else Par_recursion X (l ++ left_hand_sides assignments) operand

/-- The linear process, the time variable and the operations on pbes expressions that
`rhs_traverser` uses and that are not in the source at hand: `E` are the pbes
expressions and `I` the states of the identifier generator.  `must_may` is the loop of
`handle_must_may` over the action summands after the call of `RHS` for the operand, with
the flag `is_must`, the action formula and the result `rhs0` of that call; it makes fresh
variables with the identifier generator.  `instantiation` makes the propositional
variable instantiation that `leave(variable)` and the operators for `nu` and `mu` push,
from the name, the expressions `d` and the list that `Par` gave. -/
structure RhsContext (D A V N E I : Type) where
  of_data_expression : D → E
  true_ : E
  false_ : E
  optimized_and : E → E → E
  optimized_or : E → E → E
  forall_ : List V → E → E
  exists_ : List V → E → E
  add_identifiers : List V → I → I
  must_may : Bool → A → E → I → E × I
  yaled_timed : D → E
  delay_timed : D → E
  mu_expressions : state_formula D A V N → List D
  instantiation : N → List D → List V → E

/-- The traversal of `rhs_traverser` for the original formula `phi0`, on the result stack
and the identifier generator.  The base class is read as for `par_traverser.apply`; the
call operators and the members `leave` are those of the source.  A call of `RHS` makes a
traverser with an empty stack on the same identifier generator and returns its `top`. -/
def rhs_traverser.apply {D A V N E I : Type} [DecidableEq N] (c : RhsContext D A V N E I)
    (phi0 : state_formula D A V N) :
    state_formula D A V N → List E × I → Except Fault (List E × I)
  | .data_expression x, (st, g) => .ok (c.of_data_expression x :: st, g)
  | .true_, (st, g) => .ok (c.true_ :: st, g)
  | .false_, (st, g) => .ok (c.false_ :: st, g)
  | .not_ _, _ => .error (.runtime_error .negation)
  | .and_ left right, p =>
    match rhs_traverser.apply c phi0 left p with
    | .error e => .error e
    | .ok p1 =>
      match rhs_traverser.apply c phi0 right p1 with
      | .error e => .error e
      | .ok (r :: l :: st, g) => .ok (c.optimized_and l r :: st, g)
      | .ok (_, _) => .error .empty_stack
  | .or_ left right, p =>
    match rhs_traverser.apply c phi0 left p with
    | .error e => .error e
    | .ok p1 =>
      match rhs_traverser.apply c phi0 right p1 with
      | .error e => .error e
      | .ok (r :: l :: st, g) => .ok (c.optimized_or l r :: st, g)
      | .ok (_, _) => .error .empty_stack
  | .imp _ _, _ => .error (.runtime_error .implication)
  | .forall_ variables_ body, (st, g) =>
    match rhs_traverser.apply c phi0 body (st, c.add_identifiers variables_ g) with
    | .error e => .error e
    | .ok (top :: st1, g1) => .ok (c.forall_ variables_ top :: st1, g1)
    | .ok ([], _) => .error .empty_stack
  | .exists_ variables_ body, (st, g) =>
    match rhs_traverser.apply c phi0 body (st, c.add_identifiers variables_ g) with
    | .error e => .error e
    | .ok (top :: st1, g1) => .ok (c.exists_ variables_ top :: st1, g1)
    | .ok ([], _) => .error .empty_stack
  | .must formula operand, (st, g) =>
    match rhs_traverser.apply c phi0 operand ([], g) with
    | .error e => .error e
    | .ok ([], _) => .error .empty_stack
    | .ok (rhs0 :: _, g1) =>
      .ok ((c.must_may true formula rhs0 g1).1 :: st, (c.must_may true formula rhs0 g1).2)
  | .may formula operand, (st, g) =>
    match rhs_traverser.apply c phi0 operand ([], g) with
    | .error e => .error e
    | .ok ([], _) => .error .empty_stack
    | .ok (rhs0 :: _, g1) =>
      .ok ((c.must_may false formula rhs0 g1).1 :: st, (c.must_may false formula rhs0 g1).2)
  | .yaled, _ => .error (.runtime_error .yaled)
  | .yaled_timed time_stamp, (st, g) => .ok (c.yaled_timed time_stamp :: st, g)
  | .delay, _ => .error (.runtime_error .delay)
  | .delay_timed time_stamp, (st, g) => .ok (c.delay_timed time_stamp :: st, g)
  | .variable name arguments, (st, g) =>
    match Par name [] phi0 with
    | .error e => .error e
    | .ok par => .ok (c.instantiation name arguments par :: st, g)
  | .nu name assignments operand, (st, g) =>
    match Par name [] phi0 with
    | .error e => .error e
    | .ok par =>
      .ok (c.instantiation name (c.mu_expressions (.nu name assignments operand)) par :: st, g)
  | .mu name assignments operand, (st, g) =>
    match Par name [] phi0 with
    | .error e => .error e
    | .ok par =>
      .ok (c.instantiation name (c.mu_expressions (.mu name assignments operand)) par :: st, g)

/-- `RHS`: a traverser with an empty stack is applied to `x`, and its `top` is returned,
with the identifier generator after the call. -/
def RHS {D A V N E I : Type} [DecidableEq N] (c : RhsContext D A V N E I)
    (x0 x : state_formula D A V N) (id_generator : I) : Except Fault (E × I) :=
  match rhs_traverser.apply c x0 x ([], id_generator) with
  | .error e => .error e
  | .ok ([], _) => .error .empty_stack
  | .ok (top :: _, g) => .ok (top, g)

/-- The state formulas without the operators that `rhs_traverser` rejects, in the
operands that it translates: it does not look into the operand of a `nu` or `mu`. -/
def supported {D A V N : Type} : state_formula D A V N → Prop
  | .data_expression _ => True
  | .true_ => True
  | .false_ => True
  | .not_ _ => False
  | .and_ left right => supported left ∧ supported right
  | .or_ left right => supported left ∧ supported right
  | .imp _ _ => False
  | .forall_ _ body => supported body
  | .exists_ _ body => supported body
  | .must _ operand => supported operand
  | .may _ operand => supported operand
  | .yaled => False
  | .yaled_timed _ => True
  | .delay => False
  | .delay_timed _ => True
  | .variable _ _ => True
  | .nu _ _ _ => True
  | .mu _ _ _ => True

end mcrl2.pbes_system.detail

namespace mcrl2.pbes_system.detail

/-! ## Concrete instances used to instantiate the theorems -/

/-- An enumeration over the natural numbers for a sort with the two constants 0 and 1:
the data terms from 10 on are variables, `enumerate` replaces a variable by the two
constants, the rewriter gives the value that `sigma` has for the variable 0 (the pbes
terms 0 and 1 are `false` and `true`) or else `phi`, and `join` is the conjunction.  With
`stop_at_false` the stop criterion is `is_false`, as in `visit_forall`; without it no
term stops the enumeration. -/
def example_enumeration (stop_at_false : Bool) : Enumeration Nat Nat Nat Nat where
  variable2term := fun v => v + 10
  enumerate := fun g t => if 10 ≤ t then ([0, 1], g + 1) else ([], g)
  pbesr := fun g phi sigma =>
    match sigma 0 with
    | some 0 => (0, g)
    | some 1 => (1, g)
    | _ => (phi, g)
  stop := fun c => stop_at_false && c == 0
  is_constant := fun c => decide (c ≤ 1)
  data_is_constant := fun t => decide (t < 10)
  less := fun a b => decide (a < b)
  join := fun A => if 0 ∈ A then 0 else 1

/-- The pbes expressions as terms: every operation that `rhs_traverser` uses makes a
node. -/
inductive example_expression where
  | data (x : Nat)
  | true_
  | false_
  | and_ (left right : example_expression)
  | or_ (left right : example_expression)
  | forall_ (variables_ : List Nat) (body : example_expression)
  | exists_ (variables_ : List Nat) (body : example_expression)
  | must_may (is_must : Bool) (formula : Nat) (rhs0 : example_expression)
  | yaled_timed (time_stamp : Nat)
  | delay_timed (time_stamp : Nat)
  | instantiation (name : Nat) (e : List Nat) (par : List Nat)
  deriving DecidableEq, Repr

/-- The context in which every operation makes a term, the identifier generator is the
list of the identifiers added, and the loop of `handle_must_may` adds one identifier. -/
def example_context : RhsContext Nat Nat Nat Nat example_expression (List Nat) where
  of_data_expression := example_expression.data
  true_ := example_expression.true_
  false_ := example_expression.false_
  optimized_and := example_expression.and_
  optimized_or := example_expression.or_
  forall_ := example_expression.forall_
  exists_ := example_expression.exists_
  add_identifiers := fun v g => g ++ v
  must_may := fun is_must formula rhs0 g =>
    (example_expression.must_may is_must formula rhs0, g ++ [formula])
  yaled_timed := example_expression.yaled_timed
  delay_timed := example_expression.delay_timed
  mu_expressions := fun x =>
    match x with
    | .nu _ assignments _ => assignments.map Prod.snd
    | .mu _ assignments _ => assignments.map Prod.snd
    | _ => []
  instantiation := example_expression.instantiation

/-- The formula `[1](true && nu 7(5 := 0). mu 8(6 := 1). 7(5))` over the natural
numbers. -/
def example_formula : state_formula Nat Nat Nat Nat :=
  .must 1 (.and_ .true_ (.nu 7 [(5, 0)] (.mu 8 [(6, 1)] (.variable 7 [5]))))

end mcrl2.pbes_system.detail

namespace atermpp

/-! ## Stores made by `aterm(sym)` for symbols it is not meant for -/

/-- The store after `aterm_int(0)` in the initial store of class 2 (release build): one
integer node, at 1000, in bucket 2. -/
def store_with_0 : Store :=
  (run (0, initial_store 2)
    (aterm_int (example_config true) (example_env 1000) 0 (initial_store 2))).2

/-- The store after `aterm(sym)` for the symbol 10, of arity 1, in the initial store of
class 2 and a growth of the table (release build): the node, at 1000, has moved to the
bucket of its hash over its symbol and its first argument word. -/
def store_with_unary : Store :=
  run (initial_store 2) (resize_hashtable (example_config true) (example_env 2000)
    (run (0, initial_store 2)
      (aterm (example_config true) (example_env 1000) 10 (initial_store 2))).2)

end atermpp

namespace atermpp

/-! ## The free lists during a release -/

/-- The free lists are apart: no node is twice on a free list, and no node is on the free
lists of two size classes.  Together with `Sound.apart` (no node of a free list is a node
of the table) this says that every node is on at most one of the chains that the source
links through the field `next`, and on that chain once. -/
def free_lists_apart (s : Store) : Prop :=
  (∀ c, (s.terminfo c).at_freelist.Nodup) ∧
  ∀ c d a, a ∈ (s.terminfo c).at_freelist → a ∈ (s.terminfo d).at_freelist → c = d

/-- What a release has done to the free lists between the store `s` and the store `s1`:
free lists that were apart are still apart, and every node that has come on a free list
was a node of the table. -/
def free_lists_pushed (s s1 : Store) : Prop :=
  (free_lists_apart s → free_lists_apart s1) ∧
  ∀ c, ∀ x ∈ (s1.terminfo c).at_freelist, x ∈ (s.terminfo c).at_freelist ∨ x ∈ nodes s

/-- The behaviour of a release on the free lists of a sound store: when the callback
`reduce` returns, it has only pushed nodes of the table, each on one free list. -/
def Tidies (cfg : Config) (reduce : Nat → Store → Except Fault Store) : Prop :=
  ∀ a s s1 h P, Sound cfg s h (a :: P) → reduce a s = .ok s1 → free_lists_pushed s s1

end atermpp

namespace atermpp

/-! ## The stores between public operations -/

/-- The address `a` lies in the part of the current block of the size class `c` that
`AT_allocate` has not handed out yet: between `top_at_blocks` and the end of the block at
the head of `at_block`. -/
def in_unused (s : Store) (c a : Nat) : Prop :=
  ∃ b, (s.terminfo c).at_block.head? = some b ∧
    (s.terminfo c).top_at_blocks ≤ a ∧ a < b.end_

/-- The block that `calloc` returns is memory that is not in use: none of its `BLOCK_SIZE`
words is the address of a node of the table or of a node on a free list, none lies in the
unused part of a current block, and none is the address of the default term. -/
def fresh_block (cfg : Config) (s : Store) (env : Env) : Prop :=
  ∀ data, env.calloc = some data → ∀ a, data ≤ a → a < data + cfg.BLOCK_SIZE →
    a ∉ nodes s ∧ (∀ c, a ∉ (s.terminfo c).at_freelist) ∧ (∀ c, ¬ in_unused s c a) ∧
    (cfg.ndebug = false → a ≠ cfg.default_aterm)

/-- The allocator is tidy: the free lists are apart; only size classes of at least one
word have blocks; the cells that the current blocks have not handed out yet are neither
nodes of the table nor on a free list nor the default term; and the unused parts of the
current blocks of two size classes do not overlap. -/
structure Tidy (cfg : Config) (s : Store) : Prop where
  apart : free_lists_apart s
  sized : ∀ c, (s.terminfo c).at_block ≠ [] → 0 < c
  unused : ∀ c a, in_unused s c a →
    a ∉ nodes s ∧ (∀ d, a ∉ (s.terminfo d).at_freelist) ∧
    (cfg.ndebug = false → a ≠ cfg.default_aterm)
  disjoint : ∀ c d a, c ≠ d → in_unused s c a → ¬ in_unused s d a

/-- The stores between public operations, with the handles that are outstanding: the
initial store without handles; the store after a constructor `aterm_int(val)` or
`aterm(sym)`, for a symbol `sym` of arity 0 other than `AS_INT`, with one more handle on
the node returned, `calloc` returning memory that is not in use; and the store after the
release `at_reduce_reference_count(t)` of an outstanding handle on `t`. -/
inductive Public (cfg : Config) : Store → (Nat → Nat) → Prop
  | initial (table_class : Nat) : Public cfg (initial_store table_class) (fun _ => 0)
  | aterm_int (env : Env) (val : Int) (s : Store) (handles : Nat → Nat) (n : Nat)
      (s1 : Store) :
      Public cfg s handles → fresh_block cfg s env →
      aterm_int cfg env val s = .ok (n, s1) → Public cfg s1 (add_handle handles n)
  | aterm (env : Env) (sym : Nat) (s : Store) (handles : Nat → Nat) (n : Nat) (s1 : Store) :
      Public cfg s handles → fresh_block cfg s env → cfg.arity sym = 0 → sym ≠ cfg.AS_INT →
      aterm cfg env sym s = .ok (n, s1) → Public cfg s1 (add_handle handles n)
  | at_reduce_reference_count (fuel t : Nat) (s : Store) (handles : Nat → Nat)
      (s1 : Store) :
      Public cfg s handles → 1 ≤ handles t →
      at_reduce_reference_count cfg fuel t s = .ok s1 → Public cfg s1 (drop_handle handles t)

/-- What holds of the stores between public operations: the store is sound for the
outstanding handles, with `k` further references on the default term in a debug build; the
table has its shape; handles are held on nodes of the table only; and the allocator is
tidy. -/
structure Kept (cfg : Config) (s : Store) (handles : Nat → Nat) : Prop where
  sound : ∃ k, (cfg.ndebug = true → k = 0) ∧ Sound cfg s (leak handles cfg.default_aterm k) []
  has_shape : table_shape s
  held : ∀ a, 0 < handles a → a ∈ nodes s
  tidy : Tidy cfg s

end atermpp

namespace atermpp.linked

/-! ## The store with the field `next`

A second embedding of the functions of `memory.cpp`, which keeps the intrusive field
`next` of the nodes: a bucket of `aterm::hashtable` and the entry `at_freelist` of a size
class hold the address of the first node of their chain, and every node holds the address
of the next one.  It shows what the code does when a node is pushed on a free list while
it is still on another chain, where the lists of the first embedding no longer stand for
the links.  The memory and `terminfo` are finite tables here, so that two stores can be
compared.  Loops that follow the links, which the source runs until it meets `NULL`, are
bounded by a `fuel` argument. -/

-- the results of two operations can be compared by evaluation
deriving instance DecidableEq for Except

/-- The node `detail::_aterm` at an address: its header fields, among them the field
`next` (`none` for `NULL`), and the payload words that have been written after the
header. -/
structure _aterm where
  m_function_symbol : Nat
  reference_count : Nat
  next : Option Nat
  arg : List Nat
  deriving DecidableEq, Repr

/-- The function symbol, the count and the payload words of a node, as `term_size` and
`hash_number` read them; a payload word that has not been written is zero. -/
def _aterm.words (t : _aterm) : atermpp._aterm :=
  { m_function_symbol := t.m_function_symbol, reference_count := t.reference_count,
    arg := fun i => t.arg.getD i 0 }

/-- The payload words `l` after the word at index `i` has been set to `w`. -/
def set_word (l : List Nat) (i w : Nat) : List Nat :=
  (l ++ List.replicate (i + 1 - l.length) 0).set i w

/-- The entry `TermInfo` of `terminfo`; `at_freelist` is the address of the first free
node, `none` for `NULL`. -/
structure TermInfo where
  at_block : List Block
  top_at_blocks : Nat
  at_freelist : Option Nat
  deriving DecidableEq, Repr

/-- The global state of `memory.cpp`.  `mem` lists the nodes that have been written, by
address; every other word of memory is zero.  `terminfo` lists the entries that have been
written, by size class; `hashtable` holds the first node of every bucket. -/
structure Store where
  mem : List (Nat × _aterm)
  terminfo : List (Nat × TermInfo)
  total_nodes : Nat
  table_class : Nat
  table_size : Nat
  table_mask : Nat
  hashtable : List (Option Nat)
  deriving DecidableEq, Repr

/-- The node at address `a`. -/
def Store.node (s : Store) (a : Nat) : _aterm :=
  (s.mem.lookup a).getD
    { m_function_symbol := 0, reference_count := 0, next := none, arg := [] }

/-- Store `t` at address `a`. -/
def Store.write (s : Store) (a : Nat) (t : _aterm) : Store :=
  { s with mem := (a, t) :: s.mem.filter (fun p => p.1 ≠ a) }

/-- The assignment `a->next = n`. -/
def Store.set_next (s : Store) (a : Nat) (n : Option Nat) : Store :=
  s.write a { s.node a with next := n }

/-- The assignment `hashtable[i] = n`. -/
def Store.set_head (s : Store) (i : Nat) (n : Option Nat) : Store :=
  { s with hashtable := s.hashtable.set i n }

/-- The entry of size class `size` in `terminfo`. -/
def Store.info (s : Store) (size : Nat) : TermInfo :=
  (s.terminfo.lookup size).getD { at_block := [], top_at_blocks := 0, at_freelist := none }

/-- Replace the entry of size class `size` in `terminfo`. -/
def Store.set_terminfo (s : Store) (size : Nat) (ti : TermInfo) : Store :=
  { s with terminfo := (size, ti) :: s.terminfo.filter (fun p => p.1 ≠ size) }

/-- The inner `while` loop of `resize_hashtable` from `aterm_walker` on: every node of the
old chain is linked in front of its bucket in the new table. -/
def rehash_chain (cfg : Config) (mask : Nat) :
    Nat → Option Nat → Store × List (Option Nat) → Except Fault (Store × List (Option Nat))
  | _, none, st => .ok st
  | 0, some _, _ => .error .out_of_fuel
  | fuel + 1, some aterm_walker, (s, new_hashtable) =>
    if !cfg.ndebug && (s.node aterm_walker).reference_count = 0 then .error .assertion_failed
    else
      let next := (s.node aterm_walker).next
      let hnr := hash_number cfg (s.node aterm_walker).words
        (term_size cfg (s.node aterm_walker).words) &&& mask
      if !cfg.ndebug && ¬ hnr < new_hashtable.length then .error .assertion_failed
      else
        match new_hashtable[hnr]? with
        | none => .error .out_of_bounds
        | some head =>
          if !cfg.ndebug && head = some aterm_walker then .error .assertion_failed
          else
            rehash_chain cfg mask fuel next
              (s.set_next aterm_walker head, new_hashtable.set hnr (some aterm_walker))

/-- The outer `for` loop of `resize_hashtable` over the buckets of the old table. -/
def rehash_all (cfg : Config) (mask fuel : Nat) :
    List (Option Nat) → Store × List (Option Nat) → Except Fault (Store × List (Option Nat))
  | [], st => .ok st
  | p :: rest, st =>
    match rehash_chain cfg mask fuel p st with
    | .error e => .error e
    | .ok st1 => rehash_all cfg mask fuel rest st1

/-- `resize_hashtable`. -/
def resize_hashtable (cfg : Config) (env : Env) (fuel : Nat) (s : Store) : Except Fault Store :=
  let table_class := s.table_class + 1
  let table_size := 2 ^ table_class
  let table_mask := table_size - 1
  if env.bad_alloc then
    .ok { s with table_class := table_class - 1,
                 table_size := 2 ^ (table_class - 1),
                 table_mask := 2 ^ (table_class - 1) - 1 }
  else
    match rehash_all cfg table_mask fuel s.hashtable (s, List.replicate table_size none) with
    | .error e => .error e
    | .ok (s1, new_hashtable) =>
      .ok { s1 with table_class := table_class, table_size := table_size,
                    table_mask := table_mask, hashtable := new_hashtable }

/-- `allocate_block`, as in the first embedding. -/
def allocate_block (cfg : Config) (env : Env) (size : Nat) (s : Store) : Except Fault Store :=
  if !cfg.ndebug && ¬ cfg.MIN_TERM_SIZE ≤ size then .error .assertion_failed
  else if size = 0 then .error .division_by_zero
  else
    match env.calloc with
    | none => .error .null_dereference
    | some data =>
      let ti := s.info size
      let newblock : Block :=
        { data := data, end_ := data + (cfg.BLOCK_SIZE - cfg.BLOCK_SIZE % size), size := size }
      if !cfg.ndebug && ti.at_freelist ≠ none then .error .assertion_failed
      else
        .ok (s.set_terminfo size
          { ti with at_block := newblock :: ti.at_block, top_at_blocks := newblock.data })

/-- The two bump-allocation branches of `AT_allocate`: take the cell at `top_at_blocks`,
advance the pointer, clear the count and construct the default function symbol. -/
def bump_allocate (cfg : Config) (size : Nat) (s : Store) : Nat × Store :=
  let ti := s.info size
  let at_ := ti.top_at_blocks
  let s1 := s.set_terminfo size { ti with top_at_blocks := ti.top_at_blocks + size }
  (at_, s1.write at_ { s1.node at_ with reference_count := 0,
                                        m_function_symbol := cfg.AS_DEFAULT })

/-- The part of `AT_allocate` after the decision to resize: choose the cell.  In the
free-list branch the free list becomes `at_freelist->next`. -/
def AT_allocate_cell (cfg : Config) (env : Env) (size : Nat) (s : Store) :
    Except Fault (Nat × Store) :=
  let ti := s.info size
  if (match ti.at_block.head? with
      | some b => decide (ti.top_at_blocks < b.end_)
      | none => false) then
    .ok (bump_allocate cfg size s)
  else
    match ti.at_freelist with
    | some at_ =>
      if !cfg.ndebug && ti.at_block = [] then .error .assertion_failed
      else if !cfg.ndebug && ti.at_block.head?.map Block.end_ ≠ some ti.top_at_blocks then
        .error .assertion_failed
      else if !cfg.ndebug && (s.node at_).reference_count ≠ 0 then .error .assertion_failed
      else .ok (at_, s.set_terminfo size { ti with at_freelist := (s.node at_).next })
    | none =>
      match allocate_block cfg env size s with
      | .error e => .error e
      | .ok s1 => .ok (bump_allocate cfg size s1)

/-- `AT_allocate`. -/
def AT_allocate (cfg : Config) (env : Env) (fuel size : Nat) (s : Store) :
    Except Fault (Nat × Store) :=
  match (if s.total_nodes ≥ s.table_size then resize_hashtable cfg env fuel s else .ok s) with
  | .error e => .error e
  | .ok s1 =>
    match AT_allocate_cell cfg env size s1 with
    | .error e => .error e
    | .ok (at_, s2) => .ok (at_, { s2 with total_nodes := s2.total_nodes + 1 })

/-- The `do ... while` loop of `AT_freeTerm` at the node `cur`, which is not `NULL`, with
`prev` the node before it on the chain (`none` for `NULL`).  When `cur` is `t` it is
unlinked and `total_nodes` is decremented; when the chain ends, the loop ends and
`assert(0)` is reached. -/
def AT_freeTerm_loop (cfg : Config) (t hnr : Nat) :
    Nat → Option Nat → Nat → Store → Except Fault Store
  | 0, _, _, _ => .error .out_of_fuel
  | fuel + 1, prev, cur, s =>
    if cur = t then
      let s1 := match prev with
        | some p => s.set_next p (s.node cur).next
        | none => s.set_head hnr (s.node cur).next
      .ok { s1 with total_nodes := size_t_dec s1.total_nodes }
    else
      match (s.node cur).next with
      | some c => AT_freeTerm_loop cfg t hnr fuel (some cur) c s
      | none => if cfg.ndebug then .ok s else .error .assertion_failed

/-- `AT_freeTerm`: the `throw` is reached when the bucket is empty. -/
def AT_freeTerm (cfg : Config) (fuel t : Nat) (s : Store) : Except Fault Store :=
  let hnr := hash_number cfg (s.node t).words (term_size cfg (s.node t).words) &&& s.table_mask
  match s.hashtable[hnr]? with
  | none => .error .out_of_bounds
  | some none => .error .runtime_error
  | some (some cur) => AT_freeTerm_loop cfg t hnr fuel none cur s

/-- Modelled from the spec: `increase_reference_count<false>`, as in the first
embedding. -/
def increase_reference_count (t : Nat) (s : Store) : Store :=
  s.write t { s.node t with reference_count := (s.node t).reference_count + 1 }

/-- Modelled from the spec: the handle assignment `arg[i] = aterm()` of the debug variant of
`at_free_term`, as in the first embedding. -/
def assign_default_aterm (cfg : Config) (reduce : Nat → Store → Except Fault Store)
    (t i : Nat) (s : Store) : Except Fault Store :=
  let s1 := increase_reference_count cfg.default_aterm s
  let s2 := increase_reference_count cfg.default_aterm s1
  match reduce ((s2.node t).words.arg i) s2 with
  | .error e => .error e
  | .ok s3 =>
    let s4 := s3.write t { s3.node t with arg := set_word (s3.node t).arg i cfg.default_aterm }
    reduce cfg.default_aterm s4

/-- The `for` loop of `at_free_term` over the arguments of `t`, from index `i` on. -/
def free_arguments (cfg : Config) (reduce : Nat → Store → Except Fault Store) (t : Nat) :
    Nat → Nat → Store → Except Fault Store
  | n, i, s =>
    if i < cfg.arity (s.node t).m_function_symbol then
      match n with
      | 0 => .error .out_of_fuel
      | n + 1 =>
        match (if cfg.ndebug then reduce ((s.node t).words.arg i) s
               else assign_default_aterm cfg reduce t i s) with
        | .error e => .error e
        | .ok s1 => free_arguments cfg reduce t n (i + 1) s1
    else .ok s

/-- The body of `at_free_term`; its last two statements are
`t->next = ti->at_freelist; ti->at_freelist = t;`.  In the branch of the empty list
`check_that_all_objects_are_free` returns `true` at its first statement and changes
nothing. -/
def at_free_term_body (cfg : Config) (reduce : Nat → Store → Except Fault Store) (n : Nat)
    (t : Nat) (s : Store) : Except Fault Store :=
  if !cfg.ndebug && (s.node t).m_function_symbol = cfg.AS_EMPTY_LIST then .ok s
  else if !cfg.ndebug && (s.node t).reference_count ≠ 0 then .error .assertion_failed
  else
    let size := term_size cfg (s.node t).words
    match AT_freeTerm cfg n t s with
    | .error e => .error e
    | .ok s1 =>
      match free_arguments cfg reduce t n 0 s1 with
      | .error e => .error e
      | .ok s2 =>
        let s3 := s2.write t { s2.node t with m_function_symbol := cfg.AS_DEFAULT }
        let ti := s3.info size
        .ok ((s3.set_next t ti.at_freelist).set_terminfo size
          { ti with at_freelist := some t })

/-- `at_reduce_reference_count`; `fuel` bounds the depth of the recursion through
`at_free_term` and the rounds of each of its loops. -/
def at_reduce_reference_count (cfg : Config) : Nat → Nat → Store → Except Fault Store
  | 0, _, _ => .error .out_of_fuel
  | fuel + 1, t, s =>
    if !cfg.ndebug && (s.node t).reference_count = 0 then .error .assertion_failed
    else
      let s1 := s.write t { s.node t with
        reference_count := size_t_dec (s.node t).reference_count }
      if (s1.node t).reference_count = 0 then
        at_free_term_body cfg (at_reduce_reference_count cfg fuel) fuel t s1
      else .ok s1

/-- `at_free_term`. -/
def at_free_term (cfg : Config) (fuel : Nat) (t : Nat) (s : Store) : Except Fault Store :=
  at_free_term_body cfg (at_reduce_reference_count cfg fuel) fuel t s

/-- The `while` loop of `aterm::aterm(const function_symbol&)` at the node `cur`, with
`prev` the node before it: the first node with function symbol `sym`, together with the
node before it. -/
def find_symbol (s : Store) (sym : Nat) :
    Nat → Option Nat → Option Nat → Except Fault (Option (Option Nat × Nat))
  | _, _, none => .ok none
  | 0, _, some _ => .error .out_of_fuel
  | fuel + 1, prev, some cur =>
    if (s.node cur).m_function_symbol = sym then .ok (some (prev, cur))
    else find_symbol s sym fuel (some cur) (s.node cur).next

/-- The constructor `aterm::aterm(const function_symbol &sym)`; the result is `m_term`.
A node that is found behind another one is unlinked and linked in front of its bucket. -/
def aterm (cfg : Config) (env : Env) (fuel sym : Nat) (s : Store) :
    Except Fault (Nat × Store) :=
  if !cfg.ndebug && cfg.arity sym ≠ 0 then .error .assertion_failed
  else
    let hnr := cfg.FINISH (cfg.START sym)
    match s.hashtable[hnr &&& s.table_mask]? with
    | none => .error .out_of_bounds
    | some hashspot =>
      match find_symbol s sym fuel none hashspot with
      | .error e => .error e
      | .ok (some (some prev, cur)) =>
        .ok (cur, increase_reference_count cur
          (((s.set_next prev (s.node cur).next).set_next cur hashspot).set_head
            (hnr &&& s.table_mask) (some cur)))
      | .ok (some (none, cur)) => .ok (cur, increase_reference_count cur s)
      | .ok none =>
        match AT_allocate cfg env fuel (cfg.TERM_SIZE_APPL 0) s with
        | .error e => .error e
        | .ok (cur, s1) =>
          let hnr1 := hnr &&& s1.table_mask
          let s2 := s1.write cur { s1.node cur with m_function_symbol := sym }
          match s2.hashtable[hnr1]? with
          | none => .error .out_of_bounds
          | some head =>
            .ok (cur, increase_reference_count cur
              ((s2.set_next cur head).set_head hnr1 (some cur)))

/-- The `while` loop of `aterm_int::aterm_int`: the first node of the chain with function
symbol `AS_INT` and value `val`. -/
def find_int (cfg : Config) (s : Store) (word : Nat) :
    Nat → Option Nat → Except Fault (Option Nat)
  | _, none => .ok none
  | 0, some _ => .error .out_of_fuel
  | fuel + 1, some cur =>
    if (s.node cur).m_function_symbol ≠ cfg.AS_INT ∨
        word_value ((s.node cur).words.arg 0) ≠ word_value word then
      find_int cfg s word fuel (s.node cur).next
    else .ok (some cur)

/-- The end of `aterm_int::aterm_int`: the assertion on the hash, and the retain. -/
def aterm_int_finish (cfg : Config) (hnr cur : Nat) (s : Store) : Except Fault (Nat × Store) :=
  if !cfg.ndebug && (hnr &&& s.table_mask) ≠
      (hash_number cfg (s.node cur).words cfg.TERM_SIZE_INT &&& s.table_mask) then
    .error .assertion_failed
  else .ok (cur, increase_reference_count cur s)

/-- The constructor `aterm_int::aterm_int(int val)`; the result is `m_term`. -/
def aterm_int (cfg : Config) (env : Env) (fuel : Nat) (val : Int) (s : Store) :
    Except Fault (Nat × Store) :=
  let reserved := int_word val
  let hnr := int_hash cfg val
  match s.hashtable[hnr &&& s.table_mask]? with
  | none => .error .out_of_bounds
  | some head =>
    match find_int cfg s reserved fuel head with
    | .error e => .error e
    | .ok (some cur) => aterm_int_finish cfg hnr cur s
    | .ok none =>
      match AT_allocate cfg env fuel cfg.TERM_SIZE_INT s with
      | .error e => .error e
      | .ok (cur, s1) =>
        let hnr1 := hnr &&& s1.table_mask
        let s2 := s1.write cur
          { s1.node cur with m_function_symbol := cfg.AS_INT,
                             arg := set_word (s1.node cur).arg 0 reserved }
        match s2.hashtable[hnr1]? with
        | none => .error .out_of_bounds
        | some head1 =>
          aterm_int_finish cfg hnr1 cur ((s2.set_next cur head1).set_head hnr1 (some cur))

/-- Modelled from the spec: the initial values of the globals of `memory.cpp`, as in the
first embedding: every word of memory is zero, every link and every bucket is `NULL`. -/
def initial_store (table_class : Nat) : Store where
  mem := []
  terminfo := []
  total_nodes := 0
  table_class := table_class
  table_size := 2 ^ table_class
  table_mask := 2 ^ table_class - 1
  hashtable := List.replicate (2 ^ table_class) none

/-- The nodes on the chain that starts at `cur`, following the field `next`; `none` when
the chain has more than `fuel` nodes. -/
def chain (s : Store) : Nat → Option Nat → Option (List Nat)
  | _, none => some []
  | 0, some _ => none
  | fuel + 1, some cur => (chain s fuel (s.node cur).next).map (fun l => cur :: l)

/-- The bucket chains of the hash table, bucket after bucket. -/
def chains (fuel : Nat) (s : Store) : List (Option (List Nat)) :=
  s.hashtable.map (chain s fuel)

/-- What the trace below compares in a store: the bucket chains, `total_nodes` and the
free list of the size class 4. -/
def Store.view (s : Store) : List (Option (List Nat)) × Nat × Option (List Nat) :=
  (chains 8 s, s.total_nodes, chain s 8 (s.info 4).at_freelist)

/-- The same three components of a store of the first embedding, where the chains are
lists. -/
def list_view (s : atermpp.Store) : List (Option (List Nat)) × Nat × Option (List Nat) :=
  (s.hashtable.map some, s.total_nodes, some (s.terminfo 4).at_freelist)

/-- The store after `aterm_int(5)` in the initial store of class 2 (release build): the
node of 5, at 1000, is on the chain of bucket 3. -/
def store_5 : Store :=
  (run (0, initial_store 2)
    (aterm_int (example_config true) (example_env 1000) 8 5 (initial_store 2))).2

/-- The store `store_5` after the release of the node at 1000: the node is on the free
list of the size class 4. -/
def store_released_5 : Store :=
  run (initial_store 2) (at_reduce_reference_count (example_config true) 8 1000 store_5)

/-- The store `store_released_5` after `aterm_int(0)`: the node of 0, at 1004, is on the
chain of bucket 2. -/
def store_released_5_0 : Store :=
  (run (0, initial_store 2)
    (aterm_int (example_config true) (example_env 2000) 8 0 store_released_5)).2

/-- The store `store_released_5_0` after `aterm(AS_INT)`: the node that `aterm(AS_INT)` has
made, at 3000, is on the chain of bucket 1. -/
def store_before_release : Store :=
  (run (0, initial_store 2)
    (aterm (example_config true) (example_env 3000) 8 (example_config true).AS_INT
      store_released_5_0)).2

/-- The store `store_before_release` after the release of the node at 3000. -/
def store_after_release : Store :=
  run (initial_store 2)
    (at_reduce_reference_count (example_config true) 8 3000 store_before_release)

/-- The store `store_released_5` after `aterm(AS_INT)`: the node at 3000 is on the chain of
bucket 1, and bucket 2 is empty. -/
def store_without_0 : Store :=
  (run (0, initial_store 2)
    (aterm (example_config true) (example_env 3000) 8 (example_config true).AS_INT
      store_released_5)).2

/-- The store of the first embedding after `aterm_int(5)` in the initial store of class 2
(release build). -/
def list_store_5 : atermpp.Store :=
  (run (0, atermpp.initial_store 2)
    (atermpp.aterm_int (example_config true) (example_env 1000) 5 (atermpp.initial_store 2))).2

/-- The store `list_store_5` after the release of the node at 1000. -/
def list_store_released_5 : atermpp.Store :=
  run (atermpp.initial_store 2)
    (atermpp.at_reduce_reference_count (example_config true) 8 1000 list_store_5)

/-- The store `list_store_released_5` after `aterm_int(0)`. -/
def list_store_released_5_0 : atermpp.Store :=
  (run (0, atermpp.initial_store 2)
    (atermpp.aterm_int (example_config true) (example_env 2000) 0 list_store_released_5)).2

/-- The store `list_store_released_5_0` after `aterm(AS_INT)`. -/
def list_store_before_release : atermpp.Store :=
  (run (0, atermpp.initial_store 2)
    (atermpp.aterm (example_config true) (example_env 3000) (example_config true).AS_INT
      list_store_released_5_0)).2

/-- The store after `aterm_int(2)` in the initial store of class 2 (release build): the
node of 2 is at 1000. -/
def store_2 : Store :=
  (run (0, initial_store 2)
    (aterm_int (example_config true) (example_env 1000) 8 2 (initial_store 2))).2

/-- The store `store_2` after `aterm_int(6)`: the node of 6 is at 1004. -/
def store_2_6 : Store :=
  (run (0, initial_store 2)
    (aterm_int (example_config true) (example_env 2000) 8 6 store_2)).2

/-- The store `store_2_6` after `aterm_int(10)`: the node of 10 is at 1008. -/
def store_2_6_10 : Store :=
  (run (0, initial_store 2)
    (aterm_int (example_config true) (example_env 2000) 8 10 store_2_6)).2

/-- The store `store_2_6_10` after the release of the node of 2. -/
def store_one_free : Store :=
  run (initial_store 2) (at_reduce_reference_count (example_config true) 8 1000 store_2_6_10)

/-- The store `store_one_free` after the release of the node of 6: the node of 10, at
1008, is on the chain of bucket 0 and the free list of the size class 4 holds the nodes
at 1004 and 1000. -/
def store_two_free : Store :=
  run (initial_store 2) (at_reduce_reference_count (example_config true) 8 1004 store_one_free)

/-- The store `store_two_free` after a further `at_free_term` on the node at 1004. -/
def store_free_again : Store :=
  run (initial_store 2) (at_free_term (example_config true) 8 1004 store_two_free)

end atermpp.linked

namespace atermpp

/-! ## Basic facts about the operations -/

theorem find_int_congr (cfg : Config) (mem mem1 : Nat → _aterm) (word : Nat) (chain : List Nat)
    (h : ∀ a ∈ chain, (mem1 a).m_function_symbol = (mem a).m_function_symbol ∧
      (mem1 a).arg 0 = (mem a).arg 0) :
    find_int cfg mem1 word chain = find_int cfg mem word chain := by
  induction chain with
  | nil => rfl
  | cons cur next ih =>
    have hc := h cur (List.mem_cons_self _ _)
    have ih1 := ih (fun a ha => h a (List.mem_cons_of_mem _ ha))
    simp only [find_int, hc.1, hc.2, ih1]

theorem find_int_some (cfg : Config) (mem : Nat → _aterm) (word : Nat) (chain : List Nat)
    (cur : Nat) (h : find_int cfg mem word chain = some cur) :
    cur ∈ chain ∧ (mem cur).m_function_symbol = cfg.AS_INT ∧
      word_value ((mem cur).arg 0) = word_value word := by
  induction chain with
  | nil => simp [find_int] at h
  | cons c next ih =>
    simp only [find_int] at h
    split at h
    · have := ih h
      exact ⟨List.mem_cons_of_mem _ this.1, this.2⟩
    · rename_i hc
      simp only [not_or, not_not] at hc
      cases h
      exact ⟨List.mem_cons_self _ _, hc.1, hc.2⟩

theorem aterm_int_finish_ok (cfg : Config) (hnr cur : Nat) (s : Store) (n : Nat) (s1 : Store)
    (h : aterm_int_finish cfg hnr cur s = .ok (n, s1)) :
    n = cur ∧ s1 = increase_reference_count cur s ∧
      (cfg.ndebug = false → (hnr &&& s.table_mask) =
        (hash_number cfg (s.mem cur) cfg.TERM_SIZE_INT &&& s.table_mask)) := by
  unfold aterm_int_finish at h
  split at h
  · cases h
  · rename_i hc
    cases h
    refine ⟨rfl, rfl, ?_⟩
    intro hd
    simpa [hd] using hc

/-- The retain changes neither the function symbol nor the payload of any node. -/
theorem increase_reference_count_mem (t : Nat) (s : Store) (a : Nat) :
    ((increase_reference_count t s).mem a).m_function_symbol = (s.mem a).m_function_symbol ∧
    ((increase_reference_count t s).mem a).arg = (s.mem a).arg := by
  unfold increase_reference_count Store.write
  by_cases h : a = t <;> simp [h]

theorem hash_number_congr (cfg : Config) (t t1 : _aterm) (size : Nat)
    (h1 : t1.m_function_symbol = t.m_function_symbol) (h2 : t1.arg = t.arg) :
    hash_number cfg t1 size = hash_number cfg t size := by
  unfold hash_number
  rw [h1, h2]

/-- A hit of `aterm_int`: the node found in the bucket is returned with one more
reference and nothing else changes. -/
theorem aterm_int_hit (cfg : Config) (env : Env) (val : Int) (s : Store) (chain : List Nat)
    (cur : Nat)
    (hb : s.hashtable[int_hash cfg val &&& s.table_mask]? = some chain)
    (hf : find_int cfg s.mem (int_word val) chain = some cur) :
    aterm_int cfg env val s = aterm_int_finish cfg (int_hash cfg val) cur s := by
  unfold aterm_int
  simp only [hb, hf]

end atermpp

namespace atermpp

/-- The two ways in which `aterm_int` returns: a hit in the bucket, or a miss followed by
an allocation and an insertion at the head of the bucket under the mask then in force. -/
theorem aterm_int_cases (cfg : Config) (env : Env) (val : Int) (s : Store) (n : Nat)
    (s1 : Store) (h : aterm_int cfg env val s = .ok (n, s1)) :
    (∃ chain, s.hashtable[int_hash cfg val &&& s.table_mask]? = some chain ∧
        find_int cfg s.mem (int_word val) chain = some n ∧
        s1 = increase_reference_count n s ∧
        (cfg.ndebug = false → (int_hash cfg val &&& s.table_mask) =
          (hash_number cfg (s.mem n) cfg.TERM_SIZE_INT &&& s.table_mask))) ∨
    (∃ chain sa chain1, s.hashtable[int_hash cfg val &&& s.table_mask]? = some chain ∧
        find_int cfg s.mem (int_word val) chain = none ∧
        AT_allocate cfg env cfg.TERM_SIZE_INT s = .ok (n, sa) ∧
        sa.hashtable[int_hash cfg val &&& sa.table_mask]? = some chain1 ∧
        s1 = increase_reference_count n
          ((sa.write n (int_node cfg (int_word val) (sa.mem n))).set_bucket
            (int_hash cfg val &&& sa.table_mask) (n :: chain1)) ∧
        (cfg.ndebug = false → (int_hash cfg val &&& sa.table_mask) =
          (hash_number cfg (int_node cfg (int_word val) (sa.mem n)) cfg.TERM_SIZE_INT &&&
            sa.table_mask))) := by
  unfold aterm_int at h
  simp only [] at h
  split at h
  · cases h
  · rename_i chain hb
    split at h
    · rename_i cur hf
      obtain ⟨h1, h2, h3⟩ := aterm_int_finish_ok _ _ _ _ _ _ h
      subst h1
      exact Or.inl ⟨chain, hb, hf, h2, h3⟩
    · rename_i hf
      split at h
      · cases h
      · rename_i cur sa ha
        split at h
        · cases h
        · rename_i chain1 hb1
          obtain ⟨h1, h2, h3⟩ := aterm_int_finish_ok _ _ _ _ _ _ h
          subst h1
          refine Or.inr ⟨chain, sa, chain1, hb, hf, ha, hb1, h2, ?_⟩
          intro hd
          have h4 := h3 hd
          simp only [Store.set_bucket, Store.write, if_true, Nat.and_assoc, Nat.and_self] at h4
          exact h4

/-- A node that the search of `aterm_int` finds is returned with one more reference,
and nothing else in the store changes. -/
theorem aterm_int_found (cfg : Config) (env : Env) (val : Int) (s : Store) (chain : List Nat)
    (n : Nat) (hb : s.hashtable[int_hash cfg val &&& s.table_mask]? = some chain)
    (hf : find_int cfg s.mem (int_word val) chain = some n)
    (ha : cfg.ndebug = false → (int_hash cfg val &&& s.table_mask) =
      (hash_number cfg (s.mem n) cfg.TERM_SIZE_INT &&& s.table_mask)) :
    aterm_int cfg env val s = .ok (n, increase_reference_count n s) := by
  rw [aterm_int_hit cfg env val s chain n hb hf]
  unfold aterm_int_finish
  cases hd : cfg.ndebug
  · simp [ha hd]
  · simp

end atermpp

namespace atermpp

/-- C1. Constructing `aterm_int(v)` twice in succession yields the same node both times:
whenever a first construction returns node `n`, a second construction in the resulting
store (whatever the run-time system would answer) returns `n` again, and all it does is
add one reference to `n`: `AT_allocate` is not called, so `total_nodes`, the allocator
state and the hash table are those left by the first construction. -/
theorem aterm_int_twice_same_node (cfg : Config) (env env1 : Env) (v : Int) (s : Store)
    (n : Nat) (s1 : Store) (h : aterm_int cfg env v s = .ok (n, s1)) :
    aterm_int cfg env1 v s1 = .ok (n, increase_reference_count n s1) ∧
    (increase_reference_count n s1).total_nodes = s1.total_nodes ∧
    (increase_reference_count n s1).terminfo = s1.terminfo ∧
    (increase_reference_count n s1).hashtable = s1.hashtable := by
  refine ⟨?_, rfl, rfl, rfl⟩
  rcases aterm_int_cases cfg env v s n s1 h with
    ⟨chain, hb, hf, hs, ha⟩ | ⟨chain, sa, chain1, hb, hf, hal, hb1, hs, ha⟩
  · subst hs
    apply aterm_int_found cfg env1 v _ chain n (by exact hb)
    · rw [← hf]
      exact find_int_congr cfg _ _ _ _ (fun a _ => by
        have := increase_reference_count_mem n s a
        exact ⟨this.1, by rw [this.2]⟩)
    · intro hd
      have := increase_reference_count_mem n s n
      rw [hash_number_congr cfg _ _ _ this.1 this.2]
      exact ha hd
  · subst hs
    have hlt : (int_hash cfg v &&& sa.table_mask) < sa.hashtable.length := by
      rcases Nat.lt_or_ge (int_hash cfg v &&& sa.table_mask) sa.hashtable.length with h1 | h1
      · exact h1
      · rw [List.getElem?_eq_none h1] at hb1
        cases hb1
    apply aterm_int_found cfg env1 v _ (n :: chain1) n
    · simp [increase_reference_count, Store.write, Store.set_bucket, hlt]
    · simp [find_int, increase_reference_count, Store.write, Store.set_bucket, int_node]
    · intro hd
      have h2 := ha hd
      simp only [increase_reference_count, Store.write, Store.set_bucket, if_true]
      rw [h2]
      congr 1

end atermpp

namespace atermpp

theorem aterm_int_twice_same_node_witness :
    aterm_int (example_config true) (example_env 1000) 5 (initial_store 2) =
      .ok (1000, store_with_5) ∧
    aterm_int (example_config true) (example_env 2000) 5 store_with_5 =
      .ok (1000, increase_reference_count 1000 store_with_5) :=
  ⟨rfl, (aterm_int_twice_same_node (example_config true) (example_env 1000)
    (example_env 2000) 5 (initial_store 2) 1000 store_with_5 rfl).1⟩

end atermpp

namespace atermpp

theorem find_symbol_some (mem : Nat → _aterm) (sym : Nat) (chain : List Nat) (cur : Nat)
    (others : List Nat) (h : find_symbol mem sym chain = some (cur, others)) :
    (mem cur).m_function_symbol = sym ∧ unlink cur chain = some others ∧ cur ∈ chain := by
  induction chain generalizing others with
  | nil => simp [find_symbol] at h
  | cons c next ih =>
    simp only [find_symbol] at h
    split at h
    · rename_i hc
      cases h
      simp [unlink, hc]
    · rename_i hc
      cases hr : find_symbol mem sym next with
      | none => simp [hr] at h
      | some r =>
        obtain ⟨r1, r2⟩ := r
        simp only [hr, Option.map_some', Option.some.injEq, Prod.mk.injEq] at h
        obtain ⟨h1, h2⟩ := h
        subst h1 h2
        obtain ⟨i1, i2, i3⟩ := ih r2 hr
        refine ⟨i1, ?_, List.mem_cons_of_mem _ i3⟩
        have hne : c ≠ r1 := by
          intro he
          subst he
          exact hc i1
        simp [unlink, hne, i2]

/-- The two ways in which `aterm(sym)` returns: a hit, after which the node found heads
its bucket, or a miss followed by an allocation and an insertion at the head of the bucket
under the mask then in force. -/
theorem aterm_cases (cfg : Config) (env : Env) (sym : Nat) (s : Store) (n : Nat)
    (s1 : Store) (h : aterm cfg env sym s = .ok (n, s1)) :
    (cfg.ndebug = false → cfg.arity sym = 0) ∧
    ((∃ chain others, s.hashtable[cfg.FINISH (cfg.START sym) &&& s.table_mask]? = some chain ∧
        find_symbol s.mem sym chain = some (n, others) ∧
        s1 = increase_reference_count n
          (s.set_bucket (cfg.FINISH (cfg.START sym) &&& s.table_mask) (n :: others))) ∨
    (∃ chain sa chain1, s.hashtable[cfg.FINISH (cfg.START sym) &&& s.table_mask]? = some chain ∧
        find_symbol s.mem sym chain = none ∧
        AT_allocate cfg env (cfg.TERM_SIZE_APPL 0) s = .ok (n, sa) ∧
        sa.hashtable[cfg.FINISH (cfg.START sym) &&& sa.table_mask]? = some chain1 ∧
        s1 = increase_reference_count n
          ((sa.write n { sa.mem n with m_function_symbol := sym }).set_bucket
            (cfg.FINISH (cfg.START sym) &&& sa.table_mask) (n :: chain1)))) := by
  unfold aterm at h
  split at h
  · cases h
  · rename_i hd
    refine ⟨fun hn => by simpa [hn] using hd, ?_⟩
    simp only [] at h
    split at h
    · cases h
    · rename_i chain hb
      split at h
      · rename_i cur others hf
        cases h
        exact Or.inl ⟨chain, others, hb, hf, rfl⟩
      · rename_i hf
        split at h
        · cases h
        · rename_i cur sa ha
          split at h
          · cases h
          · rename_i chain1 hb1
            cases h
            exact Or.inr ⟨chain, sa, chain1, hb, hf, ha, hb1, rfl⟩

/-- When the first node of the bucket of `sym` carries `sym`, `aterm(sym)` returns it with
one more reference and nothing else in the store changes. -/
theorem aterm_found_at_head (cfg : Config) (env : Env) (sym : Nat) (s : Store) (n : Nat)
    (rest : List Nat) (hd : cfg.ndebug = false → cfg.arity sym = 0)
    (hb : s.hashtable[cfg.FINISH (cfg.START sym) &&& s.table_mask]? = some (n :: rest))
    (hs : (s.mem n).m_function_symbol = sym) :
    aterm cfg env sym s = .ok (n, increase_reference_count n s) := by
  unfold aterm
  have h1 : (!cfg.ndebug && decide (cfg.arity sym ≠ 0)) = false := by
    cases hn : cfg.ndebug
    · simp [hd hn]
    · simp
  simp only [h1, Bool.false_eq_true, if_false, hb, find_symbol, hs, if_true]
  have h2 : s.set_bucket (cfg.FINISH (cfg.START sym) &&& s.table_mask) (n :: rest) = s := by
    unfold Store.set_bucket
    have : s.hashtable.set (cfg.FINISH (cfg.START sym) &&& s.table_mask) (n :: rest) =
        s.hashtable := by
      apply List.ext_getElem?
      intro i
      by_cases hi : cfg.FINISH (cfg.START sym) &&& s.table_mask = i
      · subst hi
        rw [hb]
        have hlt : (cfg.FINISH (cfg.START sym) &&& s.table_mask) < s.hashtable.length := by
          rcases Nat.lt_or_ge (cfg.FINISH (cfg.START sym) &&& s.table_mask)
            s.hashtable.length with h1 | h1
          · exact h1
          · rw [List.getElem?_eq_none h1] at hb
            cases hb
        simp [hlt]
      · simp [List.getElem?_set, hi]
    rw [this]
  rw [h2]

/-- C2. Two successive constructions `aterm(sym)` return the same node: whenever a first
construction returns node `n`, a second construction in the resulting store returns `n`
again, and all it does is add one reference to `n`: `AT_allocate` is not called, so
`total_nodes`, the allocator state and the hash table are those left by the first
construction. -/
theorem aterm_twice_same_node (cfg : Config) (env env1 : Env) (sym : Nat) (s : Store)
    (n : Nat) (s1 : Store) (h : aterm cfg env sym s = .ok (n, s1)) :
    aterm cfg env1 sym s1 = .ok (n, increase_reference_count n s1) ∧
    (increase_reference_count n s1).total_nodes = s1.total_nodes ∧
    (increase_reference_count n s1).terminfo = s1.terminfo ∧
    (increase_reference_count n s1).hashtable = s1.hashtable := by
  refine ⟨?_, rfl, rfl, rfl⟩
  obtain ⟨hd, hc⟩ := aterm_cases cfg env sym s n s1 h
  rcases hc with ⟨chain, others, hb, hf, hs⟩ | ⟨chain, sa, chain1, hb, hf, hal, hb1, hs⟩
  · subst hs
    have hlt : (cfg.FINISH (cfg.START sym) &&& s.table_mask) < s.hashtable.length := by
      rcases Nat.lt_or_ge (cfg.FINISH (cfg.START sym) &&& s.table_mask)
        s.hashtable.length with h1 | h1
      · exact h1
      · rw [List.getElem?_eq_none h1] at hb
        cases hb
    apply aterm_found_at_head cfg env1 sym _ n others hd
    · simp [increase_reference_count, Store.write, Store.set_bucket, hlt]
    · have := (find_symbol_some _ _ _ _ _ hf).1
      simp [increase_reference_count, Store.write, Store.set_bucket, this]
  · subst hs
    have hlt : (cfg.FINISH (cfg.START sym) &&& sa.table_mask) < sa.hashtable.length := by
      rcases Nat.lt_or_ge (cfg.FINISH (cfg.START sym) &&& sa.table_mask)
        sa.hashtable.length with h1 | h1
      · exact h1
      · rw [List.getElem?_eq_none h1] at hb1
        cases hb1
    apply aterm_found_at_head cfg env1 sym _ n chain1 hd
    · simp [increase_reference_count, Store.write, Store.set_bucket, hlt]
    · simp [increase_reference_count, Store.write, Store.set_bucket]

theorem aterm_twice_same_node_witness :
    aterm (example_config false) (example_env 1000) 4 (initial_store 2) =
      .ok (1000, store_with_symbol_4) ∧
    aterm (example_config false) (example_env 2000) 4 store_with_symbol_4 =
      .ok (1000, increase_reference_count 1000 store_with_symbol_4) :=
  ⟨rfl, (aterm_twice_same_node (example_config false) (example_env 1000)
    (example_env 2000) 4 (initial_store 2) 1000 store_with_symbol_4 rfl).1⟩

end atermpp

namespace atermpp

/-! ## Releases only remove nodes from the table -/

theorem getD_of_lt {α : Type} (l : List α) (d : α) (i : Nat) (h : i < l.length) :
    l.getD i d = l[i] := by
  simp [List.getD, List.getElem?_eq_getElem h]

theorem getD_of_getElem? {α : Type} (l : List α) (d : α) (i : Nat) (x : α)
    (h : l[i]? = some x) : l.getD i d = x := by
  simp [List.getD, h]

theorem lt_of_getElem? {α : Type} (l : List α) (i : Nat) (x : α)
    (h : l[i]? = some x) : i < l.length := by
  rcases Nat.lt_or_ge i l.length with h1 | h1
  · exact h1
  · rw [List.getElem?_eq_none h1] at h
    cases h

theorem mem_nodes_iff (s : Store) (a : Nat) :
    a ∈ nodes s ↔ ∃ i, i < s.hashtable.length ∧ a ∈ s.hashtable.getD i [] := by
  unfold nodes
  rw [List.mem_flatten]
  constructor
  · rintro ⟨chain, hc, ha⟩
    obtain ⟨i, hi, rfl⟩ := List.getElem_of_mem hc
    exact ⟨i, hi, by rw [getD_of_lt _ _ _ hi]; exact ha⟩
  · rintro ⟨i, hi, ha⟩
    refine ⟨s.hashtable[i], List.getElem_mem _, ?_⟩
    rw [getD_of_lt _ _ _ hi] at ha
    exact ha

theorem subperm_nodup {l l1 : List Nat} (h : l1.Subperm l) (hn : l.Nodup) : l1.Nodup := by
  obtain ⟨l2, h1, h2⟩ := h
  exact h1.nodup_iff.1 (h2.nodup hn)

theorem Stable.refl (s : Store) : Stable s s :=
  ⟨rfl, rfl, fun _ => List.Subperm.refl _, fun _ _ => ⟨rfl, rfl⟩⟩

theorem Stable.nodes_subset {s s1 : Store} (h : Stable s s1) (a : Nat) (ha : a ∈ nodes s1) :
    a ∈ nodes s := by
  rw [mem_nodes_iff] at ha ⊢
  obtain ⟨i, hi, hm⟩ := ha
  exact ⟨i, h.len ▸ hi, (h.sub i).subset hm⟩

theorem Stable.trans {s s1 s2 : Store} (h : Stable s s1) (h1 : Stable s1 s2) : Stable s s2 := by
  refine ⟨h1.mask.trans h.mask, h1.len.trans h.len, fun i => (h1.sub i).trans (h.sub i), ?_⟩
  intro a ha
  have e1 := h1.frame a ha
  have e := h.frame a (h1.nodes_subset a ha)
  exact ⟨e1.1.trans e.1, e1.2.trans e.2⟩

theorem hash_number_mem_congr (cfg : Config) (t u : _aterm)
    (h1 : u.m_function_symbol = t.m_function_symbol) (h2 : u.arg = t.arg) :
    hash_number cfg u (term_size cfg u) = hash_number cfg t (term_size cfg t) := by
  unfold hash_number term_size
  rw [h1, h2]

theorem Stable.consistent {cfg : Config} {s s1 : Store} (h : Stable s s1)
    (hc : table_consistent cfg s) : table_consistent cfg s1 := by
  constructor
  · intro i hi a ha
    have hn : a ∈ nodes s1 := (mem_nodes_iff s1 a).2 ⟨i, hi, ha⟩
    have e := h.frame a hn
    have := hc.1 i (h.len ▸ hi) a ((h.sub i).subset ha)
    rw [this]
    unfold bucket_of
    rw [hash_number_mem_congr cfg _ _ e.1 e.2, h.mask]
  · intro chain hch
    obtain ⟨i, hi, rfl⟩ := List.getElem_of_mem hch
    have h1 := h.sub i
    have hi0 : i < s.hashtable.length := h.len ▸ hi
    rw [getD_of_lt _ _ _ hi, getD_of_lt _ _ _ hi0] at h1
    exact subperm_nodup h1 (hc.2 _ (List.getElem_mem _))

theorem same_term_congr (cfg : Config) (t u t1 u1 : _aterm)
    (ht : t1.m_function_symbol = t.m_function_symbol) (hta : t1.arg = t.arg)
    (hu : u1.m_function_symbol = u.m_function_symbol) (hua : u1.arg = u.arg) :
    same_term cfg t1 u1 ↔ same_term cfg t u := by
  unfold same_term
  rw [ht, hta, hu, hua]

theorem Stable.unique {cfg : Config} {s s1 : Store} (h : Stable s s1)
    (hu : unique cfg s) : unique cfg s1 := by
  intro a ha b hb hs
  have ea := h.frame a ha
  have eb := h.frame b hb
  rw [same_term_congr cfg _ _ _ _ ea.1 ea.2 eb.1 eb.2] at hs
  exact hu a (h.nodes_subset a ha) b (h.nodes_subset b hb) hs

end atermpp

namespace atermpp

theorem unlink_some (t : Nat) (l l1 : List Nat) (h : unlink t l = some l1) :
    l1.Sublist l ∧ t ∈ l ∧ (l.Nodup → t ∉ l1) := by
  induction l generalizing l1 with
  | nil => simp [unlink] at h
  | cons c next ih =>
    simp only [unlink] at h
    split at h
    · rename_i hc
      cases h
      subst hc
      exact ⟨List.sublist_cons_self _ _, List.mem_cons_self _ _,
        fun hn => (List.nodup_cons.1 hn).1⟩
    · rename_i hc
      cases hr : unlink t next with
      | none => simp [hr] at h
      | some r =>
        simp only [hr, Option.map_some', Option.some.injEq] at h
        subst h
        obtain ⟨i1, i2, i3⟩ := ih r hr
        refine ⟨i1.cons₂ _, List.mem_cons_of_mem _ i2, ?_⟩
        intro hn hm
        rcases List.mem_cons.1 hm with h1 | h1
        · exact hc h1.symm
        · exact i3 (List.nodup_cons.1 hn).2 h1

theorem unlink_none (t : Nat) (l : List Nat) (h : unlink t l = none) : t ∉ l := by
  induction l with
  | nil => simp
  | cons c next ih =>
    simp only [unlink] at h
    split at h
    · cases h
    · rename_i hc
      cases hr : unlink t next with
      | none =>
        intro hm
        rcases List.mem_cons.1 hm with h1 | h1
        · exact hc h1.symm
        · exact ih hr h1
      | some r => simp [hr] at h

theorem unlink_of_mem (t : Nat) (l : List Nat) (h : t ∈ l) : ∃ l1, unlink t l = some l1 := by
  cases hr : unlink t l with
  | none => exact absurd h (unlink_none t l hr)
  | some r => exact ⟨r, rfl⟩

theorem getD_set {α : Type} (l : List α) (d x : α) (i j : Nat) :
    (l.set i x).getD j d = if i = j ∧ j < l.length then x else l.getD j d := by
  by_cases h : i = j
  · subst h
    by_cases h1 : i < l.length
    · simp [List.getD, h1]
    · have h2 : l.length ≤ i := Nat.le_of_not_lt h1
      have h3 : (l.set i x).length ≤ i := by simpa using h2
      simp [List.getD, h1, List.getElem?_eq_none h2, List.getElem?_eq_none h3]
  · simp [List.getD, h, List.getElem?_set_ne h]

/-- What `AT_freeTerm` does when it returns: it unlinks `t` from the bucket of its hash and
decrements `total_nodes`, or (only with `NDEBUG`) it finds other nodes in that bucket but
not `t` and changes nothing. -/
theorem AT_freeTerm_cases (cfg : Config) (t : Nat) (s s1 : Store)
    (h : AT_freeTerm cfg t s = .ok s1) :
    (∃ chain chain1, s.hashtable[bucket_of cfg s t]? = some chain ∧
        unlink t chain = some chain1 ∧
        s1 = { s.set_bucket (bucket_of cfg s t) chain1 with
          total_nodes := size_t_dec s.total_nodes }) ∨
    (∃ chain, s.hashtable[bucket_of cfg s t]? = some chain ∧ chain ≠ [] ∧
        unlink t chain = none ∧ cfg.ndebug = true ∧ s1 = s) := by
  unfold AT_freeTerm at h
  simp only [] at h
  split at h
  · cases h
  · cases h
  · rename_i cur next hb
    split at h
    · rename_i chain1 hu
      cases h
      exact Or.inl ⟨cur :: next, chain1, hb, hu, rfl⟩
    · rename_i hu
      split at h
      · rename_i hn
        cases h
        exact Or.inr ⟨cur :: next, hb, by simp, hu, hn, rfl⟩
      · cases h

/-- After `AT_freeTerm` has returned in a consistent table, `t` is not in the table; the
table has lost at most `t`, and memory and allocator are untouched. -/
theorem AT_freeTerm_stable (cfg : Config) (t : Nat) (s s1 : Store)
    (hc : table_consistent cfg s) (h : AT_freeTerm cfg t s = .ok s1) :
    Stable s s1 ∧ t ∉ nodes s1 ∧ s1.mem = s.mem ∧ s1.terminfo = s.terminfo := by
  rcases AT_freeTerm_cases cfg t s s1 h with
    ⟨chain, chain1, hb, hu, rfl⟩ | ⟨chain, hb, -, hu, -, hs⟩
  · obtain ⟨u1, u2, u3⟩ := unlink_some t chain chain1 hu
    have hlt := lt_of_getElem? _ _ _ hb
    have hch : chain ∈ s.hashtable := by
      rw [List.getElem?_eq_getElem hlt] at hb
      cases hb
      exact List.getElem_mem _
    refine ⟨⟨rfl, by simp [Store.set_bucket], ?_, fun a _ => ⟨rfl, rfl⟩⟩, ?_, rfl, rfl⟩
    · intro i
      simp only [Store.set_bucket, getD_set]
      split
      · rename_i hi
        rw [← hi.1, getD_of_getElem? _ _ _ _ hb]
        exact u1.subperm
      · exact List.Subperm.refl _
    · rw [mem_nodes_iff]
      rintro ⟨i, hi, hm⟩
      simp only [Store.set_bucket, getD_set, List.length_set] at hi hm
      split at hm
      · exact u3 (hc.2 chain hch) hm
      · rename_i hne
        have := hc.1 i hi t hm
        exact hne ⟨this.symm, hi⟩
  · subst hs
    refine ⟨Stable.refl _, ?_, rfl, rfl⟩
    rw [mem_nodes_iff]
    rintro ⟨i, hi, hm⟩
    have := hc.1 i hi t hm
    subst this
    rw [getD_of_getElem? _ _ _ _ hb] at hm
    exact unlink_none t chain hu hm

theorem Stable.write_count (s : Store) (a x : Nat) :
    Stable s (s.write a { s.mem a with reference_count := x }) := by
  refine ⟨rfl, rfl, fun _ => List.Subperm.refl _, ?_⟩
  intro b _
  unfold Store.write
  by_cases h : b = a <;> simp [h]

theorem Stable.write_outside (s : Store) (a : Nat) (t : _aterm) (h : a ∉ nodes s) :
    Stable s (s.write a t) := by
  refine ⟨rfl, rfl, fun _ => List.Subperm.refl _, ?_⟩
  intro b hb
  have hne : b ≠ a := by
    rintro rfl
    exact h hb
  simp [Store.write, hne]

theorem Stable.set_terminfo (s : Store) (size : Nat) (ti : TermInfo) :
    Stable s (s.set_terminfo size ti) :=
  ⟨rfl, rfl, fun _ => List.Subperm.refl _, fun _ _ => ⟨rfl, rfl⟩⟩

end atermpp

namespace atermpp

theorem Stable.not_mem {s s1 : Store} (h : Stable s s1) {t : Nat} (ht : t ∉ nodes s) :
    t ∉ nodes s1 :=
  fun hm => ht (h.nodes_subset t hm)

theorem Stable.increase (t : Nat) (s : Store) : Stable s (increase_reference_count t s) :=
  Stable.write_count s t _

theorem assign_default_aterm_stable (cfg : Config) (reduce : Nat → Store → Except Fault Store)
    (hr : ∀ a, Safe cfg (reduce a)) (t i : Nat) (s s1 : Store)
    (hc : table_consistent cfg s) (ht : t ∉ nodes s)
    (h : assign_default_aterm cfg reduce t i s = .ok s1) : Stable s s1 := by
  unfold assign_default_aterm at h
  simp only [] at h
  split at h
  · cases h
  · rename_i s3 h3
    have st2 : Stable s (increase_reference_count cfg.default_aterm
        (increase_reference_count cfg.default_aterm s)) :=
      (Stable.increase _ s).trans (Stable.increase _ _)
    have st3 := st2.trans (hr _ _ _ (st2.consistent hc) h3)
    have st4 := st3.trans (Stable.write_outside s3 t { s3.mem t with
      arg := fun j => if j = i then cfg.default_aterm else (s3.mem t).arg j } (st3.not_mem ht))
    exact st4.trans (hr _ _ _ (st4.consistent hc) h)

theorem free_arguments_stable (cfg : Config) (reduce : Nat → Store → Except Fault Store)
    (hr : ∀ a, Safe cfg (reduce a)) (t n i : Nat) (s s1 : Store)
    (hc : table_consistent cfg s) (ht : t ∉ nodes s)
    (h : free_arguments cfg reduce t n i s = .ok s1) : Stable s s1 := by
  induction n generalizing i s with
  | zero =>
    unfold free_arguments at h
    split at h
    · cases h
    · cases h
      exact Stable.refl _
  | succ n ih =>
    unfold free_arguments at h
    split at h
    · simp only [] at h
      split at h
      · cases h
      · rename_i s2 h2
        have st : Stable s s2 := by
          cases hn : cfg.ndebug
          · rw [hn] at h2
            exact assign_default_aterm_stable cfg reduce hr t i s s2 hc ht h2
          · rw [hn] at h2
            exact hr _ _ _ hc h2
        exact st.trans (ih (i + 1) s2 (st.consistent hc) (st.not_mem ht) h)
    · cases h
      exact Stable.refl _

theorem at_free_term_body_safe (cfg : Config) (reduce : Nat → Store → Except Fault Store)
    (hr : ∀ a, Safe cfg (reduce a)) (n t : Nat) :
    Safe cfg (at_free_term_body cfg reduce n t) := by
  intro s s1 hc h
  unfold at_free_term_body at h
  split at h
  · cases h
    exact Stable.refl _
  · split at h
    · cases h
    · simp only [] at h
      split at h
      · cases h
      · rename_i sa ha
        obtain ⟨st1, hn1, -, -⟩ := AT_freeTerm_stable cfg t s sa hc ha
        split at h
        · cases h
        · rename_i sb hb
          cases h
          have st2 :=
            free_arguments_stable cfg reduce hr t n 0 sa sb (st1.consistent hc) hn1 hb
          have st3 := (st1.trans st2).trans (Stable.write_outside sb t
            { sb.mem t with m_function_symbol := cfg.AS_DEFAULT } (st2.not_mem hn1))
          exact st3.trans (Stable.set_terminfo _ _ _)

/-- A release only removes nodes from a consistent table; the nodes that stay keep their
function symbol, their payload and their bucket. -/
theorem at_reduce_reference_count_safe (cfg : Config) (fuel t : Nat) :
    Safe cfg (at_reduce_reference_count cfg fuel t) := by
  induction fuel generalizing t with
  | zero =>
    intro s s1 _ h
    cases h
  | succ fuel ih =>
    intro s s1 hc h
    unfold at_reduce_reference_count at h
    split at h
    · cases h
    · simp only [] at h
      have st1 := Stable.write_count s t (size_t_dec (s.mem t).reference_count)
      split at h
      · exact st1.trans (at_free_term_body_safe cfg _ ih fuel t _ _ (st1.consistent hc) h)
      · cases h
        exact st1

end atermpp

namespace atermpp

/-! ## Growing the table -/

theorem flatten_set_cons (l : List (List Nat)) (i a : Nat) (chain : List Nat)
    (h : l[i]? = some chain) : (l.set i (a :: chain)).flatten.Perm (a :: l.flatten) := by
  induction l generalizing i with
  | nil => simp at h
  | cons c rest ih =>
    cases i with
    | zero =>
      simp only [List.getElem?_cons_zero, Option.some.injEq] at h
      subst h
      simp
    | succ i =>
      simp only [List.getElem?_cons_succ] at h
      simp only [List.set_cons_succ, List.flatten_cons]
      have := (ih i h).append_left c
      exact this.trans List.perm_middle

theorem rehash_chain_ok (cfg : Config) (mem : Nat → _aterm) (mask : Nat) (chain : List Nat)
    (nt nt1 : List (List Nat)) (h : rehash_chain cfg mem mask chain nt = .ok nt1) :
    nt1.length = nt.length ∧ nt1.flatten.Perm (chain ++ nt.flatten) ∧
    ∀ i a, a ∈ nt1.getD i [] → a ∈ nt.getD i [] ∨
      (a ∈ chain ∧ i = hash_number cfg (mem a) (term_size cfg (mem a)) &&& mask) := by
  induction chain generalizing nt with
  | nil =>
    cases h
    exact ⟨rfl, List.Perm.refl _, fun i a ha => Or.inl ha⟩
  | cons w next ih =>
    unfold rehash_chain at h
    split at h
    · cases h
    · simp only [] at h
      split at h
      · cases h
      · split at h
        · cases h
        · rename_i c hc
          split at h
          · cases h
          · obtain ⟨i1, i2, i3⟩ := ih _ h
            refine ⟨by simpa using i1, ?_, ?_⟩
            · refine i2.trans ?_
              have := (flatten_set_cons nt _ w c hc).append_left next
              exact this.trans List.perm_middle
            · intro i a ha
              rcases i3 i a ha with h1 | h1
              · rw [getD_set] at h1
                split at h1
                · rename_i hi
                  rcases List.mem_cons.1 h1 with h2 | h2
                  · subst h2
                    exact Or.inr ⟨List.mem_cons_self _ _, hi.1.symm⟩
                  · refine Or.inl ?_
                    rw [← hi.1, getD_of_getElem? _ _ _ _ hc]
                    exact h2
                · exact Or.inl h1
              · exact Or.inr ⟨List.mem_cons_of_mem _ h1.1, h1.2⟩

theorem rehash_all_ok (cfg : Config) (mem : Nat → _aterm) (mask : Nat) (old : List (List Nat))
    (nt nt1 : List (List Nat)) (h : rehash_all cfg mem mask old nt = .ok nt1) :
    nt1.length = nt.length ∧ nt1.flatten.Perm (old.flatten ++ nt.flatten) ∧
    ∀ i a, a ∈ nt1.getD i [] → a ∈ nt.getD i [] ∨
      (a ∈ old.flatten ∧ i = hash_number cfg (mem a) (term_size cfg (mem a)) &&& mask) := by
  induction old generalizing nt with
  | nil =>
    cases h
    exact ⟨rfl, List.Perm.refl _, fun i a ha => Or.inl ha⟩
  | cons p rest ih =>
    unfold rehash_all at h
    split at h
    · cases h
    · rename_i nt2 h2
      obtain ⟨c1, c2, c3⟩ := rehash_chain_ok cfg mem mask p nt nt2 h2
      obtain ⟨i1, i2, i3⟩ := ih _ h
      refine ⟨i1.trans c1, ?_, ?_⟩
      · refine i2.trans ?_
        have := c2.append_left rest.flatten
        refine this.trans ?_
        simp only [List.flatten_cons, ← List.append_assoc]
        exact List.Perm.append_right _ List.perm_append_comm
      · intro i a ha
        rcases i3 i a ha with h1 | h1
        · rcases c3 i a h1 with h3 | h3
          · exact Or.inl h3
          · exact Or.inr ⟨by simp [h3.1], h3.2⟩
        · exact Or.inr ⟨by simp [h1.1], h1.2⟩

theorem flatten_replicate_nil (n : Nat) : (List.replicate n ([] : List Nat)).flatten = [] := by
  induction n with
  | zero => rfl
  | succ n ih => simp [List.replicate_succ, ih]

theorem getD_replicate_nil (n i : Nat) : (List.replicate n ([] : List Nat)).getD i [] = [] := by
  by_cases h : i < n
  · simp [List.getD, List.getElem?_replicate, h]
  · simp [List.getD, List.getElem?_replicate, h]

/-- What `resize_hashtable` does when it returns: either the allocation of the new table
failed and the old table stays, with size and mask set from the old class, or the table of
the next class holds the nodes of the old table, each in the bucket of its hash under the
new mask. -/
theorem resize_hashtable_cases (cfg : Config) (env : Env) (s s1 : Store)
    (h : resize_hashtable cfg env s = .ok s1) :
    s1.mem = s.mem ∧ s1.terminfo = s.terminfo ∧ s1.total_nodes = s.total_nodes ∧
    ((env.bad_alloc = true ∧ s1.hashtable = s.hashtable ∧ s1.table_class = s.table_class ∧
        s1.table_size = 2 ^ s.table_class ∧ s1.table_mask = 2 ^ s.table_class - 1) ∨
     (env.bad_alloc = false ∧ s1.table_class = s.table_class + 1 ∧
        s1.table_size = 2 ^ (s.table_class + 1) ∧
        s1.table_mask = 2 ^ (s.table_class + 1) - 1 ∧
        s1.hashtable.length = 2 ^ (s.table_class + 1) ∧
        (nodes s1).Perm (nodes s) ∧
        ∀ i, ∀ a ∈ s1.hashtable.getD i [], i = bucket_of cfg s1 a)) := by
  unfold resize_hashtable at h
  simp only [] at h
  split at h
  · rename_i hb
    cases h
    exact ⟨rfl, rfl, rfl, Or.inl ⟨hb, rfl, by simp, by simp, by simp⟩⟩
  · rename_i hb
    split at h
    · cases h
    · rename_i nt hr
      cases h
      obtain ⟨r1, r2, r3⟩ := rehash_all_ok _ _ _ _ _ _ hr
      refine ⟨rfl, rfl, rfl, Or.inr ⟨by simpa using hb, rfl, rfl, rfl, by simpa using r1, ?_, ?_⟩⟩
      · simpa [nodes, flatten_replicate_nil] using r2
      · intro i a ha
        rcases r3 i a ha with h1 | h1
        · rw [getD_replicate_nil] at h1
          cases h1
        · exact h1.2

end atermpp

namespace atermpp

/-! ## Allocation -/

/-- The condition of the first branch of `AT_allocate`: the size class has a block and its
bump pointer is below the end of that block. -/
theorem allocate_block_ok (cfg : Config) (env : Env) (size : Nat) (s s1 : Store)
    (h : allocate_block cfg env size s = .ok s1) :
    ∃ data, env.calloc = some data ∧
      s1 = s.set_terminfo size { s.terminfo size with
        at_block := { data := data,
                      end_ := data + (cfg.BLOCK_SIZE - cfg.BLOCK_SIZE % size),
                      size := size } :: (s.terminfo size).at_block,
        top_at_blocks := data } := by
  unfold allocate_block at h
  split at h
  · cases h
  · split at h
    · cases h
    · split at h
      · cases h
      · rename_i data hd
        simp only [] at h
        split at h
        · cases h
        · cases h
          exact ⟨data, hd, rfl⟩

/-- `allocate_block` returns for a size other than 0 only: for the size 0 the computation
of the end of the block divides by zero. -/
theorem allocate_block_pos (cfg : Config) (env : Env) (size : Nat) (s s1 : Store)
    (h : allocate_block cfg env size s = .ok s1) : 0 < size := by
  unfold allocate_block at h
  split at h
  · cases h
  · split at h
    · cases h
    · rename_i h0
      exact Nat.pos_of_ne_zero h0

/-- The three ways in which `AT_allocate` chooses its cell. -/
theorem AT_allocate_cell_cases (cfg : Config) (env : Env) (size : Nat) (s : Store) (n : Nat)
    (s1 : Store) (h : AT_allocate_cell cfg env size s = .ok (n, s1)) :
    ((∃ b, (s.terminfo size).at_block.head? = some b ∧
        (s.terminfo size).top_at_blocks < b.end_) ∧ (n, s1) = bump_allocate cfg size s) ∨
    ((¬ ∃ b, (s.terminfo size).at_block.head? = some b ∧
        (s.terminfo size).top_at_blocks < b.end_) ∧
      ∃ next, (s.terminfo size).at_freelist = n :: next ∧
        s1 = s.set_terminfo size { s.terminfo size with at_freelist := next } ∧
        (cfg.ndebug = false → (s.mem n).reference_count = 0)) ∨
    ((¬ ∃ b, (s.terminfo size).at_block.head? = some b ∧
        (s.terminfo size).top_at_blocks < b.end_) ∧
      (s.terminfo size).at_freelist = [] ∧
      ∃ s0, allocate_block cfg env size s = .ok s0 ∧ (n, s1) = bump_allocate cfg size s0) := by
  unfold AT_allocate_cell at h
  simp only [] at h
  split at h
  · rename_i hc
    cases h
    refine Or.inl ⟨?_, rfl⟩
    split at hc
    · rename_i b hb
      exact ⟨b, hb, by simpa using hc⟩
    · cases hc
  · rename_i hc
    have hno : ¬ ∃ b, (s.terminfo size).at_block.head? = some b ∧
        (s.terminfo size).top_at_blocks < b.end_ := by
      rintro ⟨b, hb, hlt⟩
      apply hc
      simp [hb, hlt]
    split at h
    · rename_i a next hf
      split at h
      · cases h
      · split at h
        · cases h
        · split at h
          · cases h
          · rename_i hrc
            cases h
            refine Or.inr (Or.inl ⟨hno, next, hf, rfl, ?_⟩)
            intro hd
            simpa [hd] using hrc
    · rename_i hf
      split at h
      · cases h
      · rename_i s0 h0
        cases h
        exact Or.inr (Or.inr ⟨hno, hf, s0, h0, rfl⟩)

/-- The effect of a bump allocation: the cell is the one at `top_at_blocks`; its count is
cleared and its function symbol is the default one; nothing else in memory changes. -/
theorem bump_allocate_frame (cfg : Config) (size : Nat) (s : Store) :
    (bump_allocate cfg size s).1 = (s.terminfo size).top_at_blocks ∧
    (bump_allocate cfg size s).2.hashtable = s.hashtable ∧
    (bump_allocate cfg size s).2.table_mask = s.table_mask ∧
    (bump_allocate cfg size s).2.table_class = s.table_class ∧
    (bump_allocate cfg size s).2.table_size = s.table_size ∧
    (bump_allocate cfg size s).2.total_nodes = s.total_nodes ∧
    (∀ a, a ≠ (bump_allocate cfg size s).1 → (bump_allocate cfg size s).2.mem a = s.mem a) ∧
    ((bump_allocate cfg size s).2.mem (bump_allocate cfg size s).1).arg =
      (s.mem (bump_allocate cfg size s).1).arg ∧
    ((bump_allocate cfg size s).2.mem (bump_allocate cfg size s).1).reference_count = 0 ∧
    ((bump_allocate cfg size s).2.mem (bump_allocate cfg size s).1).m_function_symbol =
      cfg.AS_DEFAULT := by
  refine ⟨rfl, rfl, rfl, rfl, rfl, rfl, ?_, ?_, ?_, ?_⟩
  · intro a ha
    simp only [bump_allocate] at ha
    simp [bump_allocate, Store.write, Store.set_terminfo, ha]
  · simp [bump_allocate, Store.write, Store.set_terminfo]
  · simp [bump_allocate, Store.write, Store.set_terminfo]
  · simp [bump_allocate, Store.write, Store.set_terminfo]

/-- The cell chosen by `AT_allocate` is the only address whose node changes, its payload
words are not touched, and the hash table and the counters keep their values. -/
theorem AT_allocate_cell_frame (cfg : Config) (env : Env) (size : Nat) (s : Store) (n : Nat)
    (s1 : Store) (h : AT_allocate_cell cfg env size s = .ok (n, s1)) :
    s1.hashtable = s.hashtable ∧ s1.table_mask = s.table_mask ∧
    s1.table_class = s.table_class ∧ s1.table_size = s.table_size ∧
    s1.total_nodes = s.total_nodes ∧ (∀ a, a ≠ n → s1.mem a = s.mem a) ∧
    (s1.mem n).arg = (s.mem n).arg := by
  rcases AT_allocate_cell_cases cfg env size s n s1 h with
    ⟨-, hb⟩ | ⟨-, next, -, hs, -⟩ | ⟨-, -, s0, h0, hb⟩
  · have h1 : n = (bump_allocate cfg size s).1 := congrArg Prod.fst hb
    have h2 : s1 = (bump_allocate cfg size s).2 := congrArg Prod.snd hb
    obtain ⟨-, f1, f2, f3, f4, f5, f6, f7, -, -⟩ := bump_allocate_frame cfg size s
    rw [h1, h2]
    exact ⟨f1, f2, f3, f4, f5, f6, f7⟩
  · subst hs
    exact ⟨rfl, rfl, rfl, rfl, rfl, fun _ _ => rfl, rfl⟩
  · have h1 : n = (bump_allocate cfg size s0).1 := congrArg Prod.fst hb
    have h2 : s1 = (bump_allocate cfg size s0).2 := congrArg Prod.snd hb
    obtain ⟨-, f1, f2, f3, f4, f5, f6, f7, -, -⟩ := bump_allocate_frame cfg size s0
    obtain ⟨data, -, hs0⟩ := allocate_block_ok cfg env size s s0 h0
    have g1 : s0.hashtable = s.hashtable := by rw [hs0]; rfl
    have g2 : s0.table_mask = s.table_mask := by rw [hs0]; rfl
    have g3 : s0.table_class = s.table_class := by rw [hs0]; rfl
    have g4 : s0.table_size = s.table_size := by rw [hs0]; rfl
    have g5 : s0.total_nodes = s.total_nodes := by rw [hs0]; rfl
    have g6 : s0.mem = s.mem := by rw [hs0]; rfl
    rw [h1, h2]
    refine ⟨f1.trans g1, f2.trans g2, f3.trans g3, f4.trans g4, f5.trans g5, ?_, ?_⟩
    · intro a ha
      rw [f6 a ha, g6]
    · rw [f7, g6]

/-- `AT_allocate` first resizes the table when `total_nodes >= table_size`, then chooses
its cell, then counts the node. -/
theorem AT_allocate_cases (cfg : Config) (env : Env) (size : Nat) (s : Store) (n : Nat)
    (s2 : Store) (h : AT_allocate cfg env size s = .ok (n, s2)) :
    ∃ s0 s1, ((s.total_nodes < s.table_size ∧ s0 = s) ∨
        (s.table_size ≤ s.total_nodes ∧ resize_hashtable cfg env s = .ok s0)) ∧
      AT_allocate_cell cfg env size s0 = .ok (n, s1) ∧
      s2 = { s1 with total_nodes := s1.total_nodes + 1 } := by
  unfold AT_allocate at h
  split at h
  · cases h
  · rename_i s0 h0
    split at h
    · cases h
    · rename_i a s1 h1
      cases h
      refine ⟨s0, s1, ?_, h1, rfl⟩
      split at h0
      · rename_i hge
        exact Or.inr ⟨hge, h0⟩
      · rename_i hge
        cases h0
        exact Or.inl ⟨Nat.lt_of_not_le hge, rfl⟩

end atermpp

namespace atermpp

/-! ## Constructors and the invariants -/

theorem find_int_none (cfg : Config) (mem : Nat → _aterm) (word : Nat) (chain : List Nat)
    (h : find_int cfg mem word chain = none) :
    ∀ b ∈ chain, ¬ ((mem b).m_function_symbol = cfg.AS_INT ∧
      word_value ((mem b).arg 0) = word_value word) := by
  induction chain with
  | nil => simp
  | cons c next ih =>
    simp only [find_int] at h
    split at h
    · rename_i hc
      intro b hb
      rcases List.mem_cons.1 hb with h1 | h1
      · subst h1
        rintro ⟨e1, e2⟩
        rcases hc with h2 | h2
        · exact h2 e1
        · exact h2 e2
      · exact ih h b h1
    · cases h

theorem find_symbol_none (mem : Nat → _aterm) (sym : Nat) (chain : List Nat)
    (h : find_symbol mem sym chain = none) :
    ∀ b ∈ chain, (mem b).m_function_symbol ≠ sym := by
  induction chain with
  | nil => simp
  | cons c next ih =>
    simp only [find_symbol] at h
    split at h
    · cases h
    · rename_i hc
      intro b hb
      rcases List.mem_cons.1 hb with h1 | h1
      · subst h1
        exact hc
      · cases hr : find_symbol mem sym next with
        | none => exact ih hr b h1
        | some r => simp [hr] at h

/-- When `TERM_SIZE_INT` is one word more than the header, the structural hash of a node
over `TERM_SIZE_INT` words combines its function symbol with its first payload word. -/
theorem hash_number_int (cfg : Config) (t : _aterm)
    (hsize : cfg.TERM_SIZE_INT = cfg.ARG_OFFSET + 1) :
    hash_number cfg t cfg.TERM_SIZE_INT =
      cfg.FINISH (cfg.COMBINE (cfg.START t.m_function_symbol) (t.arg 0)) := by
  unfold hash_number
  have : cfg.TERM_SIZE_INT - cfg.ARG_OFFSET = 1 := by omega
  rw [this]
  rfl

/-- The structural hash over a size that does not exceed the header only uses the
function symbol. -/
theorem hash_number_header (cfg : Config) (t : _aterm) (size : Nat)
    (hsize : size ≤ cfg.ARG_OFFSET) :
    hash_number cfg t size = cfg.FINISH (cfg.START t.m_function_symbol) := by
  unfold hash_number
  have : size - cfg.ARG_OFFSET = 0 := by omega
  rw [this]
  rfl

theorem same_term_symm (cfg : Config) (t u : _aterm) (h : same_term cfg t u) :
    same_term cfg u t := by
  obtain ⟨h1, h2⟩ := h
  refine ⟨h1.symm, ?_⟩
  rw [← h1]
  split
  · rename_i hi
    rw [if_pos hi] at h2
    exact h2.symm
  · rename_i hi
    rw [if_neg hi] at h2
    exact fun i hi => (h2 i hi).symm

/-- Uniqueness survives the insertion of a node `n` that equals no other node of the
table. -/
theorem unique_insert (cfg : Config) (s s1 : Store) (n : Nat) (hu : unique cfg s)
    (hnodes : ∀ a ∈ nodes s1, a = n ∨ a ∈ nodes s)
    (hframe : ∀ a, a ≠ n → (s1.mem a).m_function_symbol = (s.mem a).m_function_symbol ∧
      (s1.mem a).arg = (s.mem a).arg)
    (hnew : ∀ b ∈ nodes s, b ≠ n → ¬ same_term cfg (s1.mem n) (s.mem b)) :
    unique cfg s1 := by
  intro a ha b hb hs
  by_cases han : a = n
  · by_cases hbn : b = n
    · rw [han, hbn]
    · exfalso
      have hb1 : b ∈ nodes s := (hnodes b hb).resolve_left hbn
      have e := hframe b hbn
      rw [han, same_term_congr cfg (s1.mem n) (s.mem b) (s1.mem n) (s1.mem b) rfl rfl e.1 e.2]
        at hs
      exact hnew b hb1 hbn hs
  · have ha1 : a ∈ nodes s := (hnodes a ha).resolve_left han
    have ea := hframe a han
    by_cases hbn : b = n
    · exfalso
      rw [hbn] at hs
      have hs1 := same_term_symm cfg _ _ hs
      rw [same_term_congr cfg (s1.mem n) (s.mem a) (s1.mem n) (s1.mem a) rfl rfl ea.1 ea.2]
        at hs1
      exact hnew a ha1 han hs1
    · have hb1 : b ∈ nodes s := (hnodes b hb).resolve_left hbn
      have eb := hframe b hbn
      rw [same_term_congr cfg _ _ _ _ ea.1 ea.2 eb.1 eb.2] at hs
      exact hu a ha1 b hb1 hs

/-- The nodes of the table after `AT_allocate` are those before it, and only the node in
the cell handed out has changed; its payload words have not. -/
theorem AT_allocate_frame (cfg : Config) (env : Env) (size : Nat) (s : Store) (n : Nat)
    (s2 : Store) (h : AT_allocate cfg env size s = .ok (n, s2)) :
    (nodes s2).Perm (nodes s) ∧ (∀ a, a ≠ n → s2.mem a = s.mem a) ∧
    (s2.mem n).arg = (s.mem n).arg ∧ s2.total_nodes = s.total_nodes + 1 := by
  obtain ⟨s0, s1, h0, h1, rfl⟩ := AT_allocate_cases cfg env size s n s2 h
  obtain ⟨f1, -, -, -, f5, f6, f7⟩ := AT_allocate_cell_frame cfg env size s0 n s1 h1
  have g : (nodes s0).Perm (nodes s) ∧ s0.mem = s.mem ∧ s0.total_nodes = s.total_nodes := by
    rcases h0 with ⟨-, rfl⟩ | ⟨-, hr⟩
    · exact ⟨List.Perm.refl _, rfl, rfl⟩
    · obtain ⟨r1, -, r3, r4⟩ := resize_hashtable_cases cfg env s s0 hr
      refine ⟨?_, r1, r3⟩
      rcases r4 with ⟨-, r5, -⟩ | ⟨-, -, -, -, -, r5, -⟩
      · unfold nodes
        rw [r5]
      · exact r5
  refine ⟨?_, ?_, ?_, ?_⟩
  · have : nodes s1 = nodes s0 := by
      unfold nodes
      rw [f1]
    show (nodes s1).Perm (nodes s)
    rw [this]
    exact g.1
  · intro a ha
    show s1.mem a = s.mem a
    rw [f6 a ha, g.2.1]
  · show (s1.mem n).arg = (s.mem n).arg
    rw [f7, g.2.1]
  · show s1.total_nodes + 1 = s.total_nodes + 1
    rw [f5, g.2.2]

/-- The nodes of the table after a node has been put at the head of a bucket. -/
theorem nodes_set_bucket_cons (s : Store) (i n : Nat) (chain : List Nat)
    (h : s.hashtable[i]? = some chain) :
    (nodes (s.set_bucket i (n :: chain))).Perm (n :: nodes s) :=
  flatten_set_cons s.hashtable i n chain h

/-- A node of a consistent table is on the chain of the bucket of its hash. -/
theorem mem_bucket_of_consistent (cfg : Config) (s : Store) (hc : table_consistent cfg s)
    (b : Nat) (hb : b ∈ nodes s) : b ∈ s.hashtable.getD (bucket_of cfg s b) [] := by
  obtain ⟨i, hi, hm⟩ := (mem_nodes_iff s b).1 hb
  have := hc.1 i hi b hm
  rw [← this]
  exact hm

end atermpp

namespace atermpp

theorem unlink_perm (t : Nat) (l l1 : List Nat) (h : unlink t l = some l1) :
    l.Perm (t :: l1) := by
  induction l generalizing l1 with
  | nil => simp [unlink] at h
  | cons c next ih =>
    simp only [unlink] at h
    split at h
    · rename_i hc
      cases h
      subst hc
      exact List.Perm.refl _
    · cases hr : unlink t next with
      | none => simp [hr] at h
      | some r =>
        simp only [hr, Option.map_some', Option.some.injEq] at h
        subst h
        exact ((ih r hr).cons c).trans (List.Perm.swap _ _ _)

/-- Promoting a node of a chain to the front of the chain keeps the table stable. -/
theorem Stable.promote (s : Store) (i n : Nat) (chain others : List Nat)
    (hb : s.hashtable[i]? = some chain) (hu : unlink n chain = some others) :
    Stable s (s.set_bucket i (n :: others)) := by
  refine ⟨rfl, by simp [Store.set_bucket], ?_, fun _ _ => ⟨rfl, rfl⟩⟩
  intro j
  simp only [Store.set_bucket, getD_set]
  split
  · rename_i hj
    rw [← hj.1, getD_of_getElem? _ _ _ _ hb]
    exact (unlink_perm n chain others hu).symm.subperm
  · exact List.Subperm.refl _

/-- The store after `aterm_int` holds no two equal nodes if the store before it did and
was consistent. -/
theorem aterm_int_unique (cfg : Config) (env : Env) (v : Int) (s : Store) (n : Nat)
    (s1 : Store) (hsize : cfg.TERM_SIZE_INT = cfg.ARG_OFFSET + 1)
    (hu : unique cfg s) (hc : table_consistent cfg s)
    (h : aterm_int cfg env v s = .ok (n, s1)) : unique cfg s1 := by
  rcases aterm_int_cases cfg env v s n s1 h with
    ⟨chain, hb, hf, hs, -⟩ | ⟨chain, sa, chain1, hb, hf, hal, hb1, hs, -⟩
  · subst hs
    exact (Stable.increase n s).unique hu
  · obtain ⟨a1, a2, a3, -⟩ := AT_allocate_frame cfg env _ s n sa hal
    apply unique_insert cfg s s1 n hu
    · intro a ha
      have h1 : a ∈ nodes ((sa.write n (int_node cfg (int_word v) (sa.mem n))).set_bucket
          (int_hash cfg v &&& sa.table_mask) (n :: chain1)) := by
        rw [hs] at ha
        exact ha
      have h2 := (nodes_set_bucket_cons (sa.write n (int_node cfg (int_word v) (sa.mem n)))
        _ n chain1 hb1).subset h1
      rcases List.mem_cons.1 h2 with h3 | h3
      · exact Or.inl h3
      · exact Or.inr (a1.subset h3)
    · intro a ha
      rw [hs]
      simp only [increase_reference_count, Store.write, Store.set_bucket, if_neg ha]
      rw [a2 a ha]
      exact ⟨rfl, rfl⟩
    · intro b hb0 hbn hst
      have hn : (s1.mem n).m_function_symbol = cfg.AS_INT ∧ (s1.mem n).arg 0 = int_word v := by
        rw [hs]
        simp [increase_reference_count, Store.write, Store.set_bucket, int_node]
      obtain ⟨e1, e2⟩ := hst
      rw [if_pos hn.1, hn.2] at e2
      rw [hn.1] at e1
      have hm := mem_bucket_of_consistent cfg s hc b hb0
      have hbk : bucket_of cfg s b = int_hash cfg v &&& s.table_mask := by
        unfold bucket_of term_size int_hash
        rw [if_pos e1.symm, hash_number_int cfg _ hsize, ← e1, ← e2]
      rw [hbk, getD_of_getElem? _ _ _ _ hb] at hm
      exact find_int_none cfg s.mem _ chain hf b hm ⟨e1.symm, by rw [e2]⟩

/-- The store after `aterm(sym)`, for a symbol of arity 0 other than `AS_INT`, holds no
two equal nodes if the store before it did and was consistent. -/
theorem aterm_unique (cfg : Config) (env : Env) (sym : Nat) (s : Store) (n : Nat)
    (s1 : Store) (hsize : cfg.TERM_SIZE_APPL 0 ≤ cfg.ARG_OFFSET)
    (harity : cfg.arity sym = 0) (hsym : sym ≠ cfg.AS_INT)
    (hu : unique cfg s) (hc : table_consistent cfg s)
    (h : aterm cfg env sym s = .ok (n, s1)) : unique cfg s1 := by
  obtain ⟨-, hcases⟩ := aterm_cases cfg env sym s n s1 h
  rcases hcases with ⟨chain, others, hb, hf, hs⟩ | ⟨chain, sa, chain1, hb, hf, hal, hb1, hs⟩
  · subst hs
    have st := (Stable.promote s _ n chain others hb (find_symbol_some _ _ _ _ _ hf).2.1).trans
      (Stable.increase n _)
    exact st.unique hu
  · obtain ⟨a1, a2, a3, -⟩ := AT_allocate_frame cfg env _ s n sa hal
    apply unique_insert cfg s s1 n hu
    · intro a ha
      have h1 : a ∈ nodes ((sa.write n { sa.mem n with m_function_symbol := sym }).set_bucket
          (cfg.FINISH (cfg.START sym) &&& sa.table_mask) (n :: chain1)) := by
        rw [hs] at ha
        exact ha
      have h2 := (nodes_set_bucket_cons (sa.write n { sa.mem n with m_function_symbol := sym })
        _ n chain1 hb1).subset h1
      rcases List.mem_cons.1 h2 with h3 | h3
      · exact Or.inl h3
      · exact Or.inr (a1.subset h3)
    · intro a ha
      rw [hs]
      simp only [increase_reference_count, Store.write, Store.set_bucket, if_neg ha]
      rw [a2 a ha]
      exact ⟨rfl, rfl⟩
    · intro b hb0 hbn hst
      have hn : (s1.mem n).m_function_symbol = sym := by
        rw [hs]
        simp [increase_reference_count, Store.write, Store.set_bucket]
      obtain ⟨e1, -⟩ := hst
      rw [hn] at e1
      have hm := mem_bucket_of_consistent cfg s hc b hb0
      have hbk : bucket_of cfg s b = cfg.FINISH (cfg.START sym) &&& s.table_mask := by
        unfold bucket_of term_size
        rw [← e1, if_neg hsym, harity, hash_number_header cfg _ _ hsize, ← e1]
      rw [hbk, getD_of_getElem? _ _ _ _ hb] at hm
      exact find_symbol_none s.mem sym chain hf b hm e1.symm

/-- The store after `resize_hashtable` holds no two equal nodes if the store before it
did. -/
theorem resize_hashtable_unique (cfg : Config) (env : Env) (s s1 : Store)
    (hu : unique cfg s) (h : resize_hashtable cfg env s = .ok s1) : unique cfg s1 := by
  obtain ⟨r1, -, -, r4⟩ := resize_hashtable_cases cfg env s s1 h
  have hsub : ∀ a ∈ nodes s1, a ∈ nodes s := by
    rcases r4 with ⟨-, r5, -⟩ | ⟨-, -, -, -, -, r5, -⟩
    · intro a ha
      unfold nodes at ha ⊢
      rw [← r5]
      exact ha
    · exact fun a ha => r5.subset ha
  intro a ha b hb hs
  rw [r1] at hs
  exact hu a (hsub a ha) b (hsub b hb) hs

end atermpp

namespace atermpp

/-! ## Uniqueness by integer value -/

theorem int_word_lt (v : Int) : int_word v < 4294967296 := by
  unfold int_word
  omega

theorem int_value_inj (a b : Nat) (ha : a < 4294967296) (hb : b < 4294967296)
    (h : int_value a = int_value b) : a = b := by
  unfold int_value word_value at h
  rw [Nat.mod_eq_of_lt ha, Nat.mod_eq_of_lt hb] at h
  split at h <;> split at h <;> omega

/-- Uniqueness by value implies uniqueness by word. -/
theorem unique_of_unique_by_value (cfg : Config) (s : Store) (h : unique_by_value cfg s) :
    unique cfg s := by
  intro a ha b hb hs
  apply h a ha b hb
  obtain ⟨h1, h2⟩ := hs
  refine ⟨h1, ?_⟩
  split
  · rename_i hi
    rw [if_pos hi] at h2
    rw [h2]
  · rename_i hi
    rw [if_neg hi] at h2
    exact h2

/-- When the integer nodes hold zero-extended words, uniqueness by word is uniqueness by
value. -/
theorem unique_by_value_of_unique (cfg : Config) (s : Store) (hz : zero_extended cfg s)
    (h : unique cfg s) : unique_by_value cfg s := by
  intro a ha b hb hs
  apply h a ha b hb
  obtain ⟨h1, h2⟩ := hs
  refine ⟨h1, ?_⟩
  split
  · rename_i hi
    rw [if_pos hi] at h2
    exact int_value_inj _ _ (hz a ha hi) (hz b hb (h1 ▸ hi)) h2
  · rename_i hi
    rw [if_neg hi] at h2
    exact h2

theorem Stable.zero_extended {cfg : Config} {s s1 : Store} (h : Stable s s1)
    (hz : zero_extended cfg s) : zero_extended cfg s1 := by
  intro a ha hs
  obtain ⟨e1, e2⟩ := h.frame a ha
  rw [e2]
  exact hz a (h.nodes_subset a ha) (e1 ▸ hs)

theorem aterm_int_zero_extended (cfg : Config) (env : Env) (v : Int) (s : Store) (n : Nat)
    (s1 : Store) (hz : zero_extended cfg s) (h : aterm_int cfg env v s = .ok (n, s1)) :
    zero_extended cfg s1 := by
  rcases aterm_int_cases cfg env v s n s1 h with
    ⟨chain, hb, hf, hs, -⟩ | ⟨chain, sa, chain1, hb, hf, hal, hb1, hs, -⟩
  · subst hs
    exact (Stable.increase n s).zero_extended hz
  · obtain ⟨a1, a2, -, -⟩ := AT_allocate_frame cfg env _ s n sa hal
    intro a ha hsym
    by_cases han : a = n
    · subst han
      rw [hs]
      simp only [increase_reference_count, Store.write, Store.set_bucket, if_true, int_node]
      exact int_word_lt v
    · have h1 : a ∈ nodes ((sa.write n (int_node cfg (int_word v) (sa.mem n))).set_bucket
          (int_hash cfg v &&& sa.table_mask) (n :: chain1)) := by
        rw [hs] at ha
        exact ha
      have h2 := (nodes_set_bucket_cons (sa.write n (int_node cfg (int_word v) (sa.mem n)))
        _ n chain1 hb1).subset h1
      have h3 : a ∈ nodes s := by
        rcases List.mem_cons.1 h2 with h4 | h4
        · exact absurd h4 han
        · exact a1.subset h4
      have e : s1.mem a = s.mem a := by
        rw [hs]
        simp only [increase_reference_count, Store.write, Store.set_bucket, if_neg han]
        exact a2 a han
      rw [e] at hsym ⊢
      exact hz a h3 hsym

theorem aterm_zero_extended (cfg : Config) (env : Env) (sym : Nat) (s : Store) (n : Nat)
    (s1 : Store) (hsym : sym ≠ cfg.AS_INT) (hz : zero_extended cfg s)
    (h : aterm cfg env sym s = .ok (n, s1)) : zero_extended cfg s1 := by
  obtain ⟨-, hcases⟩ := aterm_cases cfg env sym s n s1 h
  rcases hcases with ⟨chain, others, hb, hf, hs⟩ | ⟨chain, sa, chain1, hb, hf, hal, hb1, hs⟩
  · subst hs
    exact ((Stable.promote s _ n chain others hb (find_symbol_some _ _ _ _ _ hf).2.1).trans
      (Stable.increase n _)).zero_extended hz
  · obtain ⟨a1, a2, -, -⟩ := AT_allocate_frame cfg env _ s n sa hal
    intro a ha hs1
    by_cases han : a = n
    · subst han
      exfalso
      rw [hs] at hs1
      simp only [increase_reference_count, Store.write, Store.set_bucket, if_true] at hs1
      exact hsym hs1
    · have h1 : a ∈ nodes ((sa.write n { sa.mem n with m_function_symbol := sym }).set_bucket
          (cfg.FINISH (cfg.START sym) &&& sa.table_mask) (n :: chain1)) := by
        rw [hs] at ha
        exact ha
      have h2 := (nodes_set_bucket_cons (sa.write n { sa.mem n with m_function_symbol := sym })
        _ n chain1 hb1).subset h1
      have h3 : a ∈ nodes s := by
        rcases List.mem_cons.1 h2 with h4 | h4
        · exact absurd h4 han
        · exact a1.subset h4
      have e : s1.mem a = s.mem a := by
        rw [hs]
        simp only [increase_reference_count, Store.write, Store.set_bucket, if_neg han]
        exact a2 a han
      rw [e] at hs1 ⊢
      exact hz a h3 hs1

theorem resize_hashtable_zero_extended (cfg : Config) (env : Env) (s s1 : Store)
    (hz : zero_extended cfg s) (h : resize_hashtable cfg env s = .ok s1) :
    zero_extended cfg s1 := by
  obtain ⟨r1, -, -, r4⟩ := resize_hashtable_cases cfg env s s1 h
  have hsub : ∀ a ∈ nodes s1, a ∈ nodes s := by
    rcases r4 with ⟨-, r5, -⟩ | ⟨-, -, -, -, -, r5, -⟩
    · intro a ha
      unfold nodes at ha ⊢
      rw [← r5]
      exact ha
    · exact fun a ha => r5.subset ha
  intro a ha hs
  rw [r1] at hs ⊢
  exact hz a (hsub a ha) hs

end atermpp

namespace atermpp

/-- C3 (amended). Uniqueness is an invariant of the store: if a consistent hash table
holds no two distinct nodes with the same function symbol and the same payload, then the
table still holds no two such nodes after `aterm_int(v)`, after `aterm(sym)` for a symbol
of arity 0 (other than the reserved `AS_INT`), after `resize_hashtable` and after
`at_reduce_reference_count` on any node, in both builds.  The payload of an `AS_INT` node
is its word; when the integer nodes of the table hold zero-extended words, as `aterm_int`
writes them, the table afterwards also holds no two `AS_INT` nodes with the same integer
value.  The node sizes are those of the layout: an integer node has one payload word and a
nullary application has none. -/
theorem uniqueness_invariant (cfg : Config) (s : Store)
    (hint : cfg.TERM_SIZE_INT = cfg.ARG_OFFSET + 1)
    (happl : cfg.TERM_SIZE_APPL 0 ≤ cfg.ARG_OFFSET)
    (hu : unique cfg s) (hc : table_consistent cfg s) :
    (∀ env v n s1, aterm_int cfg env v s = .ok (n, s1) →
      unique cfg s1 ∧ (zero_extended cfg s → unique_by_value cfg s1)) ∧
    (∀ env sym n s1, cfg.arity sym = 0 → sym ≠ cfg.AS_INT →
      aterm cfg env sym s = .ok (n, s1) →
      unique cfg s1 ∧ (zero_extended cfg s → unique_by_value cfg s1)) ∧
    (∀ env s1, resize_hashtable cfg env s = .ok s1 →
      unique cfg s1 ∧ (zero_extended cfg s → unique_by_value cfg s1)) ∧
    (∀ fuel t s1, at_reduce_reference_count cfg fuel t s = .ok s1 →
      unique cfg s1 ∧ (zero_extended cfg s → unique_by_value cfg s1)) :=
  ⟨fun env v n s1 h =>
    have u := aterm_int_unique cfg env v s n s1 hint hu hc h
    ⟨u, fun hz => unique_by_value_of_unique cfg s1
      (aterm_int_zero_extended cfg env v s n s1 hz h) u⟩,
   fun env sym n s1 h0 hs h =>
    have u := aterm_unique cfg env sym s n s1 happl h0 hs hu hc h
    ⟨u, fun hz => unique_by_value_of_unique cfg s1
      (aterm_zero_extended cfg env sym s n s1 hs hz h) u⟩,
   fun env s1 h =>
    have u := resize_hashtable_unique cfg env s s1 hu h
    ⟨u, fun hz => unique_by_value_of_unique cfg s1
      (resize_hashtable_zero_extended cfg env s s1 hz h) u⟩,
   fun fuel t s1 h =>
    have st := at_reduce_reference_count_safe cfg fuel t s s1 hc h
    ⟨st.unique hu, fun hz => unique_by_value_of_unique cfg s1 (st.zero_extended hz)
      (st.unique hu)⟩⟩

theorem uniqueness_invariant_witness :
    unique (example_config true) store_with_three ∧
    table_consistent (example_config true) store_with_three ∧
    zero_extended (example_config true) store_with_three ∧
    unique_by_value (example_config true)
      (run (0, store_with_three)
        (aterm_int (example_config true) (example_env 4000) 7 store_with_three)).2 ∧
    unique_by_value (example_config true)
      (run (0, store_with_three)
        (aterm (example_config true) (example_env 4000) 5 store_with_three)).2 ∧
    unique_by_value (example_config true)
      (run store_with_three
        (resize_hashtable (example_config true) (example_env 4000) store_with_three)) ∧
    unique_by_value (example_config true)
      (run store_with_three
        (at_reduce_reference_count (example_config true) 1 1004 store_with_three)) :=
  have h := uniqueness_invariant (example_config true) store_with_three rfl
    (by decide) (by decide) (by decide)
  ⟨by decide, by decide, by decide,
   (h.1 (example_env 4000) 7 _ _ rfl).2 (by decide),
   (h.2.1 (example_env 4000) 5 _ _ (by decide) (by decide) rfl).2 (by decide),
   (h.2.2.1 (example_env 4000) _ rfl).2 (by decide),
   (h.2.2.2 1 1004 _ rfl).2 (by decide)⟩

/-- C3 as stated fails for `sym = AS_INT` and for a symbol with arguments.  After
`aterm_int(0)` the table is consistent and holds one node.  `aterm(AS_INT)`, which the
constructor accepts in both builds (the arity of `AS_INT` is 0), looks in the bucket of
`FINISH(START(AS_INT))`, does not find the node of 0 there and makes a second node with the
symbol `AS_INT` and the word 0: the table then holds two distinct nodes with the same
symbol and the same payload.  For the symbol 10, of arity 1, the assertion on the arity
is compiled out of a release build: in the consistent table that holds the node made by
`aterm(10)`, in the bucket of its hash after a growth, a second `aterm(10)` looks in the
bucket of `FINISH(START(10))` and makes a second node with the same symbol and the same
argument word. -/
theorem uniqueness_fails_for_other_symbols :
    (unique (example_config true) store_with_0 ∧
      table_consistent (example_config true) store_with_0 ∧
      (example_config true).arity (example_config true).AS_INT = 0 ∧
      (∃ n s1, aterm (example_config true) (example_env 2000) (example_config true).AS_INT
          store_with_0 = .ok (n, s1) ∧
        nodes s1 = [2000, 1000] ∧
        same_term (example_config true) (s1.mem 2000) (s1.mem 1000) ∧
        ¬ unique (example_config true) s1) ∧
      (∃ n s1, aterm (example_config false) (example_env 2000) (example_config false).AS_INT
          store_with_0 = .ok (n, s1) ∧ ¬ unique (example_config false) s1)) ∧
    (unique (example_config true) store_with_unary ∧
      table_consistent (example_config true) store_with_unary ∧
      (example_config true).arity 10 = 1 ∧
      ∃ n s1, aterm (example_config true) (example_env 2000) 10 store_with_unary
          = .ok (n, s1) ∧
        nodes s1 = [1000, 1003] ∧
        same_term (example_config true) (s1.mem 1003) (s1.mem 1000) ∧
        ¬ unique (example_config true) s1) :=
  ⟨⟨by decide, by decide, rfl, ⟨_, _, rfl, by decide, by decide, by decide⟩,
    ⟨_, _, rfl, by decide⟩⟩,
   ⟨by decide, by decide, rfl, ⟨_, _, rfl, by decide, by decide, by decide⟩⟩⟩

end atermpp

namespace atermpp

/-! ## Table consistency -/

/-- In a consistent table no node occurs twice. -/
theorem consistent_nodup (cfg : Config) (s : Store) (hc : table_consistent cfg s) :
    (nodes s).Nodup := by
  unfold nodes
  rw [List.nodup_flatten]
  refine ⟨hc.2, ?_⟩
  rw [List.pairwise_iff_getElem]
  intro i j hi hj hij a ha hb
  have e1 := hc.1 i hi a (by rw [getD_of_lt _ _ _ hi]; exact ha)
  have e2 := hc.1 j hj a (by rw [getD_of_lt _ _ _ hj]; exact hb)
  omega

theorem nodup_of_nodes_nodup (s : Store) (h : (nodes s).Nodup) :
    ∀ chain ∈ s.hashtable, chain.Nodup := by
  unfold nodes at h
  rw [List.nodup_flatten] at h
  exact h.1

/-- `resize_hashtable` keeps a table consistent; when the allocation of the new table
fails, this needs that the mask was the one of the class of the table. -/
theorem resize_hashtable_consistent (cfg : Config) (env : Env) (s s1 : Store)
    (hmask : env.bad_alloc = true → s.table_mask = 2 ^ s.table_class - 1)
    (hc : table_consistent cfg s) (h : resize_hashtable cfg env s = .ok s1) :
    table_consistent cfg s1 := by
  obtain ⟨r1, -, -, r4⟩ := resize_hashtable_cases cfg env s s1 h
  rcases r4 with ⟨hba, r5, -, -, r6⟩ | ⟨-, -, -, -, -, r5, r6⟩
  · have hm : s1.table_mask = s.table_mask := by rw [r6, hmask hba]
    constructor
    · intro i hi a ha
      rw [r5] at hi ha
      have := hc.1 i hi a ha
      rw [this]
      unfold bucket_of
      rw [r1, hm]
    · rw [r5]
      exact hc.2
  · exact ⟨fun i _ a ha => r6 i a ha,
      nodup_of_nodes_nodup s1 (r5.nodup_iff.2 (consistent_nodup cfg s hc))⟩

/-- Putting a node that is not in the table at the head of the bucket of its hash keeps
the table consistent. -/
theorem consistent_insert (cfg : Config) (s : Store) (n i : Nat) (chain : List Nat)
    (node : _aterm) (hc : table_consistent cfg s) (hn : n ∉ nodes s)
    (hb : s.hashtable[i]? = some chain)
    (hi : i = hash_number cfg node (term_size cfg node) &&& s.table_mask) :
    table_consistent cfg ((s.write n node).set_bucket i (n :: chain)) := by
  have hlt := lt_of_getElem? _ _ _ hb
  have hch : chain ∈ s.hashtable := by
    rw [List.getElem?_eq_getElem hlt] at hb
    cases hb
    exact List.getElem_mem _
  have hnc : n ∉ chain := fun hm => hn (List.mem_flatten.2 ⟨chain, hch, hm⟩)
  constructor
  · intro j hj a ha
    simp only [Store.set_bucket, Store.write, getD_set, List.length_set] at hj ha
    have key : ∀ b, b ∈ s.hashtable.getD j [] →
        j = bucket_of cfg ((s.write n node).set_bucket i (n :: chain)) b := by
      intro b hbm
      have hbn : b ≠ n := by
        rintro rfl
        exact hn ((mem_nodes_iff s b).2 ⟨j, hj, hbm⟩)
      have := hc.1 j hj b hbm
      rw [this]
      simp [bucket_of, Store.set_bucket, Store.write, hbn]
    split at ha
    · rename_i hij
      rcases List.mem_cons.1 ha with h1 | h1
      · subst h1
        rw [← hij.1, hi]
        simp [bucket_of, Store.set_bucket, Store.write]
      · apply key
        rw [← hij.1, getD_of_getElem? _ _ _ _ hb]
        exact h1
    · exact key a ha
  · intro c hcm
    simp only [Store.set_bucket, Store.write] at hcm
    rcases List.mem_or_eq_of_mem_set hcm with h1 | h1
    · exact hc.2 c h1
    · subst h1
      exact List.nodup_cons.2 ⟨hnc, hc.2 chain hch⟩

/-- `AT_allocate` keeps a table consistent when the cell it hands out is not in the table
and the mask is the one of the class of the table. -/
theorem AT_allocate_consistent (cfg : Config) (env : Env) (size : Nat) (s : Store) (n : Nat)
    (s2 : Store) (hmask : env.bad_alloc = true → s.table_mask = 2 ^ s.table_class - 1)
    (hc : table_consistent cfg s) (hn : n ∉ nodes s)
    (h : AT_allocate cfg env size s = .ok (n, s2)) :
    table_consistent cfg s2 ∧ n ∉ nodes s2 := by
  obtain ⟨a1, -, -, -⟩ := AT_allocate_frame cfg env size s n s2 h
  obtain ⟨s0, s1, h0, h1, rfl⟩ := AT_allocate_cases cfg env size s n s2 h
  obtain ⟨f1, f2, -, -, -, f6, -⟩ := AT_allocate_cell_frame cfg env size s0 n s1 h1
  have hn2 : n ∉ nodes { s1 with total_nodes := s1.total_nodes + 1 } :=
    fun hm => hn (a1.subset hm)
  refine ⟨?_, hn2⟩
  have hc0 : table_consistent cfg s0 := by
    rcases h0 with ⟨-, rfl⟩ | ⟨-, hr⟩
    · exact hc
    · exact resize_hashtable_consistent cfg env s s0 hmask hc hr
  have st : Stable s0 { s1 with total_nodes := s1.total_nodes + 1 } := by
    refine ⟨f2, by show s1.hashtable.length = _; rw [f1], ?_, ?_⟩
    · intro i
      show (s1.hashtable.getD i []).Subperm _
      rw [f1]
    · intro a ha
      have hne : a ≠ n := by
        rintro rfl
        exact hn2 ha
      show (s1.mem a).m_function_symbol = _ ∧ (s1.mem a).arg = _
      rw [f6 a hne]
      exact ⟨rfl, rfl⟩
  exact st.consistent hc0

end atermpp

namespace atermpp

theorem aterm_int_consistent (cfg : Config) (env : Env) (v : Int) (s : Store) (n : Nat)
    (s1 : Store) (hint : cfg.TERM_SIZE_INT = cfg.ARG_OFFSET + 1)
    (hmask : env.bad_alloc = true → s.table_mask = 2 ^ s.table_class - 1)
    (hfresh : ∀ m sa, AT_allocate cfg env cfg.TERM_SIZE_INT s = .ok (m, sa) → m ∉ nodes s)
    (hc : table_consistent cfg s) (h : aterm_int cfg env v s = .ok (n, s1)) :
    table_consistent cfg s1 ∧ n ∈ s1.hashtable.getD (int_hash cfg v &&& s1.table_mask) [] := by
  rcases aterm_int_cases cfg env v s n s1 h with
    ⟨chain, hb, hf, hs, -⟩ | ⟨chain, sa, chain1, hb, hf, hal, hb1, hs, -⟩
  · subst hs
    refine ⟨(Stable.increase n s).consistent hc, ?_⟩
    show n ∈ s.hashtable.getD (int_hash cfg v &&& s.table_mask) []
    rw [getD_of_getElem? _ _ _ _ hb]
    exact (find_int_some cfg _ _ _ _ hf).1
  · obtain ⟨c1, c2⟩ := AT_allocate_consistent cfg env _ s n sa hmask hc (hfresh n sa hal) hal
    have hi : int_hash cfg v &&& sa.table_mask =
        hash_number cfg (int_node cfg (int_word v) (sa.mem n))
          (term_size cfg (int_node cfg (int_word v) (sa.mem n))) &&& sa.table_mask := by
      have : term_size cfg (int_node cfg (int_word v) (sa.mem n)) = cfg.TERM_SIZE_INT := by
        simp [term_size, int_node]
      rw [this, hash_number_int cfg _ hint]
      rfl
    have c3 := consistent_insert cfg sa n _ chain1 _ c1 c2 hb1 hi
    subst hs
    refine ⟨(Stable.increase n _).consistent c3, ?_⟩
    have hlt := lt_of_getElem? _ _ _ hb1
    simp [increase_reference_count, Store.write, Store.set_bucket, getD_set, hlt]

theorem aterm_consistent (cfg : Config) (env : Env) (sym : Nat) (s : Store) (n : Nat)
    (s1 : Store) (happl : cfg.TERM_SIZE_APPL 0 ≤ cfg.ARG_OFFSET)
    (harity : cfg.arity sym = 0) (hsym : sym ≠ cfg.AS_INT)
    (hmask : env.bad_alloc = true → s.table_mask = 2 ^ s.table_class - 1)
    (hfresh : ∀ m sa, AT_allocate cfg env (cfg.TERM_SIZE_APPL 0) s = .ok (m, sa) → m ∉ nodes s)
    (hc : table_consistent cfg s) (h : aterm cfg env sym s = .ok (n, s1)) :
    table_consistent cfg s1 ∧
      n ∈ s1.hashtable.getD (cfg.FINISH (cfg.START sym) &&& s1.table_mask) [] := by
  obtain ⟨-, hcases⟩ := aterm_cases cfg env sym s n s1 h
  rcases hcases with ⟨chain, others, hb, hf, hs⟩ | ⟨chain, sa, chain1, hb, hf, hal, hb1, hs⟩
  · subst hs
    have st := (Stable.promote s _ n chain others hb (find_symbol_some _ _ _ _ _ hf).2.1).trans
      (Stable.increase n _)
    refine ⟨st.consistent hc, ?_⟩
    have hlt := lt_of_getElem? _ _ _ hb
    simp [increase_reference_count, Store.write, Store.set_bucket, getD_set, hlt]
  · obtain ⟨c1, c2⟩ := AT_allocate_consistent cfg env _ s n sa hmask hc (hfresh n sa hal) hal
    have hi : cfg.FINISH (cfg.START sym) &&& sa.table_mask =
        hash_number cfg { sa.mem n with m_function_symbol := sym }
          (term_size cfg { sa.mem n with m_function_symbol := sym }) &&& sa.table_mask := by
      have : term_size cfg { sa.mem n with m_function_symbol := sym } =
          cfg.TERM_SIZE_APPL 0 := by
        simp [term_size, hsym, harity]
      rw [this, hash_number_header cfg _ _ happl]
    have c3 := consistent_insert cfg sa n _ chain1 _ c1 c2 hb1 hi
    subst hs
    refine ⟨(Stable.increase n _).consistent c3, ?_⟩
    have hlt := lt_of_getElem? _ _ _ hb1
    simp [increase_reference_count, Store.write, Store.set_bucket, getD_set, hlt]

/-- C4 (amended). Table consistency is an invariant: if every node in the hash table is in
exactly one bucket, namely bucket `hash_number(node, term_size(node)) & table_mask`, then this
still holds after `at_reduce_reference_count` on any node, after `resize_hashtable`, and
after `aterm_int(v)` and `aterm(sym)` (arity 0, not the reserved `AS_INT`); in particular,
when the `AT_allocate` call inside a constructor grows the table, the node the
constructor returns is on the chain of the bucket computed with the mask in force after
the growth.  The operations that allocate are taken in a store whose allocator hands out
a cell that is not a node of the table and, for the case that the allocation of a larger
table fails, whose `table_mask` is the mask of `table_class`. -/
theorem table_consistency_invariant (cfg : Config) (s : Store)
    (hint : cfg.TERM_SIZE_INT = cfg.ARG_OFFSET + 1)
    (happl : cfg.TERM_SIZE_APPL 0 ≤ cfg.ARG_OFFSET)
    (hc : table_consistent cfg s) :
    (∀ env v n s1, (env.bad_alloc = true → s.table_mask = 2 ^ s.table_class - 1) →
      (∀ m sa, AT_allocate cfg env cfg.TERM_SIZE_INT s = .ok (m, sa) → m ∉ nodes s) →
      aterm_int cfg env v s = .ok (n, s1) →
      table_consistent cfg s1 ∧
        n ∈ s1.hashtable.getD (int_hash cfg v &&& s1.table_mask) []) ∧
    (∀ env sym n s1, cfg.arity sym = 0 → sym ≠ cfg.AS_INT →
      (env.bad_alloc = true → s.table_mask = 2 ^ s.table_class - 1) →
      (∀ m sa, AT_allocate cfg env (cfg.TERM_SIZE_APPL 0) s = .ok (m, sa) → m ∉ nodes s) →
      aterm cfg env sym s = .ok (n, s1) →
      table_consistent cfg s1 ∧
        n ∈ s1.hashtable.getD (cfg.FINISH (cfg.START sym) &&& s1.table_mask) []) ∧
    (∀ env s1, (env.bad_alloc = true → s.table_mask = 2 ^ s.table_class - 1) →
      resize_hashtable cfg env s = .ok s1 → table_consistent cfg s1) ∧
    (∀ fuel t s1, at_reduce_reference_count cfg fuel t s = .ok s1 →
      table_consistent cfg s1) :=
  ⟨fun env v n s1 hm hf h => aterm_int_consistent cfg env v s n s1 hint hm hf hc h,
   fun env sym n s1 h0 hs hm hf h =>
     aterm_consistent cfg env sym s n s1 happl h0 hs hm hf hc h,
   fun env s1 hm h => resize_hashtable_consistent cfg env s s1 hm hc h,
   fun fuel t s1 h => (at_reduce_reference_count_safe cfg fuel t s s1 hc h).consistent hc⟩

end atermpp

namespace atermpp

theorem table_consistency_invariant_witness :
    table_consistent (example_config true) store_full ∧
    store_full.table_mask = 1 ∧
    (run (0, store_full)
      (aterm_int (example_config true) (example_env 4000) 4 store_full)).2.table_mask = 3 ∧
    (table_consistent (example_config true)
      (run (0, store_full)
        (aterm_int (example_config true) (example_env 4000) 4 store_full)).2 ∧
     1008 ∈ (run (0, store_full)
        (aterm_int (example_config true) (example_env 4000) 4 store_full)).2.hashtable.getD
          (int_hash (example_config true) 4 &&& 3) []) ∧
    (table_consistent (example_config true)
      (run (0, store_full)
        (aterm (example_config true) (example_env 4000) 6 store_full)).2 ∧
     4000 ∈ (run (0, store_full)
        (aterm (example_config true) (example_env 4000) 6 store_full)).2.hashtable.getD
          (6 &&& 3) []) ∧
    table_consistent (example_config true)
      (run store_full
        (resize_hashtable (example_config true) (example_env 4000) store_full)) ∧
    table_consistent (example_config true)
      (run store_full
        (resize_hashtable (example_config true) { bad_alloc := true, calloc := none }
          store_full)) ∧
    table_consistent (example_config true)
      (run store_full
        (at_reduce_reference_count (example_config true) 1 1004 store_full)) :=
  have h := table_consistency_invariant (example_config true) store_full rfl
    (by decide) (by decide)
  ⟨by decide, rfl, rfl,
   h.1 (example_env 4000) 4 1008 _ (fun _ => rfl)
     (fun m sa hm => by
       have e : (run (0, store_full) (AT_allocate (example_config true) (example_env 4000)
           (example_config true).TERM_SIZE_INT store_full)).1 = m := by rw [hm]; rfl
       rw [← e]
       decide) rfl,
   h.2.1 (example_env 4000) 6 4000 _ (by decide) (by decide) (fun _ => rfl)
     (fun m sa hm => by
       have e : (run (0, store_full) (AT_allocate (example_config true) (example_env 4000)
           ((example_config true).TERM_SIZE_APPL 0) store_full)).1 = m := by rw [hm]; rfl
       rw [← e]
       decide) rfl,
   h.2.2.1 (example_env 4000) _ (fun _ => rfl) rfl,
   h.2.2.1 { bad_alloc := true, calloc := none } _ (fun _ => rfl) rfl,
   h.2.2.2 1 1004 _ rfl⟩

/-- The two conditions on the store under which the constructors and the resize preserve
table consistency cannot be dropped.
In the consistent store `store_free_list_in_table` the allocator hands `aterm_int(6)` a
cell that is in the table, and afterwards that node is in the table twice, with the hash
of 6 in the bucket of 5.  In the consistent store `store_wrong_class` a
`resize_hashtable` whose allocation fails sets the mask from `table_class`, and
afterwards the node of 5 is in bucket 3 while its hash gives 7. -/
theorem table_consistency_needs_store_invariants :
    (table_consistent (example_config true) store_free_list_in_table ∧
      aterm_int (example_config true) (example_env 4000) 6 store_free_list_in_table =
        .ok (1000, (run (0, store_free_list_in_table) (aterm_int (example_config true)
          (example_env 4000) 6 store_free_list_in_table)).2) ∧
      ¬ table_consistent (example_config true)
        (run (0, store_free_list_in_table) (aterm_int (example_config true)
          (example_env 4000) 6 store_free_list_in_table)).2) ∧
    (table_consistent (example_config true) store_wrong_class ∧
      resize_hashtable (example_config true) { bad_alloc := true, calloc := none }
        store_wrong_class =
        .ok (run store_wrong_class (resize_hashtable (example_config true)
          { bad_alloc := true, calloc := none } store_wrong_class)) ∧
      ¬ table_consistent (example_config true)
        (run store_wrong_class (resize_hashtable (example_config true)
          { bad_alloc := true, calloc := none } store_wrong_class))) :=
  ⟨⟨by decide, rfl, by decide⟩, ⟨by decide, rfl, by decide⟩⟩

/-- C4 as stated fails for `sym = AS_INT` and for a symbol with arguments.  In the initial
store, `aterm(AS_INT)` puts its node in the bucket of `FINISH(START(AS_INT))`, bucket 1,
while `hash_number(node, term_size(node))`, which hashes a node with the symbol `AS_INT`
over the `TERM_SIZE_INT` words of an integer, selects bucket 2: the table is not
consistent afterwards, in both builds.  For the symbol 10, of arity 1, which a release
build accepts, the node is put in the bucket of `FINISH(START(10))`, bucket 2, and its
hash over its symbol and its argument word selects bucket 1. -/
theorem consistency_fails_for_other_symbols :
    table_consistent (example_config true) (initial_store 2) ∧
    (∃ n s1, aterm (example_config true) (example_env 1000) (example_config true).AS_INT
        (initial_store 2) = .ok (n, s1) ∧
      s1.hashtable = [[], [1000], [], []] ∧ bucket_of (example_config true) s1 1000 = 2 ∧
      ¬ table_consistent (example_config true) s1) ∧
    (∃ n s1, aterm (example_config false) (example_env 1000) (example_config false).AS_INT
        (initial_store 2) = .ok (n, s1) ∧ ¬ table_consistent (example_config false) s1) ∧
    (example_config true).arity 10 = 1 ∧
    (∃ n s1, aterm (example_config true) (example_env 1000) 10 (initial_store 2)
        = .ok (n, s1) ∧
      s1.hashtable = [[], [], [1000], []] ∧ bucket_of (example_config true) s1 1000 = 1 ∧
      ¬ table_consistent (example_config true) s1) :=
  ⟨by decide, ⟨_, _, rfl, by decide, by decide, by decide⟩, ⟨_, _, rfl, by decide⟩, rfl,
    ⟨_, _, rfl, by decide, by decide, by decide⟩⟩

end atermpp

namespace atermpp

/-! ## `resize_hashtable` returns -/

theorem rehash_chain_total (cfg : Config) (mem : Nat → _aterm) (mask : Nat) (chain : List Nat)
    (nt : List (List Nat)) (hmask : mask < nt.length)
    (hd : cfg.ndebug = true ∨
      ((∀ a ∈ chain, 0 < (mem a).reference_count) ∧ (chain ++ nt.flatten).Nodup)) :
    ∃ nt1, rehash_chain cfg mem mask chain nt = .ok nt1 := by
  induction chain generalizing nt with
  | nil => exact ⟨nt, rfl⟩
  | cons w next ih =>
    have hlt : hash_number cfg (mem w) (term_size cfg (mem w)) &&& mask < nt.length :=
      Nat.lt_of_le_of_lt Nat.and_le_right hmask
    have hget : nt[hash_number cfg (mem w) (term_size cfg (mem w)) &&& mask]? =
        some (nt[hash_number cfg (mem w) (term_size cfg (mem w)) &&& mask]) :=
      List.getElem?_eq_getElem hlt
    have hstep : rehash_chain cfg mem mask (w :: next) nt =
        rehash_chain cfg mem mask next
          (nt.set (hash_number cfg (mem w) (term_size cfg (mem w)) &&& mask)
            (w :: nt[hash_number cfg (mem w) (term_size cfg (mem w)) &&& mask])) := by
      rw [rehash_chain]
      rcases hd with hd | ⟨hrc, hnd⟩
      · simp [hd, hget]
      · have h1 : (mem w).reference_count ≠ 0 :=
          Nat.pos_iff_ne_zero.1 (hrc w (List.mem_cons_self _ _))
        have h2 : (nt[hash_number cfg (mem w) (term_size cfg (mem w)) &&& mask]).head? ≠
            some w := by
          intro hh
          have hm : w ∈ nt[hash_number cfg (mem w) (term_size cfg (mem w)) &&& mask] :=
            List.mem_of_mem_head? hh
          have hm2 : w ∈ nt.flatten := List.mem_flatten.2 ⟨_, List.getElem_mem _, hm⟩
          have := (List.nodup_cons.1 hnd).1
          exact this (List.mem_append_right _ hm2)
        simp [h1, hlt, hget, h2]
    rw [hstep]
    apply ih
    · simpa using hmask
    · rcases hd with hd | ⟨hrc, hnd⟩
      · exact Or.inl hd
      · refine Or.inr ⟨fun a ha => hrc a (List.mem_cons_of_mem _ ha), ?_⟩
        have hp := (flatten_set_cons nt _ w _ hget).append_left next
        refine (hp.trans ?_).nodup_iff.2 hnd
        exact List.perm_middle

theorem rehash_all_total (cfg : Config) (mem : Nat → _aterm) (mask : Nat)
    (old nt : List (List Nat)) (hmask : mask < nt.length)
    (hd : cfg.ndebug = true ∨
      ((∀ a ∈ old.flatten, 0 < (mem a).reference_count) ∧
        (old.flatten ++ nt.flatten).Nodup)) :
    ∃ nt1, rehash_all cfg mem mask old nt = .ok nt1 := by
  induction old generalizing nt with
  | nil => exact ⟨nt, rfl⟩
  | cons p rest ih =>
    have hp : cfg.ndebug = true ∨
        ((∀ a ∈ p, 0 < (mem a).reference_count) ∧ (p ++ nt.flatten).Nodup) := by
      rcases hd with hd | ⟨hrc, hnd⟩
      · exact Or.inl hd
      · refine Or.inr ⟨fun a ha => hrc a (by simp [ha]), ?_⟩
        simp only [List.flatten_cons, List.append_assoc] at hnd
        have hs : (p ++ nt.flatten).Sublist (p ++ (rest.flatten ++ nt.flatten)) :=
          List.Sublist.append_left (List.sublist_append_right _ _) _
        exact hs.nodup hnd
    obtain ⟨nt2, h2⟩ := rehash_chain_total cfg mem mask p nt hmask hp
    obtain ⟨c1, c2, -⟩ := rehash_chain_ok cfg mem mask p nt nt2 h2
    rw [rehash_all, h2]
    apply ih
    · rw [c1]
      exact hmask
    · rcases hd with hd | ⟨hrc, hnd⟩
      · exact Or.inl hd
      · refine Or.inr ⟨fun a ha => hrc a (by simp [ha]), ?_⟩
        have hq := c2.append_left rest.flatten
        refine hq.nodup_iff.2 ?_
        simp only [List.flatten_cons, List.append_assoc] at hnd
        have : (rest.flatten ++ (p ++ nt.flatten)).Perm (p ++ (rest.flatten ++ nt.flatten)) := by
          rw [← List.append_assoc, ← List.append_assoc]
          exact List.Perm.append_right _ List.perm_append_comm
        exact this.nodup_iff.2 hnd

/-- A `resize_hashtable` that gets its memory returns in a release build, and in a debug
build when every node of the table has a positive count and no node occurs twice. -/
theorem resize_hashtable_total (cfg : Config) (env : Env) (s : Store)
    (hgrow : env.bad_alloc = false)
    (hd : cfg.ndebug = true ∨
        ((∀ a ∈ nodes s, 0 < (s.mem a).reference_count) ∧ (nodes s).Nodup)) :
    ∃ s1, resize_hashtable cfg env s = .ok s1 := by
  have hlen : 2 ^ (s.table_class + 1) - 1 <
      (List.replicate (2 ^ (s.table_class + 1)) ([] : List Nat)).length := by
    have : 0 < 2 ^ (s.table_class + 1) := Nat.pow_pos (by decide)
    simp only [List.length_replicate]
    omega
  have hd1 : cfg.ndebug = true ∨
      ((∀ a ∈ s.hashtable.flatten, 0 < (s.mem a).reference_count) ∧
        (s.hashtable.flatten ++
          (List.replicate (2 ^ (s.table_class + 1)) ([] : List Nat)).flatten).Nodup) := by
    rcases hd with hd | ⟨hrc, hnd⟩
    · exact Or.inl hd
    · refine Or.inr ⟨hrc, ?_⟩
      rw [flatten_replicate_nil, List.append_nil]
      exact hnd
  obtain ⟨nt1, h1⟩ := rehash_all_total cfg s.mem _ s.hashtable _ hlen hd1
  unfold resize_hashtable
  simp only [hgrow, Bool.false_eq_true, if_false, h1]
  exact ⟨_, rfl⟩

/-- C5. When `resize_hashtable` succeeds (the larger table is allocated), the new table
contains exactly the nodes the old table contained, each as often as before, hence each
exactly once if that was so before: no node is lost and none is duplicated; the nodes
themselves are not changed; and every node of the old table is on the chain of the bucket
given by its hash and the new mask, where a lookup searches for it.  In a release build
the rehash always returns; in a debug build it returns when every node of the table has a
positive count and no node occurs twice. -/
theorem resize_hashtable_preserves_nodes (cfg : Config) (env : Env) (s : Store)
    (hgrow : env.bad_alloc = false) :
    (∀ s1, resize_hashtable cfg env s = .ok s1 →
      (nodes s1).Perm (nodes s) ∧ (∀ a, (nodes s1).count a = (nodes s).count a) ∧
      ((nodes s).Nodup → (nodes s1).Nodup) ∧ s1.mem = s.mem ∧
      s1.hashtable.length = 2 * 2 ^ s.table_class ∧
      s1.table_mask = 2 * 2 ^ s.table_class - 1 ∧
      ∀ a ∈ nodes s, a ∈ s1.hashtable.getD (bucket_of cfg s1 a) []) ∧
    ((cfg.ndebug = true ∨
        ((∀ a ∈ nodes s, 0 < (s.mem a).reference_count) ∧ (nodes s).Nodup)) →
      ∃ s1, resize_hashtable cfg env s = .ok s1) := by
  constructor
  · intro s1 h
    obtain ⟨r1, -, -, r4⟩ := resize_hashtable_cases cfg env s s1 h
    rcases r4 with ⟨hb, -⟩ | ⟨-, -, -, r5, r6, r7, r8⟩
    · rw [hgrow] at hb
      cases hb
    · refine ⟨r7, fun a => r7.count_eq a, fun hn => r7.nodup_iff.2 hn, r1, ?_, ?_, ?_⟩
      · rw [r6, pow_succ, Nat.mul_comm]
      · rw [r5, pow_succ, Nat.mul_comm]
      · intro a ha
        obtain ⟨i, -, hm⟩ := (mem_nodes_iff s1 a).1 (r7.symm.subset ha)
        rw [← r8 i a hm]
        exact hm
  · exact resize_hashtable_total cfg env s hgrow

end atermpp

namespace atermpp

theorem resize_hashtable_preserves_nodes_witness :
    (example_env 4000).bad_alloc = false ∧
    (nodes (run store_full
      (resize_hashtable (example_config false) (example_env 4000) store_full))).Perm
      (nodes store_full) ∧
    (∃ s1, resize_hashtable (example_config false) (example_env 4000) store_full = .ok s1) :=
  have h := resize_hashtable_preserves_nodes (example_config false) (example_env 4000)
    store_full rfl
  ⟨rfl, (h.1 _ rfl).1, h.2 (Or.inr ⟨by decide, by decide⟩)⟩

end atermpp

namespace atermpp

/-! ## Counting references -/

theorem write_write (s : Store) (c : Nat) (t u : _aterm) :
    (s.write c t).write c u = s.write c u := by
  unfold Store.write
  congr 1
  funext x
  by_cases h : x = c <;> simp [h]

theorem increase_with_count (s : Store) (c r : Nat) :
    increase_reference_count c (with_count s c r) = with_count s c (r + 1) := by
  unfold increase_reference_count with_count
  rw [write_write]
  simp [Store.write]

theorem increase_eq_with_count (s : Store) (c : Nat) :
    increase_reference_count c s = with_count s c ((s.mem c).reference_count + 1) := rfl

/-- A construction of the integer whose node `c` heads its bucket adds one reference to
`c`. -/
theorem aterm_int_with_count (cfg : Config) (env : Env) (v : Int) (S : Store) (c r : Nat)
    (chain1 : List Nat) (hint : cfg.TERM_SIZE_INT = cfg.ARG_OFFSET + 1)
    (hb : S.hashtable[int_hash cfg v &&& S.table_mask]? = some (c :: chain1))
    (hsym : (S.mem c).m_function_symbol = cfg.AS_INT)
    (harg : (S.mem c).arg 0 = int_word v) :
    aterm_int cfg env v (with_count S c r) = .ok (c, with_count S c (r + 1)) := by
  rw [← increase_with_count]
  apply aterm_int_found cfg env v _ (c :: chain1) c
  · exact hb
  · simp [find_int, with_count, Store.write, hsym, harg]
  · intro _
    rw [hash_number_int cfg _ hint]
    simp [with_count, Store.write, hsym, harg, int_hash]

theorem aterm_int_n_with_count (cfg : Config) (env : Nat → Env) (v : Int) (S : Store)
    (c : Nat) (chain1 : List Nat) (hint : cfg.TERM_SIZE_INT = cfg.ARG_OFFSET + 1)
    (hb : S.hashtable[int_hash cfg v &&& S.table_mask]? = some (c :: chain1))
    (hsym : (S.mem c).m_function_symbol = cfg.AS_INT)
    (harg : (S.mem c).arg 0 = int_word v) (j r : Nat) :
    aterm_int_n cfg env v j (with_count S c r) =
      .ok (List.replicate j c, with_count S c (r + j)) := by
  induction j generalizing r with
  | zero => rfl
  | succ j ih =>
    rw [aterm_int_n, aterm_int_with_count cfg _ v S c r chain1 hint hb hsym harg]
    simp only []
    rw [ih (r + 1)]
    simp only [List.replicate_succ]
    congr 3
    omega

/-- A release of a node with at least two references removes one reference. -/
theorem at_reduce_with_count (cfg : Config) (fuel : Nat) (S : Store) (c r : Nat)
    (hr : 1 ≤ r) :
    at_reduce_reference_count cfg (fuel + 1) c (with_count S c (r + 1)) =
      .ok (with_count S c r) := by
  unfold at_reduce_reference_count
  have h1 : ((with_count S c (r + 1)).mem c).reference_count = r + 1 := by
    simp [with_count, Store.write]
  have h2 : size_t_dec (r + 1) = r := by simp [size_t_dec]
  have h3 : (with_count S c (r + 1)).write c
      { (with_count S c (r + 1)).mem c with reference_count := r } = with_count S c r := by
    unfold with_count
    rw [write_write]
    simp [Store.write]
  simp only [h1, h2, h3]
  have h4 : ((with_count S c r).mem c).reference_count = r := by
    simp [with_count, Store.write]
  have h5 : r ≠ 0 := by omega
  simp [h4, h5]

theorem release_n_with_count (cfg : Config) (fuel : Nat) (S : Store) (c : Nat) (k r : Nat)
    (hr : 1 ≤ r) :
    release_n cfg (fuel + 1) c k (with_count S c (r + k)) = .ok (with_count S c r) := by
  induction k with
  | zero => rfl
  | succ k ih =>
    rw [release_n, show r + (k + 1) = (r + k) + 1 from rfl,
      at_reduce_with_count cfg fuel S c (r + k) (by omega)]
    exact ih

end atermpp

namespace atermpp

theorem free_arguments_none (cfg : Config) (reduce : Nat → Store → Except Fault Store)
    (t n i : Nat) (s : Store) (h : cfg.arity (s.mem t).m_function_symbol ≤ i) :
    free_arguments cfg reduce t n i s = .ok s := by
  unfold free_arguments
  have : ¬ i < cfg.arity (s.mem t).m_function_symbol := by omega
  simp [this]

/-- The release of the last reference of a node without arguments destroys the node:
the result is `released_store`. -/
theorem at_reduce_last (cfg : Config) (fuel : Nat) (S : Store) (t : Nat)
    (chain chain1 : List Nat)
    (hrc : (S.mem t).reference_count = 1)
    (harity : cfg.arity (S.mem t).m_function_symbol = 0)
    (hel : cfg.ndebug = false → (S.mem t).m_function_symbol ≠ cfg.AS_EMPTY_LIST)
    (hb : S.hashtable[bucket_of cfg S t]? = some chain)
    (hu : unlink t chain = some chain1) :
    at_reduce_reference_count cfg (fuel + 1) t S = .ok (released_store cfg S t chain1) := by
  have hne : chain ≠ [] := by
    rintro rfl
    simp [unlink] at hu
  obtain ⟨c0, rest, rfl⟩ := List.exists_cons_of_ne_nil hne
  unfold at_reduce_reference_count
  have h1 : (!cfg.ndebug && decide ((S.mem t).reference_count = 0)) = false := by
    simp [hrc]
  have h2 : size_t_dec (S.mem t).reference_count = 0 := by simp [hrc, size_t_dec]
  simp only [h1, Bool.false_eq_true, if_false, h2]
  have h3 : ((S.write t { S.mem t with reference_count := 0 }).mem t).reference_count = 0 := by
    simp [Store.write]
  rw [if_pos h3]
  unfold at_free_term_body
  have h4 : (!cfg.ndebug && decide (((S.write t { S.mem t with reference_count := 0 }).mem
      t).m_function_symbol = cfg.AS_EMPTY_LIST)) = false := by
    cases hd : cfg.ndebug
    · simp [Store.write, hel hd]
    · simp
  have h5 : (!cfg.ndebug && decide (((S.write t { S.mem t with reference_count := 0 }).mem
      t).reference_count ≠ 0)) = false := by
    simp [Store.write]
  simp only [h4, h5, Bool.false_eq_true, if_false]
  have hfree : AT_freeTerm cfg t (S.write t { S.mem t with reference_count := 0 }) =
      .ok { (S.write t { S.mem t with reference_count := 0 }).set_bucket (bucket_of cfg S t)
              chain1 with total_nodes := size_t_dec S.total_nodes } := by
    unfold AT_freeTerm
    have hk : hash_number cfg ((S.write t { S.mem t with reference_count := 0 }).mem t)
        (term_size cfg ((S.write t { S.mem t with reference_count := 0 }).mem t)) &&&
        (S.write t { S.mem t with reference_count := 0 }).table_mask = bucket_of cfg S t := by
      simp [Store.write, bucket_of, hash_number, term_size]
    simp only [hk]
    have hb2 : (S.write t { S.mem t with reference_count := 0 }).hashtable[bucket_of cfg S t]? =
        some (c0 :: rest) := hb
    rw [hb2]
    simp only [hu]
    rfl
  rw [hfree]
  simp only []
  rw [free_arguments_none]
  · simp only []
    congr 1
    unfold released_store Store.set_terminfo Store.write Store.set_bucket
    simp only [if_true]
    congr 1
    · funext x
      by_cases hx : x = t <;> simp [hx]
    · funext x
      by_cases hx : x = term_size cfg (S.mem t)
      · simp [hx, term_size]
      · have hx2 : ¬ x = term_size cfg { S.mem t with reference_count := 0 } := hx
        simp [hx, hx2]
  · simp [Store.set_bucket, Store.write, harity]

end atermpp

namespace atermpp

theorem find_int_eq_none (cfg : Config) (mem : Nat → _aterm) (word : Nat) (chain : List Nat)
    (h : ∀ b ∈ chain, ¬ ((mem b).m_function_symbol = cfg.AS_INT ∧
      word_value ((mem b).arg 0) = word_value word)) :
    find_int cfg mem word chain = none := by
  cases hf : find_int cfg mem word chain with
  | none => rfl
  | some cur =>
    obtain ⟨h1, h2, h3⟩ := find_int_some cfg mem word chain cur hf
    exact absurd ⟨h2, h3⟩ (h cur h1)

theorem mem_nodes_of_getElem? (s : Store) (i : Nat) (chain : List Nat) (a : Nat)
    (hb : s.hashtable[i]? = some chain) (ha : a ∈ chain) : a ∈ nodes s :=
  (mem_nodes_iff s a).2 ⟨i, lt_of_getElem? _ _ _ hb, by
    rw [getD_of_getElem? _ _ _ _ hb]; exact ha⟩

/-- The cell handed out by `AT_allocate` has count 0 when the nodes on the free list of
its size class have count 0. -/
theorem AT_allocate_count (cfg : Config) (env : Env) (size : Nat) (s : Store) (n : Nat)
    (s2 : Store)
    (hzero : ∀ a ∈ (s.terminfo size).at_freelist, (s.mem a).reference_count = 0)
    (h : AT_allocate cfg env size s = .ok (n, s2)) : (s2.mem n).reference_count = 0 := by
  obtain ⟨s0, s1, h0, h1, rfl⟩ := AT_allocate_cases cfg env size s n s2 h
  have g : s0.mem = s.mem ∧ s0.terminfo = s.terminfo := by
    rcases h0 with ⟨-, rfl⟩ | ⟨-, hr⟩
    · exact ⟨rfl, rfl⟩
    · obtain ⟨r1, r2, -, -⟩ := resize_hashtable_cases cfg env s s0 hr
      exact ⟨r1, r2⟩
  show (s1.mem n).reference_count = 0
  rcases AT_allocate_cell_cases cfg env size s0 n s1 h1 with
    ⟨-, hb⟩ | ⟨-, next, hf, hs, -⟩ | ⟨-, -, s3, -, hb⟩
  · have e1 : n = (bump_allocate cfg size s0).1 := congrArg Prod.fst hb
    have e2 : s1 = (bump_allocate cfg size s0).2 := congrArg Prod.snd hb
    rw [e1, e2]
    exact (bump_allocate_frame cfg size s0).2.2.2.2.2.2.2.2.1
  · subst hs
    show (s0.mem n).reference_count = 0
    rw [g.1]
    apply hzero
    rw [← g.2, hf]
    exact List.mem_cons_self _ _
  · have e1 : n = (bump_allocate cfg size s3).1 := congrArg Prod.fst hb
    have e2 : s1 = (bump_allocate cfg size s3).2 := congrArg Prod.snd hb
    rw [e1, e2]
    exact (bump_allocate_frame cfg size s3).2.2.2.2.2.2.2.2.1

theorem release_n_succ (cfg : Config) (fuel t k : Nat) (s : Store) :
    release_n cfg fuel t (k + 1) s =
      match release_n cfg fuel t k s with
      | .error e => .error e
      | .ok s1 => at_reduce_reference_count cfg fuel t s1 := by
  induction k generalizing s with
  | zero =>
    simp only [release_n]
    cases at_reduce_reference_count cfg fuel t s <;> rfl
  | succ k ih =>
    rw [release_n]
    cases h : at_reduce_reference_count cfg fuel t s with
    | error e => simp [release_n, h]
    | ok s1 =>
      simp only []
      rw [ih s1]
      conv_rhs => rw [release_n, h]

theorem set_set_getElem? {α : Type} (l : List α) (i : Nat) (x y : α) (h : l[i]? = some y) :
    (l.set i x).set i y = l := by
  rw [List.set_set]
  apply List.ext_getElem?
  intro j
  by_cases hj : i = j
  · subst hj
    have hlt := lt_of_getElem? _ _ _ h
    simp [hlt, h]
  · rw [List.getElem?_set_ne hj]

end atermpp

namespace atermpp

/-- In a release build `AT_allocate` returns a cell whenever the table can be grown and
the free list of the size class is not empty; the bucket index of any hash under the mask
then in force is inside the table if the table was grown, and table and mask are the old
ones otherwise. -/
theorem AT_allocate_returns (cfg : Config) (env : Env) (size : Nat) (s : Store)
    (hnd : cfg.ndebug = true) (hgrow : env.bad_alloc = false)
    (hfl : (s.terminfo size).at_freelist ≠ []) :
    ∃ c sa, AT_allocate cfg env size s = .ok (c, sa) ∧
      ((sa.hashtable = s.hashtable ∧ sa.table_mask = s.table_mask) ∨
        sa.table_mask < sa.hashtable.length) := by
  have hcell : ∀ s0 : Store, s0.terminfo = s.terminfo →
      ∃ c s1, AT_allocate_cell cfg env size s0 = .ok (c, s1) := by
    intro s0 ht
    unfold AT_allocate_cell
    simp only []
    split
    · exact ⟨_, _, rfl⟩
    · rw [ht]
      obtain ⟨a, next, hl⟩ := List.exists_cons_of_ne_nil hfl
      rw [hl]
      simp [hnd]
  by_cases hge : s.total_nodes ≥ s.table_size
  · obtain ⟨s0, h0⟩ := resize_hashtable_total cfg env s hgrow (Or.inl hnd)
    obtain ⟨-, r2, -, r4⟩ := resize_hashtable_cases cfg env s s0 h0
    obtain ⟨c, s1, h1⟩ := hcell s0 r2
    obtain ⟨f1, f2, -⟩ := AT_allocate_cell_frame cfg env size s0 c s1 h1
    refine ⟨c, { s1 with total_nodes := s1.total_nodes + 1 }, ?_, Or.inr ?_⟩
    · unfold AT_allocate
      simp only [hge, if_true, h0, h1]
    · show s1.table_mask < s1.hashtable.length
      rcases r4 with ⟨hb, -⟩ | ⟨-, -, -, r5, r6, -, -⟩
      · rw [hgrow] at hb
        cases hb
      · rw [f1, f2, r5, r6]
        have : 0 < 2 ^ (s.table_class + 1) := Nat.pow_pos (by decide)
        omega
  · obtain ⟨c, s1, h1⟩ := hcell s rfl
    obtain ⟨f1, f2, -⟩ := AT_allocate_cell_frame cfg env size s c s1 h1
    refine ⟨c, { s1 with total_nodes := s1.total_nodes + 1 }, ?_, Or.inl ⟨f1, f2⟩⟩
    unfold AT_allocate
    simp only [hge, if_false, h1]

/-- In a release build `aterm_int` returns whenever the bucket of the value exists, the
table can be grown and the free list of the integer size class is not empty. -/
theorem aterm_int_returns (cfg : Config) (env : Env) (v : Int) (s : Store)
    (hnd : cfg.ndebug = true) (hgrow : env.bad_alloc = false) (chain : List Nat)
    (hb : s.hashtable[int_hash cfg v &&& s.table_mask]? = some chain)
    (hfl : (s.terminfo cfg.TERM_SIZE_INT).at_freelist ≠ []) :
    ∃ m s1, aterm_int cfg env v s = .ok (m, s1) := by
  unfold aterm_int
  simp only [hb]
  cases hf : find_int cfg s.mem (int_word v) chain with
  | some cur =>
    simp only []
    unfold aterm_int_finish
    simp [hnd]
  | none =>
    simp only []
    obtain ⟨c, sa, ha, hm⟩ := AT_allocate_returns cfg env _ s hnd hgrow hfl
    rw [ha]
    simp only []
    have hlt : (int_hash cfg v &&& sa.table_mask) < sa.hashtable.length := by
      rcases hm with ⟨h1, h2⟩ | h1
      · rw [h1, h2]
        exact lt_of_getElem? _ _ _ hb
      · exact Nat.lt_of_le_of_lt Nat.and_le_right h1
    have hg : (sa.write c (int_node cfg (int_word v) (sa.mem c))).hashtable[
        int_hash cfg v &&& sa.table_mask]? = some (sa.hashtable[int_hash cfg v &&&
          sa.table_mask]) := List.getElem?_eq_getElem hlt
    rw [hg]
    simp only []
    unfold aterm_int_finish
    simp [hnd]

end atermpp

namespace atermpp

/-- C6. Reference-count exactness for an integer `v` of which the table holds no node,
in a store whose allocator hands the first construction a cell outside the table and
whose free nodes have count 0.  If `n >= 1` constructions `aterm_int(v)` return, they all return one node `c`.
After `k < n` releases of `c` the node is still in the table with count `n - k`.  The
`n` releases return; afterwards `c` is not in the table, it heads the free list of the
integer size class, and `total_nodes` has its initial value.  A further `aterm_int(v)`
finds no node for `v` in its bucket, its node is a cell handed out by `AT_allocate`, and
in a release build it returns whenever the table can be grown. -/
theorem reference_count_exactness (cfg : Config) (s : Store) (v : Int) (env : Nat → Env)
    (n : Nat) (ms : List Nat) (sn : Store) (fuel : Nat)
    (hint : cfg.TERM_SIZE_INT = cfg.ARG_OFFSET + 1)
    (harity : cfg.arity cfg.AS_INT = 0)
    (hel : cfg.AS_INT ≠ cfg.AS_EMPTY_LIST)
    (hn : 1 ≤ n) (hfuel : 1 ≤ fuel)
    (hnew : ∀ b ∈ nodes s, ¬ ((s.mem b).m_function_symbol = cfg.AS_INT ∧
      word_value ((s.mem b).arg 0) = word_value (int_word v)))
    (hfresh : ∀ m sa, AT_allocate cfg (env (n - 1)) cfg.TERM_SIZE_INT s = .ok (m, sa) →
      m ∉ nodes s)
    (hzero : ∀ a ∈ (s.terminfo cfg.TERM_SIZE_INT).at_freelist,
      (s.mem a).reference_count = 0)
    (hcons : aterm_int_n cfg env v n s = .ok (ms, sn)) :
    ∃ c, ms = List.replicate n c ∧ (sn.mem c).reference_count = n ∧
      (∀ k, k < n → ∃ sk, release_n cfg fuel c k sn = .ok sk ∧ c ∈ nodes sk ∧
        (sk.mem c).reference_count = n - k) ∧
      ∃ sF, release_n cfg fuel c n sn = .ok sF ∧ c ∉ nodes sF ∧
        (sF.terminfo cfg.TERM_SIZE_INT).at_freelist.head? = some c ∧
        sF.total_nodes = s.total_nodes ∧
        (∀ chain, sF.hashtable[int_hash cfg v &&& sF.table_mask]? = some chain →
          find_int cfg sF.mem (int_word v) chain = none) ∧
        (∀ e m s1, aterm_int cfg e v sF = .ok (m, s1) →
          ∃ sa, AT_allocate cfg e cfg.TERM_SIZE_INT sF = .ok (m, sa)) ∧
        (cfg.ndebug = true → ∀ e, e.bad_alloc = false →
          ∃ m s1, aterm_int cfg e v sF = .ok (m, s1)) := by
  obtain ⟨j, rfl⟩ : ∃ j, n = j + 1 := ⟨n - 1, by omega⟩
  obtain ⟨f, rfl⟩ : ∃ f, fuel = f + 1 := ⟨fuel - 1, by omega⟩
  rw [aterm_int_n] at hcons
  split at hcons
  · cases hcons
  · rename_i c s1 h1
    -- the first construction is a miss
    rcases aterm_int_cases cfg (env j) v s c s1 h1 with
      ⟨chain, hb, hf, -, -⟩ | ⟨chain, sa, chain1, hb, hf, hal, hb1, hs, -⟩
    · obtain ⟨m1, m2, m3⟩ := find_int_some cfg _ _ _ _ hf
      exact absurd ⟨m2, m3⟩ (hnew c (mem_nodes_of_getElem? s _ chain c hb m1))
    · obtain ⟨a1, a2, -, a4⟩ := AT_allocate_frame cfg (env j) _ s c sa hal
      have hrc0 := AT_allocate_count cfg (env j) _ s c sa hzero hal
      have hcs : c ∉ nodes s := hfresh c sa hal
      have hlt := lt_of_getElem? _ _ _ hb1
      -- the store after the insertion, before the count is raised
      generalize hS : (sa.write c (int_node cfg (int_word v) (sa.mem c))).set_bucket
        (int_hash cfg v &&& sa.table_mask) (c :: chain1) = S at hs
      have hSm : S.table_mask = sa.table_mask := by rw [← hS]; rfl
      have hSh : S.hashtable = sa.hashtable.set (int_hash cfg v &&& sa.table_mask)
          (c :: chain1) := by rw [← hS]; rfl
      have hSt : S.total_nodes = s.total_nodes + 1 := by rw [← hS]; exact a4
      have hSc : S.mem c = int_node cfg (int_word v) (sa.mem c) := by
        rw [← hS]; simp [Store.set_bucket, Store.write]
      have hSo : ∀ b, b ≠ c → S.mem b = s.mem b := by
        intro b hbc
        rw [← hS, ← a2 b hbc]
        simp [Store.set_bucket, Store.write, hbc]
      have hSb : S.hashtable[int_hash cfg v &&& S.table_mask]? = some (c :: chain1) := by
        rw [hSm, hSh]
        simp [hlt]
      have hsym : (S.mem c).m_function_symbol = cfg.AS_INT := by rw [hSc]; rfl
      have harg : (S.mem c).arg 0 = int_word v := by rw [hSc]; simp [int_node]
      have hs1 : s1 = with_count S c 1 := by
        rw [hs, increase_eq_with_count, hSc]
        simp [int_node, hrc0]
      subst hs1
      rw [aterm_int_n_with_count cfg env v S c chain1 hint hSb hsym harg j 1] at hcons
      simp only [Except.ok.injEq, Prod.mk.injEq] at hcons
      obtain ⟨rfl, rfl⟩ := hcons
      have hcS : c ∈ nodes S := mem_nodes_of_getElem? S _ _ c hSb (List.mem_cons_self _ _)
      refine ⟨c, by simp [List.replicate_succ], by simp [with_count, Store.write]; omega, ?_, ?_⟩
      · intro k hk
        refine ⟨with_count S c (j + 1 - k), ?_, hcS, by simp [with_count, Store.write]⟩
        have : 1 + j = (j + 1 - k) + k := by omega
        rw [this]
        exact release_n_with_count cfg f S c k (j + 1 - k) (by omega)
      · have hbk : bucket_of cfg (with_count S c 1) c = int_hash cfg v &&& S.table_mask := by
          unfold bucket_of term_size
          simp only [with_count, Store.write, if_true, hsym]
          rw [hash_number_int cfg _ hint]
          simp [harg, hsym, int_hash]
        have hlast := at_reduce_last cfg f (with_count S c 1) c (c :: chain1) chain1
          (by simp [with_count, Store.write])
          (by simp [with_count, Store.write, hsym, harity])
          (fun _ => by simp [with_count, Store.write, hsym, hel])
          (by rw [hbk]; exact hSb) (by simp [unlink])
        have hrel : release_n cfg (f + 1) c (j + 1) (with_count S c (1 + j)) =
            .ok (released_store cfg (with_count S c 1) c chain1) := by
          rw [release_n_succ, release_n_with_count cfg f S c j 1 (by omega)]
          exact hlast
        have hFh : (released_store cfg (with_count S c 1) c chain1).hashtable =
            sa.hashtable := by
          show (S.hashtable.set (bucket_of cfg (with_count S c 1) c) chain1) = _
          rw [hbk, hSm, hSh]
          exact set_set_getElem? _ _ _ _ hb1
        have hFn : nodes (released_store cfg (with_count S c 1) c chain1) = nodes sa := by
          unfold nodes
          rw [hFh]
        have hFo : ∀ b, b ≠ c →
            (released_store cfg (with_count S c 1) c chain1).mem b = s.mem b := by
          intro b hbc
          rw [← hSo b hbc]
          simp [released_store, with_count, Store.write, hbc]
        have hcF : c ∉ nodes (released_store cfg (with_count S c 1) c chain1) := by
          rw [hFn]
          exact fun hm => hcs (a1.subset hm)
        have hmiss : ∀ chain2,
            (released_store cfg (with_count S c 1) c chain1).hashtable[int_hash cfg v &&&
              (released_store cfg (with_count S c 1) c chain1).table_mask]? = some chain2 →
            find_int cfg (released_store cfg (with_count S c 1) c chain1).mem (int_word v)
              chain2 = none := by
          intro chain2 hc2
          apply find_int_eq_none
          intro b hb2
          have hbn := mem_nodes_of_getElem? _ _ _ b hc2 hb2
          have hbc : b ≠ c := by
            rintro rfl
            exact hcF hbn
          rw [hFo b hbc]
          rw [hFn] at hbn
          exact hnew b (a1.subset hbn)
        refine ⟨_, hrel, hcF, ?_, ?_, hmiss, ?_, ?_⟩
        · have : term_size cfg ((with_count S c 1).mem c) = cfg.TERM_SIZE_INT := by
            simp [term_size, with_count, Store.write, hsym]
          simp [released_store, this]
        · show size_t_dec S.total_nodes = s.total_nodes
          rw [hSt]
          simp [size_t_dec]
        · intro e m s2 h2
          rcases aterm_int_cases cfg e v _ m s2 h2 with
            ⟨chain2, hb2, hf2, -, -⟩ | ⟨chain2, sb, chain3, -, -, hal2, -, -, -⟩
          · rw [hmiss chain2 hb2] at hf2
            cases hf2
          · exact ⟨sb, hal2⟩
        · intro hnd e he
          have hb3 : (released_store cfg (with_count S c 1) c chain1).hashtable[
              int_hash cfg v &&& (released_store cfg (with_count S c 1) c chain1).table_mask]? =
              some chain1 := by
            rw [hFh]
            show sa.hashtable[int_hash cfg v &&& S.table_mask]? = some chain1
            rw [hSm]
            exact hb1
          apply aterm_int_returns cfg e v _ hnd he chain1 hb3
          have : term_size cfg ((with_count S c 1).mem c) = cfg.TERM_SIZE_INT := by
            simp [term_size, with_count, Store.write, hsym]
          simp [released_store, this]

theorem reference_count_exactness_witness :
    aterm_int_n (example_config false) (fun _ => example_env 5000) 9 3 store_with_three =
      .ok ([1008, 1008, 1008], (run ([], store_with_three) (aterm_int_n (example_config false)
        (fun _ => example_env 5000) 9 3 store_with_three)).2) ∧
    ∃ c, [1008, 1008, 1008] = List.replicate 3 c ∧
      ∃ sF, release_n (example_config false) 1 c 3 (run ([], store_with_three)
          (aterm_int_n (example_config false) (fun _ => example_env 5000) 9 3
            store_with_three)).2 = .ok sF ∧
        c ∉ nodes sF ∧ sF.total_nodes = store_with_three.total_nodes :=
  ⟨rfl,
   let ⟨c, h1, _, _, sF, h3, h4, _, h5, _⟩ :=
     reference_count_exactness (example_config false) store_with_three 9
       (fun _ => example_env 5000) 3 [1008, 1008, 1008] _ 1 rfl (by decide) (by decide)
       (by decide) (by decide) (by decide)
       (fun m sa hm => by
         have e : (run (0, store_with_three) (AT_allocate (example_config false)
             (example_env 5000) (example_config false).TERM_SIZE_INT store_with_three)).1 =
             m := by rw [hm]; rfl
         rw [← e]
         decide)
       (by decide) rfl
   ⟨c, h1, sF, h3, h4, h5⟩⟩

end atermpp

namespace atermpp

/-! ## Liveness through the cascade (release build) -/

theorem flatten_set_perm (l : List (List Nat)) (i : Nat) (c c1 : List Nat)
    (h : l[i]? = some c) (hp : c.Perm c1) : (l.set i c1).flatten.Perm l.flatten := by
  induction l generalizing i with
  | nil => simp at h
  | cons x rest ih =>
    cases i with
    | zero =>
      simp only [List.getElem?_cons_zero, Option.some.injEq] at h
      subst h
      simp only [List.set_cons_zero, List.flatten_cons]
      exact hp.symm.append_right _
    | succ i =>
      simp only [List.getElem?_cons_succ] at h
      simp only [List.set_cons_succ, List.flatten_cons]
      exact (ih i h).append_left x

/-- Unlinking a node from its chain removes one occurrence of it from the nodes of the
table. -/
theorem nodes_unlink_perm (s : Store) (i t : Nat) (chain chain1 : List Nat)
    (hb : s.hashtable[i]? = some chain) (hu : unlink t chain = some chain1) :
    (nodes s).Perm (t :: nodes (s.set_bucket i chain1)) := by
  have hlt := lt_of_getElem? _ _ _ hb
  have h1 : (s.hashtable.set i chain1)[i]? = some chain1 := by simp [hlt]
  have h2 := flatten_set_cons (s.hashtable.set i chain1) i t chain1 h1
  rw [List.set_set] at h2
  have h3 := flatten_set_perm s.hashtable i chain (t :: chain1) hb (unlink_perm t chain chain1 hu)
  exact h3.symm.trans h2

theorem inrefs_congr (cfg : Config) (s s1 : Store) (a : Nat)
    (hp : (nodes s1).Perm (nodes s))
    (hf : ∀ b ∈ nodes s, (s1.mem b).m_function_symbol = (s.mem b).m_function_symbol ∧
      (s1.mem b).arg = (s.mem b).arg) :
    inrefs cfg s1 a = inrefs cfg s a := by
  unfold inrefs
  rw [(hp.map _).sum_eq]
  congr 1
  apply List.map_congr_left
  intro b hb
  obtain ⟨e1, e2⟩ := hf b hb
  simp only [arguments, e1, e2]

theorem inrefs_remove (cfg : Config) (s s1 : Store) (t a : Nat)
    (hp : (nodes s).Perm (t :: nodes s1))
    (hf : ∀ b ∈ nodes s1, (s1.mem b).m_function_symbol = (s.mem b).m_function_symbol ∧
      (s1.mem b).arg = (s.mem b).arg) :
    inrefs cfg s a = (arguments cfg (s.mem t)).count a + inrefs cfg s1 a := by
  unfold inrefs
  rw [(hp.map _).sum_eq]
  simp only [List.map_cons, List.sum_cons]
  congr 1
  congr 1
  apply List.map_congr_left
  intro b hb
  obtain ⟨e1, e2⟩ := hf b hb
  simp only [arguments, e1, e2]

/-- Writing a reference count changes no `inrefs`. -/
theorem inrefs_with_count (cfg : Config) (s : Store) (c r a : Nat) :
    inrefs cfg (with_count s c r) a = inrefs cfg s a := by
  apply inrefs_congr cfg s (with_count s c r) a (List.Perm.refl _)
  intro b _
  by_cases hb : b = c <;> simp [with_count, Store.write, hb]

theorem count_le_inrefs (cfg : Config) (s : Store) (b a : Nat) (hb : b ∈ nodes s) :
    (arguments cfg (s.mem b)).count a ≤ inrefs cfg s a := by
  unfold inrefs
  exact List.single_le_sum (fun _ _ => Nat.zero_le _) _
    (List.mem_map.2 ⟨b, hb, rfl⟩)

end atermpp

namespace atermpp

theorem arguments_congr (cfg : Config) (t u : _aterm)
    (h1 : u.m_function_symbol = t.m_function_symbol) (h2 : u.arg = t.arg) :
    arguments cfg u = arguments cfg t := by
  unfold arguments
  rw [h1, h2]

theorem arguments_drop (cfg : Config) (t : _aterm) (i : Nat)
    (h : i < cfg.arity t.m_function_symbol) :
    (arguments cfg t).drop i = t.arg i :: (arguments cfg t).drop (i + 1) := by
  have hl : i < (arguments cfg t).length := by simpa [arguments] using h
  rw [List.drop_eq_getElem_cons hl]
  congr 1
  simp [arguments]

theorem arguments_drop_nil (cfg : Config) (t : _aterm) (i : Nat)
    (h : ¬ i < cfg.arity t.m_function_symbol) : (arguments cfg t).drop i = [] := by
  apply List.drop_eq_nil_of_le
  simp only [arguments, List.length_map, List.length_range]
  omega

/-- A store that differs from one with a release in progress only outside the function
symbols and payloads of the table nodes, and not in the counts, is in the same state of
the release. -/
theorem Releasing.of_frame {cfg : Config} {s s1 : Store} {h : Nat → Nat} {P : List Nat}
    (hinv : Releasing cfg s h P) (hh : s1.hashtable = s.hashtable)
    (hm : s1.table_mask = s.table_mask)
    (hf : ∀ b ∈ nodes s, (s1.mem b).m_function_symbol = (s.mem b).m_function_symbol ∧
      (s1.mem b).arg = (s.mem b).arg)
    (hrc : ∀ a, (s1.mem a).reference_count = (s.mem a).reference_count) :
    Releasing cfg s1 h P := by
  have hn : nodes s1 = nodes s := by unfold nodes; rw [hh]
  have hst : Stable s s1 := ⟨hm, by rw [hh], fun i => by rw [hh], fun a ha => hf a (hn ▸ ha)⟩
  refine ⟨?_, hst.consistent hinv.consistent, ?_, ?_⟩
  · intro a
    rw [hrc a, inrefs_congr cfg s s1 a (by rw [hn]) hf]
    exact hinv.count a
  · intro b hb a ha
    rw [hn] at hb ⊢
    obtain ⟨e1, e2⟩ := hf b hb
    rw [arguments_congr cfg _ _ e1 e2] at ha
    exact hinv.closed b hb a ha
  · intro p hp
    rw [hn]
    exact hinv.pending_mem p hp

end atermpp

namespace atermpp

/-- The store with one reference of `t` less is in the state of the release in which that
reference is no longer pending. -/
theorem Releasing.decrement {cfg : Config} {s : Store} {h : Nat → Nat} {P : List Nat} {t : Nat}
    (hinv : Releasing cfg s h (t :: P)) :
    Releasing cfg (with_count s t ((s.mem t).reference_count - 1)) h P := by
  have hst : Stable s (with_count s t ((s.mem t).reference_count - 1)) :=
    Stable.write_count s t _
  refine ⟨?_, hst.consistent hinv.consistent, ?_, ?_⟩
  · intro a
    rw [inrefs_with_count]
    have := hinv.count a
    by_cases ha : a = t
    · subst ha
      simp only [List.count_cons_self] at this
      simp only [with_count, Store.write, if_true]
      omega
    · have hne : (t == a) = false := by simpa using fun e : t = a => ha e.symm
      simp only [List.count_cons, hne, Bool.false_eq_true, if_false, Nat.add_zero] at this
      simp only [with_count, Store.write, if_neg ha]
      exact this
  · intro b hb a ha
    have e : arguments cfg ((with_count s t ((s.mem t).reference_count - 1)).mem b) =
        arguments cfg (s.mem b) := by
      apply arguments_congr
      · by_cases hbt : b = t <;> simp [with_count, Store.write, hbt]
      · by_cases hbt : b = t <;> simp [with_count, Store.write, hbt]
    rw [e] at ha
    exact hinv.closed b hb a ha
  · intro p hp
    exact hinv.pending_mem p (List.mem_cons_of_mem _ hp)

/-- Taking a node without handles and without references out of the table turns the
references it holds into pending ones. -/
theorem Releasing.remove {cfg : Config} {s s1 : Store} {h : Nat → Nat} {P : List Nat}
    {t : Nat} (hinv : Releasing cfg s h P) (hz : (s.mem t).reference_count = 0)
    (ht : t ∈ nodes s) (hfree : AT_freeTerm cfg t s = .ok s1) :
    Releasing cfg s1 h (arguments cfg (s1.mem t) ++ P) ∧ Stable s s1 ∧ t ∉ nodes s1 ∧
      s1.mem = s.mem := by
  obtain ⟨st, hn1, hmem, -⟩ := AT_freeTerm_stable cfg t s s1 hinv.consistent hfree
  have hcount := hinv.count t
  rw [hz] at hcount
  have hin : inrefs cfg s t = 0 := by omega
  have hP : P.count t = 0 := by omega
  have hperm : (nodes s).Perm (t :: nodes s1) := by
    rcases AT_freeTerm_cases cfg t s s1 hfree with
      ⟨chain, chain1, hb, hu, rfl⟩ | ⟨chain, hb, -, hu, -, -⟩
    · exact nodes_unlink_perm s _ t chain chain1 hb hu
    · exfalso
      have := mem_bucket_of_consistent cfg s hinv.consistent t ht
      rw [getD_of_getElem? _ _ _ _ hb] at this
      exact unlink_none t chain hu this
  have hframe : ∀ b ∈ nodes s,
      (s1.mem b).m_function_symbol = (s.mem b).m_function_symbol ∧
      (s1.mem b).arg = (s.mem b).arg := fun b _ => by rw [hmem]; exact ⟨rfl, rfl⟩
  have hne : ∀ b ∈ nodes s, ∀ a ∈ arguments cfg (s.mem b), a ≠ t := by
    intro b hb a ha hat
    subst hat
    have h1 := count_le_inrefs cfg s b a hb
    have h2 : 0 < (arguments cfg (s.mem b)).count a := List.count_pos_iff.2 ha
    omega
  have hback : ∀ a, a ∈ nodes s → a ≠ t → a ∈ nodes s1 := by
    intro a ha hat
    rcases List.mem_cons.1 (hperm.subset ha) with h1 | h1
    · exact absurd h1 hat
    · exact h1
  refine ⟨⟨?_, st.consistent hinv.consistent, ?_, ?_⟩, st, hn1, hmem⟩
  · intro a
    rw [hmem, List.count_append, hinv.count a,
      inrefs_remove cfg s s1 t a hperm (fun b hb => hframe b (st.nodes_subset b hb))]
    omega
  · intro b hb a ha
    have hb0 := st.nodes_subset b hb
    rw [hmem] at ha
    exact hback a (hinv.closed b hb0 a ha) (hne b hb0 a ha)
  · intro p hp
    rcases List.mem_append.1 hp with h1 | h1
    · rw [hmem] at h1
      exact hback p (hinv.closed t ht p h1) (hne t ht p h1)
    · refine hback p (hinv.pending_mem p h1) ?_
      rintro rfl
      have : 0 < P.count p := List.count_pos_iff.2 h1
      omega

end atermpp

namespace atermpp

/-! ## Liveness and the constructors -/

/-- The count of the cell handed out by `AT_allocate` is 0 or what it was. -/
theorem AT_allocate_count_cell (cfg : Config) (env : Env) (size : Nat) (s : Store) (n : Nat)
    (s2 : Store) (h : AT_allocate cfg env size s = .ok (n, s2)) :
    (s2.mem n).reference_count = 0 ∨
      (s2.mem n).reference_count = (s.mem n).reference_count := by
  obtain ⟨s0, s1, h0, h1, rfl⟩ := AT_allocate_cases cfg env size s n s2 h
  have g : s0.mem = s.mem := by
    rcases h0 with ⟨-, rfl⟩ | ⟨-, hr⟩
    · rfl
    · exact (resize_hashtable_cases cfg env s s0 hr).1
  show (s1.mem n).reference_count = 0 ∨ (s1.mem n).reference_count = _
  rcases AT_allocate_cell_cases cfg env size s0 n s1 h1 with
    ⟨-, hb⟩ | ⟨-, next, hf, hs, -⟩ | ⟨-, -, s3, -, hb⟩
  · have e1 : n = (bump_allocate cfg size s0).1 := congrArg Prod.fst hb
    have e2 : s1 = (bump_allocate cfg size s0).2 := congrArg Prod.snd hb
    rw [e1, e2]
    exact Or.inl (bump_allocate_frame cfg size s0).2.2.2.2.2.2.2.2.1
  · subst hs
    right
    show (s0.mem n).reference_count = _
    rw [g]
  · have e1 : n = (bump_allocate cfg size s3).1 := congrArg Prod.fst hb
    have e2 : s1 = (bump_allocate cfg size s3).2 := congrArg Prod.snd hb
    rw [e1, e2]
    exact Or.inl (bump_allocate_frame cfg size s3).2.2.2.2.2.2.2.2.1

/-- Liveness and closure survive the insertion of a node without arguments, made in a
free cell (not in the table, count 0), to which one handle is handed out. -/
theorem live_insert (cfg : Config) (s s1 : Store) (h : Nat → Nat) (n : Nat)
    (hl : live cfg s h) (hn : n ∉ nodes s) (hz : (s.mem n).reference_count = 0)
    (hp : (nodes s1).Perm (n :: nodes s))
    (hf : ∀ a, a ≠ n → s1.mem a = s.mem a)
    (hargs : arguments cfg (s1.mem n) = [])
    (hone : (s1.mem n).reference_count = 1) :
    live cfg s1 (add_handle h n) ∧ (closed cfg s → closed cfg s1) := by
  have hframe : ∀ b ∈ nodes s, (s.mem b).m_function_symbol = (s1.mem b).m_function_symbol ∧
      (s.mem b).arg = (s1.mem b).arg := by
    intro b hb
    have hbn : b ≠ n := by
      rintro rfl
      exact hn hb
    rw [hf b hbn]
    exact ⟨rfl, rfl⟩
  constructor
  · intro a
    rw [inrefs_remove cfg s1 s n a hp hframe, hargs]
    simp only [List.count_nil, Nat.zero_add]
    by_cases ha : a = n
    · subst ha
      have := hl a
      simp only [add_handle, if_true, hone]
      omega
    · simp only [add_handle, if_neg ha, hf a ha]
      exact hl a
  · intro hc b hb a ha
    rcases List.mem_cons.1 (hp.subset hb) with h1 | h1
    · subst h1
      rw [hargs] at ha
      cases ha
    · obtain ⟨e1, e2⟩ := hframe b h1
      rw [← arguments_congr cfg _ _ e1 e2] at ha
      exact hp.symm.subset (List.mem_cons_of_mem _ (hc b h1 a ha))

/-- Liveness and closure survive a further handle on a node. -/
theorem live_increase (cfg : Config) (s s1 : Store) (h : Nat → Nat) (n : Nat)
    (hl : live cfg s h) (hp : (nodes s1).Perm (nodes s))
    (hf : ∀ a, (s1.mem a).m_function_symbol = (s.mem a).m_function_symbol ∧
      (s1.mem a).arg = (s.mem a).arg)
    (hrc : ∀ a, (s1.mem a).reference_count =
      if a = n then (s.mem a).reference_count + 1 else (s.mem a).reference_count) :
    live cfg s1 (add_handle h n) ∧ (closed cfg s → closed cfg s1) := by
  constructor
  · intro a
    rw [inrefs_congr cfg s s1 a hp (fun b _ => hf b), hrc a]
    have := hl a
    by_cases ha : a = n
    · simp only [add_handle, if_pos ha]
      omega
    · simp only [add_handle, if_neg ha]
      exact this
  · intro hc b hb a ha
    obtain ⟨e1, e2⟩ := hf b
    rw [arguments_congr cfg _ _ e1 e2] at ha
    exact hp.symm.subset (hc b (hp.subset hb) a ha)

end atermpp

namespace atermpp

theorem increase_reference_count_count (n : Nat) (s : Store) (a : Nat) :
    ((increase_reference_count n s).mem a).reference_count =
      if a = n then (s.mem a).reference_count + 1 else (s.mem a).reference_count := by
  unfold increase_reference_count Store.write
  by_cases h : a = n
  · subst h
    simp
  · simp [h]

end atermpp

namespace atermpp

theorem live_store_f_of_x (b : Bool) :
    live (example_config b) store_f_of_x handles_f_of_x := by
  intro a
  by_cases h1 : a = 3001
  · subst h1; cases b <;> decide
  · by_cases h2 : a = 3100
    · subst h2; cases b <;> decide
    · have e1 : (3001 == a) = false := by simpa using fun e : 3001 = a => h1 e.symm
      simp [store_f_of_x, handles_f_of_x, inrefs, nodes, arguments, example_config, h1, h2, e1,
        List.range_succ]

theorem live_store_outside_table :
    live (example_config true) store_outside_table handles_outside_table := by
  intro a
  by_cases h1 : a = 3001
  · subst h1; decide
  · by_cases h2 : a = 3100
    · subst h2; decide
    · simp [store_outside_table, store_f_of_x, handles_outside_table, inrefs, nodes, arguments,
        example_config, h1, h2, List.range_succ]

theorem live_store_counted_cell :
    live (example_config true) store_counted_cell handles_counted_cell := by
  intro a
  by_cases h1 : a = 1000
  · subst h1; decide
  · simp [store_counted_cell, initial_store, Store.write, handles_counted_cell, inrefs, nodes,
      arguments, h1]

end atermpp

namespace atermpp

/-! ## The release of the last reference -/

theorem unlink_split (t : Nat) (l l1 : List Nat) (h : unlink t l = some l1) :
    ∃ pre post, l = pre ++ t :: post ∧ l1 = pre ++ post ∧ t ∉ pre := by
  induction l generalizing l1 with
  | nil => simp [unlink] at h
  | cons c next ih =>
    simp only [unlink] at h
    split at h
    · rename_i hc
      cases h
      subst hc
      exact ⟨[], next, rfl, rfl, by simp⟩
    · rename_i hc
      cases hr : unlink t next with
      | none => simp [hr] at h
      | some r =>
        simp only [hr, Option.map_some', Option.some.injEq] at h
        subst h
        obtain ⟨pre, post, e1, e2, e3⟩ := ih r hr
        refine ⟨c :: pre, post, by rw [e1]; rfl, by rw [e2]; rfl, ?_⟩
        intro hm
        rcases List.mem_cons.1 hm with h1 | h1
        · exact hc h1.symm
        · exact e3 h1

/-- C8 (amended). For every node `t` without arguments (in a debug build not the empty
list) that is in a consistent hash table with `reference_count` 1,
`at_reduce_reference_count(t)` returns and, within that call, sets the count to 0, removes
exactly `t` from the chain of its bucket (the chain was `pre ++ t :: post` and is
`pre ++ post`; the other buckets are unchanged), decrements `total_nodes`, resets the
function symbol of `t` to the default symbol, and makes `t` the head of the free list of
size class `term_size(t)`; no other node and no other size class changes. -/
theorem release_last_reference (cfg : Config) (fuel : Nat) (s : Store) (t : Nat)
    (hfuel : 1 ≤ fuel) (hc : table_consistent cfg s) (ht : t ∈ nodes s)
    (hrc : (s.mem t).reference_count = 1)
    (harity : cfg.arity (s.mem t).m_function_symbol = 0)
    (hel : cfg.ndebug = false → (s.mem t).m_function_symbol ≠ cfg.AS_EMPTY_LIST) :
    ∃ s1 pre post, at_reduce_reference_count cfg fuel t s = .ok s1 ∧
      (s1.mem t).reference_count = 0 ∧
      (s1.mem t).m_function_symbol = cfg.AS_DEFAULT ∧
      (s1.mem t).arg = (s.mem t).arg ∧
      (∀ a, a ≠ t → s1.mem a = s.mem a) ∧
      s.hashtable.getD (bucket_of cfg s t) [] = pre ++ t :: post ∧ t ∉ pre ∧ t ∉ post ∧
      s1.hashtable = s.hashtable.set (bucket_of cfg s t) (pre ++ post) ∧
      (∀ i, i ≠ bucket_of cfg s t → s1.hashtable.getD i [] = s.hashtable.getD i []) ∧
      t ∉ nodes s1 ∧
      s1.total_nodes = size_t_dec s.total_nodes ∧
      (1 ≤ s.total_nodes → s1.total_nodes + 1 = s.total_nodes) ∧
      (s1.terminfo (term_size cfg (s.mem t))).at_freelist =
        t :: (s.terminfo (term_size cfg (s.mem t))).at_freelist ∧
      (s1.terminfo (term_size cfg (s.mem t))).at_block =
        (s.terminfo (term_size cfg (s.mem t))).at_block ∧
      (s1.terminfo (term_size cfg (s.mem t))).top_at_blocks =
        (s.terminfo (term_size cfg (s.mem t))).top_at_blocks ∧
      (∀ size, size ≠ term_size cfg (s.mem t) → s1.terminfo size = s.terminfo size) ∧
      s1.table_mask = s.table_mask ∧ s1.table_size = s.table_size ∧
      s1.table_class = s.table_class := by
  obtain ⟨f, rfl⟩ : ∃ f, fuel = f + 1 := ⟨fuel - 1, by omega⟩
  have hm := mem_bucket_of_consistent cfg s hc t ht
  obtain ⟨i, hi, hmi⟩ := (mem_nodes_iff s t).1 ht
  have hib : i = bucket_of cfg s t := hc.1 i hi t hmi
  have hlt : bucket_of cfg s t < s.hashtable.length := hib ▸ hi
  have hb : s.hashtable[bucket_of cfg s t]? = some (s.hashtable[bucket_of cfg s t]) :=
    List.getElem?_eq_getElem hlt
  rw [getD_of_lt _ _ _ hlt] at hm
  obtain ⟨chain1, hu⟩ := unlink_of_mem t _ hm
  obtain ⟨pre, post, e1, e2, e3⟩ := unlink_split t _ chain1 hu
  have hnd : (s.hashtable[bucket_of cfg s t]).Nodup := hc.2 _ (List.getElem_mem _)
  have e4 : t ∉ post := by
    rw [e1] at hnd
    have := (List.nodup_append.1 hnd).2.1
    exact (List.nodup_cons.1 this).1
  have hrun := at_reduce_last cfg f s t _ chain1 hrc harity hel hb hu
  refine ⟨released_store cfg s t chain1, pre, post, hrun, ?_, ?_, ?_, ?_, ?_, e3, e4, ?_, ?_,
    ?_, rfl, ?_, ?_, ?_, ?_, ?_, rfl, rfl, rfl⟩
  · simp [released_store]
  · simp [released_store]
  · simp [released_store]
  · intro a ha
    simp [released_store, ha]
  · rw [getD_of_lt _ _ _ hlt]
    exact e1
  · rw [← e2]
    rfl
  · intro j hj
    simp only [released_store, getD_set]
    rw [if_neg (fun h => hj h.1.symm)]
  · rw [mem_nodes_iff]
    rintro ⟨j, hj, hmj⟩
    simp only [released_store, getD_set, List.length_set] at hj hmj
    split at hmj
    · rw [e2] at hmj
      rcases List.mem_append.1 hmj with h1 | h1
      · exact e3 h1
      · exact e4 h1
    · rename_i hne
      have := hc.1 j hj t hmj
      exact hne ⟨this.symm, hj⟩
  · intro hpos
    show size_t_dec s.total_nodes + 1 = s.total_nodes
    unfold size_t_dec
    rw [if_neg (by omega)]
    omega
  · simp [released_store]
  · simp [released_store]
  · simp [released_store]
  · intro size hs
    simp [released_store, hs]

end atermpp

namespace atermpp

theorem release_last_reference_witness :
    table_consistent (example_config false) store_with_three ∧
    1004 ∈ nodes store_with_three ∧
    (store_with_three.mem 1004).reference_count = 1 ∧
    ∃ s1, at_reduce_reference_count (example_config false) 1 1004 store_with_three = .ok s1 ∧
      (s1.mem 1004).reference_count = 0 ∧ 1004 ∉ nodes s1 ∧
      s1.total_nodes + 1 = store_with_three.total_nodes :=
  ⟨by decide, by decide, by decide,
   let ⟨s1, _, _, h1, h2, _, _, _, _, _, _, _, _, h3, _, h4, _⟩ :=
     release_last_reference (example_config false) 1 store_with_three 1004 (by decide)
       (by decide) (by decide) (by decide) (by decide) (by decide)
   ⟨s1, h1, h2, h3, h4 (by decide)⟩⟩

/-- C8 as stated fails in two ways.  The release of `f(x)`, a table node with count 1,
also releases its argument: `x` leaves the table as well and `total_nodes` drops from 2 to
0.  In a debug build the release of the empty list, a table node with count 1, leaves it
in the table with its function symbol and off the free list. -/
theorem release_last_reference_fails :
    (table_consistent (example_config true) store_f_of_x ∧
      3100 ∈ nodes store_f_of_x ∧ (store_f_of_x.mem 3100).reference_count = 1 ∧
      store_f_of_x.total_nodes = 2 ∧ 3001 ∈ nodes store_f_of_x ∧
      at_reduce_reference_count (example_config true) 3 3100 store_f_of_x =
        .ok (run store_f_of_x
          (at_reduce_reference_count (example_config true) 3 3100 store_f_of_x)) ∧
      (run store_f_of_x
        (at_reduce_reference_count (example_config true) 3 3100 store_f_of_x)).total_nodes =
        0 ∧
      3001 ∉ nodes (run store_f_of_x
        (at_reduce_reference_count (example_config true) 3 3100 store_f_of_x))) ∧
    (table_consistent (example_config false) store_with_empty_list ∧
      1000 ∈ nodes store_with_empty_list ∧
      (store_with_empty_list.mem 1000).reference_count = 1 ∧
      at_reduce_reference_count (example_config false) 3 1000 store_with_empty_list =
        .ok (run store_with_empty_list
          (at_reduce_reference_count (example_config false) 3 1000 store_with_empty_list)) ∧
      1000 ∈ nodes (run store_with_empty_list
        (at_reduce_reference_count (example_config false) 3 1000 store_with_empty_list)) ∧
      ((run store_with_empty_list
        (at_reduce_reference_count (example_config false) 3 1000
          store_with_empty_list)).mem 1000).m_function_symbol =
        (example_config false).AS_EMPTY_LIST ∧
      ((run store_with_empty_list
        (at_reduce_reference_count (example_config false) 3 1000
          store_with_empty_list)).terminfo 3).at_freelist = []) :=
  ⟨⟨by decide, by decide, by decide, rfl, by decide, rfl, by decide, by decide⟩,
   ⟨by decide, by decide, by decide, rfl, by decide, by decide, by decide⟩⟩

/-- The release of a table node that is not on the chain of the bucket of its hash
throws: the release of the last reference needs a consistent table. -/
theorem release_outside_bucket_throws :
    1000 ∈ nodes store_wrong_bucket ∧
    (store_wrong_bucket.mem 1000).reference_count = 1 ∧
    at_reduce_reference_count (example_config true) 3 1000 store_wrong_bucket =
      .error .runtime_error :=
  ⟨by decide, by decide, rfl⟩

end atermpp

namespace atermpp

/-! ## The count of the node a constructor returns -/

/-- The cell handed out by `AT_allocate` has count 0: the bump allocation clears it, a
debug build asserts it for a cell from the free list, and a release build relies on the
free nodes having count 0. -/
theorem AT_allocate_count_zero (cfg : Config) (env : Env) (size : Nat) (s : Store) (n : Nat)
    (s2 : Store)
    (hzero : cfg.ndebug = true →
      ∀ a ∈ (s.terminfo size).at_freelist, (s.mem a).reference_count = 0)
    (h : AT_allocate cfg env size s = .ok (n, s2)) : (s2.mem n).reference_count = 0 := by
  obtain ⟨s0, s1, h0, h1, rfl⟩ := AT_allocate_cases cfg env size s n s2 h
  have g : s0.mem = s.mem ∧ s0.terminfo = s.terminfo := by
    rcases h0 with ⟨-, rfl⟩ | ⟨-, hr⟩
    · exact ⟨rfl, rfl⟩
    · obtain ⟨r1, r2, -, -⟩ := resize_hashtable_cases cfg env s s0 hr
      exact ⟨r1, r2⟩
  show (s1.mem n).reference_count = 0
  rcases AT_allocate_cell_cases cfg env size s0 n s1 h1 with
    ⟨-, hb⟩ | ⟨-, next, hf, hs, hdbg⟩ | ⟨-, -, s3, -, hb⟩
  · have e1 : n = (bump_allocate cfg size s0).1 := congrArg Prod.fst hb
    have e2 : s1 = (bump_allocate cfg size s0).2 := congrArg Prod.snd hb
    rw [e1, e2]
    exact (bump_allocate_frame cfg size s0).2.2.2.2.2.2.2.2.1
  · subst hs
    show (s0.mem n).reference_count = 0
    cases hd : cfg.ndebug
    · exact hdbg hd
    · rw [g.1]
      apply hzero hd
      rw [← g.2, hf]
      exact List.mem_cons_self _ _
  · have e1 : n = (bump_allocate cfg size s3).1 := congrArg Prod.fst hb
    have e2 : s1 = (bump_allocate cfg size s3).2 := congrArg Prod.snd hb
    rw [e1, e2]
    exact (bump_allocate_frame cfg size s3).2.2.2.2.2.2.2.2.1

/-- C9. The count of the node a constructor returns.  On a miss (the search of the bucket
finds no node) the node returned by `aterm_int(v)` or `aterm(sym)` has `reference_count`
exactly 1, whether its cell came from a new block, from the current block or from the
free list, whose nodes have count 0 (asserted in a debug build).  On a hit the count of
the returned node is one more than before the call and no other node changes. -/
theorem constructor_reference_count (cfg : Config) (s : Store) (env : Env) (n : Nat)
    (s1 : Store) :
    (∀ v chain, s.hashtable[int_hash cfg v &&& s.table_mask]? = some chain →
      aterm_int cfg env v s = .ok (n, s1) →
      (find_int cfg s.mem (int_word v) chain = none →
        (cfg.ndebug = true → ∀ a ∈ (s.terminfo cfg.TERM_SIZE_INT).at_freelist,
          (s.mem a).reference_count = 0) →
        (s1.mem n).reference_count = 1) ∧
      (find_int cfg s.mem (int_word v) chain ≠ none →
        (s1.mem n).reference_count = (s.mem n).reference_count + 1 ∧
        ∀ a, a ≠ n → s1.mem a = s.mem a)) ∧
    (∀ sym chain, s.hashtable[cfg.FINISH (cfg.START sym) &&& s.table_mask]? = some chain →
      aterm cfg env sym s = .ok (n, s1) →
      (find_symbol s.mem sym chain = none →
        (cfg.ndebug = true → ∀ a ∈ (s.terminfo (cfg.TERM_SIZE_APPL 0)).at_freelist,
          (s.mem a).reference_count = 0) →
        (s1.mem n).reference_count = 1) ∧
      (find_symbol s.mem sym chain ≠ none →
        (s1.mem n).reference_count = (s.mem n).reference_count + 1 ∧
        ∀ a, a ≠ n → s1.mem a = s.mem a)) := by
  constructor
  · intro v chain hb hrun
    rcases aterm_int_cases cfg env v s n s1 hrun with
      ⟨chain2, hb2, hf, hs, -⟩ | ⟨chain2, sa, chain1, hb2, hf, hal, hb1, hs, -⟩
    · rw [hb] at hb2
      cases hb2
      refine ⟨fun hnone => (by rw [hnone] at hf; cases hf), fun _ => ?_⟩
      subst hs
      refine ⟨?_, ?_⟩
      · simp [increase_reference_count, Store.write]
      · intro a ha
        simp [increase_reference_count, Store.write, ha]
    · rw [hb] at hb2
      cases hb2
      refine ⟨fun _ hzero => ?_, fun hsome => absurd hf hsome⟩
      have := AT_allocate_count_zero cfg env _ s n sa hzero hal
      subst hs
      simp [increase_reference_count, Store.write, Store.set_bucket, int_node, this]
  · intro sym chain hb hrun
    obtain ⟨-, hcases⟩ := aterm_cases cfg env sym s n s1 hrun
    rcases hcases with
      ⟨chain2, others, hb2, hf, hs⟩ | ⟨chain2, sa, chain1, hb2, hf, hal, hb1, hs⟩
    · rw [hb] at hb2
      cases hb2
      refine ⟨fun hnone => (by rw [hnone] at hf; cases hf), fun _ => ?_⟩
      subst hs
      refine ⟨?_, ?_⟩
      · simp [increase_reference_count, Store.write, Store.set_bucket]
      · intro a ha
        simp [increase_reference_count, Store.write, Store.set_bucket, ha]
    · rw [hb] at hb2
      cases hb2
      refine ⟨fun _ hzero => ?_, fun hsome => absurd hf hsome⟩
      have := AT_allocate_count_zero cfg env _ s n sa hzero hal
      subst hs
      simp [increase_reference_count, Store.write, Store.set_bucket, this]

end atermpp

namespace atermpp

theorem constructor_reference_count_witness :
    ((run (0, store_free_cell)
      (aterm_int (example_config true) (example_env 4000) 9 store_free_cell)).2.mem
        2000).reference_count = 1 ∧
    ((run (0, store_free_cell)
      (aterm_int (example_config true) (example_env 4000) 5 store_free_cell)).2.mem
        1000).reference_count = (store_free_cell.mem 1000).reference_count + 1 ∧
    ((run (0, store_free_cell)
      (aterm (example_config true) (example_env 4000) 6 store_free_cell)).2.mem
        3003).reference_count = 1 ∧
    ((run (0, store_free_cell)
      (aterm (example_config true) (example_env 4000) 4 store_free_cell)).2.mem
        3000).reference_count = (store_free_cell.mem 3000).reference_count + 1 :=
  ⟨((constructor_reference_count (example_config true) store_free_cell (example_env 4000)
      2000 _).1 9 [1000] rfl rfl).1 rfl (fun _ => by decide),
   (((constructor_reference_count (example_config true) store_free_cell (example_env 4000)
      1000 _).1 5 [1000] rfl rfl).2 (by decide)).1,
   ((constructor_reference_count (example_config true) store_free_cell (example_env 4000)
      3003 _).2 6 [] rfl rfl).1 rfl (fun _ => by decide),
   (((constructor_reference_count (example_config true) store_free_cell (example_env 4000)
      3000 _).2 4 [3000, 1004] rfl rfl).2 (by decide)).1⟩

end atermpp

namespace atermpp

/-! ## The node of an integer -/

theorem int_value_int_word (v : Int) (hv : is_int v) : int_value (int_word v) = v := by
  unfold int_value word_value int_word
  unfold is_int at hv
  split <;> omega

theorem int_value_congr (a b : Nat) (h : word_value a = word_value b) :
    int_value a = int_value b := by
  unfold int_value
  rw [h]

/-- The node `aterm_int` returns is in the table, carries `AS_INT` and stores the value;
on a miss the word written is the zero-extended value, on a hit the node had symbol and
value before the call. -/
theorem aterm_int_node (cfg : Config) (env : Env) (v : Int) (s : Store) (n : Nat)
    (s1 : Store) (hrun : aterm_int cfg env v s = .ok (n, s1)) :
    (s1.mem n).m_function_symbol = cfg.AS_INT ∧
    word_value ((s1.mem n).arg 0) = word_value (int_word v) ∧ n ∈ nodes s1 ∧
    ((∀ chain, s.hashtable[int_hash cfg v &&& s.table_mask]? = some chain →
        find_int cfg s.mem (int_word v) chain = none) → (s1.mem n).arg 0 = int_word v) ∧
    ((∃ chain, s.hashtable[int_hash cfg v &&& s.table_mask]? = some chain ∧
        find_int cfg s.mem (int_word v) chain ≠ none) →
      (s.mem n).m_function_symbol = cfg.AS_INT ∧
      word_value ((s.mem n).arg 0) = word_value (int_word v)) := by
  rcases aterm_int_cases cfg env v s n s1 hrun with
    ⟨chain, hb, hf, hs, -⟩ | ⟨chain, sa, chain1, hb, hf, hal, hb1, hs, -⟩
  · obtain ⟨m1, m2, m3⟩ := find_int_some cfg _ _ _ _ hf
    have e := increase_reference_count_mem n s n
    subst hs
    refine ⟨e.1.trans m2, by rw [e.2]; exact m3, ?_, ?_, fun _ => ⟨m2, m3⟩⟩
    · exact mem_nodes_of_getElem? s _ chain n hb m1
    · intro hnone
      rw [hnone chain hb] at hf
      cases hf
  · have hlt := lt_of_getElem? _ _ _ hb1
    subst hs
    refine ⟨?_, ?_, ?_, fun _ => ?_, ?_⟩
    · simp [increase_reference_count, Store.write, Store.set_bucket, int_node]
    · simp [increase_reference_count, Store.write, Store.set_bucket, int_node]
    · apply mem_nodes_of_getElem? _ (int_hash cfg v &&& sa.table_mask) (n :: chain1) n
      · simp [increase_reference_count, Store.write, Store.set_bucket, hlt]
      · exact List.mem_cons_self _ _
    · simp [increase_reference_count, Store.write, Store.set_bucket, int_node]
    · rintro ⟨chain2, hb2, hne⟩
      rw [hb] at hb2
      cases hb2
      exact absurd hf hne

/-- The construction of an integer changes the function symbol and the payload of no
node but a newly allocated one. -/
theorem aterm_int_keeps (cfg : Config) (env : Env) (w : Int) (s : Store) (m : Nat)
    (s1 : Store) (hrun : aterm_int cfg env w s = .ok (m, s1)) (a : Nat)
    (ha : a ≠ m ∨ ∃ chain, s.hashtable[int_hash cfg w &&& s.table_mask]? = some chain ∧
      find_int cfg s.mem (int_word w) chain ≠ none) :
    (s1.mem a).m_function_symbol = (s.mem a).m_function_symbol ∧
    (s1.mem a).arg = (s.mem a).arg := by
  rcases aterm_int_cases cfg env w s m s1 hrun with
    ⟨chain, hb, hf, hs, -⟩ | ⟨chain, sa, chain1, hb, hf, hal, hb1, hs, -⟩
  · subst hs
    have := increase_reference_count_mem m s a
    exact ⟨this.1, this.2⟩
  · have hne : a ≠ m := by
      rcases ha with h1 | ⟨chain2, hb2, h2⟩
      · exact h1
      · rw [hb] at hb2
        cases hb2
        exact absurd hf h2
    obtain ⟨-, a2, -, -⟩ := AT_allocate_frame cfg env _ s m sa hal
    subst hs
    simp only [increase_reference_count, Store.write, Store.set_bucket, if_neg hne]
    rw [a2 a hne]
    exact ⟨rfl, rfl⟩

/-- C10. For every `int` `v`, the node returned by `aterm_int(v)` has function symbol
`AS_INT` and stored value `v`: on a miss the word written is `v` with the remaining bits
of the machine word zero, on a hit the matched node already stores `v`.  Hence the node
returned by a following `aterm_int(w)` with `w != v` is a different node, and afterwards
the two nodes store `v` and `w` (the cell handed out by `AT_allocate` not being a node of
the table). -/
theorem aterm_int_value (cfg : Config) (env : Env) (v : Int) (s : Store) (n : Nat)
    (s1 : Store) (hv : is_int v) (hrun : aterm_int cfg env v s = .ok (n, s1)) :
    (s1.mem n).m_function_symbol = cfg.AS_INT ∧ int_value ((s1.mem n).arg 0) = v ∧
    ((∀ chain, s.hashtable[int_hash cfg v &&& s.table_mask]? = some chain →
        find_int cfg s.mem (int_word v) chain = none) →
      (s1.mem n).arg 0 = int_word v ∧ int_word v < 4294967296) ∧
    ((∃ chain, s.hashtable[int_hash cfg v &&& s.table_mask]? = some chain ∧
        find_int cfg s.mem (int_word v) chain ≠ none) →
      (s.mem n).m_function_symbol = cfg.AS_INT ∧ int_value ((s.mem n).arg 0) = v) ∧
    (∀ env1 w m s2, is_int w → w ≠ v →
      (∀ c sa, AT_allocate cfg env1 cfg.TERM_SIZE_INT s1 = .ok (c, sa) → c ∉ nodes s1) →
      aterm_int cfg env1 w s1 = .ok (m, s2) →
      m ≠ n ∧ (s2.mem n).m_function_symbol = cfg.AS_INT ∧
      int_value ((s2.mem n).arg 0) = v ∧ (s2.mem m).m_function_symbol = cfg.AS_INT ∧
      int_value ((s2.mem m).arg 0) = w) := by
  obtain ⟨n1, n2, n3, n4, n5⟩ := aterm_int_node cfg env v s n s1 hrun
  have hval : int_value ((s1.mem n).arg 0) = v := by
    rw [int_value_congr _ _ n2]
    exact int_value_int_word v hv
  refine ⟨n1, hval, fun h => ⟨n4 h, int_word_lt v⟩, ?_, ?_⟩
  · intro h
    obtain ⟨e1, e2⟩ := n5 h
    refine ⟨e1, ?_⟩
    rw [int_value_congr _ _ e2]
    exact int_value_int_word v hv
  · intro env1 w m s2 hw hne hfresh hrun2
    obtain ⟨m1, m2, m3, m4, m5⟩ := aterm_int_node cfg env1 w s1 m s2 hrun2
    have hmval : int_value ((s2.mem m).arg 0) = w := by
      rw [int_value_congr _ _ m2]
      exact int_value_int_word w hw
    have hmn : m ≠ n := by
      rcases aterm_int_cases cfg env1 w s1 m s2 hrun2 with
        ⟨chain, hb, hf, -, -⟩ | ⟨chain, sa, chain1, -, -, hal, -, -, -⟩
      · obtain ⟨-, e2⟩ := m5 ⟨chain, hb, by rw [hf]; simp⟩
        rintro rfl
        apply hne
        rw [← int_value_int_word w hw, ← int_value_congr _ _ e2, hval]
      · rintro rfl
        exact hfresh m sa hal n3
    obtain ⟨k1, k2⟩ := aterm_int_keeps cfg env1 w s1 m s2 hrun2 n (Or.inl hmn.symm)
    exact ⟨hmn, k1.trans n1, by rw [k2]; exact hval, m1, hmval⟩

theorem aterm_int_value_witness :
    is_int (-1) ∧
    ((run (0, store_with_three)
      (aterm_int (example_config true) (example_env 4000) (-1) store_with_three)).2.mem
        1008).arg 0 = 4294967295 ∧
    int_value (((run (0, store_with_three)
      (aterm_int (example_config true) (example_env 4000) (-1) store_with_three)).2.mem
        1008).arg 0) = -1 ∧
    (1000 : Nat) ≠ 1008 :=
  have h := aterm_int_value (example_config true) (example_env 4000) (-1) store_with_three
    1008 (run (0, store_with_three)
      (aterm_int (example_config true) (example_env 4000) (-1) store_with_three)).2
    (by decide) (by rfl)
  ⟨by decide, (h.2.2.1 (fun chain hc => by
      have e : chain = [] := by
        have : store_with_three.hashtable[int_hash (example_config true) (-1) &&&
          store_with_three.table_mask]? = some [] := rfl
        rw [this] at hc
        exact (Option.some.inj hc).symm
      subst e
      rfl)).1.trans (by decide),
   h.2.1,
   (h.2.2.2.2 (example_env 4000) 5 1000 _ (by decide) (by decide)
      (fun c sa hc => by
        have e : (run (0, store_with_three) (AT_allocate (example_config true)
            (example_env 4000) (example_config true).TERM_SIZE_INT
            (run (0, store_with_three) (aterm_int (example_config true) (example_env 4000)
              (-1) store_with_three)).2)).1 = c := by rw [hc]; rfl
        rw [← e]
        decide) rfl).1⟩

end atermpp

namespace atermpp

/-! ## The order in which `AT_allocate` chooses its cell -/

/-- The store in which `AT_allocate` chooses its cell has the allocator, the memory and
the node count of the store on entry: the growth of the table touches none of them. -/
theorem AT_allocate_entry (cfg : Config) (env : Env) (s s0 : Store)
    (hpre : (if s.total_nodes ≥ s.table_size then resize_hashtable cfg env s else .ok s)
      = .ok s0) :
    s0.terminfo = s.terminfo ∧ s0.mem = s.mem ∧ s0.total_nodes = s.total_nodes := by
  split at hpre
  · obtain ⟨r1, r2, r3, -⟩ := resize_hashtable_cases cfg env s s0 hpre
    exact ⟨r2, r1, r3⟩
  · cases hpre
    exact ⟨rfl, rfl, rfl⟩

/-- `AT_allocate` returns the cell chosen in the store after the growth of the table, and
counts it. -/
theorem AT_allocate_of_cell (cfg : Config) (env : Env) (size : Nat) (s s0 : Store)
    (hpre : (if s.total_nodes ≥ s.table_size then resize_hashtable cfg env s else .ok s)
      = .ok s0) (n : Nat) (s1 : Store)
    (hc : AT_allocate_cell cfg env size s0 = .ok (n, s1)) :
    AT_allocate cfg env size s = .ok (n, { s1 with total_nodes := s1.total_nodes + 1 }) := by
  rw [AT_allocate, hpre]
  simp only [hc]

/-- When the current block of the size class has no room, `AT_allocate` goes to the free
list, and to `allocate_block` when that is empty. -/
theorem AT_allocate_cell_no_room (cfg : Config) (env : Env) (size : Nat) (s : Store)
    (hroom : ¬ ∃ b, (s.terminfo size).at_block.head? = some b ∧
      (s.terminfo size).top_at_blocks < b.end_) :
    AT_allocate_cell cfg env size s =
      match (s.terminfo size).at_freelist with
      | at_ :: next =>
        if !cfg.ndebug && (s.terminfo size).at_block = [] then .error .assertion_failed
        else if !cfg.ndebug && (s.terminfo size).at_block.head?.map Block.end_ ≠
            some (s.terminfo size).top_at_blocks then
          .error .assertion_failed
        else if !cfg.ndebug && (s.mem at_).reference_count ≠ 0 then .error .assertion_failed
        else .ok (at_, s.set_terminfo size { s.terminfo size with at_freelist := next })
      | [] =>
        match allocate_block cfg env size s with
        | .error e => .error e
        | .ok s1 => .ok (bump_allocate cfg size s1) := by
  unfold AT_allocate_cell
  simp only []
  split
  · rename_i h
    exfalso
    split at h
    · rename_i b hb
      exact hroom ⟨b, hb, of_decide_eq_true h⟩
    · cases h
  · rfl

/-- C11 (amended). `AT_allocate(size)` chooses its cell in this order, in every store in
which the growth of the table, when it is tried, returns.  If the size class has a current block and
`top_at_blocks` is below its end, the cell is the one at `top_at_blocks` and the pointer
advances by `size`.  Otherwise, if the free list of the class is not empty, the cell is
its head and the list becomes its tail (a debug build asserts here that the class has a
block, that the bump pointer is at its end and that the count of the cell is 0).
Otherwise, when `calloc` gives a block and `size` is not 0 (and, in a debug build,
`size >= MIN_TERM_SIZE`), the block is linked in front of the blocks of the class and the
cell is its first one.  In each of these cases `AT_allocate` returns, the other size
classes keep their entry and `total_nodes` is one more than before.  For the size 0
`allocate_block` divides by zero when it computes the end of the new block, and
`AT_allocate` does not return. -/
theorem AT_allocate_order (cfg : Config) (env : Env) (size : Nat) (s s0 : Store)
    (hpre : (if s.total_nodes ≥ s.table_size then resize_hashtable cfg env s else .ok s)
      = .ok s0) :
    (∀ b, (s.terminfo size).at_block.head? = some b →
      (s.terminfo size).top_at_blocks < b.end_ →
      ∃ s2, AT_allocate cfg env size s = .ok ((s.terminfo size).top_at_blocks, s2) ∧
        s2.terminfo size = { s.terminfo size with
          top_at_blocks := (s.terminfo size).top_at_blocks + size } ∧
        (∀ c, c ≠ size → s2.terminfo c = s.terminfo c) ∧
        s2.total_nodes = s.total_nodes + 1) ∧
    ((¬ ∃ b, (s.terminfo size).at_block.head? = some b ∧
        (s.terminfo size).top_at_blocks < b.end_) →
      ∀ at_ next, (s.terminfo size).at_freelist = at_ :: next →
      (cfg.ndebug = false → (s.terminfo size).at_block ≠ [] ∧
        (s.terminfo size).at_block.head?.map Block.end_ = some (s.terminfo size).top_at_blocks ∧
        (s.mem at_).reference_count = 0) →
      ∃ s2, AT_allocate cfg env size s = .ok (at_, s2) ∧
        s2.terminfo size = { s.terminfo size with at_freelist := next } ∧
        (∀ c, c ≠ size → s2.terminfo c = s.terminfo c) ∧
        s2.total_nodes = s.total_nodes + 1) ∧
    ((¬ ∃ b, (s.terminfo size).at_block.head? = some b ∧
        (s.terminfo size).top_at_blocks < b.end_) →
      (s.terminfo size).at_freelist = [] →
      ∀ data, env.calloc = some data → 0 < size →
      (cfg.ndebug = false → cfg.MIN_TERM_SIZE ≤ size) →
      ∃ s2, AT_allocate cfg env size s = .ok (data, s2) ∧
        s2.terminfo size =
          { at_block := { data := data,
                          end_ := data + (cfg.BLOCK_SIZE - cfg.BLOCK_SIZE % size),
                          size := size } :: (s.terminfo size).at_block,
            top_at_blocks := data + size,
            at_freelist := [] } ∧
        (∀ c, c ≠ size → s2.terminfo c = s.terminfo c) ∧
        s2.total_nodes = s.total_nodes + 1) ∧
    ((¬ ∃ b, (s.terminfo size).at_block.head? = some b ∧
        (s.terminfo size).top_at_blocks < b.end_) →
      (s.terminfo size).at_freelist = [] → size = 0 →
      (cfg.ndebug = false → cfg.MIN_TERM_SIZE = 0) →
      AT_allocate cfg env size s = .error .division_by_zero) := by
  obtain ⟨e1, e2, e3⟩ := AT_allocate_entry cfg env s s0 hpre
  have hA := AT_allocate_of_cell cfg env size s s0 hpre
  rw [← e1, ← e2, ← e3]
  refine ⟨?_, ?_, ?_, ?_⟩
  · intro b hb hlt
    have hc : AT_allocate_cell cfg env size s0 =
        .ok ((bump_allocate cfg size s0).1, (bump_allocate cfg size s0).2) := by
      unfold AT_allocate_cell
      simp only [hb, hlt, decide_True, if_true]
    refine ⟨_, hA _ _ hc, ?_, ?_, ?_⟩
    · simp [bump_allocate, Store.write, Store.set_terminfo]
    · intro c hc
      simp [bump_allocate, Store.write, Store.set_terminfo, hc]
    · simp [bump_allocate, Store.write, Store.set_terminfo]
  · intro hroom at_ next hfl hd
    have hc : AT_allocate_cell cfg env size s0 =
        .ok (at_, s0.set_terminfo size { s0.terminfo size with at_freelist := next }) := by
      rw [AT_allocate_cell_no_room cfg env size s0 hroom]
      simp only [hfl]
      cases hn : cfg.ndebug with
      | true => simp
      | false =>
        obtain ⟨d1, d2, d3⟩ := hd hn
        simp [d1, d2, d3]
    refine ⟨_, hA _ _ hc, ?_, ?_, ?_⟩
    · simp [Store.set_terminfo]
    · intro c hc
      simp [Store.set_terminfo, hc]
    · simp [Store.set_terminfo]
  · intro hroom hfl data hcal hpos hd
    have h0 : size ≠ 0 := Nat.pos_iff_ne_zero.1 hpos
    have hb : allocate_block cfg env size s0 = .ok (s0.set_terminfo size
        { s0.terminfo size with
          at_block := { data := data,
                        end_ := data + (cfg.BLOCK_SIZE - cfg.BLOCK_SIZE % size),
                        size := size } :: (s0.terminfo size).at_block,
          top_at_blocks := data }) := by
      unfold allocate_block
      cases hn : cfg.ndebug with
      | true => simp [hcal, h0]
      | false =>
        have := hd hn
        simp [hcal, hfl, this, h0]
    have hc : AT_allocate_cell cfg env size s0 = .ok
        ((bump_allocate cfg size (s0.set_terminfo size
          { s0.terminfo size with
            at_block := { data := data,
                          end_ := data + (cfg.BLOCK_SIZE - cfg.BLOCK_SIZE % size),
                          size := size } :: (s0.terminfo size).at_block,
            top_at_blocks := data })).1,
         (bump_allocate cfg size (s0.set_terminfo size
          { s0.terminfo size with
            at_block := { data := data,
                          end_ := data + (cfg.BLOCK_SIZE - cfg.BLOCK_SIZE % size),
                          size := size } :: (s0.terminfo size).at_block,
            top_at_blocks := data })).2) := by
      rw [AT_allocate_cell_no_room cfg env size s0 hroom]
      simp only [hfl, hb]
    have hfst : (bump_allocate cfg size (s0.set_terminfo size
          { s0.terminfo size with
            at_block := { data := data,
                          end_ := data + (cfg.BLOCK_SIZE - cfg.BLOCK_SIZE % size),
                          size := size } :: (s0.terminfo size).at_block,
            top_at_blocks := data })).1 = data := by
      simp [bump_allocate, Store.set_terminfo]
    rw [hfst] at hc
    refine ⟨_, hA _ _ hc, ?_, ?_, ?_⟩
    · simp [bump_allocate, Store.write, Store.set_terminfo, hfl]
    · intro c hc
      simp [bump_allocate, Store.write, Store.set_terminfo, hc]
    · simp [bump_allocate, Store.write, Store.set_terminfo]
  · intro hroom hfl hz hmin
    have hb : allocate_block cfg env size s0 = .error .division_by_zero := by
      unfold allocate_block
      cases hn : cfg.ndebug with
      | true => simp [hz]
      | false => simp [hz, hmin hn]
    have hc : AT_allocate_cell cfg env size s0 = .error .division_by_zero := by
      rw [AT_allocate_cell_no_room cfg env size s0 hroom]
      simp only [hfl, hb]
    unfold AT_allocate
    rw [hpre]
    simp only [hc]

theorem AT_allocate_order_witness :
    (∃ s2, AT_allocate (example_config false) (example_env 4000) 4 store_with_5
        = .ok (1004, s2) ∧
      s2.terminfo 4 = { store_with_5.terminfo 4 with top_at_blocks := 1008 } ∧
      (∀ c, c ≠ 4 → s2.terminfo c = store_with_5.terminfo c) ∧ s2.total_nodes = 2) ∧
    (∃ s2, AT_allocate (example_config true) (example_env 4000) 4 store_free_cell
        = .ok (2000, s2) ∧
      s2.terminfo 4 = { store_free_cell.terminfo 4 with at_freelist := [] } ∧
      (∀ c, c ≠ 4 → s2.terminfo c = store_free_cell.terminfo c) ∧ s2.total_nodes = 4) ∧
    (∃ s2, AT_allocate (example_config false) (example_env 4000) 4 (initial_store 2)
        = .ok (4000, s2) ∧
      s2.terminfo 4 = { at_block := [{ data := 4000, end_ := 12192, size := 4 }],
                        top_at_blocks := 4004, at_freelist := [] } ∧
      (∀ c, c ≠ 4 → s2.terminfo c = (initial_store 2).terminfo c) ∧ s2.total_nodes = 1) ∧
    AT_allocate (example_config true) (example_env 4000) 0 (initial_store 2)
      = .error .division_by_zero :=
  ⟨(AT_allocate_order (example_config false) (example_env 4000) 4 store_with_5 store_with_5
      rfl).1 { data := 1000, end_ := 9192, size := 4 } rfl (by decide),
   (AT_allocate_order (example_config true) (example_env 4000) 4 store_free_cell
      store_free_cell rfl).2.1 (by decide) 2000 [] rfl (fun h => absurd h (by decide)),
   (AT_allocate_order (example_config false) (example_env 4000) 4 (initial_store 2)
      (initial_store 2) rfl).2.2.1 (by decide) rfl 4000 rfl (by decide) (fun _ => by decide),
   (AT_allocate_order (example_config true) (example_env 4000) 0 (initial_store 2)
      (initial_store 2) rfl).2.2.2 (by decide) rfl rfl (fun h => absurd h (by decide))⟩

/-- C11 as stated fails for sizes below the sizes of the nodes.  In a release build
`AT_allocate(0)` in the initial store, where the size class has neither a block nor a free
node, does not return the first cell of a new block: `allocate_block` divides by zero when
it computes the end of the block, its assertion `size >= MIN_TERM_SIZE` being compiled
out.  In a debug build `AT_allocate(2)`, with `MIN_TERM_SIZE` 3, fails that assertion. -/
theorem AT_allocate_fails_for_small_sizes :
    (¬ ∃ b, ((initial_store 2).terminfo 0).at_block.head? = some b ∧
      ((initial_store 2).terminfo 0).top_at_blocks < b.end_) ∧
    ((initial_store 2).terminfo 0).at_freelist = [] ∧
    AT_allocate (example_config true) (example_env 4000) 0 (initial_store 2)
      = .error .division_by_zero ∧
    (example_config false).MIN_TERM_SIZE = 3 ∧
    AT_allocate (example_config false) (example_env 4000) 2 (initial_store 2)
      = .error .assertion_failed :=
  ⟨by decide, rfl, rfl, rfl, rfl⟩

end atermpp

namespace atermpp

/-! ## Relations kept by every step of a release -/

theorem assign_default_aterm_steps (R : Store → Store → Prop) (hR : ReleaseSteps R)
    (cfg : Config) (reduce : Nat → Store → Except Fault Store)
    (hr : ∀ a s s1, reduce a s = .ok s1 → R s s1) (t i : Nat) (s s1 : Store)
    (h : assign_default_aterm cfg reduce t i s = .ok s1) : R s s1 := by
  unfold assign_default_aterm at h
  simp only [] at h
  split at h
  · cases h
  · rename_i s3 h3
    have r2 : R s (increase_reference_count cfg.default_aterm
        (increase_reference_count cfg.default_aterm s)) :=
      hR.trans _ _ _ (hR.write _ _ _) (hR.write _ _ _)
    have r3 := hR.trans _ _ _ r2 (hr _ _ _ h3)
    have r4 := hR.trans _ _ _ r3 (hR.write s3 t { s3.mem t with
      arg := fun j => if j = i then cfg.default_aterm else (s3.mem t).arg j })
    exact hR.trans _ _ _ r4 (hr _ _ _ h)

theorem free_arguments_steps (R : Store → Store → Prop) (hR : ReleaseSteps R)
    (cfg : Config) (reduce : Nat → Store → Except Fault Store)
    (hr : ∀ a s s1, reduce a s = .ok s1 → R s s1) (t n i : Nat) (s s1 : Store)
    (h : free_arguments cfg reduce t n i s = .ok s1) : R s s1 := by
  induction n generalizing i s with
  | zero =>
    unfold free_arguments at h
    split at h
    · cases h
    · cases h
      exact hR.refl _
  | succ n ih =>
    unfold free_arguments at h
    split at h
    · simp only [] at h
      split at h
      · cases h
      · rename_i s2 h2
        have st : R s s2 := by
          cases hn : cfg.ndebug
          · rw [hn] at h2
            exact assign_default_aterm_steps R hR cfg reduce hr t i s s2 h2
          · rw [hn] at h2
            exact hr _ _ _ h2
        exact hR.trans _ _ _ st (ih (i + 1) s2 h)
    · cases h
      exact hR.refl _

theorem AT_freeTerm_steps (R : Store → Store → Prop) (hR : ReleaseSteps R)
    (cfg : Config) (t : Nat) (s s1 : Store) (h : AT_freeTerm cfg t s = .ok s1) : R s s1 := by
  rcases AT_freeTerm_cases cfg t s s1 h with ⟨chain, chain1, -, -, hs⟩ | ⟨chain, -, -, -, -, hs⟩
  · rw [hs]
    exact hR.unlink _ _ _
  · rw [hs]
    exact hR.refl _

theorem at_free_term_body_steps (R : Store → Store → Prop) (hR : ReleaseSteps R)
    (cfg : Config) (reduce : Nat → Store → Except Fault Store)
    (hr : ∀ a s s1, reduce a s = .ok s1 → R s s1) (n t : Nat) (s s1 : Store)
    (h : at_free_term_body cfg reduce n t s = .ok s1) : R s s1 := by
  unfold at_free_term_body at h
  split at h
  · cases h
    exact hR.refl _
  · split at h
    · cases h
    · simp only [] at h
      split at h
      · cases h
      · rename_i sa ha
        split at h
        · cases h
        · rename_i sb hb
          cases h
          have r1 := AT_freeTerm_steps R hR cfg t s sa ha
          have r2 := free_arguments_steps R hR cfg reduce hr t n 0 sa sb hb
          have r3 := hR.trans _ _ _ (hR.trans _ _ _ r1 r2) (hR.write sb t
            { sb.mem t with m_function_symbol := cfg.AS_DEFAULT })
          exact hR.trans _ _ _ r3 (hR.push _ _ _)

/-- A relation kept by every elementary step of a release is kept by
`at_reduce_reference_count`, whatever the cascade frees. -/
theorem at_reduce_reference_count_steps (R : Store → Store → Prop) (hR : ReleaseSteps R)
    (cfg : Config) (fuel t : Nat) (s s1 : Store)
    (h : at_reduce_reference_count cfg fuel t s = .ok s1) : R s s1 := by
  induction fuel generalizing t s s1 with
  | zero => cases h
  | succ fuel ih =>
    unfold at_reduce_reference_count at h
    split at h
    · cases h
    · simp only [] at h
      have r1 := hR.write s t { s.mem t with
        reference_count := size_t_dec (s.mem t).reference_count }
      split at h
      · exact hR.trans _ _ _ r1
          (at_free_term_body_steps R hR cfg _ (fun a s s1 => ih a s s1) fuel t _ _ h)
      · cases h
        exact r1

theorem at_free_term_steps (R : Store → Store → Prop) (hR : ReleaseSteps R)
    (cfg : Config) (fuel t : Nat) (s s1 : Store)
    (h : at_free_term cfg fuel t s = .ok s1) : R s s1 :=
  at_free_term_body_steps R hR cfg _
    (fun a s s1 => at_reduce_reference_count_steps R hR cfg fuel a s s1) fuel t s s1 h

theorem same_table_variables_steps : ReleaseSteps same_table_variables where
  refl := fun _ => ⟨rfl, rfl, rfl, rfl⟩
  trans := fun _ _ _ h1 h2 =>
    ⟨h2.1.trans h1.1, h2.2.1.trans h1.2.1, h2.2.2.1.trans h1.2.2.1, h2.2.2.2.trans h1.2.2.2⟩
  write := fun _ _ _ => ⟨rfl, rfl, rfl, rfl⟩
  unlink := fun _ _ _ => ⟨rfl, rfl, rfl, by simp [Store.set_bucket]⟩
  push := fun _ _ _ => ⟨rfl, rfl, rfl, rfl⟩

theorem allocator_grows_steps : ReleaseSteps allocator_grows where
  refl := fun _ _ => ⟨rfl, rfl, List.suffix_refl _⟩
  trans := fun _ _ _ h1 h2 c =>
    ⟨(h2 c).1.trans (h1 c).1, (h2 c).2.1.trans (h1 c).2.1, (h1 c).2.2.trans (h2 c).2.2⟩
  write := fun _ _ _ _ => ⟨rfl, rfl, List.suffix_refl _⟩
  unlink := fun _ _ _ _ => ⟨rfl, rfl, List.suffix_refl _⟩
  push := fun s size t c => by
    by_cases hc : c = size
    · subst hc
      simp [Store.set_terminfo]
    · simp [Store.set_terminfo, hc]

end atermpp

namespace atermpp

/-! ## Reuse of the free list -/

/-- When the current block of the size class has room, `AT_allocate` takes the cell at the
bump pointer. -/
theorem AT_allocate_cell_room (cfg : Config) (env : Env) (size : Nat) (s : Store)
    (hroom : ∃ b, (s.terminfo size).at_block.head? = some b ∧
      (s.terminfo size).top_at_blocks < b.end_) :
    AT_allocate_cell cfg env size s = .ok (bump_allocate cfg size s) := by
  obtain ⟨b, hb, hlt⟩ := hroom
  unfold AT_allocate_cell
  simp only [hb, hlt, decide_True, if_true]

/-- The step of `AT_allocate` that may grow the table returns in a release build. -/
theorem AT_allocate_growth_returns (cfg : Config) (env : Env) (s : Store)
    (hnd : cfg.ndebug = true) :
    ∃ s0, (if s.total_nodes ≥ s.table_size then resize_hashtable cfg env s else .ok s)
      = .ok s0 := by
  split
  · cases hb : env.bad_alloc with
    | false => exact resize_hashtable_total cfg env s hb (Or.inl hnd)
    | true =>
      unfold resize_hashtable
      simp [hb]
  · exact ⟨s, rfl⟩

/-- With a free list that is not empty the choice of the cell does not reach
`allocate_block`: the blocks of every size class stay as they are, the outcome is the one
of a run-time system whose `calloc` gives nothing, and a release build returns a cell. -/
theorem AT_allocate_cell_reuse (cfg : Config) (env : Env) (size : Nat) (s : Store)
    (hfl : (s.terminfo size).at_freelist ≠ []) :
    (∀ n s1, AT_allocate_cell cfg env size s = .ok (n, s1) →
      ∀ c, (s1.terminfo c).at_block = (s.terminfo c).at_block) ∧
    AT_allocate_cell cfg { env with calloc := none } size s = AT_allocate_cell cfg env size s ∧
    (cfg.ndebug = true → ∃ n s1, AT_allocate_cell cfg env size s = .ok (n, s1)) := by
  by_cases hroom : ∃ b, (s.terminfo size).at_block.head? = some b ∧
      (s.terminfo size).top_at_blocks < b.end_
  · rw [AT_allocate_cell_room cfg env size s hroom, AT_allocate_cell_room cfg _ size s hroom]
    refine ⟨?_, rfl, fun _ => ⟨_, _, rfl⟩⟩
    intro n s1 h c
    cases h
    by_cases hc : c = size
    · subst hc
      simp [bump_allocate, Store.write, Store.set_terminfo]
    · simp [bump_allocate, Store.write, Store.set_terminfo, hc]
  · rw [AT_allocate_cell_no_room cfg env size s hroom,
      AT_allocate_cell_no_room cfg _ size s hroom]
    cases hl : (s.terminfo size).at_freelist with
    | nil => exact absurd hl hfl
    | cons at_ next =>
      simp only []
      refine ⟨?_, trivial, ?_⟩
      · intro n s1 h c
        split at h
        · cases h
        · split at h
          · cases h
          · split at h
            · cases h
            · cases h
              by_cases hc : c = size
              · subst hc
                simp [Store.set_terminfo]
              · simp [Store.set_terminfo, hc]
      · intro hnd
        simp [hnd]

/-- With a free list that is not empty `AT_allocate` does not reach `allocate_block`. -/
theorem AT_allocate_reuse (cfg : Config) (env : Env) (size : Nat) (s : Store)
    (hfl : (s.terminfo size).at_freelist ≠ []) :
    (∀ n s2, AT_allocate cfg env size s = .ok (n, s2) →
      ∀ c, (s2.terminfo c).at_block = (s.terminfo c).at_block) ∧
    AT_allocate cfg { env with calloc := none } size s = AT_allocate cfg env size s ∧
    (cfg.ndebug = true → ∃ n s2, AT_allocate cfg env size s = .ok (n, s2)) := by
  have key : ∀ s0, (if s.total_nodes ≥ s.table_size then resize_hashtable cfg env s
      else .ok s) = .ok s0 → (s0.terminfo size).at_freelist ≠ [] := by
    intro s0 h0
    rw [(AT_allocate_entry cfg env s s0 h0).1]
    exact hfl
  refine ⟨?_, ?_, ?_⟩
  · intro n s2 h c
    unfold AT_allocate at h
    split at h
    · cases h
    · rename_i s0 h0
      split at h
      · cases h
      · rename_i at_ s1 h1
        cases h
        rw [← (AT_allocate_entry cfg env s s0 h0).1]
        exact (AT_allocate_cell_reuse cfg env size s0 (key s0 h0)).1 _ _ h1 c
  · have hr : resize_hashtable cfg { env with calloc := none } s = resize_hashtable cfg env s :=
      rfl
    unfold AT_allocate
    rw [hr]
    split
    · rfl
    · rename_i s0 h0
      rw [(AT_allocate_cell_reuse cfg env size s0 (key s0 h0)).2.1]
  · intro hnd
    obtain ⟨s0, h0⟩ := AT_allocate_growth_returns cfg env s hnd
    obtain ⟨n, s1, h1⟩ := (AT_allocate_cell_reuse cfg env size s0 (key s0 h0)).2.2 hnd
    exact ⟨n, _, AT_allocate_of_cell cfg env size s s0 h0 n s1 h1⟩

/-- When `at_free_term` goes past the guard for the empty list and returns, its last step
is the push of the node on the free list of the size class computed on entry. -/
theorem at_free_term_body_push (cfg : Config) (reduce : Nat → Store → Except Fault Store)
    (n t : Nat) (s s1 : Store)
    (hel : cfg.ndebug = false → (s.mem t).m_function_symbol ≠ cfg.AS_EMPTY_LIST)
    (h : at_free_term_body cfg reduce n t s = .ok s1) :
    ∃ sa sb, AT_freeTerm cfg t s = .ok sa ∧ free_arguments cfg reduce t n 0 sa = .ok sb ∧
      s1 = (sb.write t { sb.mem t with m_function_symbol := cfg.AS_DEFAULT }).set_terminfo
        (term_size cfg (s.mem t))
        { sb.terminfo (term_size cfg (s.mem t)) with
          at_freelist := t :: (sb.terminfo (term_size cfg (s.mem t))).at_freelist } := by
  unfold at_free_term_body at h
  split at h
  · rename_i hg
    exfalso
    simp only [Bool.and_eq_true, Bool.not_eq_true', decide_eq_true_eq] at hg
    exact hel hg.1 hg.2
  · split at h
    · cases h
    · simp only [] at h
      split at h
      · cases h
      · rename_i sa ha
        split at h
        · cases h
        · rename_i sb hb
          cases h
          exact ⟨sa, sb, ha, hb, rfl⟩

/-- C12 (amended). Free-list reuse: when `at_free_term(t)` returns for a node `t` that is
not the empty list of a debug build, `t` heads the free list of the size class
`term_size(t)`, and the next allocation `AT_allocate(term_size(t))` does not call
`allocate_block`: whenever it returns, every size class has the blocks it had, and the
outcome is the one it has when `calloc` gives nothing.  In a release build it returns. -/
theorem free_list_reuse (cfg : Config) (fuel t : Nat) (s s1 : Store)
    (hel : cfg.ndebug = false → (s.mem t).m_function_symbol ≠ cfg.AS_EMPTY_LIST)
    (hfree : at_free_term cfg fuel t s = .ok s1) :
    (s1.terminfo (term_size cfg (s.mem t))).at_freelist.head? = some t ∧
    (∀ env n s2, AT_allocate cfg env (term_size cfg (s.mem t)) s1 = .ok (n, s2) →
      (∀ c, (s2.terminfo c).at_block = (s1.terminfo c).at_block) ∧
      AT_allocate cfg { env with calloc := none } (term_size cfg (s.mem t)) s1
        = .ok (n, s2)) ∧
    (cfg.ndebug = true →
      ∀ env, ∃ n s2, AT_allocate cfg env (term_size cfg (s.mem t)) s1 = .ok (n, s2)) := by
  obtain ⟨sa, sb, -, -, hs⟩ := at_free_term_body_push cfg _ fuel t s s1 hel hfree
  have hhead : (s1.terminfo (term_size cfg (s.mem t))).at_freelist.head? = some t := by
    rw [hs]
    simp [Store.set_terminfo]
  have hfl : (s1.terminfo (term_size cfg (s.mem t))).at_freelist ≠ [] := by
    intro h
    rw [h] at hhead
    cases hhead
  refine ⟨hhead, ?_, ?_⟩
  · intro env n s2 h
    obtain ⟨r1, r2, -⟩ := AT_allocate_reuse cfg env _ s1 hfl
    exact ⟨r1 n s2 h, r2.trans h⟩
  · intro hnd env
    exact (AT_allocate_reuse cfg env _ s1 hfl).2.2 hnd

theorem free_list_reuse_witness :
    ((run store_int_block_full (at_free_term (example_config false) 1 1000
      (with_count store_int_block_full 1000 0))).terminfo 4).at_freelist.head? = some 1000 ∧
    (∀ c, ((run (0, store_int_block_full) (AT_allocate (example_config false)
        (example_env 5000) 4 (run store_int_block_full (at_free_term (example_config false) 1
          1000 (with_count store_int_block_full 1000 0))))).2.terminfo c).at_block =
      ((run store_int_block_full (at_free_term (example_config false) 1 1000
        (with_count store_int_block_full 1000 0))).terminfo c).at_block) ∧
    AT_allocate (example_config false) { bad_alloc := false, calloc := none } 4
      (run store_int_block_full (at_free_term (example_config false) 1 1000
        (with_count store_int_block_full 1000 0))) =
      .ok (1000, (run (0, store_int_block_full) (AT_allocate (example_config false)
        (example_env 5000) 4 (run store_int_block_full (at_free_term (example_config false) 1
          1000 (with_count store_int_block_full 1000 0))))).2) :=
  have h := free_list_reuse (example_config false) 1 1000
    (with_count store_int_block_full 1000 0) _ (fun _ => by decide) rfl
  ⟨h.1, (h.2.1 (example_env 5000) 1000 _ rfl).1, (h.2.1 (example_env 5000) 1000 _ rfl).2⟩

/-- C12 as stated fails in a debug build, where `at_free_term` returns at once for the
empty list.  Started in the store after `aterm(AS_EMPTY_LIST)`, with blocks that hold one
cell of the class, the release of the empty list down to count 0 leaves the free list of
its size class empty, and the next `AT_allocate` of that class calls `allocate_block`: the
class has two blocks where it had one.  The same happens with the blocks of
`example_config` once the block of the class is full. -/
theorem free_list_reuse_fails_for_empty_list :
    (store_empty_list_small_block.mem 1000).reference_count = 1 ∧
    term_size small_block_config (store_empty_list_small_block.mem 1000) = 3 ∧
    (∃ s1 n s2,
      at_reduce_reference_count small_block_config 2 1000 store_empty_list_small_block
        = .ok s1 ∧
      (s1.mem 1000).reference_count = 0 ∧
      (s1.terminfo 3).at_freelist = [] ∧
      (s1.terminfo 3).at_block.length = 1 ∧
      AT_allocate small_block_config (example_env 2000) 3 s1 = .ok (n, s2) ∧
      (s2.terminfo 3).at_block.length = 2) ∧
    (∃ s1 n s2,
      at_reduce_reference_count (example_config false) 2 1000 store_empty_list_block_full
        = .ok s1 ∧
      (s1.mem 1000).reference_count = 0 ∧
      (s1.terminfo 3).at_freelist = [] ∧
      (s1.terminfo 3).at_block.length = 1 ∧
      AT_allocate (example_config false) (example_env 20000) 3 s1 = .ok (n, s2) ∧
      (s2.terminfo 3).at_block.length = 2) :=
  ⟨by decide, by decide,
   ⟨_, _, _, rfl, by decide, by decide, by decide, rfl, by decide⟩,
   ⟨_, _, _, rfl, by decide, by decide, by decide, rfl, by decide⟩⟩

end atermpp

namespace atermpp

/-! ## The effect of `at_free_term` on the allocator -/

theorem AT_freeTerm_terminfo (cfg : Config) (t : Nat) (s s1 : Store)
    (h : AT_freeTerm cfg t s = .ok s1) : s1.terminfo = s.terminfo ∧ s1.mem = s.mem := by
  rcases AT_freeTerm_cases cfg t s s1 h with ⟨chain, chain1, -, -, hs⟩ | ⟨chain, -, -, -, -, hs⟩
  · rw [hs]
    exact ⟨rfl, rfl⟩
  · rw [hs]
    exact ⟨rfl, rfl⟩

/-- `AT_freeTerm` returns for a node that is on the chain of the bucket of its hash. -/
theorem AT_freeTerm_returns (cfg : Config) (t : Nat) (s : Store) (chain : List Nat)
    (hb : s.hashtable[bucket_of cfg s t]? = some chain) (ht : t ∈ chain) :
    ∃ s1, AT_freeTerm cfg t s = .ok s1 := by
  obtain ⟨chain1, hu⟩ := unlink_of_mem t chain ht
  unfold AT_freeTerm
  simp only []
  unfold bucket_of at hb
  rw [hb]
  cases chain with
  | nil => cases ht
  | cons cur next =>
    simp only [hu]
    exact ⟨_, rfl⟩

/-- What `at_free_term` does to the lists of the allocator in this embedding, for any
store and any node `t` that is not the empty list of a debug build.  When
`at_free_term(t)` returns, the free list of the size class `term_size(t)` is `t` followed
by what the cascade on the arguments of `t` freed in that class and then the previous
list; every size class has the blocks and the bump pointer it had; and the free list of
every other size class is the previous list with what the cascade freed in front of it.
For a node without arguments the free list of its class is `t` followed by the previous
list and the entry of every other size class is unchanged; `at_free_term` returns for such
a node when it is on the chain of the bucket of its hash and, in a debug build, its count
is 0.  The lists stand for the links of the source when `t` is a node of the table of a
sound store (`at_free_term_pushes_node`). -/
theorem at_free_term_allocator (cfg : Config) (fuel t : Nat) (s : Store)
    (hel : cfg.ndebug = false → (s.mem t).m_function_symbol ≠ cfg.AS_EMPTY_LIST) :
    (∀ s1, at_free_term cfg fuel t s = .ok s1 →
      (∃ freed, (s1.terminfo (term_size cfg (s.mem t))).at_freelist =
        t :: (freed ++ (s.terminfo (term_size cfg (s.mem t))).at_freelist)) ∧
      (∀ c, (s1.terminfo c).at_block = (s.terminfo c).at_block ∧
        (s1.terminfo c).top_at_blocks = (s.terminfo c).top_at_blocks) ∧
      (∀ c, c ≠ term_size cfg (s.mem t) →
        ∃ freed, (s1.terminfo c).at_freelist = freed ++ (s.terminfo c).at_freelist) ∧
      (cfg.arity (s.mem t).m_function_symbol = 0 →
        (s1.terminfo (term_size cfg (s.mem t))).at_freelist =
          t :: (s.terminfo (term_size cfg (s.mem t))).at_freelist ∧
        ∀ c, c ≠ term_size cfg (s.mem t) → s1.terminfo c = s.terminfo c)) ∧
    (∀ chain, s.hashtable[bucket_of cfg s t]? = some chain → t ∈ chain →
      cfg.arity (s.mem t).m_function_symbol = 0 →
      (cfg.ndebug = false → (s.mem t).reference_count = 0) →
      ∃ s1, at_free_term cfg fuel t s = .ok s1) := by
  refine ⟨?_, ?_⟩
  · intro s1 hfree
    obtain ⟨sa, sb, ha, hb, hs⟩ := at_free_term_body_push cfg _ fuel t s s1 hel hfree
    have g : allocator_grows s sb :=
      allocator_grows_steps.trans _ _ _
        (AT_freeTerm_steps allocator_grows allocator_grows_steps cfg t s sa ha)
        (free_arguments_steps allocator_grows allocator_grows_steps cfg _
          (fun a s s1 =>
            at_reduce_reference_count_steps allocator_grows allocator_grows_steps cfg fuel a s s1)
          t fuel 0 sa sb hb)
    refine ⟨?_, ?_, ?_, ?_⟩
    · obtain ⟨freed, hf⟩ := (g (term_size cfg (s.mem t))).2.2
      refine ⟨freed, ?_⟩
      rw [hs, hf]
      simp [Store.set_terminfo]
    · intro c
      rw [hs]
      by_cases hc : c = term_size cfg (s.mem t)
      · subst hc
        simp only [Store.set_terminfo, if_true]
        exact ⟨(g _).1, (g _).2.1⟩
      · simp only [Store.set_terminfo, Store.write, if_neg hc]
        exact ⟨(g c).1, (g c).2.1⟩
    · intro c hc
      obtain ⟨freed, hf⟩ := (g c).2.2
      refine ⟨freed, ?_⟩
      rw [hs, hf]
      simp [Store.set_terminfo, Store.write, hc]
    · intro harity
      obtain ⟨e1, e2⟩ := AT_freeTerm_terminfo cfg t s sa ha
      have hsb : sb = sa := by
        rw [free_arguments_none cfg _ t fuel 0 sa (by rw [e2, harity])] at hb
        cases hb
        rfl
      subst hsb
      rw [hs]
      refine ⟨?_, ?_⟩
      · simp [Store.set_terminfo, Store.write, e1]
      · intro c hc
        simp [Store.set_terminfo, Store.write, e1, hc]
  · intro chain hb ht harity hcount
    obtain ⟨sa, ha⟩ := AT_freeTerm_returns cfg t s chain hb ht
    obtain ⟨-, e2⟩ := AT_freeTerm_terminfo cfg t s sa ha
    have hfa := free_arguments_none cfg (at_reduce_reference_count cfg fuel) t fuel 0 sa
      (by rw [e2, harity])
    unfold at_free_term at_free_term_body
    have hg : (!cfg.ndebug && decide ((s.mem t).m_function_symbol = cfg.AS_EMPTY_LIST))
        = false := by
      cases hn : cfg.ndebug with
      | true => rfl
      | false => simp [hel hn]
    have hg2 : (!cfg.ndebug && decide ((s.mem t).reference_count ≠ 0)) = false := by
      cases hn : cfg.ndebug with
      | true => rfl
      | false => simp [hcount hn]
    simp only [hg, hg2, ha, hfa]
    exact ⟨_, rfl⟩

theorem at_free_term_allocator_witness :
    ((run store_int_block_full (at_free_term (example_config false) 1 1000
      (with_count store_int_block_full 1000 0))).terminfo 4).at_freelist = [1000] ∧
    (∀ c, c ≠ 4 →
      (run store_int_block_full (at_free_term (example_config false) 1 1000
        (with_count store_int_block_full 1000 0))).terminfo c =
      store_int_block_full.terminfo c) ∧
    (∃ s1, at_free_term (example_config false) 1 1000
      (with_count store_int_block_full 1000 0) = .ok s1) ∧
    (∃ freed, ((run store_f_of_x (at_free_term (example_config true) 2 3100
      (with_count store_f_of_x 3100 0))).terminfo 3).at_freelist = freed ++ []) :=
  have h := at_free_term_allocator (example_config false) 1 1000
    (with_count store_int_block_full 1000 0) (fun _ => by decide)
  ⟨((h.1 _ rfl).2.2.2 (by decide)).1, ((h.1 _ rfl).2.2.2 (by decide)).2,
   h.2 [1000] rfl (by decide) (by decide) (fun _ => by decide),
   ((at_free_term_allocator (example_config true) 2 3100 (with_count store_f_of_x 3100 0)
      (fun h => absurd h (by decide))).1 _ rfl).2.2.1 3 (by decide)⟩

/-- C13 as stated fails in a debug build, where `at_free_term` returns at once for the
empty list: applied to the node of the empty list, with count 0, it returns, and
afterwards the free list of the size class of the node is the previous list, not the node
followed by the previous list; the node is still in the hash table. -/
theorem at_free_term_keeps_empty_list :
    ((with_count store_with_empty_list 1000 0).mem 1000).reference_count = 0 ∧
    term_size (example_config false) ((with_count store_with_empty_list 1000 0).mem 1000) = 3 ∧
    ∃ s1, at_free_term (example_config false) 1 1000 (with_count store_with_empty_list 1000 0)
        = .ok s1 ∧
      (s1.terminfo 3).at_freelist ≠
        1000 :: ((with_count store_with_empty_list 1000 0).terminfo 3).at_freelist ∧
      (s1.terminfo 3).at_freelist =
        ((with_count store_with_empty_list 1000 0).terminfo 3).at_freelist ∧
      1000 ∈ nodes s1 :=
  ⟨by decide, by decide, _, rfl, by decide, by decide, by decide⟩

end atermpp

namespace atermpp

/-! ## Size-class correctness -/

theorem term_size_congr (cfg : Config) (t u : _aterm)
    (h : t.m_function_symbol = u.m_function_symbol) : term_size cfg t = term_size cfg u := by
  unfold term_size
  rw [h]

theorem Stable.size_class_correct {cfg : Config} {s s1 : Store} (h : Stable s s1)
    (sizes : Nat → Nat) (hs : size_class_correct cfg s sizes) :
    size_class_correct cfg s1 sizes := by
  intro a ha
  rw [term_size_congr cfg _ _ (h.frame a ha).1]
  exact hs a (h.nodes_subset a ha)

/-- A node inserted in front of a bucket, with the size of its cell recorded, keeps the
sizes correct when the other nodes are as they were. -/
theorem size_class_correct_insert (cfg : Config) (s s1 : Store) (sizes : Nat → Nat)
    (n size : Nat) (hs : size_class_correct cfg s sizes)
    (hnodes : ∀ a ∈ nodes s1, a = n ∨ a ∈ nodes s)
    (hmem : ∀ a, a ≠ n → s1.mem a = s.mem a)
    (hn : term_size cfg (s1.mem n) = size) :
    size_class_correct cfg s1 (record_size sizes n size) := by
  intro a ha
  unfold record_size
  by_cases han : a = n
  · rw [if_pos han, han]
    exact hn
  · rw [if_neg han, hmem a han]
    rcases hnodes a ha with h | h
    · exact absurd h han
    · exact hs a h

theorem aterm_int_size_class (cfg : Config) (env : Env) (v : Int) (s : Store) (n : Nat)
    (s1 : Store) (sizes : Nat → Nat) (hs : size_class_correct cfg s sizes)
    (h : aterm_int cfg env v s = .ok (n, s1)) :
    (n ∈ nodes s ∧ size_class_correct cfg s1 sizes) ∨
    (∃ sa, AT_allocate cfg env cfg.TERM_SIZE_INT s = .ok (n, sa) ∧
      term_size cfg (s1.mem n) = cfg.TERM_SIZE_INT ∧
      size_class_correct cfg s1 (record_size sizes n cfg.TERM_SIZE_INT)) := by
  rcases aterm_int_cases cfg env v s n s1 h with
    ⟨chain, hb, hf, hs1, -⟩ | ⟨chain, sa, chain1, hb, hf, hal, hb1, hs1, -⟩
  · left
    subst hs1
    refine ⟨?_, (Stable.increase n s).size_class_correct sizes hs⟩
    exact (mem_nodes_iff s n).2 ⟨_, lt_of_getElem? _ _ _ hb,
      by rw [getD_of_getElem? _ _ _ _ hb]; exact (find_int_some cfg s.mem _ chain n hf).1⟩
  · right
    obtain ⟨a1, a2, -, -⟩ := AT_allocate_frame cfg env _ s n sa hal
    have hsym : (s1.mem n).m_function_symbol = cfg.AS_INT := by
      rw [hs1]
      simp [increase_reference_count, Store.write, Store.set_bucket, int_node]
    have hn : term_size cfg (s1.mem n) = cfg.TERM_SIZE_INT := by
      unfold term_size
      rw [if_pos hsym]
    refine ⟨sa, hal, hn, size_class_correct_insert cfg s s1 sizes n _ hs ?_ ?_ hn⟩
    · intro a ha
      have h1 : a ∈ nodes ((sa.write n (int_node cfg (int_word v) (sa.mem n))).set_bucket
          (int_hash cfg v &&& sa.table_mask) (n :: chain1)) := by
        rw [hs1] at ha
        exact ha
      rcases List.mem_cons.1 ((nodes_set_bucket_cons
        (sa.write n (int_node cfg (int_word v) (sa.mem n))) _ n chain1 hb1).subset h1) with h4 | h4
      · exact Or.inl h4
      · exact Or.inr (a1.subset h4)
    · intro a han
      rw [hs1]
      simp only [increase_reference_count, Store.write, Store.set_bucket, if_neg han]
      exact a2 a han

theorem aterm_size_class (cfg : Config) (env : Env) (sym : Nat) (s : Store) (n : Nat)
    (s1 : Store) (sizes : Nat → Nat) (harity : cfg.arity sym = 0) (hsym : sym ≠ cfg.AS_INT)
    (hs : size_class_correct cfg s sizes) (h : aterm cfg env sym s = .ok (n, s1)) :
    (n ∈ nodes s ∧ size_class_correct cfg s1 sizes) ∨
    (∃ sa, AT_allocate cfg env (cfg.TERM_SIZE_APPL 0) s = .ok (n, sa) ∧
      term_size cfg (s1.mem n) = cfg.TERM_SIZE_APPL 0 ∧
      size_class_correct cfg s1 (record_size sizes n (cfg.TERM_SIZE_APPL 0))) := by
  obtain ⟨-, hcases⟩ := aterm_cases cfg env sym s n s1 h
  rcases hcases with ⟨chain, others, hb, hf, hs1⟩ | ⟨chain, sa, chain1, hb, hf, hal, hb1, hs1⟩
  · left
    subst hs1
    obtain ⟨-, f2, f3⟩ := find_symbol_some _ _ _ _ _ hf
    refine ⟨?_, ((Stable.promote s _ n chain others hb f2).trans
      (Stable.increase n _)).size_class_correct sizes hs⟩
    exact (mem_nodes_iff s n).2 ⟨_, lt_of_getElem? _ _ _ hb,
      by rw [getD_of_getElem? _ _ _ _ hb]; exact f3⟩
  · right
    obtain ⟨a1, a2, -, -⟩ := AT_allocate_frame cfg env _ s n sa hal
    have hsym1 : (s1.mem n).m_function_symbol = sym := by
      rw [hs1]
      simp [increase_reference_count, Store.write, Store.set_bucket]
    have hn : term_size cfg (s1.mem n) = cfg.TERM_SIZE_APPL 0 := by
      unfold term_size
      rw [hsym1, if_neg hsym, harity]
    refine ⟨sa, hal, hn, size_class_correct_insert cfg s s1 sizes n _ hs ?_ ?_ hn⟩
    · intro a ha
      have h1 : a ∈ nodes ((sa.write n { sa.mem n with m_function_symbol := sym }).set_bucket
          (cfg.FINISH (cfg.START sym) &&& sa.table_mask) (n :: chain1)) := by
        rw [hs1] at ha
        exact ha
      rcases List.mem_cons.1 ((nodes_set_bucket_cons
        (sa.write n { sa.mem n with m_function_symbol := sym }) _ n chain1 hb1).subset h1)
        with h4 | h4
      · exact Or.inl h4
      · exact Or.inr (a1.subset h4)
    · intro a han
      rw [hs1]
      simp only [increase_reference_count, Store.write, Store.set_bucket, if_neg han]
      exact a2 a han

theorem resize_hashtable_size_class (cfg : Config) (env : Env) (s s1 : Store)
    (sizes : Nat → Nat) (hs : size_class_correct cfg s sizes)
    (h : resize_hashtable cfg env s = .ok s1) : size_class_correct cfg s1 sizes := by
  obtain ⟨r1, -, -, r4⟩ := resize_hashtable_cases cfg env s s1 h
  have hsub : ∀ a ∈ nodes s1, a ∈ nodes s := by
    rcases r4 with ⟨-, r5, -⟩ | ⟨-, -, -, -, -, r5, -⟩
    · intro a ha
      unfold nodes at ha ⊢
      rw [← r5]
      exact ha
    · exact fun a ha => r5.subset ha
  intro a ha
  rw [r1]
  exact hs a (hsub a ha)

/-- C14 (amended). Size-class correctness.  Over a store extended with the record of the
size passed to `AT_allocate` when each node was created, the property that this size is
`term_size(node)` for every node of the hash table is kept by the operations of the store:
`aterm_int(v)` either returns a node of the table or takes its cell from
`AT_allocate(TERM_SIZE_INT)` and makes it a node whose `term_size` is `TERM_SIZE_INT`;
`aterm(sym)`, for a symbol of arity 0 other than the reserved `AS_INT`, does the same with
`TERM_SIZE_APPL(0)`; `resize_hashtable` and, in a consistent table,
`at_reduce_reference_count` change the size of no node of the table.  Hence, when a node
of the table is removed and freed, the bucket searched by `AT_freeTerm` is the hash over
the words of the cell it was created in, and `at_free_term`, when it returns, has pushed
the node on the free list of the size class it was allocated from (or, for the empty list
of a debug build, has returned at once and changed nothing). -/
theorem size_class_correctness (cfg : Config) (s : Store) (sizes : Nat → Nat)
    (hs : size_class_correct cfg s sizes) :
    (∀ env v n s1, aterm_int cfg env v s = .ok (n, s1) →
      (n ∈ nodes s ∧ size_class_correct cfg s1 sizes) ∨
      (∃ sa, AT_allocate cfg env cfg.TERM_SIZE_INT s = .ok (n, sa) ∧
        term_size cfg (s1.mem n) = cfg.TERM_SIZE_INT ∧
        size_class_correct cfg s1 (record_size sizes n cfg.TERM_SIZE_INT))) ∧
    (∀ env sym n s1, cfg.arity sym = 0 → sym ≠ cfg.AS_INT →
      aterm cfg env sym s = .ok (n, s1) →
      (n ∈ nodes s ∧ size_class_correct cfg s1 sizes) ∨
      (∃ sa, AT_allocate cfg env (cfg.TERM_SIZE_APPL 0) s = .ok (n, sa) ∧
        term_size cfg (s1.mem n) = cfg.TERM_SIZE_APPL 0 ∧
        size_class_correct cfg s1 (record_size sizes n (cfg.TERM_SIZE_APPL 0)))) ∧
    (∀ env s1, resize_hashtable cfg env s = .ok s1 → size_class_correct cfg s1 sizes) ∧
    (∀ fuel t s1, table_consistent cfg s → at_reduce_reference_count cfg fuel t s = .ok s1 →
      size_class_correct cfg s1 sizes) ∧
    (∀ t, t ∈ nodes s →
      bucket_of cfg s t = hash_number cfg (s.mem t) (sizes t) &&& s.table_mask ∧
      ∀ fuel s1, at_free_term cfg fuel t s = .ok s1 →
        (cfg.ndebug = false ∧ (s.mem t).m_function_symbol = cfg.AS_EMPTY_LIST ∧ s1 = s) ∨
        (s1.terminfo (sizes t)).at_freelist.head? = some t) := by
  refine ⟨fun env v n s1 h => aterm_int_size_class cfg env v s n s1 sizes hs h,
    fun env sym n s1 h0 h1 h => aterm_size_class cfg env sym s n s1 sizes h0 h1 hs h,
    fun env s1 h => resize_hashtable_size_class cfg env s s1 sizes hs h,
    fun fuel t s1 hc h =>
      (at_reduce_reference_count_safe cfg fuel t s s1 hc h).size_class_correct sizes hs, ?_⟩
  intro t ht
  refine ⟨?_, ?_⟩
  · unfold bucket_of
    rw [hs t ht]
  · intro fuel s1 h
    by_cases hel : cfg.ndebug = false ∧ (s.mem t).m_function_symbol = cfg.AS_EMPTY_LIST
    · left
      refine ⟨hel.1, hel.2, ?_⟩
      unfold at_free_term at_free_term_body at h
      simp only [hel.1, hel.2, Bool.not_false, decide_True, Bool.and_self, if_true] at h
      cases h
      rfl
    · right
      obtain ⟨sa, sb, -, -, hs1⟩ := at_free_term_body_push cfg _ fuel t s s1
        (fun hn he => hel ⟨hn, he⟩) h
      rw [hs1, ← hs t ht]
      simp [Store.set_terminfo]

theorem size_class_correctness_witness :
    size_class_correct (example_config true) store_with_three
      (fun a => if a = 3000 then 3 else 4) ∧
    size_class_correct (example_config true)
      (run (0, store_with_three)
        (aterm_int (example_config true) (example_env 4000) 7 store_with_three)).2
      (record_size (fun a => if a = 3000 then 3 else 4) 1008 4) ∧
    size_class_correct (example_config true)
      (run (0, store_with_three)
        (aterm (example_config true) (example_env 4000) 5 store_with_three)).2
      (record_size (fun a => if a = 3000 then 3 else 4) 3003 3) ∧
    size_class_correct (example_config true)
      (run store_with_three
        (at_reduce_reference_count (example_config true) 1 1004 store_with_three))
      (fun a => if a = 3000 then 3 else 4) ∧
    ((run store_with_three (at_free_term (example_config true) 1 3000
      store_with_three)).terminfo 3).at_freelist.head? = some 3000 :=
  have h := size_class_correctness (example_config true) store_with_three
    (fun a => if a = 3000 then 3 else 4) (by decide)
  ⟨by decide,
   (h.1 (example_env 4000) 7 _ _ rfl).elim (fun h1 => absurd h1.1 (by decide))
     (fun h1 => h1.choose_spec.2.2),
   (h.2.1 (example_env 4000) 5 _ _ (by decide) (by decide) rfl).elim
     (fun h1 => absurd h1.1 (by decide)) (fun h1 => h1.choose_spec.2.2),
   h.2.2.2.1 1 1004 _ (by decide) rfl,
   (((h.2.2.2.2 3000 (by decide)).2 1 _ rfl).elim (fun h1 => absurd h1.1 (by decide))
     (fun h1 => h1))⟩

/-- C14 as stated fails for `sym = AS_INT` and for a symbol with arguments.  In the
initial store, `aterm(AS_INT)` takes its cell from `AT_allocate(TERM_SIZE_APPL(0))`, a
cell of 3 words, and `term_size` of the node, which has the symbol `AS_INT`, is
`TERM_SIZE_INT`, 4 words: the size passed to `AT_allocate` is not the size computed when
the node is removed and freed.  The same holds for the symbol 10, of arity 1, which a
release build accepts: the cell has 3 words and `term_size` of the node is
`TERM_SIZE_APPL(1)`, 4 words. -/
theorem size_class_fails_for_other_symbols :
    size_class_correct (example_config true) (initial_store 2) (fun _ => 0) ∧
    (∃ n s1 sa, aterm (example_config true) (example_env 1000) (example_config true).AS_INT
        (initial_store 2) = .ok (n, s1) ∧
      AT_allocate (example_config true) (example_env 1000)
        ((example_config true).TERM_SIZE_APPL 0) (initial_store 2) = .ok (n, sa) ∧
      (example_config true).TERM_SIZE_APPL 0 = 3 ∧
      term_size (example_config true) (s1.mem n) = 4 ∧
      ¬ size_class_correct (example_config true) s1
        (record_size (fun _ => 0) n ((example_config true).TERM_SIZE_APPL 0))) ∧
    (example_config true).arity 10 = 1 ∧
    (∃ n s1 sa, aterm (example_config true) (example_env 1000) 10 (initial_store 2)
        = .ok (n, s1) ∧
      AT_allocate (example_config true) (example_env 1000)
        ((example_config true).TERM_SIZE_APPL 0) (initial_store 2) = .ok (n, sa) ∧
      term_size (example_config true) (s1.mem n) = 4 ∧
      ¬ size_class_correct (example_config true) s1
        (record_size (fun _ => 0) n ((example_config true).TERM_SIZE_APPL 0))) :=
  ⟨by decide, ⟨_, _, _, rfl, rfl, rfl, by decide, by decide⟩, rfl,
    ⟨_, _, _, rfl, rfl, by decide, by decide⟩⟩

end atermpp

namespace atermpp

/-! ## The shape and the growth of the table -/

theorem table_kept_or_grown_of_same (s s1 : Store) (hs : table_shape s)
    (h : same_table_variables s s1) : table_kept_or_grown s s1 := by
  obtain ⟨h1, h2, h3, h4⟩ := h
  obtain ⟨s1_, s2_, s3_⟩ := hs
  refine ⟨⟨?_, ?_, ?_⟩, ?_, ?_⟩
  · rw [h2, h1]
    exact s1_
  · rw [h3, h2]
    exact s2_
  · rw [h4, h2]
    exact s3_
  · rw [h1]
  · rw [h2]

theorem table_kept_or_grown_trans {s s1 s2 : Store} (h1 : table_kept_or_grown s s1)
    (h2 : table_kept_or_grown s1 s2) : table_kept_or_grown s s2 :=
  ⟨h2.1, h1.2.1.trans h2.2.1, h1.2.2.trans h2.2.2⟩

/-- What `resize_hashtable` does to a table of the right shape: a failed growth returns the
store unchanged, a growth that gets its memory doubles the size. -/
theorem resize_hashtable_shape (cfg : Config) (env : Env) (s s1 : Store)
    (hs : table_shape s) (h : resize_hashtable cfg env s = .ok s1) :
    table_shape s1 ∧ (env.bad_alloc = true → s1 = s) ∧
    (env.bad_alloc = false → s1.table_class = s.table_class + 1 ∧
      s1.table_size = 2 * s.table_size) := by
  obtain ⟨s1_, s2_, s3_⟩ := hs
  obtain ⟨r1, r2, r3, r4⟩ := resize_hashtable_cases cfg env s s1 h
  rcases r4 with ⟨hb, q1, q2, q3, q4⟩ | ⟨hb, q1, q2, q3, q4, -, -⟩
  · have e : s1 = s := by
      cases s
      cases s1
      simp only at r1 r2 r3 q1 q2 q3 q4 s1_ s2_ s3_
      simp only [Store.mk.injEq]
      refine ⟨r1, r2, r3, q2, ?_, ?_, q1⟩
      · rw [q3, s1_]
      · rw [q4, s2_, s1_]
    refine ⟨?_, fun _ => e, fun hf => ?_⟩
    · rw [e]
      exact ⟨s1_, s2_, s3_⟩
    · rw [hb] at hf
      cases hf
  · refine ⟨⟨?_, ?_, ?_⟩, fun ht => ?_, fun _ => ⟨q1, ?_⟩⟩
    · rw [q2, q1]
    · rw [q3, q2]
    · rw [q4, q2]
    · rw [hb] at ht
      cases ht
    · rw [q2, s1_, pow_succ, Nat.mul_comm]

theorem resize_hashtable_kept_or_grown (cfg : Config) (env : Env) (s s1 : Store)
    (hs : table_shape s) (h : resize_hashtable cfg env s = .ok s1) :
    table_kept_or_grown s s1 := by
  obtain ⟨h1, h2, h3⟩ := resize_hashtable_shape cfg env s s1 hs h
  cases hb : env.bad_alloc with
  | true =>
    rw [h2 hb]
    exact ⟨hs, le_refl _, le_refl _⟩
  | false =>
    obtain ⟨g1, g2⟩ := h3 hb
    refine ⟨h1, ?_, ?_⟩
    · rw [g1]
      exact Nat.le_succ _
    · rw [g2]
      omega

/-- The table after `AT_allocate` is the table after the growth step. -/
theorem AT_allocate_table (cfg : Config) (env : Env) (size : Nat) (s : Store) (n : Nat)
    (s2 : Store) (h : AT_allocate cfg env size s = .ok (n, s2)) :
    ∃ s0, (if s.total_nodes ≥ s.table_size then resize_hashtable cfg env s else .ok s)
        = .ok s0 ∧
      same_table_variables s0 s2 ∧ s2.hashtable = s0.hashtable := by
  unfold AT_allocate at h
  split at h
  · cases h
  · rename_i s0 h0
    split at h
    · cases h
    · rename_i at_ s1 h1
      cases h
      obtain ⟨f1, f2, f3, f4, -⟩ := AT_allocate_cell_frame cfg env size s0 n s1 h1
      exact ⟨s0, h0, ⟨f3, f4, f2, by simp only [f1]⟩, f1⟩

theorem AT_allocate_kept_or_grown (cfg : Config) (env : Env) (size : Nat) (s : Store) (n : Nat)
    (s2 : Store) (hs : table_shape s) (h : AT_allocate cfg env size s = .ok (n, s2)) :
    table_kept_or_grown s s2 := by
  obtain ⟨s0, h0, hv, -⟩ := AT_allocate_table cfg env size s n s2 h
  split at h0
  · have g := resize_hashtable_kept_or_grown cfg env s s0 hs h0
    exact table_kept_or_grown_trans g (table_kept_or_grown_of_same s0 s2 g.1 hv)
  · cases h0
    exact table_kept_or_grown_of_same s s2 hs hv

/-- The table variables after `aterm_int` are those of the store on entry, or those
`AT_allocate` left. -/
theorem aterm_int_table (cfg : Config) (env : Env) (v : Int) (s : Store) (n : Nat)
    (s1 : Store) (h : aterm_int cfg env v s = .ok (n, s1)) :
    same_table_variables s s1 ∨
    ∃ sa, AT_allocate cfg env cfg.TERM_SIZE_INT s = .ok (n, sa) ∧
      same_table_variables sa s1 := by
  rcases aterm_int_cases cfg env v s n s1 h with
    ⟨chain, hb, hf, hs1, -⟩ | ⟨chain, sa, chain1, hb, hf, hal, hb1, hs1, -⟩
  · left
    rw [hs1]
    exact ⟨rfl, rfl, rfl, rfl⟩
  · right
    refine ⟨sa, hal, ?_⟩
    rw [hs1]
    exact ⟨rfl, rfl, rfl, by simp [increase_reference_count, Store.write, Store.set_bucket]⟩

/-- The table variables after `aterm` are those of the store on entry, or those
`AT_allocate` left. -/
theorem aterm_table (cfg : Config) (env : Env) (sym : Nat) (s : Store) (n : Nat)
    (s1 : Store) (h : aterm cfg env sym s = .ok (n, s1)) :
    same_table_variables s s1 ∨
    ∃ sa, AT_allocate cfg env (cfg.TERM_SIZE_APPL 0) s = .ok (n, sa) ∧
      same_table_variables sa s1 := by
  obtain ⟨-, hcases⟩ := aterm_cases cfg env sym s n s1 h
  rcases hcases with ⟨chain, others, hb, hf, hs1⟩ | ⟨chain, sa, chain1, hb, hf, hal, hb1, hs1⟩
  · left
    rw [hs1]
    exact ⟨rfl, rfl, rfl, by simp [increase_reference_count, Store.write, Store.set_bucket]⟩
  · right
    refine ⟨sa, hal, ?_⟩
    rw [hs1]
    exact ⟨rfl, rfl, rfl, by simp [increase_reference_count, Store.write, Store.set_bucket]⟩

theorem aterm_int_kept_or_grown (cfg : Config) (env : Env) (v : Int) (s : Store) (n : Nat)
    (s1 : Store) (hs : table_shape s) (h : aterm_int cfg env v s = .ok (n, s1)) :
    table_kept_or_grown s s1 := by
  rcases aterm_int_table cfg env v s n s1 h with hv | ⟨sa, hal, hv⟩
  · exact table_kept_or_grown_of_same s s1 hs hv
  · have g := AT_allocate_kept_or_grown cfg env _ s n sa hs hal
    exact table_kept_or_grown_trans g (table_kept_or_grown_of_same sa s1 g.1 hv)

theorem aterm_kept_or_grown (cfg : Config) (env : Env) (sym : Nat) (s : Store) (n : Nat)
    (s1 : Store) (hs : table_shape s) (h : aterm cfg env sym s = .ok (n, s1)) :
    table_kept_or_grown s s1 := by
  rcases aterm_table cfg env sym s n s1 h with hv | ⟨sa, hal, hv⟩
  · exact table_kept_or_grown_of_same s s1 hs hv
  · have g := AT_allocate_kept_or_grown cfg env _ s n sa hs hal
    exact table_kept_or_grown_trans g (table_kept_or_grown_of_same sa s1 g.1 hv)

theorem initial_store_shape (table_class : Nat) : table_shape (initial_store table_class) :=
  ⟨rfl, rfl, by simp [initial_store]⟩

/-- Every reachable store has a table of the right shape. -/
theorem Reachable.shape {cfg : Config} {s : Store} (h : Reachable cfg s) :
    table_shape s := by
  induction h with
  | initial k => exact initial_store_shape k
  | aterm_int env v s n s1 _ h ih => exact (aterm_int_kept_or_grown cfg env v s n s1 ih h).1
  | aterm env sym s n s1 _ h ih => exact (aterm_kept_or_grown cfg env sym s n s1 ih h).1
  | at_reduce_reference_count fuel t s s1 _ h ih =>
    exact (table_kept_or_grown_of_same s s1 ih (at_reduce_reference_count_steps
      same_table_variables same_table_variables_steps cfg fuel t s s1 h)).1
  | at_free_term fuel t s s1 _ h ih =>
    exact (table_kept_or_grown_of_same s s1 ih (at_free_term_steps
      same_table_variables same_table_variables_steps cfg fuel t s s1 h)).1
  | AT_allocate env size s n s1 _ h ih =>
    exact (AT_allocate_kept_or_grown cfg env size s n s1 ih h).1
  | resize_hashtable env s s1 _ h ih =>
    exact (resize_hashtable_kept_or_grown cfg env s s1 ih h).1

/-- C15. In every reachable store `table_size` is a power of two, namely
`2^table_class`, `table_mask` is `table_size - 1` and the vector `hashtable` has exactly
`table_size` buckets; and a `resize_hashtable` that gets the memory for the larger table
and returns has exactly doubled `table_size` (and incremented `table_class`). -/
theorem table_shape_invariant (cfg : Config) (s : Store) (h : Reachable cfg s) :
    (∃ k, s.table_size = 2 ^ k) ∧
    s.table_size = 2 ^ s.table_class ∧ s.table_mask = s.table_size - 1 ∧
    s.hashtable.length = s.table_size ∧
    ∀ env s1, env.bad_alloc = false → resize_hashtable cfg env s = .ok s1 →
      s1.table_size = 2 * s.table_size ∧ s1.table_class = s.table_class + 1 :=
  have hs := h.shape
  ⟨⟨s.table_class, hs.1⟩, hs.1, hs.2.1, hs.2.2, fun env s1 hb hr =>
    have g := (resize_hashtable_shape cfg env s s1 hs hr).2.2 hb
    ⟨g.2, g.1⟩⟩

theorem table_shape_invariant_witness :
    Reachable (example_config true) store_full ∧
    store_full.table_size = 2 ∧ store_full.table_mask = 1 ∧
    store_full.hashtable.length = 2 ∧
    (run store_full (resize_hashtable (example_config true) (example_env 4000)
      store_full)).table_size = 4 :=
  have hr : Reachable (example_config true) store_full :=
    Reachable.aterm_int (example_env 2000) 6 _ _ _
      (Reachable.aterm_int (example_env 1000) 5 _ _ _ (Reachable.initial 1) rfl) rfl
  have h := table_shape_invariant (example_config true) store_full hr
  ⟨hr, h.2.1, h.2.2.1, h.2.2.2.1, (h.2.2.2.2 (example_env 4000) _ rfl rfl).1⟩

end atermpp

namespace atermpp

/-- C16. `AT_allocate` tries to grow the hash table exactly when, on entry, `total_nodes`
is at least `table_size`.  When `total_nodes < table_size`, the allocation leaves
`table_class`, `table_size`, `table_mask` and the buckets as they are, and its outcome
does not depend on whether a larger table could be had.  When
`total_nodes >= table_size`, a failure of `resize_hashtable` is the failure of the
allocation, and an allocation that returns has the table `resize_hashtable` returned: one
class up when the larger table could be had.  And in a store whose table has the right
shape no operation makes `table_size` smaller than it was. -/
theorem AT_allocate_growth (cfg : Config) (env : Env) (size : Nat) (s : Store) :
    (s.total_nodes < s.table_size →
      (∀ b, AT_allocate cfg { env with bad_alloc := b } size s = AT_allocate cfg env size s) ∧
      ∀ n s2, AT_allocate cfg env size s = .ok (n, s2) →
        s2.table_class = s.table_class ∧ s2.table_size = s.table_size ∧
        s2.table_mask = s.table_mask ∧ s2.hashtable = s.hashtable) ∧
    (s.table_size ≤ s.total_nodes →
      (∀ e, resize_hashtable cfg env s = .error e → AT_allocate cfg env size s = .error e) ∧
      ∀ n s2, AT_allocate cfg env size s = .ok (n, s2) →
        ∃ s0, resize_hashtable cfg env s = .ok s0 ∧
          s2.table_class = s0.table_class ∧ s2.table_size = s0.table_size ∧
          s2.table_mask = s0.table_mask ∧ s2.hashtable = s0.hashtable ∧
          (env.bad_alloc = false → s2.table_class = s.table_class + 1 ∧
            s2.table_size = 2 ^ (s.table_class + 1))) ∧
    (table_shape s →
      (∀ n s2, AT_allocate cfg env size s = .ok (n, s2) → s.table_size ≤ s2.table_size) ∧
      (∀ s1, resize_hashtable cfg env s = .ok s1 → s.table_size ≤ s1.table_size) ∧
      (∀ v n s1, aterm_int cfg env v s = .ok (n, s1) → s.table_size ≤ s1.table_size) ∧
      (∀ sym n s1, aterm cfg env sym s = .ok (n, s1) → s.table_size ≤ s1.table_size) ∧
      (∀ fuel t s1, at_reduce_reference_count cfg fuel t s = .ok s1 →
        s1.table_size = s.table_size) ∧
      (∀ fuel t s1, at_free_term cfg fuel t s = .ok s1 → s1.table_size = s.table_size)) := by
  refine ⟨?_, ?_, ?_⟩
  · intro hlt
    have hn : ¬ s.total_nodes ≥ s.table_size := Nat.not_le.2 hlt
    refine ⟨?_, ?_⟩
    · intro b
      unfold AT_allocate
      simp only [if_neg hn]
      rfl
    · intro n s2 h
      obtain ⟨s0, h0, hv, hh⟩ := AT_allocate_table cfg env size s n s2 h
      rw [if_neg hn] at h0
      cases h0
      exact ⟨hv.1, hv.2.1, hv.2.2.1, hh⟩
  · intro hge
    refine ⟨?_, ?_⟩
    · intro e he
      unfold AT_allocate
      simp only [ge_iff_le, if_pos hge, he]
    · intro n s2 h
      obtain ⟨s0, h0, hv, hh⟩ := AT_allocate_table cfg env size s n s2 h
      rw [if_pos hge] at h0
      refine ⟨s0, h0, hv.1, hv.2.1, hv.2.2.1, hh, ?_⟩
      intro hb
      obtain ⟨-, -, -, r4⟩ := resize_hashtable_cases cfg env s s0 h0
      rcases r4 with ⟨hb1, -⟩ | ⟨-, q1, q2, -⟩
      · rw [hb] at hb1
        cases hb1
      · exact ⟨hv.1.trans q1, hv.2.1.trans q2⟩
  · intro hs
    exact ⟨fun n s2 h => (AT_allocate_kept_or_grown cfg env size s n s2 hs h).2.2,
      fun s1 h => (resize_hashtable_kept_or_grown cfg env s s1 hs h).2.2,
      fun v n s1 h => (aterm_int_kept_or_grown cfg env v s n s1 hs h).2.2,
      fun sym n s1 h => (aterm_kept_or_grown cfg env sym s n s1 hs h).2.2,
      fun fuel t s1 h => (at_reduce_reference_count_steps same_table_variables
        same_table_variables_steps cfg fuel t s s1 h).2.1,
      fun fuel t s1 h => (at_free_term_steps same_table_variables
        same_table_variables_steps cfg fuel t s s1 h).2.1⟩

theorem AT_allocate_growth_witness :
    store_with_three.total_nodes < store_with_three.table_size ∧
    (run (0, store_with_three) (AT_allocate (example_config true) (example_env 4000) 4
      store_with_three)).2.hashtable = store_with_three.hashtable ∧
    store_full.table_size ≤ store_full.total_nodes ∧
    (∃ s0, resize_hashtable (example_config true) (example_env 4000) store_full = .ok s0 ∧
      (run (0, store_full) (AT_allocate (example_config true) (example_env 4000) 4
        store_full)).2.table_class = s0.table_class ∧
      (run (0, store_full) (AT_allocate (example_config true) (example_env 4000) 4
        store_full)).2.table_size = s0.table_size ∧
      (run (0, store_full) (AT_allocate (example_config true) (example_env 4000) 4
        store_full)).2.table_mask = s0.table_mask ∧
      (run (0, store_full) (AT_allocate (example_config true) (example_env 4000) 4
        store_full)).2.hashtable = s0.hashtable ∧
      ((example_env 4000).bad_alloc = false →
        (run (0, store_full) (AT_allocate (example_config true) (example_env 4000) 4
          store_full)).2.table_class = store_full.table_class + 1 ∧
        (run (0, store_full) (AT_allocate (example_config true) (example_env 4000) 4
          store_full)).2.table_size = 2 ^ (store_full.table_class + 1))) ∧
    table_shape store_full ∧
    store_full.table_size ≤ (run (0, store_full) (aterm_int (example_config true)
      (example_env 4000) 7 store_full)).2.table_size :=
  ⟨by decide,
   ((AT_allocate_growth (example_config true) (example_env 4000) 4 store_with_three).1
      (by decide)).2 _ _ rfl |>.2.2.2,
   by decide,
   ((AT_allocate_growth (example_config true) (example_env 4000) 4 store_full).2.1
      (by decide)).2 _ _ rfl,
   by decide,
   ((AT_allocate_growth (example_config true) (example_env 4000) 4 store_full).2.2
      (by decide)).2.2.1 7 _ _ rfl⟩

end atermpp

namespace atermpp

/-! ## A growth of the table that fails -/

theorem same_table_variables_trans {s s1 s2 : Store} (h1 : same_table_variables s s1)
    (h2 : same_table_variables s1 s2) : same_table_variables s s2 :=
  same_table_variables_steps.trans s s1 s2 h1 h2

/-- A `resize_hashtable` that does not get the memory for the larger table returns the
store it was called in, when the table has the right shape. -/
theorem resize_hashtable_failure (cfg : Config) (env : Env) (s : Store)
    (hs : table_shape s) (hfail : env.bad_alloc = true) : resize_hashtable cfg env s = .ok s := by
  have h : ∃ s1, resize_hashtable cfg env s = .ok s1 := by
    unfold resize_hashtable
    simp [hfail]
  obtain ⟨s1, h1⟩ := h
  rw [h1, (resize_hashtable_shape cfg env s s1 hs h1).2.1 hfail]

/-- The growth step of `AT_allocate` leaves the store as it is when the larger table cannot
be had. -/
theorem AT_allocate_growth_failure (cfg : Config) (env : Env) (s : Store)
    (hs : table_shape s) (hfail : env.bad_alloc = true) :
    (if s.total_nodes ≥ s.table_size then resize_hashtable cfg env s else .ok s) = .ok s := by
  split
  · exact resize_hashtable_failure cfg env s hs hfail
  · rfl

/-- C17. Growth failure is recoverable and atomic.  In a store whose table has the right
shape, a `resize_hashtable` that does not get the memory for the larger table returns
normally, and the store it returns is the store it was called in: `table_class`,
`table_size`, `table_mask` and every bucket chain are what they were.  `AT_allocate` then
chooses its cell in that store, and the constructor that called it keeps the table
variables and inserts its node consistently, in the bucket of its hash under the old
mask. -/
theorem growth_failure_atomic (cfg : Config) (env : Env) (s : Store)
    (hs : table_shape s) (hfail : env.bad_alloc = true) :
    resize_hashtable cfg env s = .ok s ∧
    (∀ size, AT_allocate cfg env size s =
      match AT_allocate_cell cfg env size s with
      | .error e => .error e
      | .ok (at_, s2) => .ok (at_, { s2 with total_nodes := s2.total_nodes + 1 })) ∧
    (∀ v n s1, cfg.TERM_SIZE_INT = cfg.ARG_OFFSET + 1 → table_consistent cfg s →
      (∀ m sa, AT_allocate cfg env cfg.TERM_SIZE_INT s = .ok (m, sa) → m ∉ nodes s) →
      aterm_int cfg env v s = .ok (n, s1) →
      s1.table_class = s.table_class ∧ s1.table_size = s.table_size ∧
      s1.table_mask = s.table_mask ∧ table_consistent cfg s1 ∧
      n ∈ s1.hashtable.getD (int_hash cfg v &&& s.table_mask) []) ∧
    (∀ sym n s1, cfg.TERM_SIZE_APPL 0 ≤ cfg.ARG_OFFSET → cfg.arity sym = 0 →
      sym ≠ cfg.AS_INT → table_consistent cfg s →
      (∀ m sa, AT_allocate cfg env (cfg.TERM_SIZE_APPL 0) s = .ok (m, sa) → m ∉ nodes s) →
      aterm cfg env sym s = .ok (n, s1) →
      s1.table_class = s.table_class ∧ s1.table_size = s.table_size ∧
      s1.table_mask = s.table_mask ∧ table_consistent cfg s1 ∧
      n ∈ s1.hashtable.getD (cfg.FINISH (cfg.START sym) &&& s.table_mask) []) := by
  have hpre := AT_allocate_growth_failure cfg env s hs hfail
  have hmask : env.bad_alloc = true → s.table_mask = 2 ^ s.table_class - 1 := by
    intro _
    rw [hs.2.1, hs.1]
  have hal : ∀ size n sa, AT_allocate cfg env size s = .ok (n, sa) →
      same_table_variables s sa := by
    intro size n sa h
    obtain ⟨s0, h0, hv, -⟩ := AT_allocate_table cfg env size s n sa h
    rw [hpre] at h0
    cases h0
    exact hv
  refine ⟨resize_hashtable_failure cfg env s hs hfail, ?_, ?_, ?_⟩
  · intro size
    rw [AT_allocate, hpre]
  · intro v n s1 hint hc hfresh h
    have hv : same_table_variables s s1 := by
      rcases aterm_int_table cfg env v s n s1 h with hv | ⟨sa, ha, hv⟩
      · exact hv
      · exact same_table_variables_trans (hal _ n sa ha) hv
    obtain ⟨c1, c2⟩ := aterm_int_consistent cfg env v s n s1 hint hmask hfresh hc h
    rw [hv.2.2.1] at c2
    exact ⟨hv.1, hv.2.1, hv.2.2.1, c1, c2⟩
  · intro sym n s1 happl harity hsym hc hfresh h
    have hv : same_table_variables s s1 := by
      rcases aterm_table cfg env sym s n s1 h with hv | ⟨sa, ha, hv⟩
      · exact hv
      · exact same_table_variables_trans (hal _ n sa ha) hv
    obtain ⟨c1, c2⟩ := aterm_consistent cfg env sym s n s1 happl harity hsym hmask hfresh hc h
    rw [hv.2.2.1] at c2
    exact ⟨hv.1, hv.2.1, hv.2.2.1, c1, c2⟩

theorem growth_failure_atomic_witness :
    table_shape store_full ∧
    store_full.table_size ≤ store_full.total_nodes ∧
    resize_hashtable (example_config true) { bad_alloc := true, calloc := some 4000 }
      store_full = .ok store_full ∧
    (run (0, store_full) (aterm_int (example_config true)
      { bad_alloc := true, calloc := some 4000 } 7 store_full)).2.table_size = 2 ∧
    table_consistent (example_config true)
      (run (0, store_full) (aterm_int (example_config true)
        { bad_alloc := true, calloc := some 4000 } 7 store_full)).2 ∧
    1008 ∈ (run (0, store_full) (aterm_int (example_config true)
        { bad_alloc := true, calloc := some 4000 } 7 store_full)).2.hashtable.getD
      (int_hash (example_config true) 7 &&& 1) [] :=
  have h := growth_failure_atomic (example_config true)
    { bad_alloc := true, calloc := some 4000 } store_full (by decide) rfl
  have h7 := h.2.2.1 7 1008 _ rfl (by decide)
    (fun m sa hm => by
      have e : (run (0, store_full) (AT_allocate (example_config true)
          { bad_alloc := true, calloc := some 4000 }
          (example_config true).TERM_SIZE_INT store_full)).1 = m := by
        rw [hm]
        rfl
      rw [← e]
      decide) rfl
  ⟨by decide, by decide, h.1, h7.2.1, h7.2.2.2.1, h7.2.2.2.2⟩

end atermpp

namespace atermpp

/-! ## Failures that are not reported -/

/-- What `allocate_block` does when `calloc` returns `NULL`: the `std::runtime_error` is
constructed and dropped, nothing is thrown, and the next statement that uses the block
writes `newblock->end` through the null pointer. -/
theorem allocate_block_null (cfg : Config) (env : Env) (size : Nat) (s : Store)
    (hnull : env.calloc = none) (hpos : 0 < size)
    (hsize : cfg.ndebug = false → cfg.MIN_TERM_SIZE ≤ size) :
    allocate_block cfg env size s = .error .null_dereference := by
  have h0 : size ≠ 0 := Nat.pos_iff_ne_zero.1 hpos
  unfold allocate_block
  cases hn : cfg.ndebug with
  | true => simp [hnull, h0]
  | false => simp [hnull, hsize hn, h0]

/-- C18 (the code at the failing input). In the initial store, with a `calloc` that
returns `NULL`, `allocate_block` does not throw the out-of-memory error: it goes on and
dereferences the null pointer, and so do `AT_allocate` and the constructor `aterm_int`
that call it, in both builds. -/
theorem allocate_block_does_not_throw :
    allocate_block (example_config true) { bad_alloc := false, calloc := none } 4
      (initial_store 2) = .error .null_dereference ∧
    allocate_block (example_config false) { bad_alloc := false, calloc := none } 4
      (initial_store 2) = .error .null_dereference ∧
    allocate_block (example_config true) { bad_alloc := false, calloc := none } 4
      (initial_store 2) ≠ .error .runtime_error ∧
    AT_allocate (example_config true) { bad_alloc := false, calloc := none } 4
      (initial_store 2) = .error .null_dereference ∧
    aterm_int (example_config true) { bad_alloc := false, calloc := none } 5
      (initial_store 2) = .error .null_dereference :=
  ⟨rfl, rfl,
   (fun h => by
     have h1 : (Except.error Fault.null_dereference : Except Fault Store)
         = .error .runtime_error := h
     cases h1),
   rfl, rfl⟩

/-- What `AT_freeTerm` does with a node that is not on the chain of the bucket of its hash:
for an empty bucket it throws `std::runtime_error` in both builds; for a bucket that holds
other nodes the loop ends without the `throw`, and the `assert(0)` after it stops a debug
build only: a release build returns normally, the store unchanged. -/
theorem AT_freeTerm_absent (cfg : Config) (t : Nat) (s : Store) (chain : List Nat)
    (hb : s.hashtable[bucket_of cfg s t]? = some chain) (ht : t ∉ chain) :
    (chain = [] → AT_freeTerm cfg t s = .error .runtime_error) ∧
    (chain ≠ [] → cfg.ndebug = false → AT_freeTerm cfg t s = .error .assertion_failed) ∧
    (chain ≠ [] → cfg.ndebug = true → AT_freeTerm cfg t s = .ok s) := by
  have hu : unlink t chain = none := by
    cases hr : unlink t chain with
    | none => rfl
    | some r => exact absurd (unlink_some t chain r hr).2.1 ht
  unfold bucket_of at hb
  refine ⟨?_, ?_, ?_⟩
  · intro hc
    subst hc
    unfold AT_freeTerm
    simp only [hb]
  · intro hc hn
    unfold AT_freeTerm
    cases chain with
    | nil => exact absurd rfl hc
    | cons cur next => simp only [hb, hu, hn, Bool.false_eq_true, if_false]
  · intro hc hn
    unfold AT_freeTerm
    cases chain with
    | nil => exact absurd rfl hc
    | cons cur next => simp only [hb, hu, hn, if_true]

/-- C19 (the code at the failing input). In a release build, for the node at 5000, which
is not in the hash table and whose bucket holds two other nodes, `AT_freeTerm` returns
normally and leaves the store as it is, and `at_free_term` goes on and pushes the node on
the free list of its size class.  The same happens when `at_free_term` is called a second
time for a node that has been destroyed: after `aterm_int(2)`, `aterm_int(6)` and the
release of the node of 2, the node is not in the table, its bucket holds the node of 6,
and `at_free_term` returns normally and pushes the node on a second free list. -/
theorem AT_freeTerm_returns_for_absent_node :
    5000 ∉ nodes store_with_absent_node ∧
    bucket_of (example_config true) store_with_absent_node 5000 = 0 ∧
    store_with_absent_node.hashtable[0]? = some [3000, 1004] ∧
    AT_freeTerm (example_config true) 5000 store_with_absent_node
      = .ok store_with_absent_node ∧
    (∃ s1, at_free_term (example_config true) 1 5000 store_with_absent_node = .ok s1 ∧
      (s1.terminfo 4).at_freelist = [5000] ∧ nodes s1 = nodes store_with_absent_node ∧
      s1.total_nodes = store_with_absent_node.total_nodes) ∧
    1000 ∉ nodes store_2_released ∧
    store_2_released.hashtable[bucket_of (example_config true) store_2_released 1000]?
      = some [1004] ∧
    AT_freeTerm (example_config true) 1000 store_2_released = .ok store_2_released ∧
    (∃ s1, at_free_term (example_config true) 1 1000 store_2_released = .ok s1 ∧
      (s1.terminfo 4).at_freelist = [1000] ∧ (s1.terminfo 3).at_freelist = [1000]) :=
  ⟨by decide, by decide, by decide,
   (AT_freeTerm_absent (example_config true) 5000 store_with_absent_node [3000, 1004]
      (by decide) (by decide)).2.2 (by decide) rfl,
   ⟨_, rfl, by decide, by decide, by decide⟩,
   by decide, by decide,
   (AT_freeTerm_absent (example_config true) 1000 store_2_released [1004]
      (by decide) (by decide)).2.2 (by decide) rfl,
   ⟨_, rfl, by decide, by decide⟩⟩

end atermpp

namespace atermpp

/-- C20 (amended). A reference-count underflow is reported in a debug build only.
`at_reduce_reference_count` on a node whose `reference_count` is already 0 fails the
assertion `reference_count > 0` in a debug build, the store not modified; in a release
build, where the assertion is compiled out, the count wraps around to the maximum value
of `size_t` and the call returns normally, nothing but that count modified. -/
theorem reference_count_underflow (cfg : Config) (fuel t : Nat) (s : Store)
    (h0 : (s.mem t).reference_count = 0) :
    (cfg.ndebug = false →
      at_reduce_reference_count cfg (fuel + 1) t s = .error .assertion_failed) ∧
    (cfg.ndebug = true →
      at_reduce_reference_count cfg (fuel + 1) t s = .ok (with_count s t (SIZE_T_RANGE - 1))) := by
  refine ⟨?_, ?_⟩
  · intro hn
    unfold at_reduce_reference_count
    simp [hn, h0]
  · intro hn
    unfold at_reduce_reference_count
    simp [hn, h0, size_t_dec, Store.write, with_count, SIZE_T_RANGE]

theorem reference_count_underflow_witness :
    ((with_count store_with_5 1000 0).mem 1000).reference_count = 0 ∧
    at_reduce_reference_count (example_config false) 1 1000 (with_count store_with_5 1000 0)
      = .error .assertion_failed ∧
    at_reduce_reference_count (example_config true) 1 1000 (with_count store_with_5 1000 0)
      = .ok (with_count (with_count store_with_5 1000 0) 1000 (SIZE_T_RANGE - 1)) :=
  ⟨by decide,
   (reference_count_underflow (example_config false) 0 1000 (with_count store_with_5 1000 0)
      (by decide)).1 rfl,
   (reference_count_underflow (example_config true) 0 1000 (with_count store_with_5 1000 0)
      (by decide)).2 rfl⟩

/-- C20 as stated fails in a release build: the second release of the only reference of a
node returns normally.  The first release destroys the node, count 0, and the second one
wraps the count around to the maximum value of `size_t`. -/
theorem reference_count_underflow_wraps :
    (store_with_5.mem 1000).reference_count = 1 ∧
    ∃ s1 s2, at_reduce_reference_count (example_config true) 2 1000 store_with_5 = .ok s1 ∧
      (s1.mem 1000).reference_count = 0 ∧
      at_reduce_reference_count (example_config true) 2 1000 s1 = .ok s2 ∧
      (s2.mem 1000).reference_count = 18446744073709551615 :=
  ⟨by decide, _, _, rfl, by decide, rfl, by decide⟩

end atermpp

namespace atermpp

/-! ## The arity check of `aterm(sym)` -/

/-- C21 (amended). The arity of the symbol is checked by an assertion only.  For a function
symbol of arity other than 0, `aterm(sym)` fails its assertion in a debug build, before
the hash table is read: nothing is allocated and the store is not changed.  In a release
build the arity is not consulted and the constructor goes on as for a symbol of arity 0:
a node of the bucket that carries the symbol is returned with one more reference; and
when no node of the bucket carries the symbol, the constructor returns whenever
`AT_allocate(TERM_SIZE_APPL(0))` returns a cell (and the bucket exists), and then
`total_nodes` is one more than before and the cell is a node of the hash table with that
symbol. -/
theorem aterm_arity_check (cfg : Config) (env : Env) (sym : Nat) (s : Store)
    (harity : cfg.arity sym ≠ 0) :
    (cfg.ndebug = false → aterm cfg env sym s = .error .assertion_failed) ∧
    (cfg.ndebug = true →
      ∀ chain, s.hashtable[cfg.FINISH (cfg.START sym) &&& s.table_mask]? = some chain →
        (∀ cur others, find_symbol s.mem sym chain = some (cur, others) →
          aterm cfg env sym s = .ok (cur, increase_reference_count cur
            (s.set_bucket (cfg.FINISH (cfg.START sym) &&& s.table_mask) (cur :: others)))) ∧
        (find_symbol s.mem sym chain = none →
          (∀ n sa chain1, AT_allocate cfg env (cfg.TERM_SIZE_APPL 0) s = .ok (n, sa) →
            sa.hashtable[cfg.FINISH (cfg.START sym) &&& sa.table_mask]? = some chain1 →
            ∃ s1, aterm cfg env sym s = .ok (n, s1)) ∧
          ∀ n s1, aterm cfg env sym s = .ok (n, s1) →
            (∃ sa, AT_allocate cfg env (cfg.TERM_SIZE_APPL 0) s = .ok (n, sa)) ∧
            s1.total_nodes = s.total_nodes + 1 ∧ n ∈ nodes s1 ∧
            (s1.mem n).m_function_symbol = sym)) := by
  refine ⟨?_, ?_⟩
  · intro hn
    unfold aterm
    simp [hn, harity]
  · intro hn chain hb
    refine ⟨?_, ?_⟩
    · intro cur others hf
      unfold aterm
      simp only [hn, Bool.not_true, Bool.false_and, Bool.false_eq_true, if_false, hb, hf]
    · intro hf
      refine ⟨?_, ?_⟩
      · intro n sa chain1 hal hb1
        unfold aterm
        simp only [hn, Bool.not_true, Bool.false_and, Bool.false_eq_true, if_false, hb, hf, hal]
        have hb2 : (sa.write n { sa.mem n with m_function_symbol := sym }).hashtable[
            cfg.FINISH (cfg.START sym) &&& sa.table_mask]? = some chain1 := hb1
        simp only [hb2]
        exact ⟨_, rfl⟩
      · intro n s1 h
        obtain ⟨-, hcases⟩ := aterm_cases cfg env sym s n s1 h
        rcases hcases with ⟨chain0, others, hb0, hf0, -⟩ |
          ⟨chain0, sa, chain1, hb0, hf0, hal, hb1, hs1⟩
        · rw [hb] at hb0
          cases hb0
          rw [hf] at hf0
          cases hf0
        · obtain ⟨-, -, -, a4⟩ := AT_allocate_frame cfg env _ s n sa hal
          refine ⟨⟨sa, hal⟩, ?_, ?_, ?_⟩
          · rw [hs1]
            exact a4
          · rw [hs1]
            have : n ∈ nodes ((sa.write n { sa.mem n with m_function_symbol := sym }).set_bucket
                (cfg.FINISH (cfg.START sym) &&& sa.table_mask) (n :: chain1)) :=
              (nodes_set_bucket_cons (sa.write n { sa.mem n with m_function_symbol := sym })
                _ n chain1 hb1).symm.subset (List.mem_cons_self _ _)
            exact this
          · rw [hs1]
            simp [increase_reference_count, Store.write, Store.set_bucket]

theorem aterm_arity_check_witness :
    (example_config false).arity 2 ≠ 0 ∧
    aterm (example_config false) (example_env 1000) 2 (initial_store 2)
      = .error .assertion_failed ∧
    (∃ sa, AT_allocate (example_config true) (example_env 1000) 3 (initial_store 2)
      = .ok (1000, sa)) ∧
    (run (0, initial_store 2) (aterm (example_config true) (example_env 1000) 2
      (initial_store 2))).2.total_nodes = 1 ∧
    1000 ∈ nodes (run (0, initial_store 2) (aterm (example_config true) (example_env 1000) 2
      (initial_store 2))).2 :=
  have h := ((((aterm_arity_check (example_config true) (example_env 1000) 2 (initial_store 2)
    (by decide)).2 rfl) [] rfl).2 rfl).2 1000 _ rfl
  ⟨by decide,
   (aterm_arity_check (example_config false) (example_env 1000) 2 (initial_store 2)
     (by decide)).1 rfl,
   h.1, h.2.1, h.2.2.1⟩

/-- C21 as stated fails in a release build: in the initial store `aterm(sym)` for the
binary symbol 2 returns a node, taken from `AT_allocate`, and `total_nodes` is 1 where it
was 0. -/
theorem aterm_accepts_wrong_arity :
    (example_config true).arity 2 = 2 ∧
    ∃ n s1, aterm (example_config true) (example_env 1000) 2 (initial_store 2) = .ok (n, s1) ∧
      (initial_store 2).total_nodes = 0 ∧ s1.total_nodes = 1 ∧
      nodes (initial_store 2) = [] ∧ nodes s1 = [n] ∧
      (s1.mem n).reference_count = 1 ∧ (s1.terminfo 3).at_block.length = 1 :=
  ⟨by decide, _, _, rfl, by decide, by decide, by decide, by decide, by decide, by decide⟩

end atermpp

namespace atermpp

/-! ## Move to front -/

/-- The search of `aterm(sym)` finds the first node of the chain that carries the symbol,
and gives the chain without it, the other nodes in their order. -/
theorem find_symbol_split (mem : Nat → _aterm) (sym : Nat) (chain : List Nat) (cur : Nat)
    (others : List Nat) (h : find_symbol mem sym chain = some (cur, others)) :
    ∃ pre post, chain = pre ++ cur :: post ∧ others = pre ++ post ∧
      (∀ b ∈ pre, (mem b).m_function_symbol ≠ sym) ∧ (mem cur).m_function_symbol = sym := by
  induction chain generalizing others with
  | nil => simp [find_symbol] at h
  | cons c next ih =>
    simp only [find_symbol] at h
    split at h
    · rename_i hc
      cases h
      exact ⟨[], next, rfl, rfl, fun _ hb => absurd hb (List.not_mem_nil _), hc⟩
    · rename_i hc
      cases hr : find_symbol mem sym next with
      | none => simp [hr] at h
      | some r =>
        simp only [hr, Option.map_some', Option.some.injEq, Prod.mk.injEq] at h
        obtain ⟨h1, h2⟩ := h
        obtain ⟨pre, post, e1, e2, e3, e4⟩ := ih r.2 (by rw [hr, ← h1])
        refine ⟨c :: pre, post, ?_, ?_, ?_, e4⟩
        · rw [e1]
          rfl
        · rw [← h2, e2]
          rfl
        · intro b hb
          rcases List.mem_cons.1 hb with hb1 | hb1
          · rw [hb1]
            exact hc
          · exact e3 b hb1

theorem find_symbol_of_mem (mem : Nat → _aterm) (sym : Nat) (chain : List Nat) (b : Nat)
    (hb : b ∈ chain) (hs : (mem b).m_function_symbol = sym) :
    ∃ cur others, find_symbol mem sym chain = some (cur, others) := by
  cases hr : find_symbol mem sym chain with
  | none => exact absurd hs (find_symbol_none mem sym chain hr b hb)
  | some r => exact ⟨r.1, r.2, rfl⟩

/-- The bucket of a node of a consistent table whose symbol has arity 0 and is not
`AS_INT` is the bucket `aterm(sym)` searches. -/
theorem bucket_of_nullary (cfg : Config) (s : Store) (b sym : Nat)
    (happl : cfg.TERM_SIZE_APPL 0 ≤ cfg.ARG_OFFSET) (harity : cfg.arity sym = 0)
    (hsym : sym ≠ cfg.AS_INT) (hs : (s.mem b).m_function_symbol = sym) :
    bucket_of cfg s b = cfg.FINISH (cfg.START sym) &&& s.table_mask := by
  unfold bucket_of term_size
  rw [hs, if_neg hsym, harity, hash_number_header cfg _ _ happl, hs]

/-- C22. Move-to-front for nullary applications.  For a symbol of arity 0 (other than the
reserved `AS_INT`) whose node is in a consistent hash table, `aterm(sym)` returns the
first node of the bucket of the symbol that carries it, with one more reference; after
the call that node is the first node of the chain, the other nodes of the chain follow in
their previous order, the chain holds the same nodes as before, and no other bucket has
changed. -/
theorem aterm_move_to_front (cfg : Config) (env : Env) (sym : Nat) (s : Store) (b : Nat)
    (happl : cfg.TERM_SIZE_APPL 0 ≤ cfg.ARG_OFFSET) (harity : cfg.arity sym = 0)
    (hsym : sym ≠ cfg.AS_INT) (hc : table_consistent cfg s) (hb : b ∈ nodes s)
    (hs : (s.mem b).m_function_symbol = sym) :
    ∃ chain pre n post s1,
      s.hashtable[cfg.FINISH (cfg.START sym) &&& s.table_mask]? = some chain ∧
      chain = pre ++ n :: post ∧ (∀ a ∈ pre, (s.mem a).m_function_symbol ≠ sym) ∧
      (s.mem n).m_function_symbol = sym ∧
      aterm cfg env sym s = .ok (n, s1) ∧
      s1.hashtable[cfg.FINISH (cfg.START sym) &&& s.table_mask]? = some (n :: (pre ++ post)) ∧
      (n :: (pre ++ post)).Perm chain ∧
      (∀ j, j ≠ (cfg.FINISH (cfg.START sym) &&& s.table_mask) →
        s1.hashtable[j]? = s.hashtable[j]?) ∧
      s1.hashtable.length = s.hashtable.length ∧
      (∀ a, (s1.mem a).m_function_symbol = (s.mem a).m_function_symbol ∧
        (s1.mem a).arg = (s.mem a).arg ∧
        (s1.mem a).reference_count =
          if a = n then (s.mem a).reference_count + 1 else (s.mem a).reference_count) := by
  have hmem := mem_bucket_of_consistent cfg s hc b hb
  rw [bucket_of_nullary cfg s b sym happl harity hsym hs] at hmem
  have hlt : (cfg.FINISH (cfg.START sym) &&& s.table_mask) < s.hashtable.length := by
    by_contra hge
    rw [List.getD_eq_default _ _ (Nat.le_of_not_lt hge)] at hmem
    cases hmem
  obtain ⟨chain, hchain⟩ : ∃ chain,
      s.hashtable[cfg.FINISH (cfg.START sym) &&& s.table_mask]? = some chain :=
    ⟨_, List.getElem?_eq_getElem hlt⟩
  rw [getD_of_getElem? _ _ _ _ hchain] at hmem
  obtain ⟨n, others, hf⟩ := find_symbol_of_mem s.mem sym chain b hmem hs
  obtain ⟨pre, post, e1, e2, e3, e4⟩ := find_symbol_split s.mem sym chain n others hf
  have hrun : aterm cfg env sym s = .ok (n, increase_reference_count n
      (s.set_bucket (cfg.FINISH (cfg.START sym) &&& s.table_mask) (n :: others))) := by
    unfold aterm
    simp [harity, hchain, hf]
  refine ⟨chain, pre, n, post, _, hchain, e1, e3, e4, hrun, ?_, ?_, ?_, ?_, ?_⟩
  · simp only [increase_reference_count, Store.write, Store.set_bucket]
    rw [List.getElem?_set_self hlt, e2]
  · rw [e1]
    exact List.perm_middle.symm
  · intro j hj
    simp only [increase_reference_count, Store.write, Store.set_bucket]
    rw [List.getElem?_set_ne (Ne.symm hj)]
  · simp [increase_reference_count, Store.write, Store.set_bucket]
  · intro a
    by_cases ha : a = n
    · subst ha
      simp [increase_reference_count, Store.write, Store.set_bucket]
    · simp [increase_reference_count, Store.write, Store.set_bucket, ha]

theorem aterm_move_to_front_witness :
    table_consistent (example_config false) store_f_of_x ∧
    3001 ∈ nodes store_f_of_x ∧
    store_f_of_x.hashtable = [[3100, 3001], [], [], []] ∧
    (run (0, store_f_of_x) (aterm (example_config false) (example_env 1000) 4
      store_f_of_x)).2.hashtable = [[3001, 3100], [], [], []] ∧
    ∃ chain pre n post s1,
      store_f_of_x.hashtable[(example_config false).FINISH ((example_config false).START 4)
        &&& store_f_of_x.table_mask]? = some chain ∧
      chain = pre ++ n :: post ∧
      (∀ a ∈ pre, (store_f_of_x.mem a).m_function_symbol ≠ 4) ∧
      (store_f_of_x.mem n).m_function_symbol = 4 ∧
      aterm (example_config false) (example_env 1000) 4 store_f_of_x = .ok (n, s1) ∧
      s1.hashtable[(example_config false).FINISH ((example_config false).START 4)
        &&& store_f_of_x.table_mask]? = some (n :: (pre ++ post)) ∧
      (n :: (pre ++ post)).Perm chain ∧
      (∀ j, j ≠ ((example_config false).FINISH ((example_config false).START 4)
          &&& store_f_of_x.table_mask) →
        s1.hashtable[j]? = store_f_of_x.hashtable[j]?) ∧
      s1.hashtable.length = store_f_of_x.hashtable.length ∧
      (∀ a, (s1.mem a).m_function_symbol = (store_f_of_x.mem a).m_function_symbol ∧
        (s1.mem a).arg = (store_f_of_x.mem a).arg ∧
        (s1.mem a).reference_count =
          if a = n then (store_f_of_x.mem a).reference_count + 1
          else (store_f_of_x.mem a).reference_count) :=
  ⟨by decide, by decide, by decide, by decide,
   aterm_move_to_front (example_config false) (example_env 1000) 4 store_f_of_x 3001
    (by decide) (by decide) (by decide) (by decide) (by decide) (by decide)⟩

end atermpp

namespace atermpp

/-- The search of `aterm_int` finds the first node of the chain that carries `AS_INT` and
the value. -/
theorem find_int_split (cfg : Config) (mem : Nat → _aterm) (word : Nat) (chain : List Nat)
    (b : Nat) (hb : b ∈ chain) (hs : (mem b).m_function_symbol = cfg.AS_INT)
    (hv : word_value ((mem b).arg 0) = word_value word) :
    ∃ pre n post, chain = pre ++ n :: post ∧
      (∀ a ∈ pre, ¬ ((mem a).m_function_symbol = cfg.AS_INT ∧
        word_value ((mem a).arg 0) = word_value word)) ∧
      (mem n).m_function_symbol = cfg.AS_INT ∧
      word_value ((mem n).arg 0) = word_value word ∧
      find_int cfg mem word chain = some n := by
  induction chain with
  | nil => cases hb
  | cons c next ih =>
    by_cases hc : (mem c).m_function_symbol = cfg.AS_INT ∧
        word_value ((mem c).arg 0) = word_value word
    · refine ⟨[], c, next, rfl, fun _ ha => absurd ha (List.not_mem_nil _), hc.1, hc.2, ?_⟩
      simp [find_int, hc.1, hc.2]
    · have hbn : b ∈ next := by
        rcases List.mem_cons.1 hb with h1 | h1
        · exact absurd ⟨h1 ▸ hs, h1 ▸ hv⟩ hc
        · exact h1
      obtain ⟨pre, n, post, e1, e2, e3, e4, e5⟩ := ih hbn
      refine ⟨c :: pre, n, post, by rw [e1]; rfl, ?_, e3, e4, ?_⟩
      · intro a ha
        rcases List.mem_cons.1 ha with h1 | h1
        · rw [h1]
          exact hc
        · exact e2 a h1
      · have hc1 : (mem c).m_function_symbol ≠ cfg.AS_INT ∨
            word_value ((mem c).arg 0) ≠ word_value word := by
          by_cases h1 : (mem c).m_function_symbol = cfg.AS_INT
          · exact Or.inr (fun h2 => hc ⟨h1, h2⟩)
          · exact Or.inl h1
        simp only [find_int, if_pos hc1]
        exact e5

/-- C23 (amended). A hit of `aterm_int` moves nothing.  For every int `v` whose node is on
the chain of the bucket of its hash, `aterm_int(v)` returns the first node of the chain
with symbol `AS_INT` and value `v`, with one more reference, and leaves every bucket chain
as it is: the node keeps its place in the chain, and it is the first node of the chain
after the call only if it was before.  (A debug build asserts that the bucket is the one
of the hash of the node.) -/
theorem aterm_int_keeps_chain (cfg : Config) (env : Env) (v : Int) (s : Store)
    (chain : List Nat) (b : Nat)
    (hchain : s.hashtable[int_hash cfg v &&& s.table_mask]? = some chain) (hb : b ∈ chain)
    (hs : (s.mem b).m_function_symbol = cfg.AS_INT)
    (hv : word_value ((s.mem b).arg 0) = word_value (int_word v)) :
    ∃ pre n post, chain = pre ++ n :: post ∧
      (∀ a ∈ pre, ¬ ((s.mem a).m_function_symbol = cfg.AS_INT ∧
        word_value ((s.mem a).arg 0) = word_value (int_word v))) ∧
      (s.mem n).m_function_symbol = cfg.AS_INT ∧
      word_value ((s.mem n).arg 0) = word_value (int_word v) ∧
      (∀ m s1, aterm_int cfg env v s = .ok (m, s1) →
        m = n ∧ s1.hashtable = s.hashtable ∧
        s1.hashtable[int_hash cfg v &&& s.table_mask]? = some (pre ++ n :: post)) ∧
      ((cfg.ndebug = false → (int_hash cfg v &&& s.table_mask) =
          (hash_number cfg (s.mem n) cfg.TERM_SIZE_INT &&& s.table_mask)) →
        aterm_int cfg env v s = .ok (n, increase_reference_count n s)) := by
  obtain ⟨pre, n, post, e1, e2, e3, e4, e5⟩ :=
    find_int_split cfg s.mem (int_word v) chain b hb hs hv
  refine ⟨pre, n, post, e1, e2, e3, e4, ?_, ?_⟩
  · intro m s1 h
    rw [aterm_int_hit cfg env v s chain n hchain e5] at h
    obtain ⟨h1, h2, -⟩ := aterm_int_finish_ok cfg _ n s m s1 h
    refine ⟨h1, ?_, ?_⟩
    · rw [h2]
      rfl
    · rw [h2, ← e1]
      exact hchain
  · intro ha
    exact aterm_int_found cfg env v s chain n hchain e5 ha

theorem aterm_int_keeps_chain_witness :
    store_with_three.hashtable = [[3000, 1004], [], [], [1000]] ∧
    (run (0, store_with_three) (aterm_int (example_config false) (example_env 4000) 6
      store_with_three)).1 = 1004 ∧
    (run (0, store_with_three) (aterm_int (example_config false) (example_env 4000) 6
      store_with_three)).2.hashtable = [[3000, 1004], [], [], [1000]] ∧
    ∃ pre n post, [3000, 1004] = pre ++ n :: post ∧
      (∀ a ∈ pre, ¬ ((store_with_three.mem a).m_function_symbol = (example_config false).AS_INT ∧
        word_value ((store_with_three.mem a).arg 0) = word_value (int_word 6))) ∧
      (store_with_three.mem n).m_function_symbol = (example_config false).AS_INT ∧
      word_value ((store_with_three.mem n).arg 0) = word_value (int_word 6) ∧
      (∀ m s1, aterm_int (example_config false) (example_env 4000) 6 store_with_three
          = .ok (m, s1) →
        m = n ∧ s1.hashtable = store_with_three.hashtable ∧
        s1.hashtable[int_hash (example_config false) 6 &&& store_with_three.table_mask]?
          = some (pre ++ n :: post)) ∧
      (((example_config false).ndebug = false →
          (int_hash (example_config false) 6 &&& store_with_three.table_mask) =
          (hash_number (example_config false) (store_with_three.mem n)
            (example_config false).TERM_SIZE_INT &&& store_with_three.table_mask)) →
        aterm_int (example_config false) (example_env 4000) 6 store_with_three
          = .ok (n, increase_reference_count n store_with_three)) :=
  ⟨by decide, by decide, by decide,
   aterm_int_keeps_chain (example_config false) (example_env 4000) 6 store_with_three
     [3000, 1004] 1004 rfl (by decide) (by decide) (by decide)⟩

/-- C23 as stated fails: `aterm_int` has no move-to-front.  In the store with the bucket
chain `[3000, 1004]`, `aterm_int(6)` finds the node of 6 at 1004 and returns it; after the
call the chain is still `[3000, 1004]`, and its first node is 3000, not the matched
node. -/
theorem aterm_int_does_not_move_to_front :
    store_with_three.hashtable[0]? = some [3000, 1004] ∧
    (store_with_three.mem 1004).m_function_symbol = (example_config false).AS_INT ∧
    int_value ((store_with_three.mem 1004).arg 0) = 6 ∧
    ∃ s1, aterm_int (example_config false) (example_env 4000) 6 store_with_three
        = .ok (1004, s1) ∧
      s1.hashtable[0]? = some [3000, 1004] ∧
      (s1.hashtable.getD 0 []).head? ≠ some 1004 ∧
      aterm_int (example_config true) (example_env 4000) 6 store_with_three = .ok (1004, s1) :=
  ⟨by decide, by decide, by decide, _, rfl, by decide, by decide, rfl⟩

end atermpp

namespace atermpp

/-! ## The empty list -/

/-- When `at_free_term` goes past the guard for the empty list and returns in a
consistent table, the node is out of the table, its function symbol is the default one
and it heads the free list of its size class. -/
theorem at_free_term_destroys (cfg : Config) (fuel t : Nat) (s s1 : Store)
    (hel : cfg.ndebug = false → (s.mem t).m_function_symbol ≠ cfg.AS_EMPTY_LIST)
    (hc : table_consistent cfg s) (h : at_free_term cfg fuel t s = .ok s1) :
    t ∉ nodes s1 ∧ (s1.mem t).m_function_symbol = cfg.AS_DEFAULT ∧
    (s1.terminfo (term_size cfg (s.mem t))).at_freelist.head? = some t := by
  obtain ⟨sa, sb, ha, hb, hs⟩ := at_free_term_body_push cfg _ fuel t s s1 hel h
  obtain ⟨st1, hn1, -, -⟩ := AT_freeTerm_stable cfg t s sa hc ha
  have st2 := free_arguments_stable cfg (at_reduce_reference_count cfg fuel)
    (fun a => at_reduce_reference_count_safe cfg fuel a) t fuel 0 sa sb (st1.consistent hc)
    hn1 hb
  refine ⟨?_, ?_, ?_⟩
  · have hn : nodes s1 = nodes sb := by
      rw [hs]
      rfl
    rw [hn]
    exact st2.not_mem hn1
  · rw [hs]
    simp [Store.set_terminfo, Store.write]
  · rw [hs]
    simp [Store.set_terminfo]

/-- `at_free_term` returns for a node without arguments that is on the chain of the bucket
of its hash, when the assertion of a debug build holds. -/
theorem at_free_term_returns_nullary (cfg : Config) (fuel t : Nat) (s : Store)
    (chain : List Nat) (hb : s.hashtable[bucket_of cfg s t]? = some chain) (ht : t ∈ chain)
    (harity : cfg.arity (s.mem t).m_function_symbol = 0)
    (hcount : cfg.ndebug = false → (s.mem t).reference_count = 0) :
    ∃ s1, at_free_term cfg fuel t s = .ok s1 := by
  obtain ⟨sa, ha⟩ := AT_freeTerm_returns cfg t s chain hb ht
  obtain ⟨-, e2⟩ := AT_freeTerm_terminfo cfg t s sa ha
  have hfa := free_arguments_none cfg (at_reduce_reference_count cfg fuel) t fuel 0 sa
    (by rw [e2, harity])
  unfold at_free_term at_free_term_body
  by_cases hg : (!cfg.ndebug && decide ((s.mem t).m_function_symbol = cfg.AS_EMPTY_LIST)) = true
  · simp only [hg, if_true]
    exact ⟨_, rfl⟩
  · have hg2 : (!cfg.ndebug && decide ((s.mem t).reference_count ≠ 0)) = false := by
      cases hn : cfg.ndebug with
      | true => rfl
      | false => simp [hcount hn]
    simp only [hg, hg2, ha, hfa]
    exact ⟨_, rfl⟩

/-- C27 (amended). The empty list is exempt from destruction in a debug build only.
Applied to a node whose function symbol is `AS_EMPTY_LIST`, `at_free_term` returns at once
in a debug build, in every store, and leaves the store as it is: the node stays in the
hash table, is pushed on no free list and keeps its symbol.  In a release build the guard
is compiled out and the node is destroyed like any other node: when `at_free_term`
returns in a consistent table, the node is out of the table, its symbol is the default one
and it heads the free list of its size class; and `at_free_term` returns when the node
has no arguments and is on the chain of the bucket of its hash. -/
theorem at_free_term_empty_list (cfg : Config) (fuel t : Nat) (s : Store)
    (hsym : (s.mem t).m_function_symbol = cfg.AS_EMPTY_LIST) :
    (cfg.ndebug = false → at_free_term cfg fuel t s = .ok s) ∧
    (cfg.ndebug = true →
      (∀ s1, table_consistent cfg s → at_free_term cfg fuel t s = .ok s1 →
        t ∉ nodes s1 ∧ (s1.mem t).m_function_symbol = cfg.AS_DEFAULT ∧
        (s1.terminfo (term_size cfg (s.mem t))).at_freelist.head? = some t) ∧
      (∀ chain, s.hashtable[bucket_of cfg s t]? = some chain → t ∈ chain →
        cfg.arity cfg.AS_EMPTY_LIST = 0 → ∃ s1, at_free_term cfg fuel t s = .ok s1)) := by
  refine ⟨?_, ?_⟩
  · intro hn
    unfold at_free_term at_free_term_body
    simp [hn, hsym]
  · intro hn
    refine ⟨?_, ?_⟩
    · intro s1 hc h
      exact at_free_term_destroys cfg fuel t s s1 (fun hd => by rw [hn] at hd; cases hd) hc h
    · intro chain hb ht harity
      exact at_free_term_returns_nullary cfg fuel t s chain hb ht (by rw [hsym]; exact harity)
        (fun hd => by rw [hn] at hd; cases hd)

theorem at_free_term_empty_list_witness :
    (store_with_empty_list.mem 1000).m_function_symbol = (example_config false).AS_EMPTY_LIST ∧
    at_free_term (example_config false) 1 1000 (with_count store_with_empty_list 1000 0)
      = .ok (with_count store_with_empty_list 1000 0) ∧
    1000 ∈ nodes (with_count store_with_empty_list 1000 0) ∧
    (∃ s1, at_free_term (example_config true) 1 1000
      (with_count store_with_empty_list 1000 0) = .ok s1) ∧
    1000 ∉ nodes (run store_with_empty_list (at_free_term (example_config true) 1 1000
      (with_count store_with_empty_list 1000 0))) :=
  ⟨by decide,
   (at_free_term_empty_list (example_config false) 1 1000
     (with_count store_with_empty_list 1000 0) (by decide)).1 rfl,
   by decide,
   ((at_free_term_empty_list (example_config true) 1 1000
     (with_count store_with_empty_list 1000 0) (by decide)).2 rfl).2 [1000] rfl (by decide)
     (by decide),
   (((at_free_term_empty_list (example_config true) 1 1000
     (with_count store_with_empty_list 1000 0) (by decide)).2 rfl).1 _ (by decide) rfl).1⟩

/-- C27 as stated fails in a release build, where the guard of `at_free_term` for the
empty list is compiled out: applied to the node of the empty list, `at_free_term` takes
it out of the hash table, resets its function symbol and pushes it on the free list of
its size class. -/
theorem at_free_term_destroys_empty_list :
    1000 ∈ nodes (with_count store_with_empty_list 1000 0) ∧
    ((with_count store_with_empty_list 1000 0).mem 1000).m_function_symbol
      = (example_config true).AS_EMPTY_LIST ∧
    ∃ s1, at_free_term (example_config true) 1 1000 (with_count store_with_empty_list 1000 0)
        = .ok s1 ∧
      1000 ∉ nodes s1 ∧ (s1.terminfo 3).at_freelist = [1000] ∧
      (s1.mem 1000).m_function_symbol = (example_config true).AS_DEFAULT ∧
      (s1.mem 1000).m_function_symbol ≠ (example_config true).AS_EMPTY_LIST :=
  ⟨by decide, by decide, _, rfl, by decide, by decide, by decide, by decide⟩

end atermpp

namespace mcrl2.old_data

/-! ## Well-typedness of a data equation -/

/-- C28. For every data equation `e`, `e.is_well_typed()` returns true if and only if the
sort of `e.lhs()` equals the sort of `e.rhs()`; the condition and the variable list play
no part: two equations with the same left and right hand sides give the same result. -/
theorem is_well_typed_iff {V E S : Type} [DecidableEq S] (sort : E → S)
    (e : data_equation V E) :
    (e.is_well_typed sort = true ↔ sort e.lhs = sort e.rhs) ∧
    ∀ (vars : V) (cond : E),
      data_equation.is_well_typed sort
        { m_variables := vars, m_condition := cond, m_lhs := e.lhs, m_rhs := e.rhs }
      = e.is_well_typed sort := by
  refine ⟨?_, ?_⟩
  · unfold data_equation.is_well_typed data_equation.lhs data_equation.rhs
    by_cases h : sort e.m_lhs = sort e.m_rhs <;> simp [h]
  · intro vars cond
    rfl

end mcrl2.old_data

namespace atermpp

/-! ## The hash computed by the constructors -/

end atermpp

namespace atermpp

/-! ## Sound stores through the cascade, in both builds -/

theorem leak_zero (h : Nat → Nat) (d : Nat) : leak h d 0 = h := by
  funext a
  unfold leak
  split <;> rfl

theorem leak_leak (h : Nat → Nat) (d j k : Nat) : leak (leak h d j) d k = leak h d (j + k) := by
  funext a
  unfold leak
  by_cases ha : a = d
  · simp only [if_pos ha]
    omega
  · simp only [if_neg ha]

/-- Writing the count of a node, with the handles adjusted so that the count stays exact,
keeps a release in progress as it is. -/
theorem Releasing.set_count {cfg : Config} {s : Store} {h : Nat → Nat} {P : List Nat}
    (hinv : Releasing cfg s h P) (a r : Nat) (h1 : Nat → Nat)
    (hr : r = h1 a + inrefs cfg s a + P.count a) (hh : ∀ x, x ≠ a → h1 x = h x) :
    Releasing cfg (with_count s a r) h1 P := by
  have hst : Stable s (with_count s a r) := Stable.write_count s a _
  refine ⟨?_, hst.consistent hinv.consistent, ?_, ?_⟩
  · intro x
    rw [inrefs_with_count]
    by_cases hx : x = a
    · subst hx
      simp only [with_count, Store.write, if_true]
      exact hr
    · simp only [with_count, Store.write, if_neg hx]
      rw [hh x hx]
      exact hinv.count x
  · intro b hb x hx
    have e : arguments cfg ((with_count s a r).mem b) = arguments cfg (s.mem b) := by
      apply arguments_congr
      · by_cases hbt : b = a <;> simp [with_count, Store.write, hbt]
      · by_cases hbt : b = a <;> simp [with_count, Store.write, hbt]
    rw [e] at hx
    exact hinv.closed b hb x hx
  · intro p hp
    exact hinv.pending_mem p hp

/-- Writing the count of a node that is positive afterwards and is on no free list, with
the handles adjusted, keeps a store sound. -/
theorem Sound.count_set {cfg : Config} {s : Store} {h : Nat → Nat} {P : List Nat}
    (hinv : Sound cfg s h P) (a r : Nat) (h1 : Nat → Nat)
    (hr : r = h1 a + inrefs cfg s a + P.count a) (hh : ∀ x, x ≠ a → h1 x = h x)
    (hpos : a ∈ nodes s → 0 < r ∨
      (cfg.ndebug = false ∧ (s.mem a).m_function_symbol = cfg.AS_EMPTY_LIST))
    (hfree : ∀ c, a ∉ (s.terminfo c).at_freelist) :
    Sound cfg (with_count s a r) h1 P := by
  refine ⟨hinv.releasing.set_count a r h1 hr hh, ?_, hinv.counted, ?_, hinv.apart,
    hinv.default_outside⟩
  · intro x hx
    by_cases hxa : x = a
    · subst hxa
      simp only [with_count, Store.write, if_true]
      exact hpos hx
    · simp only [with_count, Store.write, if_neg hxa]
      exact hinv.positive x hx
  · intro c x hx
    have hxa : x ≠ a := by
      rintro rfl
      exact hfree c hx
    simp only [with_count, Store.write, if_neg hxa]
    exact hinv.free_zero c x hx

/-- A node with a positive count is on no free list of a sound store. -/
theorem Sound.not_free {cfg : Config} {s : Store} {h : Nat → Nat} {P : List Nat}
    (hinv : Sound cfg s h P) (a : Nat) (ha : 0 < (s.mem a).reference_count) (c : Nat) :
    a ∉ (s.terminfo c).at_freelist := by
  intro hm
  have := hinv.free_zero c a hm
  omega

/-- A further reference on the default term, in a debug build. -/
theorem Sound.retain_default {cfg : Config} {s : Store} {h : Nat → Nat} {P : List Nat}
    (hinv : Sound cfg s h P) (hnd : cfg.ndebug = false) :
    Sound cfg (increase_reference_count cfg.default_aterm s) (leak h cfg.default_aterm 1) P := by
  have hd := hinv.default_outside hnd
  apply hinv.count_set cfg.default_aterm _ (leak h cfg.default_aterm 1)
  · have := hinv.releasing.count cfg.default_aterm
    simp only [leak, if_true]
    omega
  · intro x hx
    simp only [leak, if_neg hx]
  · intro hm
    exact absurd hm hd.1
  · exact hd.2

/-- The release of a reference on the default term that is not its last one. -/
theorem Sound.release_default {cfg : Config} {s : Store} {h : Nat → Nat} {P : List Nat}
    {k : Nat} (hinv : Sound cfg s (leak h cfg.default_aterm (k + 1)) P)
    (hnd : cfg.ndebug = false) :
    Sound cfg (with_count s cfg.default_aterm
      ((s.mem cfg.default_aterm).reference_count - 1)) (leak h cfg.default_aterm k) P := by
  have hd := hinv.default_outside hnd
  apply hinv.count_set cfg.default_aterm _ (leak h cfg.default_aterm k)
  · have := hinv.releasing.count cfg.default_aterm
    simp only [leak, if_true] at this ⊢
    omega
  · intro x hx
    simp only [leak, if_neg hx]
  · intro hm
    exact absurd hm hd.1
  · exact hd.2

end atermpp

namespace atermpp

/-- The count of a reference that has been given up is positive. -/
theorem Sound.pending_pos {cfg : Config} {s : Store} {h : Nat → Nat} {P : List Nat} {t : Nat}
    (hinv : Sound cfg s h (t :: P)) : 1 ≤ (s.mem t).reference_count := by
  have := hinv.releasing.count t
  simp only [List.count_cons_self] at this
  omega

/-- Taking a reference that has been given up from the count of its node, when the node
stays (its count stays positive, or it is the empty list of a debug build). -/
theorem Sound.take_reference {cfg : Config} {s : Store} {h : Nat → Nat} {P : List Nat} {t : Nat}
    (hinv : Sound cfg s h (t :: P))
    (hstay : 1 < (s.mem t).reference_count ∨
      (cfg.ndebug = false ∧ (s.mem t).m_function_symbol = cfg.AS_EMPTY_LIST)) :
    Sound cfg (with_count s t ((s.mem t).reference_count - 1)) h P := by
  have hpos := hinv.pending_pos
  have hr := hinv.releasing.decrement
  refine ⟨hr, ?_, hinv.counted, ?_, hinv.apart, hinv.default_outside⟩
  · intro x hx
    by_cases hxt : x = t
    · subst hxt
      simp only [with_count, Store.write, if_true]
      rcases hstay with h1 | h1
      · left
        omega
      · right
        exact h1
    · simp only [with_count, Store.write, if_neg hxt]
      exact hinv.positive x hx
  · intro c x hx
    have hxt : x ≠ t := by
      rintro rfl
      exact hinv.not_free x (by omega) c hx
    simp only [with_count, Store.write, if_neg hxt]
    exact hinv.free_zero c x hx

/-- Taking the last reference of a node from its count and the node out of the table: the
references the node holds are given up in turn. -/
theorem Sound.take_node {cfg : Config} {s sr : Store} {h : Nat → Nat} {P : List Nat} {t : Nat}
    (hinv : Sound cfg s h (t :: P)) (hone : (s.mem t).reference_count = 1)
    (hfree : AT_freeTerm cfg t (with_count s t 0) = .ok sr) :
    Sound cfg sr h (arguments cfg (s.mem t) ++ P) ∧ Stable s sr ∧ t ∉ nodes sr ∧
      sr.mem = (with_count s t 0).mem ∧ sr.terminfo = s.terminfo ∧
      (nodes s).Perm (t :: nodes sr) := by
  have hts : t ∈ nodes s := hinv.releasing.pending_mem t (List.mem_cons_self _ _)
  have hr0 := hinv.releasing.decrement
  rw [hone] at hr0
  have hz : ((with_count s t 0).mem t).reference_count = 0 := by
    simp [with_count, Store.write]
  obtain ⟨r1, r2, r3, r4⟩ := hr0.remove hz hts hfree
  have hst0 : Stable s (with_count s t 0) := Stable.write_count s t _
  obtain ⟨-, -, -, hti⟩ := AT_freeTerm_stable cfg t _ sr hr0.consistent hfree
  have hperm : (nodes s).Perm (t :: nodes sr) := by
    rcases AT_freeTerm_cases cfg t _ sr hfree with
      ⟨chain, chain1, hb, hu, hs⟩ | ⟨chain, hb, -, hu, -, -⟩
    · rw [hs]
      exact nodes_unlink_perm (with_count s t 0) _ t chain chain1 hb hu
    · exfalso
      have := mem_bucket_of_consistent cfg _ hr0.consistent t hts
      rw [getD_of_getElem? _ _ _ _ hb] at this
      exact unlink_none t chain hu this
  have hargs : arguments cfg (sr.mem t) = arguments cfg (s.mem t) := by
    rw [r4]
    apply arguments_congr <;> simp [with_count, Store.write]
  rw [hargs] at r1
  have hcount : ∀ x, x ≠ t → (sr.mem x).reference_count = (s.mem x).reference_count := by
    intro x hx
    rw [r4]
    simp [with_count, Store.write, hx]
  have hsym : ∀ x, (sr.mem x).m_function_symbol = (s.mem x).m_function_symbol := by
    intro x
    rw [r4]
    by_cases hx : x = t <;> simp [with_count, Store.write, hx]
  refine ⟨⟨r1, ?_, ?_, ?_, ?_, ?_⟩, hst0.trans r2, r3, r4, hti, hperm⟩
  · intro x hx
    have hxt : x ≠ t := by
      rintro rfl
      exact r3 hx
    rw [hcount x hxt, hsym x]
    exact hinv.positive x ((hst0.trans r2).nodes_subset x hx)
  · have hl := hperm.length_eq
    simp only [List.length_cons] at hl
    have htot : sr.total_nodes = size_t_dec s.total_nodes := by
      rcases AT_freeTerm_cases cfg t _ sr hfree with
        ⟨chain, chain1, hb, hu, hs⟩ | ⟨chain, hb, -, hu, -, -⟩
      · rw [hs]
        rfl
      · exfalso
        have := mem_bucket_of_consistent cfg _ hr0.consistent t hts
        rw [getD_of_getElem? _ _ _ _ hb] at this
        exact unlink_none t chain hu this
    rw [htot, hinv.counted, hl]
    unfold size_t_dec
    simp
  · intro c x hx
    rw [hti] at hx
    have hxt : x ≠ t := by
      rintro rfl
      exact hinv.not_free x (by omega) c hx
    rw [hcount x hxt]
    exact hinv.free_zero c x hx
  · intro c x hx hm
    rw [hti] at hx
    exact hinv.apart c x hx ((hst0.trans r2).nodes_subset _ hm)
  · intro hnd
    obtain ⟨d1, d2⟩ := hinv.default_outside hnd
    refine ⟨fun hm => d1 ((hst0.trans r2).nodes_subset _ hm), ?_⟩
    intro c
    rw [hti]
    exact d2 c

/-- The last step of `at_free_term`: the symbol of the node, which is out of the table
and has count 0, is reset and the node is pushed on a free list. -/
theorem Sound.push_free {cfg : Config} {s : Store} {h : Nat → Nat} {P : List Nat}
    (hinv : Sound cfg s h P) (t size : Nat) (ht : t ∉ nodes s)
    (hz : (s.mem t).reference_count = 0) (htd : cfg.ndebug = false → t ≠ cfg.default_aterm) :
    Sound cfg ((s.write t { s.mem t with m_function_symbol := cfg.AS_DEFAULT }).set_terminfo size
      { (s.write t { s.mem t with m_function_symbol := cfg.AS_DEFAULT }).terminfo size with
        at_freelist := t ::
          ((s.write t { s.mem t with m_function_symbol := cfg.AS_DEFAULT }).terminfo
            size).at_freelist }) h P := by
  have hmem : ∀ x, x ≠ t →
      (((s.write t { s.mem t with m_function_symbol := cfg.AS_DEFAULT }).set_terminfo size
      { (s.write t { s.mem t with m_function_symbol := cfg.AS_DEFAULT }).terminfo size with
        at_freelist := t ::
          ((s.write t { s.mem t with m_function_symbol := cfg.AS_DEFAULT }).terminfo
            size).at_freelist }).mem x) = s.mem x := by
    intro x hx
    simp [Store.set_terminfo, Store.write, hx]
  have hcount : ∀ x,
      (((s.write t { s.mem t with m_function_symbol := cfg.AS_DEFAULT }).set_terminfo size
      { (s.write t { s.mem t with m_function_symbol := cfg.AS_DEFAULT }).terminfo size with
        at_freelist := t ::
          ((s.write t { s.mem t with m_function_symbol := cfg.AS_DEFAULT }).terminfo
            size).at_freelist }).mem x).reference_count = (s.mem x).reference_count := by
    intro x
    by_cases hx : x = t <;> simp [Store.set_terminfo, Store.write, hx]
  refine ⟨?_, ?_, hinv.counted, ?_, ?_, ?_⟩
  · refine hinv.releasing.of_frame ?_ ?_ ?_ hcount
    · rfl
    · rfl
    · intro b hb
      have hbt : b ≠ t := by
        rintro rfl
        exact ht hb
      rw [hmem b hbt]
      exact ⟨rfl, rfl⟩
  · intro x hx
    have hxt : x ≠ t := by
      rintro rfl
      exact ht hx
    rw [hmem x hxt]
    exact hinv.positive x hx
  · intro c x hx
    rw [hcount x]
    by_cases hc : c = size
    · subst hc
      simp only [Store.set_terminfo, Store.write, if_true] at hx
      rcases List.mem_cons.1 hx with h1 | h1
      · rw [h1]
        exact hz
      · exact hinv.free_zero c x h1
    · simp only [Store.set_terminfo, Store.write, if_neg hc] at hx
      exact hinv.free_zero c x hx
  · intro c x hx
    show x ∉ nodes s
    by_cases hc : c = size
    · subst hc
      simp only [Store.set_terminfo, Store.write, if_true] at hx
      rcases List.mem_cons.1 hx with h1 | h1
      · rw [h1]
        exact ht
      · exact hinv.apart c x h1
    · simp only [Store.set_terminfo, Store.write, if_neg hc] at hx
      exact hinv.apart c x hx
  · intro hnd
    obtain ⟨d1, d2⟩ := hinv.default_outside hnd
    refine ⟨d1, ?_⟩
    intro c hm
    by_cases hc : c = size
    · subst hc
      simp only [Store.set_terminfo, Store.write, if_true] at hm
      rcases List.mem_cons.1 hm with h1 | h1
      · exact htd hnd h1.symm
      · exact d2 c h1
    · simp only [Store.set_terminfo, Store.write, if_neg hc] at hm
      exact d2 c hm

end atermpp

namespace atermpp

theorem arguments_drop_congr (cfg : Config) (t u : _aterm) (i : Nat)
    (h1 : u.m_function_symbol = t.m_function_symbol) (h2 : ∀ j, i ≤ j → u.arg j = t.arg j) :
    (arguments cfg u).drop i = (arguments cfg t).drop i := by
  apply List.ext_getElem
  · simp [arguments, h1]
  · intro k hk1 hk2
    simp only [List.getElem_drop, arguments, List.getElem_map, List.getElem_range]
    exact h2 _ (by omega)

/-- A store that differs from a sound one only in the payloads and symbols of nodes
outside the table is sound. -/
theorem Sound.frame_write {cfg : Config} {s s1 : Store} {h : Nat → Nat} {P : List Nat}
    (hinv : Sound cfg s h P) (hh : s1.hashtable = s.hashtable)
    (hm : s1.table_mask = s.table_mask) (hti : s1.terminfo = s.terminfo)
    (htot : s1.total_nodes = s.total_nodes)
    (hf : ∀ b ∈ nodes s, (s1.mem b).m_function_symbol = (s.mem b).m_function_symbol ∧
      (s1.mem b).arg = (s.mem b).arg)
    (hrc : ∀ a, (s1.mem a).reference_count = (s.mem a).reference_count) :
    Sound cfg s1 h P := by
  have hn : nodes s1 = nodes s := by unfold nodes; rw [hh]
  refine ⟨hinv.releasing.of_frame hh hm hf hrc, ?_, ?_, ?_, ?_, ?_⟩
  · intro x hx
    rw [hn] at hx
    rw [hrc x, (hf x hx).1]
    exact hinv.positive x hx
  · rw [htot, hn]
    exact hinv.counted
  · intro c x hx
    rw [hti] at hx
    rw [hrc x]
    exact hinv.free_zero c x hx
  · intro c x hx
    rw [hti] at hx
    rw [hn]
    exact hinv.apart c x hx
  · intro hnd
    rw [hn, hti]
    exact hinv.default_outside hnd

/-- A release of a reference on a node with two or more references only writes the
count. -/
theorem at_reduce_shared (cfg : Config) (fuel d : Nat) (s s1 : Store)
    (hrun : at_reduce_reference_count cfg fuel d s = .ok s1)
    (hc : 2 ≤ (s.mem d).reference_count) :
    s1 = with_count s d ((s.mem d).reference_count - 1) := by
  cases fuel with
  | zero => cases hrun
  | succ fuel =>
    have hdec : size_t_dec (s.mem d).reference_count = (s.mem d).reference_count - 1 := by
      unfold size_t_dec
      rw [if_neg (by omega)]
    unfold at_reduce_reference_count at hrun
    have h0 : (s.mem d).reference_count ≠ 0 := by omega
    simp only [h0, Bool.and_false, decide_False, Bool.false_eq_true, if_false, hdec] at hrun
    have h1 : ((s.write d { s.mem d with
        reference_count := (s.mem d).reference_count - 1 }).mem d).reference_count ≠ 0 := by
      simp only [Store.write, if_true]
      omega
    rw [if_neg h1] at hrun
    cases hrun
    rfl

end atermpp

namespace atermpp

/-- The handle assignment of the debug variant of `at_free_term` gives up the reference
held in argument `i` of the dead node `t` and keeps one more reference on the default
term. -/
theorem assign_default_aterm_sound (cfg : Config) (hnd : cfg.ndebug = false)
    (reduce : Nat → Store → Except Fault Store) (hr : Releases cfg reduce)
    (hd : ∀ s s1, reduce cfg.default_aterm s = .ok s1 →
      2 ≤ (s.mem cfg.default_aterm).reference_count →
      s1 = with_count s cfg.default_aterm ((s.mem cfg.default_aterm).reference_count - 1))
    (t i : Nat) (s s1 : Store) (h : Nat → Nat) (P : List Nat) (ht : t ∉ nodes s)
    (htd : t ≠ cfg.default_aterm)
    (hinv : Sound cfg s h ((s.mem t).arg i :: P))
    (hrun : assign_default_aterm cfg reduce t i s = .ok s1) :
    (∃ k, Sound cfg s1 (leak h cfg.default_aterm k) P) ∧ Stable s s1 ∧
      allocator_grows s s1 ∧
      (∀ x, x ∉ nodes s → x ≠ t →
        (s1.mem x).m_function_symbol = (s.mem x).m_function_symbol ∧
        (s1.mem x).arg = (s.mem x).arg ∧
        (x ≠ cfg.default_aterm → (s1.mem x).reference_count = (s.mem x).reference_count)) ∧
      ((s1.mem t).m_function_symbol = (s.mem t).m_function_symbol ∧
        (s1.mem t).reference_count = (s.mem t).reference_count ∧
        ∀ j, j ≠ i → (s1.mem t).arg j = (s.mem t).arg j) ∧
      (∀ a ∈ nodes s, a ∉ nodes s1 →
        a ∈ (s1.terminfo (term_size cfg (s.mem a))).at_freelist) := by
  unfold assign_default_aterm at hrun
  simp only [] at hrun
  have hS2 : Sound cfg (increase_reference_count cfg.default_aterm
      (increase_reference_count cfg.default_aterm s))
      (leak h cfg.default_aterm 2) ((s.mem t).arg i :: P) := by
    have := (hinv.retain_default hnd).retain_default hnd
    rw [leak_leak] at this
    exact this
  have hmem2 : ∀ x, ((increase_reference_count cfg.default_aterm
      (increase_reference_count cfg.default_aterm s)).mem x).m_function_symbol =
        (s.mem x).m_function_symbol ∧
      ((increase_reference_count cfg.default_aterm
      (increase_reference_count cfg.default_aterm s)).mem x).arg = (s.mem x).arg ∧
      (x ≠ cfg.default_aterm → ((increase_reference_count cfg.default_aterm
      (increase_reference_count cfg.default_aterm s)).mem x).reference_count =
        (s.mem x).reference_count) := by
    intro x
    by_cases hx : x = cfg.default_aterm
    · simp [increase_reference_count, Store.write, hx]
    · simp [increase_reference_count, Store.write, hx]
  have hst2 : Stable s (increase_reference_count cfg.default_aterm
      (increase_reference_count cfg.default_aterm s)) :=
    (Stable.increase _ s).trans (Stable.increase _ _)
  have hg2 : allocator_grows s (increase_reference_count cfg.default_aterm
      (increase_reference_count cfg.default_aterm s)) :=
    allocator_grows_steps.trans _ _ _ (allocator_grows_steps.write _ _ _)
      (allocator_grows_steps.write _ _ _)
  have hn2 : nodes (increase_reference_count cfg.default_aterm
      (increase_reference_count cfg.default_aterm s)) = nodes s := rfl
  rw [(hmem2 t).2.1] at hrun
  generalize increase_reference_count cfg.default_aterm
      (increase_reference_count cfg.default_aterm s) = s2 at hrun hS2 hmem2 hst2 hg2 hn2
  split at hrun
  · cases hrun
  · rename_i s3 h3
    obtain ⟨⟨k, -, hS3⟩, st3, g3, out3, rec3⟩ := hr _ _ _ _ _ hS2 h3
    rw [leak_leak] at hS3
    have ht2 : t ∉ nodes s2 := by rw [hn2]; exact ht
    have ht3 : t ∉ nodes s3 := st3.not_mem ht2
    have hS4 : Sound cfg (s3.write t { s3.mem t with
        arg := fun j => if j = i then cfg.default_aterm else (s3.mem t).arg j })
        (leak h cfg.default_aterm (2 + k)) P := by
      refine hS3.frame_write rfl rfl rfl rfl ?_ ?_
      · intro b hb
        have hbt : b ≠ t := by
          rintro rfl
          exact ht3 hb
        simp [Store.write, hbt]
      · intro a
        by_cases hat : a = t <;> simp [Store.write, hat]
    have hc4 : 2 ≤ ((s3.write t { s3.mem t with
        arg := fun j => if j = i then cfg.default_aterm else (s3.mem t).arg j }).mem
        cfg.default_aterm).reference_count := by
      rw [hS4.releasing.count cfg.default_aterm]
      simp only [leak, if_true]
      omega
    have hmem4 : ∀ x, x ≠ t → (s3.write t { s3.mem t with
        arg := fun j => if j = i then cfg.default_aterm else (s3.mem t).arg j }).mem x =
        s3.mem x := by
      intro x hx
      simp [Store.write, hx]
    have hmem4t : ((s3.write t { s3.mem t with
        arg := fun j => if j = i then cfg.default_aterm else (s3.mem t).arg j }).mem
        t).m_function_symbol = (s3.mem t).m_function_symbol ∧
        ((s3.write t { s3.mem t with
        arg := fun j => if j = i then cfg.default_aterm else (s3.mem t).arg j }).mem
        t).reference_count = (s3.mem t).reference_count ∧
        ∀ j, j ≠ i → ((s3.write t { s3.mem t with
        arg := fun j => if j = i then cfg.default_aterm else (s3.mem t).arg j }).mem
        t).arg j = (s3.mem t).arg j := by
      refine ⟨by simp [Store.write], by simp [Store.write], ?_⟩
      intro j hj
      simp [Store.write, hj]
    have hst4 : Stable s3 (s3.write t { s3.mem t with
        arg := fun j => if j = i then cfg.default_aterm else (s3.mem t).arg j }) :=
      Stable.write_outside s3 t _ ht3
    have hg4 : allocator_grows s3 (s3.write t { s3.mem t with
        arg := fun j => if j = i then cfg.default_aterm else (s3.mem t).arg j }) :=
      allocator_grows_steps.write _ _ _
    have hn4 : nodes (s3.write t { s3.mem t with
        arg := fun j => if j = i then cfg.default_aterm else (s3.mem t).arg j }) =
        nodes s3 := rfl
    have hti4 : (s3.write t { s3.mem t with
        arg := fun j => if j = i then cfg.default_aterm else (s3.mem t).arg j }).terminfo =
        s3.terminfo := rfl
    generalize (s3.write t { s3.mem t with
        arg := fun j => if j = i then cfg.default_aterm else (s3.mem t).arg j }) = s4
      at hrun hS4 hc4 hmem4 hmem4t hst4 hg4 hn4 hti4
    have e := hd _ _ hrun hc4
    have hS1 : Sound cfg s1 (leak h cfg.default_aterm (1 + k)) P := by
      rw [e]
      have h2 : 2 + k = (1 + k) + 1 := by omega
      rw [h2] at hS4
      exact hS4.release_default hnd
    have hmem1 : ∀ x, (s1.mem x).m_function_symbol = (s4.mem x).m_function_symbol ∧
        (s1.mem x).arg = (s4.mem x).arg ∧
        (x ≠ cfg.default_aterm → (s1.mem x).reference_count = (s4.mem x).reference_count) := by
      intro x
      rw [e]
      by_cases hx : x = cfg.default_aterm <;> simp [with_count, Store.write, hx]
    have hst1 : Stable s4 s1 := by
      rw [e]
      exact Stable.write_count _ _ _
    have hg1 : allocator_grows s4 s1 := by
      rw [e]
      exact allocator_grows_steps.write _ _ _
    have hn1 : nodes s1 = nodes s4 := by rw [e]; rfl
    have hti1 : s1.terminfo = s4.terminfo := by rw [e]; rfl
    refine ⟨⟨_, hS1⟩, ((hst2.trans st3).trans hst4).trans hst1,
      allocator_grows_steps.trans _ _ _ (allocator_grows_steps.trans _ _ _
        (allocator_grows_steps.trans _ _ _ hg2 g3) hg4) hg1, ?_, ?_, ?_⟩
    · intro x hx hxt
      have hx2 : x ∉ nodes s2 := by rw [hn2]; exact hx
      obtain ⟨a1, a2, a3⟩ := hmem2 x
      obtain ⟨b1, b2, b3⟩ := out3 x hx2
      obtain ⟨c1, c2, c3⟩ := hmem1 x
      rw [hmem4 x hxt] at c1 c2 c3
      refine ⟨(c1.trans b1).trans a1, (c2.trans b2).trans a2, ?_⟩
      intro hxd
      rw [c3 hxd, b3 (Or.inr hxd), a3 hxd]
    · obtain ⟨a1, a2, a3⟩ := hmem2 t
      obtain ⟨b1, b2, b3⟩ := out3 t ht2
      obtain ⟨c1, c2, c3⟩ := hmem1 t
      obtain ⟨d1, d2, d3⟩ := hmem4t
      refine ⟨((c1.trans d1).trans b1).trans a1, ?_, ?_⟩
      · rw [c3 htd, d2, b3 (Or.inr htd), a3 htd]
      · intro j hj
        rw [c2, d3 j hj, b2, a2]
    · intro a ha hna
      rw [hn1, hn4] at hna
      have := rec3 a (by rw [hn2]; exact ha) hna
      rw [hti1, hti4, ← term_size_congr cfg _ _ (hmem2 a).1]
      exact this

end atermpp

namespace atermpp

/-- One round of the loop of `at_free_term`, in either build: the reference held in
argument `i` of the dead node `t` is given up. -/
theorem release_argument_sound (cfg : Config) (reduce : Nat → Store → Except Fault Store)
    (hr : Releases cfg reduce)
    (hd : ∀ s s1, reduce cfg.default_aterm s = .ok s1 →
      2 ≤ (s.mem cfg.default_aterm).reference_count →
      s1 = with_count s cfg.default_aterm ((s.mem cfg.default_aterm).reference_count - 1))
    (t i : Nat) (s s2 : Store) (h : Nat → Nat) (P : List Nat) (ht : t ∉ nodes s)
    (htd : cfg.ndebug = false → t ≠ cfg.default_aterm)
    (hinv : Sound cfg s h ((s.mem t).arg i :: P))
    (h2 : (if cfg.ndebug then reduce ((s.mem t).arg i) s
      else assign_default_aterm cfg reduce t i s) = .ok s2) :
    (∃ k, (cfg.ndebug = true → k = 0) ∧ Sound cfg s2 (leak h cfg.default_aterm k) P) ∧
      Stable s s2 ∧ allocator_grows s s2 ∧
      (∀ x, x ∉ nodes s → x ≠ t →
        (s2.mem x).m_function_symbol = (s.mem x).m_function_symbol ∧
        (s2.mem x).arg = (s.mem x).arg ∧
        (cfg.ndebug = true ∨ x ≠ cfg.default_aterm →
          (s2.mem x).reference_count = (s.mem x).reference_count)) ∧
      ((s2.mem t).m_function_symbol = (s.mem t).m_function_symbol ∧
        (s2.mem t).reference_count = (s.mem t).reference_count ∧
        ∀ j, j ≠ i → (s2.mem t).arg j = (s.mem t).arg j) ∧
      (∀ a ∈ nodes s, a ∉ nodes s2 →
        a ∈ (s2.terminfo (term_size cfg (s.mem a))).at_freelist) := by
  cases hn : cfg.ndebug
  · rw [hn] at h2
    simp only [Bool.false_eq_true, if_false] at h2
    obtain ⟨⟨k, hk⟩, q2, q3, q4, q5, q6⟩ :=
      assign_default_aterm_sound cfg hn reduce hr hd t i s s2 h _ ht (htd hn) hinv h2
    refine ⟨⟨k, (fun e => by cases e), hk⟩, q2, q3, ?_, q5, q6⟩
    intro x hx hxt
    obtain ⟨e1, e2, e3⟩ := q4 x hx hxt
    refine ⟨e1, e2, ?_⟩
    rintro (e | e)
    · cases e
    · exact e3 e
  · rw [hn] at h2
    simp only [if_true] at h2
    obtain ⟨q1, q2, q3, q4, q5⟩ := hr _ _ _ _ _ hinv h2
    obtain ⟨e1, e2, e3⟩ := q4 t ht
    refine ⟨?_, q2, q3, fun x hx _ => ?_, ⟨e1, e3 (Or.inl hn), fun j _ => by rw [e2]⟩, q5⟩
    · obtain ⟨k, hk0, hk⟩ := q1
      refine ⟨k, fun _ => hk0 hn, hk⟩
    · obtain ⟨f1, f2, f3⟩ := q4 x hx
      refine ⟨f1, f2, ?_⟩
      rintro (e | e)
      · exact f3 (Or.inl hn)
      · exact f3 (Or.inr e)

end atermpp

namespace atermpp

/-- The loop of `at_free_term` gives up the references held in the arguments of the dead
node `t`, one after the other, in both builds. -/
theorem free_arguments_sound (cfg : Config) (reduce : Nat → Store → Except Fault Store)
    (hr : Releases cfg reduce)
    (hd : ∀ s s1, reduce cfg.default_aterm s = .ok s1 →
      2 ≤ (s.mem cfg.default_aterm).reference_count →
      s1 = with_count s cfg.default_aterm ((s.mem cfg.default_aterm).reference_count - 1))
    (t n i : Nat) (s s1 : Store) (h : Nat → Nat) (P : List Nat) (ht : t ∉ nodes s)
    (htd : cfg.ndebug = false → t ≠ cfg.default_aterm)
    (hinv : Sound cfg s h ((arguments cfg (s.mem t)).drop i ++ P))
    (hrun : free_arguments cfg reduce t n i s = .ok s1) :
    (∃ k, (cfg.ndebug = true → k = 0) ∧ Sound cfg s1 (leak h cfg.default_aterm k) P) ∧
      Stable s s1 ∧ allocator_grows s s1 ∧
      (∀ x, x ∉ nodes s → x ≠ t →
        (s1.mem x).m_function_symbol = (s.mem x).m_function_symbol ∧
        (s1.mem x).arg = (s.mem x).arg ∧
        (cfg.ndebug = true ∨ x ≠ cfg.default_aterm →
          (s1.mem x).reference_count = (s.mem x).reference_count)) ∧
      ((s1.mem t).m_function_symbol = (s.mem t).m_function_symbol ∧
        (s1.mem t).reference_count = (s.mem t).reference_count) ∧
      (∀ a ∈ nodes s, a ∉ nodes s1 →
        a ∈ (s1.terminfo (term_size cfg (s.mem a))).at_freelist) := by
  have hstop : ∀ i : Nat, ∀ s : Store, ∀ h : Nat → Nat,
      Sound cfg s h ((arguments cfg (s.mem t)).drop i ++ P) →
      ¬ i < cfg.arity (s.mem t).m_function_symbol →
      (∃ k, (cfg.ndebug = true → k = 0) ∧ Sound cfg s (leak h cfg.default_aterm k) P) ∧
      Stable s s ∧ allocator_grows s s ∧
      (∀ x, x ∉ nodes s → x ≠ t →
        (s.mem x).m_function_symbol = (s.mem x).m_function_symbol ∧
        (s.mem x).arg = (s.mem x).arg ∧
        (cfg.ndebug = true ∨ x ≠ cfg.default_aterm →
          (s.mem x).reference_count = (s.mem x).reference_count)) ∧
      ((s.mem t).m_function_symbol = (s.mem t).m_function_symbol ∧
        (s.mem t).reference_count = (s.mem t).reference_count) ∧
      (∀ a ∈ nodes s, a ∉ nodes s →
        a ∈ (s.terminfo (term_size cfg (s.mem a))).at_freelist) := by
    intro i s h hinv hi
    rw [arguments_drop_nil cfg _ i hi] at hinv
    refine ⟨⟨0, fun _ => rfl, ?_⟩, Stable.refl _, allocator_grows_steps.refl _,
      fun _ _ _ => ⟨rfl, rfl, fun _ => rfl⟩, ⟨rfl, rfl⟩, fun a ha hna => absurd ha hna⟩
    rw [leak_zero]
    exact hinv
  induction n generalizing i s h with
  | zero =>
    unfold free_arguments at hrun
    split at hrun
    · cases hrun
    · rename_i hi
      cases hrun
      exact hstop i _ h hinv hi
  | succ n ih =>
    unfold free_arguments at hrun
    split at hrun
    · rename_i hi
      simp only [] at hrun
      split at hrun
      · cases hrun
      · rename_i s2 h2
        rw [arguments_drop cfg _ i hi, List.cons_append] at hinv
        have hround := release_argument_sound cfg reduce hr hd t i s s2 h _ ht htd hinv h2
        obtain ⟨⟨k, hk0, hS2⟩, st2, g2, out2, ⟨t1, t2, t3⟩, rec2⟩ := hround
        have hdrop : (arguments cfg (s2.mem t)).drop (i + 1) =
            (arguments cfg (s.mem t)).drop (i + 1) :=
          arguments_drop_congr cfg _ _ _ t1 (fun j hj => t3 j (by omega))
        rw [← hdrop] at hS2
        obtain ⟨⟨k1, hk1, hS1⟩, st1, g1, out1, ⟨u1, u2⟩, rec1⟩ :=
          ih (i + 1) s2 _ (st2.not_mem ht) hS2 hrun
        rw [leak_leak] at hS1
        refine ⟨⟨k + k1, ?_, hS1⟩, st2.trans st1, allocator_grows_steps.trans _ _ _ g2 g1,
          ?_, ⟨u1.trans t1, u2.trans t2⟩, ?_⟩
        · intro hn
          rw [hk0 hn, hk1 hn]
        · intro x hx hxt
          obtain ⟨e1, e2, e3⟩ := out2 x hx hxt
          obtain ⟨f1, f2, f3⟩ := out1 x (st2.not_mem hx) hxt
          exact ⟨f1.trans e1, f2.trans e2, fun hc => (f3 hc).trans (e3 hc)⟩
        · intro a ha hna
          by_cases ha2 : a ∈ nodes s2
          · have := rec1 a ha2 hna
            rw [term_size_congr cfg _ _ (st2.frame a ha2).1] at this
            exact this
          · exact (g1 _).2.2.subset (rec2 a ha ha2)
    · rename_i hi
      cases hrun
      exact hstop i _ h hinv hi

end atermpp

namespace atermpp

/-- A release keeps the store sound, in both builds: the reference that is given up is
taken from the count of its node, and when the count reaches zero the node leaves the
table, the references it holds are given up in turn, and the node is pushed on the free
list of its size class.  In a debug build the empty list stays in the table with count
zero and the default term keeps the references that the dead nodes hold on it. -/
theorem at_reduce_sound (cfg : Config) (fuel : Nat) :
    Releases cfg (at_reduce_reference_count cfg fuel) := by
  induction fuel with
  | zero =>
    intro t s s1 h P _ hrun
    cases hrun
  | succ fuel ih =>
    intro t s s1 h P hinv hrun
    have hpos := hinv.pending_pos
    have hdec : size_t_dec (s.mem t).reference_count = (s.mem t).reference_count - 1 := by
      unfold size_t_dec
      rw [if_neg (by omega)]
    have hts : t ∈ nodes s := hinv.releasing.pending_mem t (List.mem_cons_self _ _)
    have hmem0 : ∀ x, x ≠ t →
        (with_count s t ((s.mem t).reference_count - 1)).mem x = s.mem x := by
      intro x hx
      simp [with_count, Store.write, hx]
    have hmemt : ((with_count s t ((s.mem t).reference_count - 1)).mem t).m_function_symbol =
          (s.mem t).m_function_symbol ∧
        ((with_count s t ((s.mem t).reference_count - 1)).mem t).arg = (s.mem t).arg ∧
        ((with_count s t ((s.mem t).reference_count - 1)).mem t).reference_count =
          (s.mem t).reference_count - 1 := by
      simp [with_count, Store.write]
    have hst0 : Stable s (with_count s t ((s.mem t).reference_count - 1)) :=
      Stable.write_count s t _
    have hg0 : allocator_grows s (with_count s t ((s.mem t).reference_count - 1)) :=
      allocator_grows_steps.write _ _ _
    have hn0 : nodes (with_count s t ((s.mem t).reference_count - 1)) = nodes s := rfl
    have hstay : (1 < (s.mem t).reference_count ∨
        (cfg.ndebug = false ∧ (s.mem t).m_function_symbol = cfg.AS_EMPTY_LIST)) →
        Released cfg s (with_count s t ((s.mem t).reference_count - 1)) h P := by
      intro hc
      refine ⟨⟨0, fun _ => rfl, ?_⟩, hst0, hg0, ?_, ?_⟩
      · rw [leak_zero]
        exact hinv.take_reference hc
      · intro x hx
        have hxt : x ≠ t := by
          rintro rfl
          exact hx hts
        rw [hmem0 x hxt]
        exact ⟨rfl, rfl, fun _ => rfl⟩
      · intro a ha hna
        exact absurd ha hna
    unfold at_reduce_reference_count at hrun
    have h0 : (s.mem t).reference_count ≠ 0 := by omega
    simp only [h0, Bool.and_false, decide_False, Bool.false_eq_true, if_false, hdec] at hrun
    change (if ((with_count s t ((s.mem t).reference_count - 1)).mem t).reference_count = 0
      then at_free_term_body cfg (at_reduce_reference_count cfg fuel) fuel t
        (with_count s t ((s.mem t).reference_count - 1))
      else .ok (with_count s t ((s.mem t).reference_count - 1))) = .ok s1 at hrun
    split at hrun
    · rename_i hz
      rw [hmemt.2.2] at hz
      have hone : (s.mem t).reference_count = 1 := by omega
      unfold at_free_term_body at hrun
      split at hrun
      · rename_i hempty
        cases hrun
        simp only [Bool.and_eq_true, Bool.not_eq_true', decide_eq_true_eq] at hempty
        rw [hmemt.1] at hempty
        exact hstay (Or.inr hempty)
      · rename_i hempty
        split at hrun
        · cases hrun
        · simp only [] at hrun
          split at hrun
          · cases hrun
          · rename_i sr hfree
            split at hrun
            · cases hrun
            · rename_i sl hloop
              cases hrun
              rw [hz] at hfree hmem0 hmemt hst0 hg0 hn0 ⊢
              obtain ⟨r1, r2, r3, r4, r5, r6⟩ := hinv.take_node hone hfree
              have htd : cfg.ndebug = false → t ≠ cfg.default_aterm := by
                intro hnd e
                exact (hinv.default_outside hnd).1 (e ▸ hts)
              have hargs : arguments cfg (sr.mem t) = arguments cfg (s.mem t) := by
                rw [r4]
                exact arguments_congr cfg _ _ hmemt.1 hmemt.2.1
              rw [← hargs, ← List.drop_zero (arguments cfg (sr.mem t))] at r1
              obtain ⟨⟨k, hk0, q1⟩, q2, q3, q4, ⟨q5, q6⟩, q7⟩ :=
                free_arguments_sound cfg _ ih
                  (fun s s1 => at_reduce_shared cfg fuel cfg.default_aterm s s1)
                  t fuel 0 sr sl h P r3 htd r1 hloop
              have htl : t ∉ nodes sl := q2.not_mem r3
              have hzl : (sl.mem t).reference_count = 0 := by
                rw [q6, r4, hmemt.2.2]
              have hgr : allocator_grows s sr := by
                intro c
                rw [r5]
                exact ⟨rfl, rfl, List.suffix_refl _⟩
              refine ⟨⟨k, hk0, q1.push_free t _ htl hzl htd⟩, ?_, ?_, ?_, ?_⟩
              · exact ((r2.trans q2).trans (Stable.write_outside sl t
                  { sl.mem t with m_function_symbol := cfg.AS_DEFAULT } htl)).trans
                  (Stable.set_terminfo _ _ _)
              · exact allocator_grows_steps.trans _ _ _
                  (allocator_grows_steps.trans _ _ _ hgr q3)
                  (allocator_grows_steps.trans _ _ _ (allocator_grows_steps.write _ _ _)
                    (allocator_grows_steps.push _ _ _))
              · intro x hx
                have hxt : x ≠ t := by
                  rintro rfl
                  exact hx hts
                have hxr : x ∉ nodes sr := r2.not_mem hx
                obtain ⟨e1, e2, e3⟩ := q4 x hxr hxt
                rw [r4, hmem0 x hxt] at e1 e2 e3
                simp only [Store.set_terminfo, Store.write, if_neg hxt]
                exact ⟨e1, e2, e3⟩
              · intro a ha hna
                have hna1 : a ∉ nodes sl := hna
                by_cases hat : a = t
                · subst hat
                  have hsz : term_size cfg ((with_count s a 0).mem a) =
                      term_size cfg (s.mem a) :=
                    (term_size_congr cfg _ _ hmemt.1.symm).symm
                  rw [hsz]
                  simp [Store.set_terminfo, Store.write]
                · have har : a ∈ nodes sr := by
                    rcases List.mem_cons.1 (r6.subset ha) with e | e
                    · exact absurd e hat
                    · exact e
                  have := q7 a har hna1
                  rw [r4, hmem0 a hat] at this
                  have hsz : term_size cfg ((with_count s t 0).mem t) =
                      term_size cfg (s.mem t) :=
                    (term_size_congr cfg _ _ hmemt.1.symm).symm
                  rw [hsz]
                  by_cases hc : term_size cfg (s.mem a) = term_size cfg (s.mem t)
                  · simp only [Store.set_terminfo, Store.write, hc, if_true]
                    rw [hc] at this
                    exact List.mem_cons_of_mem _ this
                  · simp only [Store.set_terminfo, Store.write, if_neg hc]
                    exact this
    · rename_i hz
      rw [hmemt.2.2] at hz
      cases hrun
      exact hstay (Or.inl (by omega))

end atermpp

namespace atermpp

/-! ## The cascade returns -/

/-- `AT_freeTerm` returns for a node of a consistent table. -/
theorem AT_freeTerm_returns_of_mem (cfg : Config) (t : Nat) (s : Store)
    (hc : table_consistent cfg s) (ht : t ∈ nodes s) : ∃ s1, AT_freeTerm cfg t s = .ok s1 := by
  have hm := mem_bucket_of_consistent cfg s hc t ht
  cases hb : s.hashtable[bucket_of cfg s t]? with
  | none =>
    exfalso
    simp [List.getD, hb] at hm
  | some chain =>
    rw [getD_of_getElem? _ _ _ _ hb] at hm
    exact AT_freeTerm_returns cfg t s chain hb hm

/-- A release of a reference on a node with two or more references returns. -/
theorem at_reduce_shared_returns (cfg : Config) (fuel d : Nat) (s : Store)
    (hc : 2 ≤ (s.mem d).reference_count) :
    at_reduce_reference_count cfg (fuel + 1) d s =
      .ok (with_count s d ((s.mem d).reference_count - 1)) := by
  have hdec : size_t_dec (s.mem d).reference_count = (s.mem d).reference_count - 1 := by
    unfold size_t_dec
    rw [if_neg (by omega)]
  unfold at_reduce_reference_count
  have h0 : (s.mem d).reference_count ≠ 0 := by omega
  simp only [h0, Bool.and_false, decide_False, Bool.false_eq_true, if_false, hdec]
  have h1 : ((s.write d { s.mem d with
      reference_count := (s.mem d).reference_count - 1 }).mem d).reference_count ≠ 0 := by
    simp only [Store.write, if_true]
    omega
  rw [if_neg h1]
  rfl

theorem Stable.nodes_length_le {cfg : Config} {s s1 : Store} (h : Stable s s1)
    (hc : table_consistent cfg s) : (nodes s1).length ≤ (nodes s).length := by
  have hnd := consistent_nodup cfg s1 (h.consistent hc)
  exact (List.subperm_of_subset hnd (fun a ha => h.nodes_subset a ha)).length_le

/-- The handle assignment of the debug variant returns when the releases it makes do. -/
theorem assign_default_aterm_returns (cfg : Config) (hnd : cfg.ndebug = false)
    (reduce : Nat → Store → Except Fault Store) (hr : Releases cfg reduce) (A N : Nat)
    (htot : ∀ a s h P, Sound cfg s h (a :: P) →
      (∀ b ∈ nodes s, cfg.arity (s.mem b).m_function_symbol ≤ A) → (nodes s).length ≤ N →
      ∃ s1, reduce a s = .ok s1)
    (hdtot : ∀ s, 2 ≤ (s.mem cfg.default_aterm).reference_count →
      ∃ s1, reduce cfg.default_aterm s = .ok s1)
    (t i : Nat) (s : Store) (h : Nat → Nat) (P : List Nat) (ht : t ∉ nodes s)
    (htd : t ≠ cfg.default_aterm)
    (hinv : Sound cfg s h ((s.mem t).arg i :: P))
    (hA : ∀ b ∈ nodes s, cfg.arity (s.mem b).m_function_symbol ≤ A)
    (hN : (nodes s).length ≤ N) :
    ∃ s1, assign_default_aterm cfg reduce t i s = .ok s1 := by
  unfold assign_default_aterm
  simp only []
  have hS2 : Sound cfg (increase_reference_count cfg.default_aterm
      (increase_reference_count cfg.default_aterm s))
      (leak h cfg.default_aterm 2) ((s.mem t).arg i :: P) := by
    have := (hinv.retain_default hnd).retain_default hnd
    rw [leak_leak] at this
    exact this
  have hmem2 : ∀ x, ((increase_reference_count cfg.default_aterm
      (increase_reference_count cfg.default_aterm s)).mem x).m_function_symbol =
        (s.mem x).m_function_symbol ∧
      ((increase_reference_count cfg.default_aterm
      (increase_reference_count cfg.default_aterm s)).mem x).arg = (s.mem x).arg := by
    intro x
    by_cases hx : x = cfg.default_aterm
    · simp [increase_reference_count, Store.write, hx]
    · simp [increase_reference_count, Store.write, hx]
  have hn2 : nodes (increase_reference_count cfg.default_aterm
      (increase_reference_count cfg.default_aterm s)) = nodes s := rfl
  rw [(hmem2 t).2]
  generalize increase_reference_count cfg.default_aterm
      (increase_reference_count cfg.default_aterm s) = s2 at hS2 hmem2 hn2
  have hA2 : ∀ b ∈ nodes s2, cfg.arity (s2.mem b).m_function_symbol ≤ A := by
    intro b hb
    rw [(hmem2 b).1]
    exact hA b (hn2 ▸ hb)
  obtain ⟨s3, h3⟩ := htot _ s2 _ _ hS2 hA2 (by rw [hn2]; exact hN)
  rw [h3]
  simp only []
  obtain ⟨⟨k, -, hS3⟩, st3, -, -, -⟩ := hr _ _ _ _ _ hS2 h3
  have ht3 : t ∉ nodes s3 := st3.not_mem (by rw [hn2]; exact ht)
  have hS4 : Sound cfg (s3.write t { s3.mem t with
      arg := fun j => if j = i then cfg.default_aterm else (s3.mem t).arg j })
      (leak (leak h cfg.default_aterm 2) cfg.default_aterm k) P := by
    refine hS3.frame_write rfl rfl rfl rfl ?_ ?_
    · intro b hb
      have hbt : b ≠ t := by
        rintro rfl
        exact ht3 hb
      simp [Store.write, hbt]
    · intro a
      by_cases hat : a = t <;> simp [Store.write, hat]
  apply hdtot
  rw [hS4.releasing.count cfg.default_aterm]
  simp only [leak, if_true]
  omega

/-- The loop of `at_free_term` returns when the releases it makes do and the bound on its
rounds is at least the number of arguments that are left. -/
theorem free_arguments_returns (cfg : Config) (reduce : Nat → Store → Except Fault Store)
    (hr : Releases cfg reduce)
    (hd : ∀ s s1, reduce cfg.default_aterm s = .ok s1 →
      2 ≤ (s.mem cfg.default_aterm).reference_count →
      s1 = with_count s cfg.default_aterm ((s.mem cfg.default_aterm).reference_count - 1))
    (A N : Nat)
    (htot : ∀ a s h P, Sound cfg s h (a :: P) →
      (∀ b ∈ nodes s, cfg.arity (s.mem b).m_function_symbol ≤ A) → (nodes s).length ≤ N →
      ∃ s1, reduce a s = .ok s1)
    (hdtot : ∀ s, 2 ≤ (s.mem cfg.default_aterm).reference_count →
      ∃ s1, reduce cfg.default_aterm s = .ok s1)
    (t n i : Nat) (s : Store) (h : Nat → Nat) (P : List Nat) (ht : t ∉ nodes s)
    (htd : cfg.ndebug = false → t ≠ cfg.default_aterm)
    (hinv : Sound cfg s h ((arguments cfg (s.mem t)).drop i ++ P))
    (hA : ∀ b ∈ nodes s, cfg.arity (s.mem b).m_function_symbol ≤ A)
    (hN : (nodes s).length ≤ N)
    (hn : cfg.arity (s.mem t).m_function_symbol ≤ n + i) :
    ∃ s1, free_arguments cfg reduce t n i s = .ok s1 := by
  induction n generalizing i s h with
  | zero =>
    unfold free_arguments
    rw [if_neg (by omega)]
    exact ⟨_, rfl⟩
  | succ n ih =>
    unfold free_arguments
    split
    · rename_i hi
      simp only []
      rw [arguments_drop cfg _ i hi, List.cons_append] at hinv
      have hstep : ∃ s2, (if cfg.ndebug then reduce ((s.mem t).arg i) s
          else assign_default_aterm cfg reduce t i s) = .ok s2 := by
        cases hnd : cfg.ndebug
        · simp only [Bool.false_eq_true, if_false]
          exact assign_default_aterm_returns cfg hnd reduce hr A N htot hdtot t i s h _ ht
            (htd hnd) hinv hA hN
        · simp only [if_true]
          exact htot _ s h _ hinv hA hN
      obtain ⟨s2, h2⟩ := hstep
      rw [h2]
      simp only []
      obtain ⟨⟨k, -, hS2⟩, st2, -, -, ⟨t1, -, t3⟩, -⟩ :=
        release_argument_sound cfg reduce hr hd t i s s2 h _ ht htd hinv h2
      have hdrop : (arguments cfg (s2.mem t)).drop (i + 1) =
          (arguments cfg (s.mem t)).drop (i + 1) :=
        arguments_drop_congr cfg _ _ _ t1 (fun j hj => t3 j (by omega))
      rw [← hdrop] at hS2
      refine ih (i + 1) s2 _ (st2.not_mem ht) hS2 ?_ ?_ ?_
      · intro b hb
        rw [(st2.frame b hb).1]
        exact hA b (st2.nodes_subset b hb)
      · exact le_trans (st2.nodes_length_le hinv.releasing.consistent) hN
      · rw [t1]
        omega
    · exact ⟨_, rfl⟩

/-- The cascade returns: a release of a reference on a node of a sound store returns when
the fuel is above the number of nodes of the table plus the largest arity. -/
theorem at_reduce_returns (cfg : Config) (A : Nat) (fuel : Nat) :
    ∀ t s h P, Sound cfg s h (t :: P) →
      (∀ b ∈ nodes s, cfg.arity (s.mem b).m_function_symbol ≤ A) →
      (nodes s).length + A + 1 ≤ fuel →
      ∃ s1, at_reduce_reference_count cfg fuel t s = .ok s1 := by
  induction fuel with
  | zero =>
    intro t s h P _ _ hf
    omega
  | succ fuel ih =>
    intro t s h P hinv hA hf
    have hpos := hinv.pending_pos
    have hdec : size_t_dec (s.mem t).reference_count = (s.mem t).reference_count - 1 := by
      unfold size_t_dec
      rw [if_neg (by omega)]
    have hts : t ∈ nodes s := hinv.releasing.pending_mem t (List.mem_cons_self _ _)
    have hmemt : ((with_count s t ((s.mem t).reference_count - 1)).mem t).m_function_symbol =
          (s.mem t).m_function_symbol ∧
        ((with_count s t ((s.mem t).reference_count - 1)).mem t).arg = (s.mem t).arg ∧
        ((with_count s t ((s.mem t).reference_count - 1)).mem t).reference_count =
          (s.mem t).reference_count - 1 := by
      simp [with_count, Store.write]
    unfold at_reduce_reference_count
    have h0 : (s.mem t).reference_count ≠ 0 := by omega
    simp only [h0, Bool.and_false, decide_False, Bool.false_eq_true, if_false, hdec]
    change ∃ s1, (if ((with_count s t ((s.mem t).reference_count - 1)).mem t).reference_count = 0
      then at_free_term_body cfg (at_reduce_reference_count cfg fuel) fuel t
        (with_count s t ((s.mem t).reference_count - 1))
      else .ok (with_count s t ((s.mem t).reference_count - 1))) = .ok s1
    split
    · rename_i hz
      rw [hmemt.2.2] at hz
      have hone : (s.mem t).reference_count = 1 := by omega
      rw [hz] at hmemt ⊢
      unfold at_free_term_body
      split
      · exact ⟨_, rfl⟩
      · rw [if_neg (by simp [hmemt.2.2])]
        simp only []
        have hr0 := hinv.releasing.decrement
        rw [hz] at hr0
        obtain ⟨sr, hfree⟩ := AT_freeTerm_returns_of_mem cfg t _ hr0.consistent hts
        rw [hfree]
        simp only []
        obtain ⟨r1, r2, r3, r4, r5, r6⟩ := hinv.take_node hone hfree
        have htd : cfg.ndebug = false → t ≠ cfg.default_aterm := by
          intro hnd e
          exact (hinv.default_outside hnd).1 (e ▸ hts)
        have hargs : arguments cfg (sr.mem t) = arguments cfg (s.mem t) := by
          rw [r4]
          exact arguments_congr cfg _ _ hmemt.1 hmemt.2.1
        rw [← hargs, ← List.drop_zero (arguments cfg (sr.mem t))] at r1
        have hlen : (nodes s).length = (nodes sr).length + 1 := by
          have := r6.length_eq
          simpa using this
        have hAr : ∀ b ∈ nodes sr, cfg.arity (sr.mem b).m_function_symbol ≤ A := by
          intro b hb
          rw [(r2.frame b hb).1]
          exact hA b (r2.nodes_subset b hb)
        obtain ⟨sl, hloop⟩ := free_arguments_returns cfg _ (at_reduce_sound cfg fuel)
          (fun s s1 => at_reduce_shared cfg fuel cfg.default_aterm s s1) A (nodes sr).length
          (fun a s0 h0 P0 hS hA0 hN0 => ih a s0 h0 P0 hS hA0 (by omega))
          (fun s0 hc => by
            cases fuel with
            | zero => omega
            | succ fuel => exact ⟨_, at_reduce_shared_returns cfg fuel _ s0 hc⟩)
          t fuel 0 sr h P r3 htd r1 hAr (le_refl _)
          (by
            have := hA t hts
            rw [r4, hmemt.1]
            omega)
        rw [hloop]
        exact ⟨_, rfl⟩
    · exact ⟨_, rfl⟩

end atermpp

namespace atermpp

/-! ## C24: reclamation of deep term graphs -/

/-- Giving up a handle on a node of the table turns it into a pending reference. -/
theorem Sound.give_up {cfg : Config} {s : Store} {h : Nat → Nat} {t : Nat}
    (hinv : Sound cfg s h []) (ht : t ∈ nodes s) (hh : 1 ≤ h t) :
    Sound cfg s (drop_handle h t) [t] := by
  refine ⟨⟨?_, hinv.releasing.consistent, hinv.releasing.closed, ?_⟩, hinv.positive,
    hinv.counted, hinv.free_zero, hinv.apart, hinv.default_outside⟩
  · intro a
    have := hinv.releasing.count a
    by_cases ha : a = t
    · subst ha
      simp only [drop_handle, if_true, List.count_cons_self, List.count_nil]
      simp only [List.count_nil] at this
      omega
    · have hne : (t == a) = false := by simpa using fun e : t = a => ha e.symm
      simp only [drop_handle, if_neg ha, List.count_cons, hne, List.count_nil,
        Bool.false_eq_true, if_false, Nat.add_zero]
      simpa using this
  · intro p hp
    rw [List.mem_singleton.1 hp]
    exact ht

/-- The nodes of a table are the nodes that a later store has lost and the nodes it has
kept. -/
theorem nodes_split {cfg : Config} {s s1 : Store} (hst : Stable s s1)
    (hc : table_consistent cfg s) :
    (nodes s).Perm ((nodes s).filter (fun a => a ∉ nodes s1) ++ nodes s1) := by
  have hn := consistent_nodup cfg s hc
  have hn1 := consistent_nodup cfg s1 (hst.consistent hc)
  have h1 : ((nodes s).filter (fun a => ! decide (a ∉ nodes s1))).Perm (nodes s1) := by
    rw [List.perm_ext_iff_of_nodup (hn.filter _) hn1]
    intro a
    simp only [List.mem_filter, Bool.not_eq_true', decide_eq_false_iff_not, not_not]
    exact ⟨fun h => h.2, fun h => ⟨hst.nodes_subset a h, h⟩⟩
  exact (List.filter_append_perm (fun a => decide (a ∉ nodes s1)) (nodes s)).symm.trans
    (List.Perm.append_left _ h1)

/-- The references on a node from the table are those from the nodes that a later store
has lost and those from the nodes it has kept. -/
theorem inrefs_split (cfg : Config) {s s1 : Store} (hst : Stable s s1)
    (hc : table_consistent cfg s) (b : Nat) :
    inrefs cfg s b = (((nodes s).filter (fun a => a ∉ nodes s1)).map
      (fun r => (arguments cfg (s.mem r)).count b)).sum + inrefs cfg s1 b := by
  unfold inrefs
  rw [((nodes_split hst hc).map _).sum_eq, List.map_append, List.sum_append]
  congr 2
  apply List.map_congr_left
  intro a ha
  obtain ⟨e1, e2⟩ := hst.frame a ha
  rw [arguments_congr cfg _ _ e1 e2]

theorem inrefs_stable_removed (cfg : Config) {s s1 : Store} (hst : Stable s s1)
    (hc : table_consistent cfg s) (a b : Nat) (ha : a ∈ nodes s) (ha1 : a ∉ nodes s1) :
    inrefs cfg s1 b + (arguments cfg (s.mem a)).count b ≤ inrefs cfg s b := by
  rw [inrefs_split cfg hst hc b]
  have : (arguments cfg (s.mem a)).count b ≤ (((nodes s).filter (fun a => a ∉ nodes s1)).map
      (fun r => (arguments cfg (s.mem r)).count b)).sum := by
    apply List.single_le_sum (fun _ _ => Nat.zero_le _)
    refine List.mem_map.2 ⟨a, ?_, rfl⟩
    simp only [List.mem_filter, decide_eq_true_eq]
    exact ⟨ha, ha1⟩
  omega

/-- The nodes of a chain lose their last reference when the node before them is taken out
of the table; they leave the table, the empty list of a debug build apart. -/
theorem chain_reclaimed (cfg : Config) (s s1 : Store) (h : Nat → Nat) (root k : Nat)
    (hempty : cfg.arity cfg.AS_EMPTY_LIST = 0)
    (hinv : Sound cfg s h [root]) (hk : cfg.ndebug = true → k = 0)
    (hinv1 : Sound cfg s1 (leak h cfg.default_aterm k) []) (hst : Stable s s1) :
    ∀ l a, is_chain cfg s (a :: l) → a ∈ nodes s → (s1.mem a).reference_count = 0 →
      ∀ x ∈ a :: l,
        (cfg.ndebug = true ∨ (s.mem x).m_function_symbol ≠ cfg.AS_EMPTY_LIST) →
        x ∈ nodes s ∧ x ∉ nodes s1 ∧ (s1.mem x).reference_count = 0 := by
  have hout : ∀ a, a ∈ nodes s → (s1.mem a).reference_count = 0 →
      (cfg.ndebug = true ∨ (s.mem a).m_function_symbol ≠ cfg.AS_EMPTY_LIST) →
      a ∉ nodes s1 := by
    intro a _ hz hcond ha1
    rcases hinv1.positive a ha1 with hp | ⟨hnd, hsym⟩
    · omega
    · rw [(hst.frame a ha1).1] at hsym
      rcases hcond with hc | hc
      · rw [hnd] at hc
        cases hc
      · exact hc hsym
  intro l
  induction l with
  | nil =>
    intro a _ ha hz x hx hcond
    rw [List.mem_singleton.1 hx] at hcond ⊢
    exact ⟨ha, hout a ha hz hcond, hz⟩
  | cons b l ih =>
    intro a hch ha hz x hx hcond
    obtain ⟨hca, hba, hrest⟩ := hch
    rcases List.mem_cons.1 hx with e | e
    · rw [e] at hcond ⊢
      exact ⟨ha, hout a ha hz hcond, hz⟩
    · have hb : b ∈ nodes s := hinv.releasing.closed a ha b hba
      have ha1 : a ∉ nodes s1 := by
        intro hm
        rcases hinv1.positive a hm with hp | ⟨-, hsym⟩
        · omega
        · rw [(hst.frame a hm).1] at hsym
          have : arguments cfg (s.mem a) = [] := by
            unfold arguments
            rw [hsym, hempty]
            rfl
          rw [this] at hba
          cases hba
      have hcb : (s.mem b).reference_count = 1 := by
        cases l with
        | nil => exact hrest
        | cons c l => exact hrest.1
      have h1 := hinv.releasing.count b
      have h2 := inrefs_stable_removed cfg hst hinv.releasing.consistent a b ha ha1
      have h3 : 0 < (arguments cfg (s.mem a)).count b := List.count_pos_iff.2 hba
      have h4 := hinv1.releasing.count b
      have hbd : leak h cfg.default_aterm k b = h b := by
        unfold leak
        split
        · rename_i e1
          cases hn : cfg.ndebug
          · exact absurd (e1 ▸ hb) (hinv.default_outside hn).1
          · rw [hk hn]
            rfl
        · rfl
      rw [hbd] at h4
      simp only [List.count_nil] at h4
      have hzb : (s1.mem b).reference_count = 0 := by omega
      exact ih b hrest hb hzb x e hcond

theorem sound_store_f_of_x (b : Bool) :
    Sound (example_config b) store_f_of_x handles_f_of_x [] := by
  refine ⟨⟨?_, ?_, ?_, ?_⟩, ?_, ?_, ?_, ?_, ?_⟩
  · intro a
    rw [live_store_f_of_x b a]
    rfl
  · cases b <;> decide
  · cases b <;> decide
  · intro p hp
    cases hp
  · cases b <;> decide
  · rfl
  · intro c a ha
    cases ha
  · intro c a ha
    cases ha
  · intro _
    cases b <;> exact ⟨by decide, fun c ha => by cases ha⟩

/-- C24 (amended).  The cascade returns on every sound store (exact counts, consistent
table closed under arguments) when the fuel is above the number of nodes of the table
plus the largest arity, whatever the depth of the term graph; every node that has left
the table is on the free list of its size class, and `total_nodes` has decreased by the
number of nodes that have left the table.  When the released handle is the only outside
reference of a chain of nodes with count 1 that starts at `root`, every node of the chain
has count zero afterwards and has left the table and is on the free list of its size
class, except, in a debug build, the empty list. -/
theorem deep_graph_reclamation (cfg : Config) (s : Store) (h : Nat → Nat)
    (root A fuel : Nat) (hinv : Sound cfg s h []) (hroot : root ∈ nodes s)
    (hh : 1 ≤ h root) (hempty : cfg.arity cfg.AS_EMPTY_LIST = 0)
    (hA : ∀ b ∈ nodes s, cfg.arity (s.mem b).m_function_symbol ≤ A)
    (hf : (nodes s).length + A + 1 ≤ fuel) :
    ∃ s1, at_reduce_reference_count cfg fuel root s = .ok s1 ∧
      (∀ a ∈ nodes s, a ∉ nodes s1 →
        a ∈ (s1.terminfo (term_size cfg (s.mem a))).at_freelist) ∧
      s1.total_nodes + ((nodes s).filter (fun a => a ∉ nodes s1)).length = s.total_nodes ∧
      ∀ c, is_chain cfg s (root :: c) → ∀ a ∈ root :: c,
        (cfg.ndebug = true ∨ (s.mem a).m_function_symbol ≠ cfg.AS_EMPTY_LIST) →
        (s1.mem a).reference_count = 0 ∧ a ∉ nodes s1 ∧
        a ∈ (s1.terminfo (term_size cfg (s.mem a))).at_freelist := by
  have hp := hinv.give_up hroot hh
  obtain ⟨s1, hrun⟩ := at_reduce_returns cfg A fuel root s _ [] hp hA hf
  obtain ⟨⟨k, hk, hinv1⟩, hst, -, -, hrec⟩ := at_reduce_sound cfg fuel root s s1 _ [] hp hrun
  refine ⟨s1, hrun, hrec, ?_, ?_⟩
  · rw [hinv1.counted, hinv.counted, (nodes_split hst hinv.releasing.consistent).length_eq,
      List.length_append]
    omega
  · intro c hc a ha hcond
    have hcr : (s.mem root).reference_count = 1 := by
      cases c with
      | nil => exact hc
      | cons b l => exact hc.1
    have h1 := hp.releasing.count root
    have h2 := hinv1.releasing.count root
    have h3 := inrefs_split cfg hst hinv.releasing.consistent root
    have hrd : leak (drop_handle h root) cfg.default_aterm k root = drop_handle h root root := by
      unfold leak
      split
      · rename_i e1
        cases hn : cfg.ndebug
        · exact absurd (e1 ▸ hroot) (hinv.default_outside hn).1
        · rw [hk hn]
          rfl
      · rfl
    rw [hrd] at h2
    simp only [List.count_cons_self, List.count_nil] at h1 h2
    have hz : (s1.mem root).reference_count = 0 := by omega
    obtain ⟨q1, q2, q3⟩ := chain_reclaimed cfg s s1 _ root k hempty hp hk hinv1 hst c root hc
      hroot hz a ha hcond
    exact ⟨q3, q2, hrec a q1 q2⟩

/-- C24 (amended), at the term `f(x)` in a release build: the release of the handle on
`f(x)` returns, and both nodes of the chain are reclaimed. -/
theorem deep_graph_reclamation_witness :
    Sound (example_config true) store_f_of_x handles_f_of_x [] ∧
    is_chain (example_config true) store_f_of_x [3100, 3001] ∧
    ∃ s1, at_reduce_reference_count (example_config true) 4 3100 store_f_of_x = .ok s1 ∧
      (∀ a ∈ nodes store_f_of_x, a ∉ nodes s1 →
        a ∈ (s1.terminfo (term_size (example_config true) (store_f_of_x.mem a))).at_freelist) ∧
      s1.total_nodes + ((nodes store_f_of_x).filter (fun a => a ∉ nodes s1)).length =
        store_f_of_x.total_nodes ∧
      ∀ c, is_chain (example_config true) store_f_of_x (3100 :: c) → ∀ a ∈ 3100 :: c,
        ((example_config true).ndebug = true ∨
          (store_f_of_x.mem a).m_function_symbol ≠ (example_config true).AS_EMPTY_LIST) →
        (s1.mem a).reference_count = 0 ∧ a ∉ nodes s1 ∧
        a ∈ (s1.terminfo (term_size (example_config true) (store_f_of_x.mem a))).at_freelist :=
  ⟨sound_store_f_of_x true, by decide,
    deep_graph_reclamation (example_config true) store_f_of_x handles_f_of_x 3100 1 4
      (sound_store_f_of_x true) (by decide) (by decide) (by decide) (by decide) (by decide)⟩

/-- C24 as stated fails in a debug build: after the release of the only handle on
`f([])`, the count of the empty list has reached zero, but the node is still in the
table, it is on no free list, and `total_nodes` counts it. -/
theorem deep_graph_keeps_empty_list :
    is_chain (example_config false) store_f_of_empty_list [3100, 3001] ∧
    ∃ s1, at_reduce_reference_count (example_config false) 4 3100 store_f_of_empty_list
        = .ok s1 ∧
      (s1.mem 3001).reference_count = 0 ∧ nodes s1 = [3001] ∧
      (s1.terminfo (term_size (example_config false)
        (store_f_of_empty_list.mem 3001))).at_freelist = [] ∧
      s1.total_nodes = 1 :=
  ⟨by decide, _, rfl, by decide, by decide, by decide, by decide⟩

end atermpp

namespace atermpp

/-! ## C25: the depth of the recursion of a release -/

theorem first_argument_chain_congr (cfg : Config) (s s1 : Store) :
    ∀ l, is_first_argument_chain cfg s l →
      (∀ x ∈ l, (s1.mem x).reference_count = (s.mem x).reference_count ∧
        (s1.mem x).m_function_symbol = (s.mem x).m_function_symbol ∧
        (s1.mem x).arg = (s.mem x).arg) →
      is_first_argument_chain cfg s1 l := by
  intro l
  induction l with
  | nil => intro _ _; trivial
  | cons a l ih =>
    intro hc hm
    obtain ⟨m1, m2, m3⟩ := hm a (List.mem_cons_self _ _)
    cases l with
    | nil =>
      show (s1.mem a).reference_count = 1
      rw [m1]
      exact hc
    | cons b l =>
      obtain ⟨c1, c2, c3, c4⟩ := hc
      refine ⟨by rw [m1]; exact c1, by rw [m2]; exact c2, by rw [m3]; exact c3, ?_⟩
      exact ih c4 (fun x hx => hm x (List.mem_cons_of_mem _ hx))

/-- Every node of a chain after the first is a node of the table to which a node of the
table refers. -/
theorem first_argument_chain_inrefs (cfg : Config) (s : Store) (hcl : closed cfg s) :
    ∀ l a, is_first_argument_chain cfg s (a :: l) → a ∈ nodes s →
      ∀ x ∈ l, x ∈ nodes s ∧ 0 < inrefs cfg s x := by
  intro l
  induction l with
  | nil =>
    intro a _ _ x hx
    cases hx
  | cons b l ih =>
    intro a hc ha x hx
    obtain ⟨-, c2, c3, c4⟩ := hc
    have hba : b ∈ arguments cfg (s.mem a) := by
      unfold arguments
      exact List.mem_map.2 ⟨0, List.mem_range.2 c2, c3⟩
    have hb : b ∈ nodes s := hcl a ha b hba
    rcases List.mem_cons.1 hx with e | e
    · rw [e]
      refine ⟨hb, ?_⟩
      have h1 := count_le_inrefs cfg s a b ha
      have h2 : 0 < (arguments cfg (s.mem a)).count b := List.count_pos_iff.2 hba
      omega
    · exact ih b c4 hb x e

/-- The release of the first node of a chain through the first arguments does not
complete when the depth of the recursion is bounded below the length of the chain. -/
theorem at_reduce_chain_depth (cfg : Config) (hempty : cfg.arity cfg.AS_EMPTY_LIST = 0)
    (fuel : Nat) :
    ∀ t c s h P, Sound cfg s h (t :: P) → is_first_argument_chain cfg s (t :: c) →
      fuel ≤ c.length → at_reduce_reference_count cfg fuel t s = .error .out_of_fuel := by
  induction fuel with
  | zero =>
    intro t c s h P _ _ _
    rfl
  | succ fuel ih =>
    intro t c s h P hinv hc hf
    cases c with
    | nil => simp at hf
    | cons b l =>
      obtain ⟨c1, c2, c3, c4⟩ := hc
      simp only [List.length_cons] at hf
      have hts : t ∈ nodes s := hinv.releasing.pending_mem t (List.mem_cons_self _ _)
      have hdec : size_t_dec (s.mem t).reference_count = 0 := by
        rw [c1]
        rfl
      have hmemt : ((with_count s t 0).mem t).m_function_symbol =
            (s.mem t).m_function_symbol ∧
          ((with_count s t 0).mem t).arg = (s.mem t).arg ∧
          ((with_count s t 0).mem t).reference_count = 0 := by
        simp [with_count, Store.write]
      have hne : (s.mem t).m_function_symbol ≠ cfg.AS_EMPTY_LIST := by
        intro e
        rw [e, hempty] at c2
        omega
      unfold at_reduce_reference_count
      have h0 : (s.mem t).reference_count ≠ 0 := by omega
      simp only [h0, Bool.and_false, decide_False, Bool.false_eq_true, if_false, hdec]
      change (if ((with_count s t 0).mem t).reference_count = 0
        then at_free_term_body cfg (at_reduce_reference_count cfg fuel) fuel t
          (with_count s t 0)
        else .ok (with_count s t 0)) = .error .out_of_fuel
      rw [if_pos hmemt.2.2]
      unfold at_free_term_body
      have hr0 := hinv.releasing.decrement
      rw [c1] at hr0
      obtain ⟨sr, hfree⟩ := AT_freeTerm_returns_of_mem cfg t _ hr0.consistent hts
      obtain ⟨r1, r2, r3, r4, r5, r6⟩ := hinv.take_node c1 hfree
      rw [if_neg (by simp [hmemt.1, hne]), if_neg (by simp [hmemt.2.2]), hfree]
      simp only []
      have hsymr : (sr.mem t).m_function_symbol = (s.mem t).m_function_symbol := by
        rw [r4]
        exact hmemt.1
      have hargr : (sr.mem t).arg = (s.mem t).arg := by
        rw [r4]
        exact hmemt.2.1
      have hloop : free_arguments cfg (at_reduce_reference_count cfg fuel) t fuel 0 sr =
          .error .out_of_fuel := by
        unfold free_arguments
        rw [if_pos (by rw [hsymr]; exact c2)]
        cases fuel with
        | zero => rfl
        | succ f =>
          simp only []
          have hpend : arguments cfg (s.mem t) = b :: (arguments cfg (s.mem t)).drop 1 := by
            have := arguments_drop cfg (s.mem t) 0 c2
            rw [List.drop_zero, c3] at this
            exact this
          rw [hpend, List.cons_append] at r1
          have hin := first_argument_chain_inrefs cfg s hinv.releasing.closed (b :: l) t
            ⟨c1, c2, c3, c4⟩ hts
          have htl : ∀ x ∈ b :: l, x ≠ t := by
            intro x hx e
            have h1 := (hin x hx).2
            have h2 := hinv.releasing.count t
            rw [e] at h1
            simp only [List.count_cons_self] at h2
            omega
          have hcr : is_first_argument_chain cfg sr (b :: l) := by
            apply first_argument_chain_congr cfg s sr _ c4
            intro x hx
            rw [r4]
            simp [with_count, Store.write, htl x hx]
          cases hnd : cfg.ndebug
          · simp only [Bool.false_eq_true, if_false]
            unfold assign_default_aterm
            simp only []
            have hS2 := (r1.retain_default hnd).retain_default hnd
            have hd := hinv.default_outside hnd
            have hc2 : is_first_argument_chain cfg (increase_reference_count cfg.default_aterm
                (increase_reference_count cfg.default_aterm sr)) (b :: l) := by
              apply first_argument_chain_congr cfg sr _ _ hcr
              intro x hx
              have hxd : x ≠ cfg.default_aterm := by
                rintro rfl
                exact hd.1 (hin _ hx).1
              simp [increase_reference_count, Store.write, hxd]
            have hb2 : ((increase_reference_count cfg.default_aterm
                (increase_reference_count cfg.default_aterm sr)).mem t).arg 0 = b := by
              have : ((increase_reference_count cfg.default_aterm
                  (increase_reference_count cfg.default_aterm sr)).mem t).arg = (sr.mem t).arg := by
                by_cases htd : t = cfg.default_aterm <;>
                  simp [increase_reference_count, Store.write, htd]
              rw [this, hargr, c3]
            rw [hb2, ih b l _ _ _ hS2 hc2 (by omega)]
          · simp only [if_true]
            rw [hargr, c3, ih b l _ _ _ r1 hcr (by omega)]
      rw [hloop]

/-- C25 (amended).  Reclamation is recursive: `at_free_term` releases each argument with
`at_reduce_reference_count`, which calls `at_free_term` again when the count of the
argument reaches zero.  The release of the only handle on the first node of a chain
through the first arguments does not complete when the depth of the recursion is bounded
by a number below the length of the chain, so the depth grows with the depth of the
term; the release returns when the bound is above the number of nodes of the table plus
the largest arity. -/
theorem release_is_recursive (cfg : Config) (s : Store) (h : Nat → Nat) (root : Nat)
    (c : List Nat) (hinv : Sound cfg s h []) (hroot : root ∈ nodes s) (hh : 1 ≤ h root)
    (hempty : cfg.arity cfg.AS_EMPTY_LIST = 0)
    (hc : is_first_argument_chain cfg s (root :: c)) :
    (∀ fuel, fuel ≤ c.length →
      at_reduce_reference_count cfg fuel root s = .error .out_of_fuel) ∧
    (∀ A fuel, (∀ b ∈ nodes s, cfg.arity (s.mem b).m_function_symbol ≤ A) →
      (nodes s).length + A + 1 ≤ fuel →
      ∃ s1, at_reduce_reference_count cfg fuel root s = .ok s1) :=
  ⟨fun fuel hf => at_reduce_chain_depth cfg hempty fuel root c s _ []
      (hinv.give_up hroot hh) hc hf,
   fun A fuel hA hf => at_reduce_returns cfg A fuel root s _ [] (hinv.give_up hroot hh) hA hf⟩

/-- C25 (amended), at the term `f(x)` in a release build: the release of `f(x)` does not
complete within depth 1, and it returns within depth 4. -/
theorem release_is_recursive_witness :
    Sound (example_config true) store_f_of_x handles_f_of_x [] ∧
    is_first_argument_chain (example_config true) store_f_of_x [3100, 3001] ∧
    (∀ fuel, fuel ≤ [3001].length →
      at_reduce_reference_count (example_config true) fuel 3100 store_f_of_x
        = .error .out_of_fuel) ∧
    (∀ A fuel, (∀ b ∈ nodes store_f_of_x,
        (example_config true).arity (store_f_of_x.mem b).m_function_symbol ≤ A) →
      (nodes store_f_of_x).length + A + 1 ≤ fuel →
      ∃ s1, at_reduce_reference_count (example_config true) fuel 3100 store_f_of_x = .ok s1) :=
  ⟨sound_store_f_of_x true, by decide,
    release_is_recursive (example_config true) store_f_of_x handles_f_of_x 3100 [3001]
      (sound_store_f_of_x true) (by decide) (by decide) (by decide) (by decide)⟩

/-- C25 as stated fails: `at_free_term` is entered again from within `at_free_term`.  In
either build the release of the handle on `f(x)` does not complete when the recursion is
cut off at depth 1, although the release of a handle on `x` alone does; at depth 2 the
release of `f(x)` returns, with `x` freed by the nested call. -/
theorem at_free_term_is_reentered :
    at_reduce_reference_count (example_config true) 1 3100 store_f_of_x
      = .error .out_of_fuel ∧
    at_reduce_reference_count (example_config false) 1 3100 store_f_of_x
      = .error .out_of_fuel ∧
    (∃ s1, at_reduce_reference_count (example_config true) 1 3001 store_outside_table
      = .ok s1 ∧ nodes s1 = []) ∧
    (∃ s1, at_reduce_reference_count (example_config true) 2 3100 store_f_of_x = .ok s1 ∧
      nodes s1 = [] ∧ (s1.terminfo 3).at_freelist = [3001] ∧
      (s1.terminfo 4).at_freelist = [3100]) ∧
    (∃ s1, at_reduce_reference_count (example_config false) 2 3100 store_f_of_x = .ok s1 ∧
      nodes s1 = [] ∧ (s1.terminfo 3).at_freelist = [3001] ∧
      (s1.terminfo 4).at_freelist = [3100]) :=
  ⟨rfl, rfl, ⟨_, rfl, by decide⟩, ⟨_, rfl, by decide, by decide, by decide⟩,
    ⟨_, rfl, by decide, by decide, by decide⟩⟩

end atermpp

namespace atermpp

/-! ## C26: the counts of the nodes of the table and of the free lists -/

/-- The free lists after `AT_allocate` are the free lists before it, without the cell
handed out when it was taken from one. -/
theorem AT_allocate_freelist (cfg : Config) (env : Env) (size : Nat) (s : Store) (n : Nat)
    (s2 : Store) (h : AT_allocate cfg env size s = .ok (n, s2)) :
    ∀ c, (s2.terminfo c).at_freelist <:+ (s.terminfo c).at_freelist := by
  obtain ⟨s0, s1, h0, h1, rfl⟩ := AT_allocate_cases cfg env size s n s2 h
  have g : s0.terminfo = s.terminfo := by
    rcases h0 with ⟨-, rfl⟩ | ⟨-, hr⟩
    · rfl
    · exact (resize_hashtable_cases cfg env s s0 hr).2.1
  intro c
  show (s1.terminfo c).at_freelist <:+ _
  rw [← g]
  have hbump : ∀ s3 : Store, ((bump_allocate cfg size s3).2.terminfo c).at_freelist =
      (s3.terminfo c).at_freelist := by
    intro s3
    by_cases hc : c = size <;> simp [bump_allocate, Store.write, Store.set_terminfo, hc]
  rcases AT_allocate_cell_cases cfg env size s0 n s1 h1 with
    ⟨-, hb⟩ | ⟨-, next, hf, hs, -⟩ | ⟨-, -, s3, h3, hb⟩
  · have e2 : s1 = (bump_allocate cfg size s0).2 := congrArg Prod.snd hb
    rw [e2, hbump]
  · subst hs
    by_cases hc : c = size
    · subst hc
      simp only [Store.set_terminfo, if_true]
      rw [hf]
      exact List.suffix_cons _ _
    · simp only [Store.set_terminfo, if_neg hc]
      exact List.suffix_refl _
  · have e2 : s1 = (bump_allocate cfg size s3).2 := congrArg Prod.snd hb
    obtain ⟨data, -, hs3⟩ := allocate_block_ok cfg env size s0 s3 h3
    rw [e2, hbump, hs3]
    by_cases hc : c = size
    · subst hc
      simp only [Store.set_terminfo, if_true]
      exact List.suffix_refl _
    · simp only [Store.set_terminfo, if_neg hc]
      exact List.suffix_refl _

/-- A sound store stays sound when a node without arguments is made in a fresh cell and
a handle on it is handed out. -/
theorem Sound.insert {cfg : Config} {s s1 : Store} {h : Nat → Nat} {n : Nat}
    (hinv : Sound cfg s h []) (hcons : table_consistent cfg s1)
    (hn : n ∉ nodes s) (hz : (s.mem n).reference_count = 0)
    (hp : (nodes s1).Perm (n :: nodes s))
    (hf : ∀ a, a ≠ n → s1.mem a = s.mem a)
    (hargs : arguments cfg (s1.mem n) = [])
    (hone : (s1.mem n).reference_count = 1)
    (htot : s1.total_nodes = s.total_nodes + 1)
    (hfl : ∀ c, ∀ a ∈ (s1.terminfo c).at_freelist,
      a ∈ (s.terminfo c).at_freelist ∧ a ≠ n)
    (hd : cfg.ndebug = false → n ≠ cfg.default_aterm) :
    Sound cfg s1 (add_handle h n) [] := by
  have hl : live cfg s h := by
    intro a
    have := hinv.releasing.count a
    simpa using this
  obtain ⟨l1, l2⟩ := live_insert cfg s s1 h n hl hn hz hp hf hargs hone
  refine ⟨⟨?_, hcons, l2 hinv.releasing.closed, ?_⟩, ?_, ?_, ?_, ?_, ?_⟩
  · intro a
    rw [l1 a]
    simp
  · intro p hp
    cases hp
  · intro a ha
    rcases List.mem_cons.1 (hp.subset ha) with e | e
    · left
      rw [e, hone]
      exact Nat.one_pos
    · have han : a ≠ n := by
        rintro rfl
        exact hn e
      rw [hf a han]
      exact hinv.positive a e
  · rw [htot, hinv.counted, hp.length_eq]
    rfl
  · intro c a ha
    obtain ⟨q1, q2⟩ := hfl c a ha
    rw [hf a q2]
    exact hinv.free_zero c a q1
  · intro c a ha hm
    obtain ⟨q1, q2⟩ := hfl c a ha
    rcases List.mem_cons.1 (hp.subset hm) with e | e
    · exact q2 e
    · exact hinv.apart c a q1 e
  · intro hnd
    obtain ⟨d1, d2⟩ := hinv.default_outside hnd
    refine ⟨?_, ?_⟩
    · intro hm
      rcases List.mem_cons.1 (hp.subset hm) with e | e
      · exact hd hnd e.symm
      · exact d1 e
    · intro c hm
      exact d2 c (hfl c _ hm).1

/-- A sound store stays sound when a further handle on a node of the table is handed
out. -/
theorem Sound.share {cfg : Config} {s s1 : Store} {h : Nat → Nat} {n : Nat}
    (hinv : Sound cfg s h []) (hcons : table_consistent cfg s1)
    (hp : (nodes s1).Perm (nodes s))
    (hf : ∀ a, (s1.mem a).m_function_symbol = (s.mem a).m_function_symbol ∧
      (s1.mem a).arg = (s.mem a).arg)
    (hrc : ∀ a, (s1.mem a).reference_count =
      if a = n then (s.mem a).reference_count + 1 else (s.mem a).reference_count)
    (htot : s1.total_nodes = s.total_nodes) (hti : s1.terminfo = s.terminfo)
    (hnn : n ∈ nodes s) :
    Sound cfg s1 (add_handle h n) [] := by
  have hl : live cfg s h := by
    intro a
    have := hinv.releasing.count a
    simpa using this
  obtain ⟨l1, l2⟩ := live_increase cfg s s1 h n hl hp hf hrc
  have hne : ∀ c, n ∉ (s.terminfo c).at_freelist := fun c hm => hinv.apart c n hm hnn
  refine ⟨⟨?_, hcons, l2 hinv.releasing.closed, ?_⟩, ?_, ?_, ?_, ?_, ?_⟩
  · intro a
    rw [l1 a]
    simp
  · intro p hp
    cases hp
  · intro a ha
    have ha0 := hp.subset ha
    rw [(hf a).1, hrc a]
    rcases hinv.positive a ha0 with e | e
    · left
      split <;> omega
    · exact Or.inr e
  · rw [htot, hinv.counted, hp.length_eq]
  · intro c a ha
    rw [hti] at ha
    have han : a ≠ n := by
      rintro rfl
      exact hne c ha
    rw [hrc a, if_neg han]
    exact hinv.free_zero c a ha
  · intro c a ha hm
    rw [hti] at ha
    exact hinv.apart c a ha (hp.subset hm)
  · intro hnd
    obtain ⟨d1, d2⟩ := hinv.default_outside hnd
    refine ⟨fun hm => d1 (hp.subset hm), ?_⟩
    rw [hti]
    exact d2

/-- The constructor `aterm_int` keeps a store sound. -/
theorem aterm_int_sound (cfg : Config) (env : Env) (v : Int) (s : Store) (h : Nat → Nat)
    (n : Nat) (s1 : Store) (hint : cfg.TERM_SIZE_INT = cfg.ARG_OFFSET + 1)
    (harity : cfg.arity cfg.AS_INT = 0)
    (hmask : env.bad_alloc = true → s.table_mask = 2 ^ s.table_class - 1)
    (hinv : Sound cfg s h [])
    (hfresh : ∀ m sa, AT_allocate cfg env cfg.TERM_SIZE_INT s = .ok (m, sa) →
      m ∉ nodes s ∧ (s.mem m).reference_count = 0 ∧
      (∀ c, m ∉ (sa.terminfo c).at_freelist) ∧ (cfg.ndebug = false → m ≠ cfg.default_aterm))
    (hrun : aterm_int cfg env v s = .ok (n, s1)) :
    Sound cfg s1 (add_handle h n) [] := by
  obtain ⟨hcons, -⟩ := aterm_int_consistent cfg env v s n s1 hint hmask
    (fun m sa hm => (hfresh m sa hm).1) hinv.releasing.consistent hrun
  rcases aterm_int_cases cfg env v s n s1 hrun with
    ⟨chain, hb, hf, hs, -⟩ | ⟨chain, sa, chain1, hb, hf, hal, hb1, hs, -⟩
  · subst hs
    refine hinv.share hcons (List.Perm.refl _)
      (fun a => by
        have := increase_reference_count_mem n s a
        exact ⟨this.1, this.2⟩)
      (increase_reference_count_count n s) rfl rfl ?_
    have hlt := lt_of_getElem? _ _ _ hb
    refine (mem_nodes_iff s n).2 ⟨_, hlt, ?_⟩
    rw [getD_of_getElem? _ _ _ _ hb]
    exact (find_int_some cfg _ _ _ _ hf).1
  · obtain ⟨a1, a2, -, a4⟩ := AT_allocate_frame cfg env _ s n sa hal
    obtain ⟨f1, f2, f3, f4⟩ := hfresh n sa hal
    have hfl := AT_allocate_freelist cfg env _ s n sa hal
    have hrc : (sa.mem n).reference_count = 0 := by
      rcases AT_allocate_count_cell cfg env _ s n sa hal with h1 | h1
      · exact h1
      · rw [h1, f2]
    subst hs
    apply hinv.insert hcons f1 f2
    · exact (nodes_set_bucket_cons (sa.write n (int_node cfg (int_word v) (sa.mem n)))
        _ n chain1 hb1).trans (a1.cons n)
    · intro a ha
      rw [← a2 a ha]
      simp [increase_reference_count, Store.write, Store.set_bucket, ha]
    · simp [arguments, increase_reference_count, Store.write, Store.set_bucket, int_node,
        harity]
    · simp [increase_reference_count, Store.write, Store.set_bucket, int_node, hrc]
    · exact a4
    · intro c a ha
      have ha1 : a ∈ (sa.terminfo c).at_freelist := ha
      refine ⟨(hfl c).subset ha1, ?_⟩
      rintro rfl
      exact f3 c ha1
    · exact f4

/-- The constructor `aterm` for a symbol without arguments keeps a store sound. -/
theorem aterm_sound (cfg : Config) (env : Env) (sym : Nat) (s : Store) (h : Nat → Nat)
    (n : Nat) (s1 : Store) (happl : cfg.TERM_SIZE_APPL 0 ≤ cfg.ARG_OFFSET)
    (harity : cfg.arity sym = 0) (hsym : sym ≠ cfg.AS_INT)
    (hmask : env.bad_alloc = true → s.table_mask = 2 ^ s.table_class - 1)
    (hinv : Sound cfg s h [])
    (hfresh : ∀ m sa, AT_allocate cfg env (cfg.TERM_SIZE_APPL 0) s = .ok (m, sa) →
      m ∉ nodes s ∧ (s.mem m).reference_count = 0 ∧
      (∀ c, m ∉ (sa.terminfo c).at_freelist) ∧ (cfg.ndebug = false → m ≠ cfg.default_aterm))
    (hrun : aterm cfg env sym s = .ok (n, s1)) :
    Sound cfg s1 (add_handle h n) [] := by
  obtain ⟨hcons, -⟩ := aterm_consistent cfg env sym s n s1 happl harity hsym hmask
    (fun m sa hm => (hfresh m sa hm).1) hinv.releasing.consistent hrun
  obtain ⟨-, hcases⟩ := aterm_cases cfg env sym s n s1 hrun
  rcases hcases with ⟨chain, others, hb, hf, hs⟩ | ⟨chain, sa, chain1, hb, hf, hal, hb1, hs⟩
  · subst hs
    refine hinv.share hcons ?_ ?_ (increase_reference_count_count n _) rfl rfl ?_
    · show (s.hashtable.set _ (n :: others)).flatten.Perm _
      exact flatten_set_perm s.hashtable _ chain (n :: others) hb
        (unlink_perm n chain others (find_symbol_some _ _ _ _ _ hf).2.1)
    · intro a
      have := increase_reference_count_mem n
        (s.set_bucket (cfg.FINISH (cfg.START sym) &&& s.table_mask) (n :: others)) a
      exact ⟨this.1, this.2⟩
    · have hlt := lt_of_getElem? _ _ _ hb
      refine (mem_nodes_iff s n).2 ⟨_, hlt, ?_⟩
      rw [getD_of_getElem? _ _ _ _ hb]
      exact (unlink_perm n chain others (find_symbol_some _ _ _ _ _ hf).2.1).symm.subset
        (List.mem_cons_self _ _)
  · obtain ⟨a1, a2, -, a4⟩ := AT_allocate_frame cfg env _ s n sa hal
    obtain ⟨f1, f2, f3, f4⟩ := hfresh n sa hal
    have hfl := AT_allocate_freelist cfg env _ s n sa hal
    have hrc : (sa.mem n).reference_count = 0 := by
      rcases AT_allocate_count_cell cfg env _ s n sa hal with h1 | h1
      · exact h1
      · rw [h1, f2]
    subst hs
    apply hinv.insert hcons f1 f2
    · exact (nodes_set_bucket_cons (sa.write n { sa.mem n with m_function_symbol := sym })
        _ n chain1 hb1).trans (a1.cons n)
    · intro a ha
      rw [← a2 a ha]
      simp [increase_reference_count, Store.write, Store.set_bucket, ha]
    · simp [arguments, increase_reference_count, Store.write, Store.set_bucket, harity]
    · simp [increase_reference_count, Store.write, Store.set_bucket, hrc]
    · exact a4
    · intro c a ha
      have ha1 : a ∈ (sa.terminfo c).at_freelist := ha
      refine ⟨(hfl c).subset ha1, ?_⟩
      rintro rfl
      exact f3 c ha1
    · exact f4

/-- The initial store is sound. -/
theorem sound_initial_store (cfg : Config) (k : Nat) :
    Sound cfg (initial_store k) (fun _ => 0) [] := by
  have hn : nodes (initial_store k) = [] := by
    simp [nodes, initial_store]
  refine ⟨⟨?_, ?_, ?_, ?_⟩, ?_, ?_, ?_, ?_, ?_⟩
  · intro a
    have hi : inrefs cfg (initial_store k) a = 0 := by
      unfold inrefs
      rw [hn]
      rfl
    rw [hi]
    rfl
  · constructor
    · intro i hi a ha
      have : a ∈ nodes (initial_store k) := (mem_nodes_iff _ a).2 ⟨i, hi, ha⟩
      rw [hn] at this
      cases this
    · intro chain hc
      have : chain = [] := List.eq_of_mem_replicate hc
      rw [this]
      exact List.nodup_nil
  · intro b hb
    rw [hn] at hb
    cases hb
  · intro p hp
    cases hp
  · intro a ha
    rw [hn] at ha
    cases ha
  · rw [hn]
    rfl
  · intro c a ha
    cases ha
  · intro c a ha
    cases ha
  · intro _
    rw [hn]
    exact ⟨List.not_mem_nil _, fun c hm => by cases hm⟩

end atermpp

namespace atermpp

/-! ## C30: the release of the arguments in the two builds -/

/-- What the handle assignment of the debug variant does, step by step. -/
theorem assign_default_aterm_inv (cfg : Config) (hnd : cfg.ndebug = false)
    (reduce : Nat → Store → Except Fault Store) (hr : Releases cfg reduce)
    (hd : ∀ s s1, reduce cfg.default_aterm s = .ok s1 →
      2 ≤ (s.mem cfg.default_aterm).reference_count →
      s1 = with_count s cfg.default_aterm ((s.mem cfg.default_aterm).reference_count - 1))
    (t i : Nat) (s s1 : Store) (h : Nat → Nat) (P : List Nat) (ht : t ∉ nodes s)
    (hinv : Sound cfg s h ((s.mem t).arg i :: P))
    (hrun : assign_default_aterm cfg reduce t i s = .ok s1) :
    ∃ s3, reduce ((s.mem t).arg i) (increase_reference_count cfg.default_aterm
        (increase_reference_count cfg.default_aterm s)) = .ok s3 ∧
      s1 = with_count (s3.write t { s3.mem t with
          arg := fun j => if j = i then cfg.default_aterm else (s3.mem t).arg j })
        cfg.default_aterm
        (((s3.write t { s3.mem t with
          arg := fun j => if j = i then cfg.default_aterm else (s3.mem t).arg j }).mem
          cfg.default_aterm).reference_count - 1) := by
  unfold assign_default_aterm at hrun
  simp only [] at hrun
  have hS2 : Sound cfg (increase_reference_count cfg.default_aterm
      (increase_reference_count cfg.default_aterm s))
      (leak h cfg.default_aterm 2) ((s.mem t).arg i :: P) := by
    have := (hinv.retain_default hnd).retain_default hnd
    rw [leak_leak] at this
    exact this
  have hmem2 : ((increase_reference_count cfg.default_aterm
      (increase_reference_count cfg.default_aterm s)).mem t).arg = (s.mem t).arg := by
    by_cases hx : t = cfg.default_aterm
    · simp [increase_reference_count, Store.write, hx]
    · simp [increase_reference_count, Store.write, hx]
  have hn2 : nodes (increase_reference_count cfg.default_aterm
      (increase_reference_count cfg.default_aterm s)) = nodes s := rfl
  rw [hmem2] at hrun
  generalize increase_reference_count cfg.default_aterm
      (increase_reference_count cfg.default_aterm s) = s2 at hrun hS2 hn2
  split at hrun
  · cases hrun
  · rename_i s3 h3
    refine ⟨s3, h3, ?_⟩
    obtain ⟨⟨k, -, hS3⟩, st3, -, -, -⟩ := hr _ _ _ _ _ hS2 h3
    rw [leak_leak] at hS3
    have ht3 : t ∉ nodes s3 := st3.not_mem (by rw [hn2]; exact ht)
    have hS4 : Sound cfg (s3.write t { s3.mem t with
        arg := fun j => if j = i then cfg.default_aterm else (s3.mem t).arg j })
        (leak h cfg.default_aterm (2 + k)) P := by
      refine hS3.frame_write rfl rfl rfl rfl ?_ ?_
      · intro b hb
        have hbt : b ≠ t := by
          rintro rfl
          exact ht3 hb
        simp [Store.write, hbt]
      · intro a
        by_cases hat : a = t <;> simp [Store.write, hat]
    apply hd _ _ hrun
    rw [hS4.releasing.count cfg.default_aterm]
    simp only [leak, if_true]
    omega

theorem Agree.of_write_count {d : Nat} {sd sr : Store} (hag : Agree d sd sr) (t r : Nat) :
    Agree d (with_count sd t r) (with_count sr t r) := by
  refine ⟨hag.hashtable, hag.terminfo, hag.total_nodes, hag.table_class, hag.table_size,
    hag.table_mask, ?_, ?_, ?_⟩
  · intro a
    by_cases ha : a = t
    · subst ha
      simp only [with_count, Store.write, if_true]
      exact hag.symbol a
    · simp only [with_count, Store.write, if_neg ha]
      exact hag.symbol a
  · intro a had
    by_cases ha : a = t
    · simp [with_count, Store.write, ha]
    · simp only [with_count, Store.write, if_neg ha]
      exact hag.count a had
  · intro a ham
    have ham0 : a ∈ nodes sd := ham
    by_cases ha : a = t
    · subst ha
      simp only [with_count, Store.write, if_true]
      exact hag.arg a ham0
    · simp only [with_count, Store.write, if_neg ha]
      exact hag.arg a ham0

/-- A change of the debug store in the count of the default term and in the payloads of
nodes outside the table keeps the agreement. -/
theorem Agree.of_debug_frame {d : Nat} {sd sd1 sr : Store} (hag : Agree d sd sr)
    (hh : sd1.hashtable = sd.hashtable) (hti : sd1.terminfo = sd.terminfo)
    (htot : sd1.total_nodes = sd.total_nodes) (hc : sd1.table_class = sd.table_class)
    (hs : sd1.table_size = sd.table_size) (hm : sd1.table_mask = sd.table_mask)
    (hsym : ∀ a, (sd1.mem a).m_function_symbol = (sd.mem a).m_function_symbol)
    (hcount : ∀ a, a ≠ d → (sd1.mem a).reference_count = (sd.mem a).reference_count)
    (harg : ∀ a ∈ nodes sd, (sd1.mem a).arg = (sd.mem a).arg) :
    Agree d sd1 sr := by
  have hn : nodes sd1 = nodes sd := by unfold nodes; rw [hh]
  refine ⟨hh.trans hag.hashtable, hti.trans hag.terminfo, htot.trans hag.total_nodes,
    hc.trans hag.table_class, hs.trans hag.table_size, hm.trans hag.table_mask, ?_, ?_, ?_⟩
  · intro a
    exact (hsym a).trans (hag.symbol a)
  · intro a ha
    exact (hcount a ha).trans (hag.count a ha)
  · intro a ha
    rw [hn] at ha
    exact (harg a ha).trans (hag.arg a ha)

theorem Agree.same_nodes {d : Nat} {sd sr : Store} (hag : Agree d sd sr) :
    nodes sd = nodes sr := by
  unfold nodes
  rw [hag.hashtable]

/-- The removal of a node from the table in the two builds keeps the agreement. -/
theorem AT_freeTerm_agree (cfg : Config) (t : Nat) (sd sr sd1 sr1 : Store)
    (hag : Agree cfg.default_aterm sd sr) (ht : t ∈ nodes sd)
    (hcd : table_consistent (debug_build cfg) sd)
    (hd : AT_freeTerm (debug_build cfg) t sd = .ok sd1)
    (hr : AT_freeTerm (release_build cfg) t sr = .ok sr1) :
    Agree cfg.default_aterm sd1 sr1 := by
  have hb : bucket_of (release_build cfg) sr t = bucket_of (debug_build cfg) sd t := by
    unfold bucket_of
    rw [← hag.table_mask]
    have e1 := hag.symbol t
    have e2 := hag.arg t ht
    have : hash_number (release_build cfg) (sr.mem t) (term_size (release_build cfg) (sr.mem t))
        = hash_number (debug_build cfg) (sd.mem t) (term_size (debug_build cfg) (sd.mem t)) := by
      have h1 : term_size (release_build cfg) (sr.mem t) =
          term_size (debug_build cfg) (sd.mem t) := by
        show term_size (debug_build cfg) (sr.mem t) = _
        exact term_size_congr _ _ _ e1.symm
      rw [h1]
      show hash_number (debug_build cfg) (sr.mem t) _ = _
      exact hash_number_congr _ _ _ _ e1.symm e2.symm
    rw [this]
  have hmd := mem_bucket_of_consistent _ sd hcd t ht
  rcases AT_freeTerm_cases _ t sd sd1 hd with
    ⟨chain, chain1, gb, gu, gs⟩ | ⟨chain, gb, -, gu, -, -⟩
  · rcases AT_freeTerm_cases _ t sr sr1 hr with
      ⟨chainr, chainr1, fb, fu, fs⟩ | ⟨chainr, fb, -, fu, -, -⟩
    · rw [hb, ← hag.hashtable, gb] at fb
      cases fb
      rw [gu] at fu
      cases fu
      rw [gs, fs, hb]
      refine ⟨?_, hag.terminfo, ?_, hag.table_class, hag.table_size, hag.table_mask,
        hag.symbol, hag.count, ?_⟩
      · show sd.hashtable.set _ _ = sr.hashtable.set _ _
        rw [hag.hashtable]
      · show size_t_dec sd.total_nodes = size_t_dec sr.total_nodes
        rw [hag.total_nodes]
      · intro a ha
        have hst := (AT_freeTerm_stable _ t sd sd1 hcd hd).1
        rw [gs] at hst
        exact hag.arg a (hst.nodes_subset a ha)
    · exfalso
      rw [hb, ← hag.hashtable, gb] at fb
      cases fb
      rw [gu] at fu
      cases fu
  · exfalso
    rw [getD_of_getElem? _ _ _ _ gb] at hmd
    exact unlink_none t chain gu hmd

end atermpp

namespace atermpp

/-- The loops of the two variants of `at_free_term` keep the agreement of the stores,
when the releases they make do. -/
theorem free_arguments_agree (cfg : Config) (rd rr : Nat → Store → Except Fault Store)
    (hrd : Releases (debug_build cfg) rd) (hrr : Releases (release_build cfg) rr)
    (hdd : ∀ s s1, rd (debug_build cfg).default_aterm s = .ok s1 →
      2 ≤ (s.mem (debug_build cfg).default_aterm).reference_count →
      s1 = with_count s (debug_build cfg).default_aterm
        ((s.mem (debug_build cfg).default_aterm).reference_count - 1))
    (hdr : ∀ s s1, rr (release_build cfg).default_aterm s = .ok s1 →
      2 ≤ (s.mem (release_build cfg).default_aterm).reference_count →
      s1 = with_count s (release_build cfg).default_aterm
        ((s.mem (release_build cfg).default_aterm).reference_count - 1))
    (hsim : ∀ a sd sr sd1 sr1 hd hr P, Agree cfg.default_aterm sd sr →
      Sound (debug_build cfg) sd hd (a :: P) → Sound (release_build cfg) sr hr (a :: P) →
      (∀ x ∈ nodes sd, (sd.mem x).m_function_symbol ≠ cfg.AS_EMPTY_LIST) →
      rd a sd = .ok sd1 → rr a sr = .ok sr1 → Agree cfg.default_aterm sd1 sr1)
    (t n : Nat) :
    ∀ n1 i sd sr sd1 sr1 hd hr P, Agree cfg.default_aterm sd sr → t ∉ nodes sd →
      t ≠ cfg.default_aterm → (∀ j, i ≤ j → (sd.mem t).arg j = (sr.mem t).arg j) →
      Sound (debug_build cfg) sd hd ((arguments (debug_build cfg) (sd.mem t)).drop i ++ P) →
      Sound (release_build cfg) sr hr
        ((arguments (release_build cfg) (sr.mem t)).drop i ++ P) →
      (∀ x ∈ nodes sd, (sd.mem x).m_function_symbol ≠ cfg.AS_EMPTY_LIST) →
      free_arguments (debug_build cfg) rd t n i sd = .ok sd1 →
      free_arguments (release_build cfg) rr t n1 i sr = .ok sr1 →
      Agree cfg.default_aterm sd1 sr1 := by
  have hndd : (debug_build cfg).ndebug = false := rfl
  have hndr : (release_build cfg).ndebug = true := rfl
  induction n with
  | zero =>
    intro n1 i sd sr sd1 sr1 hd hr P hag ht htd hargs hSd hSr hne hrund hrunr
    unfold free_arguments at hrund hrunr
    split at hrund
    · cases hrund
    · rename_i hi
      have hir : ¬ i < (release_build cfg).arity (sr.mem t).m_function_symbol := by
        rw [← hag.symbol t]
        exact hi
      rw [if_neg hir] at hrunr
      cases hrund
      cases hrunr
      exact hag
  | succ n ih =>
    intro n1 i sd sr sd1 sr1 hd hr P hag ht htd hargs hSd hSr hne hrund hrunr
    unfold free_arguments at hrund hrunr
    split at hrund
    · rename_i hi
      have hir : i < (release_build cfg).arity (sr.mem t).m_function_symbol := by
        rw [← hag.symbol t]
        exact hi
      rw [if_pos hir] at hrunr
      cases n1 with
      | zero => cases hrunr
      | succ n1 =>
        simp only [] at hrund hrunr
        split at hrund
        · cases hrund
        · rename_i sd2 h2d
          split at hrunr
          · cases hrunr
          · rename_i sr2 h2r
            have htr : t ∉ nodes sr := by
              rw [← hag.same_nodes]
              exact ht
            rw [arguments_drop _ _ i hi, List.cons_append] at hSd
            rw [arguments_drop _ _ i hir, List.cons_append] at hSr
            -- the two rounds
            obtain ⟨⟨k, -, hS2d⟩, st2d, -, -, ⟨t1, t2, t3⟩, -⟩ :=
              release_argument_sound (debug_build cfg) rd hrd hdd t i sd sd2 hd _ ht
                (fun _ => htd) hSd h2d
            obtain ⟨⟨k1, -, hS2r⟩, st2r, -, -, ⟨u1, u2, u3⟩, -⟩ :=
              release_argument_sound (release_build cfg) rr hrr hdr t i sr sr2 hr _ htr
                (fun e => by rw [hndr] at e; cases e) hSr h2r
            have hag2 : Agree cfg.default_aterm sd2 sr2 := by
              rw [hndd] at h2d
              rw [hndr] at h2r
              simp only [Bool.false_eq_true, if_false] at h2d
              simp only [if_true] at h2r
              obtain ⟨s3, h3, hs⟩ := assign_default_aterm_inv (debug_build cfg) hndd rd hrd hdd
                t i sd sd2 hd _ ht hSd h2d
              have hS2 : Sound (debug_build cfg)
                  (increase_reference_count (debug_build cfg).default_aterm
                    (increase_reference_count (debug_build cfg).default_aterm sd))
                  (leak hd (debug_build cfg).default_aterm 2)
                  ((sd.mem t).arg i ::
                    ((arguments (debug_build cfg) (sd.mem t)).drop (i + 1) ++ P)) := by
                have := (hSd.retain_default hndd).retain_default hndd
                rw [leak_leak] at this
                exact this
              have hagi : Agree cfg.default_aterm
                  (increase_reference_count (debug_build cfg).default_aterm
                    (increase_reference_count (debug_build cfg).default_aterm sd)) sr := by
                refine hag.of_debug_frame rfl rfl rfl rfl rfl rfl ?_ ?_ ?_
                · intro a
                  by_cases ha : a = (debug_build cfg).default_aterm <;>
                    simp [increase_reference_count, Store.write, ha]
                · intro a ha
                  have ha1 : a ≠ (debug_build cfg).default_aterm := ha
                  simp [increase_reference_count, Store.write, ha1]
                · intro a _
                  by_cases ha : a = (debug_build cfg).default_aterm <;>
                    simp [increase_reference_count, Store.write, ha]
              have hSr1 : Sound (release_build cfg) sr hr ((sd.mem t).arg i ::
                  ((arguments (debug_build cfg) (sd.mem t)).drop (i + 1) ++ P)) := by
                have e1 : (arguments (release_build cfg) (sr.mem t)).drop (i + 1) =
                    (arguments (debug_build cfg) (sd.mem t)).drop (i + 1) :=
                  arguments_drop_congr (debug_build cfg) (sd.mem t) (sr.mem t) (i + 1)
                    (hag.symbol t).symm (fun j hj => (hargs j (by omega)).symm)
                rw [e1, ← hargs i (le_refl _)] at hSr
                exact hSr
              rw [← hargs i (le_refl _)] at h2r
              have hag3 := hsim _ _ _ _ _ _ _ _ hagi hS2 hSr1
                (fun x hx => by
                  have hx0 : x ∈ nodes sd := hx
                  have := hne x hx0
                  by_cases ha : x = (debug_build cfg).default_aterm <;>
                    simpa [increase_reference_count, Store.write, ha] using this)
                h3 h2r
              have st3 := (hrd _ _ _ _ _ hS2 h3).stable
              have ht3 : t ∉ nodes s3 := st3.not_mem ht
              have hdt : ¬ (debug_build cfg).default_aterm = t := fun e => htd e.symm
              rw [hs]
              refine hag3.of_debug_frame rfl rfl rfl rfl rfl rfl ?_ ?_ ?_
              · intro a
                by_cases hat : a = t
                · subst hat
                  have ha : a ≠ (debug_build cfg).default_aterm := htd
                  simp [with_count, Store.write, ha]
                · by_cases ha : a = (debug_build cfg).default_aterm <;>
                    simp [with_count, Store.write, ha, hat, hdt]
              · intro a ha
                have ha1 : a ≠ (debug_build cfg).default_aterm := ha
                by_cases hat : a = t
                · subst hat
                  simp [with_count, Store.write, ha1]
                · simp [with_count, Store.write, ha1, hat]
              · intro a ham
                have hat : a ≠ t := by
                  rintro rfl
                  exact ht3 ham
                by_cases ha : a = (debug_build cfg).default_aterm <;>
                  simp [with_count, Store.write, ha, hat, hdt]
            have hdropd : (arguments (debug_build cfg) (sd2.mem t)).drop (i + 1) =
                (arguments (debug_build cfg) (sd.mem t)).drop (i + 1) :=
              arguments_drop_congr _ _ _ _ t1 (fun j hj => t3 j (by omega))
            have hdropr : (arguments (release_build cfg) (sr2.mem t)).drop (i + 1) =
                (arguments (release_build cfg) (sr.mem t)).drop (i + 1) :=
              arguments_drop_congr _ _ _ _ u1 (fun j hj => u3 j (by omega))
            rw [← hdropd] at hS2d
            rw [← hdropr] at hS2r
            refine ih n1 (i + 1) sd2 sr2 sd1 sr1 _ _ P hag2 (st2d.not_mem ht) htd ?_
              hS2d hS2r ?_ hrund hrunr
            · intro j hj
              rw [t3 j (by omega), u3 j (by omega)]
              exact hargs j (by omega)
            · intro x hx
              rw [(st2d.frame x hx).1]
              exact hne x (st2d.nodes_subset x hx)
    · rename_i hi
      have hir : ¬ i < (release_build cfg).arity (sr.mem t).m_function_symbol := by
        rw [← hag.symbol t]
        exact hi
      rw [if_neg hir] at hrunr
      cases hrund
      cases hrunr
      exact hag

end atermpp

namespace atermpp

/-- The releases of the two builds keep the agreement of the stores, when no node of the
table is the empty list. -/
theorem at_reduce_agree (cfg : Config) (fd : Nat) :
    ∀ fr t sd sr sd1 sr1 hd hr P, Agree cfg.default_aterm sd sr →
      Sound (debug_build cfg) sd hd (t :: P) → Sound (release_build cfg) sr hr (t :: P) →
      (∀ x ∈ nodes sd, (sd.mem x).m_function_symbol ≠ cfg.AS_EMPTY_LIST) →
      at_reduce_reference_count (debug_build cfg) fd t sd = .ok sd1 →
      at_reduce_reference_count (release_build cfg) fr t sr = .ok sr1 →
      Agree cfg.default_aterm sd1 sr1 := by
  have hndd : (debug_build cfg).ndebug = false := rfl
  have hndr : (release_build cfg).ndebug = true := rfl
  induction fd with
  | zero =>
    intro fr t sd sr sd1 sr1 hd hr P _ _ _ _ hrund _
    cases hrund
  | succ fd ih =>
    intro fr t sd sr sd1 sr1 hd hr P hag hSd hSr hne hrund hrunr
    cases fr with
    | zero => cases hrunr
    | succ fr =>
      have hts : t ∈ nodes sd := hSd.releasing.pending_mem t (List.mem_cons_self _ _)
      have htd : t ≠ cfg.default_aterm := by
        intro e
        exact (hSd.default_outside hndd).1 (e ▸ hts)
      have hposd := hSd.pending_pos
      have hposr := hSr.pending_pos
      have hcnt : (sd.mem t).reference_count = (sr.mem t).reference_count := hag.count t htd
      have hdecd : size_t_dec (sd.mem t).reference_count = (sd.mem t).reference_count - 1 := by
        unfold size_t_dec
        rw [if_neg (by omega)]
      have hdecr : size_t_dec (sr.mem t).reference_count = (sd.mem t).reference_count - 1 := by
        unfold size_t_dec
        rw [if_neg (by omega), hcnt]
      have hag0 := hag.of_write_count t ((sd.mem t).reference_count - 1)
      have hmd : ((with_count sd t ((sd.mem t).reference_count - 1)).mem t).m_function_symbol =
            (sd.mem t).m_function_symbol ∧
          ((with_count sd t ((sd.mem t).reference_count - 1)).mem t).arg = (sd.mem t).arg ∧
          ((with_count sd t ((sd.mem t).reference_count - 1)).mem t).reference_count =
            (sd.mem t).reference_count - 1 := by
        simp [with_count, Store.write]
      have hmr : ((with_count sr t ((sd.mem t).reference_count - 1)).mem t).m_function_symbol =
            (sr.mem t).m_function_symbol ∧
          ((with_count sr t ((sd.mem t).reference_count - 1)).mem t).arg = (sr.mem t).arg ∧
          ((with_count sr t ((sd.mem t).reference_count - 1)).mem t).reference_count =
            (sd.mem t).reference_count - 1 := by
        simp [with_count, Store.write]
      unfold at_reduce_reference_count at hrund hrunr
      have h0d : (sd.mem t).reference_count ≠ 0 := by omega
      have h0r : (sr.mem t).reference_count ≠ 0 := by omega
      simp only [h0d, Bool.and_false, decide_False, Bool.false_eq_true, if_false, hdecd]
        at hrund
      simp only [h0r, Bool.and_false, decide_False, Bool.false_eq_true, if_false, hdecr]
        at hrunr
      change (if ((with_count sd t ((sd.mem t).reference_count - 1)).mem t).reference_count = 0
        then at_free_term_body (debug_build cfg)
          (at_reduce_reference_count (debug_build cfg) fd) fd t
          (with_count sd t ((sd.mem t).reference_count - 1))
        else .ok (with_count sd t ((sd.mem t).reference_count - 1))) = .ok sd1 at hrund
      change (if ((with_count sr t ((sd.mem t).reference_count - 1)).mem t).reference_count = 0
        then at_free_term_body (release_build cfg)
          (at_reduce_reference_count (release_build cfg) fr) fr t
          (with_count sr t ((sd.mem t).reference_count - 1))
        else .ok (with_count sr t ((sd.mem t).reference_count - 1))) = .ok sr1 at hrunr
      by_cases hz : (sd.mem t).reference_count - 1 = 0
      · have honed : (sd.mem t).reference_count = 1 := by omega
        have honer : (sr.mem t).reference_count = 1 := by omega
        rw [hz] at hrund hrunr hag0 hmd hmr
        rw [if_pos hmd.2.2] at hrund
        rw [if_pos hmr.2.2] at hrunr
        unfold at_free_term_body at hrund hrunr
        have hsymne : (sd.mem t).m_function_symbol ≠ cfg.AS_EMPTY_LIST := hne t hts
        have hsymne1 : (sd.mem t).m_function_symbol ≠ (debug_build cfg).AS_EMPTY_LIST := hsymne
        rw [if_neg (by simp [hmd.1, hsymne1]), if_neg (by simp [hmd.2.2])] at hrund
        rw [if_neg (by simp [hndr]), if_neg (by simp [hndr])] at hrunr
        simp only [] at hrund hrunr
        split at hrund
        · cases hrund
        · rename_i sdr hfd
          split at hrunr
          · cases hrunr
          · rename_i srr hfr
            split at hrund
            · cases hrund
            · rename_i sdl hld
              split at hrunr
              · cases hrunr
              · rename_i srl hlr
                cases hrund
                cases hrunr
                obtain ⟨d1, d2, d3, d4, d5, d6⟩ := hSd.take_node honed hfd
                obtain ⟨r1, r2, r3, r4, r5, r6⟩ := hSr.take_node honer hfr
                have hr0 := hSd.releasing.decrement
                rw [honed] at hr0
                have hagr : Agree cfg.default_aterm sdr srr :=
                  AT_freeTerm_agree cfg t _ _ sdr srr hag0 hts hr0.consistent hfd hfr
                have hargsd : arguments (debug_build cfg) (sdr.mem t) =
                    arguments (debug_build cfg) (sd.mem t) := by
                  rw [d4]
                  exact arguments_congr _ _ _ hmd.1 hmd.2.1
                have hargsr : arguments (release_build cfg) (srr.mem t) =
                    arguments (release_build cfg) (sr.mem t) := by
                  rw [r4]
                  exact arguments_congr _ _ _ hmr.1 hmr.2.1
                rw [← hargsd, ← List.drop_zero (arguments (debug_build cfg) (sdr.mem t))] at d1
                rw [← hargsr, ← List.drop_zero (arguments (release_build cfg) (srr.mem t))]
                  at r1
                have hargeq : ∀ j, 0 ≤ j → (sdr.mem t).arg j = (srr.mem t).arg j := by
                  intro j _
                  rw [d4, r4, hmd.2.1, hmr.2.1, hag.arg t hts]
                have hner : ∀ x ∈ nodes sdr,
                    (sdr.mem x).m_function_symbol ≠ cfg.AS_EMPTY_LIST := by
                  intro x hx
                  rw [(d2.frame x hx).1]
                  exact hne x (d2.nodes_subset x hx)
                have hagl : Agree cfg.default_aterm sdl srl :=
                  free_arguments_agree cfg _ _ (at_reduce_sound (debug_build cfg) fd)
                    (at_reduce_sound (release_build cfg) fr)
                    (fun s s1 => at_reduce_shared (debug_build cfg) fd _ s s1)
                    (fun s s1 => at_reduce_shared (release_build cfg) fr _ s s1)
                    (fun a sd sr sd1 sr1 hd hr P h1 h2 h3 h4 h5 h6 =>
                      ih fr a sd sr sd1 sr1 hd hr P h1 h2 h3 h4 h5 h6)
                    t fd fr 0 sdr srr sdl srl hd hr P hagr d3 htd hargeq d1 r1 hner hld hlr
                obtain ⟨-, q2, -, -, -, -⟩ :=
                  free_arguments_sound (debug_build cfg) _ (at_reduce_sound (debug_build cfg) fd)
                    (fun s s1 => at_reduce_shared (debug_build cfg) fd _ s s1)
                    t fd 0 sdr sdl hd P d3 (fun _ => htd) d1 hld
                have htl : t ∉ nodes sdl := q2.not_mem d3
                have hsz : term_size (release_build cfg) ((with_count sr t 0).mem t) =
                    term_size (debug_build cfg) ((with_count sd t 0).mem t) := by
                  show term_size (debug_build cfg) ((with_count sr t 0).mem t) = _
                  apply term_size_congr
                  rw [hmd.1, hmr.1]
                  exact (hag.symbol t).symm
                rw [hsz]
                refine ⟨hagl.hashtable, ?_, hagl.total_nodes, hagl.table_class, hagl.table_size,
                  hagl.table_mask, ?_, ?_, ?_⟩
                · funext c
                  by_cases hc : c = term_size (debug_build cfg) ((with_count sd t 0).mem t)
                  · simp only [Store.set_terminfo, Store.write, hc, if_true]
                    rw [hagl.terminfo]
                  · simp only [Store.set_terminfo, Store.write, if_neg hc]
                    rw [hagl.terminfo]
                · intro a
                  by_cases ha : a = t
                  · subst ha
                    simp only [Store.set_terminfo, Store.write, if_true]
                    rfl
                  · simp only [Store.set_terminfo, Store.write, if_neg ha]
                    exact hagl.symbol a
                · intro a had
                  by_cases ha : a = t
                  · subst ha
                    simp only [Store.set_terminfo, Store.write, if_true]
                    exact hagl.count a had
                  · simp only [Store.set_terminfo, Store.write, if_neg ha]
                    exact hagl.count a had
                · intro a ham
                  have ham0 : a ∈ nodes sdl := ham
                  have ha : a ≠ t := by
                    rintro rfl
                    exact htl ham0
                  simp only [Store.set_terminfo, Store.write, if_neg ha]
                  exact hagl.arg a ham0
      · rw [if_neg (by rw [hmd.2.2]; exact hz)] at hrund
        rw [if_neg (by rw [hmr.2.2]; exact hz)] at hrunr
        cases hrund
        cases hrunr
        exact hag0

end atermpp

namespace atermpp

/-- After a release every count has dropped by the number of argument positions of the
freed nodes that referred to the node, and by one for the reference given up. -/
theorem release_exact (cfg : Config) (s s1 : Store) (h : Nat → Nat) (t k : Nat)
    (hinv : Sound cfg s h [t]) (hk : cfg.ndebug = true → k = 0)
    (hinv1 : Sound cfg s1 (leak h cfg.default_aterm k) []) (hst : Stable s s1) (x : Nat)
    (hx : cfg.ndebug = true ∨ x ≠ cfg.default_aterm) :
    (s1.mem x).reference_count +
      (((nodes s).filter (fun a => a ∉ nodes s1)).map
        (fun r => (arguments cfg (s.mem r)).count x)).sum +
      (if x = t then 1 else 0) = (s.mem x).reference_count := by
  have h1 := hinv.releasing.count x
  have h2 := hinv1.releasing.count x
  have h3 := inrefs_split cfg hst hinv.releasing.consistent x
  have hl : leak h cfg.default_aterm k x = h x := by
    unfold leak
    split
    · rename_i e
      rcases hx with hn | hn
      · rw [hk hn]
        rfl
      · exact absurd e hn
    · rfl
  rw [hl] at h2
  simp only [List.count_nil] at h2
  by_cases hxt : x = t
  · subst hxt
    simp only [List.count_cons_self, List.count_nil] at h1
    rw [if_pos rfl]
    omega
  · have hne : (t == x) = false := by simpa using fun e : t = x => hxt e.symm
    simp only [List.count_cons, hne, List.count_nil, Bool.false_eq_true, if_false] at h1
    rw [if_neg hxt]
    omega

/-- C30 (amended).  When the release of a handle frees nodes, every argument reference
they hold is released exactly once, in either build: afterwards the count of every node
(in a debug build: but the default term, on which the overwritten arguments keep
references) has dropped by the number of argument positions of the freed nodes that
referred to it, and by one for the node of the handle; a node of the table whose count
has reached zero is out of the table and on the free list of its size class (in a debug
build: but the empty list).  When no node of the table is the empty list, the debug
variant and the release variant leave stores that agree: the same hash table, allocator
and counters, the same function symbols, and the same reference counts but for the
default term.  Both releases return when the fuel is above the number of nodes plus the
largest arity. -/
theorem arguments_released_once (cfg : Config) (s : Store) (h : Nat → Nat) (t : Nat)
    (hd : Sound (debug_build cfg) s h []) (hr : Sound (release_build cfg) s h [])
    (ht : t ∈ nodes s) (hh : 1 ≤ h t) :
    (∀ fuel s1, at_reduce_reference_count (release_build cfg) fuel t s = .ok s1 →
      (∀ x, (s1.mem x).reference_count +
        (((nodes s).filter (fun a => a ∉ nodes s1)).map
          (fun r => (arguments (release_build cfg) (s.mem r)).count x)).sum +
        (if x = t then 1 else 0) = (s.mem x).reference_count) ∧
      (∀ x ∈ nodes s, (s1.mem x).reference_count = 0 →
        x ∉ nodes s1 ∧
        x ∈ (s1.terminfo (term_size (release_build cfg) (s.mem x))).at_freelist)) ∧
    (∀ fuel s1, at_reduce_reference_count (debug_build cfg) fuel t s = .ok s1 →
      (∀ x, x ≠ cfg.default_aterm → (s1.mem x).reference_count +
        (((nodes s).filter (fun a => a ∉ nodes s1)).map
          (fun r => (arguments (debug_build cfg) (s.mem r)).count x)).sum +
        (if x = t then 1 else 0) = (s.mem x).reference_count) ∧
      (∀ x ∈ nodes s, (s1.mem x).reference_count = 0 →
        (s.mem x).m_function_symbol ≠ cfg.AS_EMPTY_LIST →
        x ∉ nodes s1 ∧
        x ∈ (s1.terminfo (term_size (debug_build cfg) (s.mem x))).at_freelist)) ∧
    ((∀ x ∈ nodes s, (s.mem x).m_function_symbol ≠ cfg.AS_EMPTY_LIST) →
      ∀ fd fr sd sr, at_reduce_reference_count (debug_build cfg) fd t s = .ok sd →
        at_reduce_reference_count (release_build cfg) fr t s = .ok sr →
        Agree cfg.default_aterm sd sr) ∧
    (∀ A fuel, (∀ b ∈ nodes s, cfg.arity (s.mem b).m_function_symbol ≤ A) →
      (nodes s).length + A + 1 ≤ fuel →
      (∃ sd, at_reduce_reference_count (debug_build cfg) fuel t s = .ok sd) ∧
      (∃ sr, at_reduce_reference_count (release_build cfg) fuel t s = .ok sr)) := by
  have hpd := hd.give_up ht hh
  have hpr := hr.give_up ht hh
  refine ⟨?_, ?_, ?_, ?_⟩
  · intro fuel s1 hrun
    obtain ⟨⟨k, hk, hinv1⟩, hst, -, -, hrec⟩ :=
      at_reduce_sound (release_build cfg) fuel t s s1 _ [] hpr hrun
    refine ⟨fun x => release_exact _ s s1 _ t k hpr hk hinv1 hst x (Or.inl rfl), ?_⟩
    intro x hx hz
    have hx1 : x ∉ nodes s1 := by
      intro hm
      rcases hinv1.positive x hm with hp | ⟨hnd, -⟩
      · omega
      · cases hnd
    exact ⟨hx1, hrec x hx hx1⟩
  · intro fuel s1 hrun
    obtain ⟨⟨k, hk, hinv1⟩, hst, -, -, hrec⟩ :=
      at_reduce_sound (debug_build cfg) fuel t s s1 _ [] hpd hrun
    refine ⟨fun x hx => release_exact _ s s1 _ t k hpd hk hinv1 hst x (Or.inr hx), ?_⟩
    intro x hx hz hsym
    have hx1 : x ∉ nodes s1 := by
      intro hm
      rcases hinv1.positive x hm with hp | ⟨-, he⟩
      · omega
      · rw [(hst.frame x hm).1] at he
        exact hsym he
    exact ⟨hx1, hrec x hx hx1⟩
  · intro hne fd fr sd sr hrund hrunr
    refine at_reduce_agree cfg fd fr t s s sd sr _ _ [] ?_ hpd hpr hne hrund hrunr
    exact ⟨rfl, rfl, rfl, rfl, rfl, rfl, fun _ => rfl, fun _ _ => rfl, fun _ _ => rfl⟩
  · intro A fuel hA hf
    exact ⟨at_reduce_returns (debug_build cfg) A fuel t s _ [] hpd hA hf,
      at_reduce_returns (release_build cfg) A fuel t s _ [] hpr hA hf⟩

/-- C30 (amended), at the store that holds `f(x)` with a handle on `f(x)`. -/
theorem arguments_released_once_witness :
    Sound (debug_build (example_config true)) store_f_of_x handles_f_of_x [] ∧
    Sound (release_build (example_config true)) store_f_of_x handles_f_of_x [] ∧
    ((∀ fuel s1, at_reduce_reference_count (release_build (example_config true)) fuel 3100
        store_f_of_x = .ok s1 →
      (∀ x, (s1.mem x).reference_count +
        (((nodes store_f_of_x).filter (fun a => a ∉ nodes s1)).map
          (fun r => (arguments (release_build (example_config true))
            (store_f_of_x.mem r)).count x)).sum +
        (if x = 3100 then 1 else 0) = (store_f_of_x.mem x).reference_count) ∧
      (∀ x ∈ nodes store_f_of_x, (s1.mem x).reference_count = 0 →
        x ∉ nodes s1 ∧
        x ∈ (s1.terminfo (term_size (release_build (example_config true))
          (store_f_of_x.mem x))).at_freelist)) ∧
    (∀ fuel s1, at_reduce_reference_count (debug_build (example_config true)) fuel 3100
        store_f_of_x = .ok s1 →
      (∀ x, x ≠ (example_config true).default_aterm → (s1.mem x).reference_count +
        (((nodes store_f_of_x).filter (fun a => a ∉ nodes s1)).map
          (fun r => (arguments (debug_build (example_config true))
            (store_f_of_x.mem r)).count x)).sum +
        (if x = 3100 then 1 else 0) = (store_f_of_x.mem x).reference_count) ∧
      (∀ x ∈ nodes store_f_of_x, (s1.mem x).reference_count = 0 →
        (store_f_of_x.mem x).m_function_symbol ≠ (example_config true).AS_EMPTY_LIST →
        x ∉ nodes s1 ∧
        x ∈ (s1.terminfo (term_size (debug_build (example_config true))
          (store_f_of_x.mem x))).at_freelist)) ∧
    ((∀ x ∈ nodes store_f_of_x,
        (store_f_of_x.mem x).m_function_symbol ≠ (example_config true).AS_EMPTY_LIST) →
      ∀ fd fr sd sr,
        at_reduce_reference_count (debug_build (example_config true)) fd 3100 store_f_of_x
          = .ok sd →
        at_reduce_reference_count (release_build (example_config true)) fr 3100 store_f_of_x
          = .ok sr →
        Agree (example_config true).default_aterm sd sr) ∧
    (∀ A fuel, (∀ b ∈ nodes store_f_of_x,
        (example_config true).arity (store_f_of_x.mem b).m_function_symbol ≤ A) →
      (nodes store_f_of_x).length + A + 1 ≤ fuel →
      (∃ sd, at_reduce_reference_count (debug_build (example_config true)) fuel 3100
        store_f_of_x = .ok sd) ∧
      (∃ sr, at_reduce_reference_count (release_build (example_config true)) fuel 3100
        store_f_of_x = .ok sr))) :=
  ⟨sound_store_f_of_x false, sound_store_f_of_x true,
    arguments_released_once (example_config true) store_f_of_x handles_f_of_x 3100
      (sound_store_f_of_x false) (sound_store_f_of_x true) (by decide) (by decide)⟩

/-- C30 as stated fails: the two variants of `at_free_term` do not leave the same store.
After the release of the only handle on `f([])` the count of the empty list has reached
zero in both builds; the release build has freed it, the debug build has left it in the
table and off the free list, and in the debug build the default term has a reference
more, held by the overwritten argument. -/
theorem debug_and_release_variant_differ :
    ∃ sd sr,
      at_reduce_reference_count (example_config false) 4 3100 store_f_of_empty_list
        = .ok sd ∧
      at_reduce_reference_count (example_config true) 4 3100 store_f_of_empty_list
        = .ok sr ∧
      (sd.mem 3001).reference_count = 0 ∧ (sr.mem 3001).reference_count = 0 ∧
      sd.hashtable = [[], [], [], [3001]] ∧ sr.hashtable = [[], [], [], []] ∧
      (sd.terminfo 3).at_freelist = [] ∧ (sr.terminfo 3).at_freelist = [3001] ∧
      sd.total_nodes = 1 ∧ sr.total_nodes = 0 ∧
      (sd.mem (example_config false).default_aterm).reference_count = 1 ∧
      (sr.mem (example_config true).default_aterm).reference_count = 0 :=
  ⟨_, _, rfl, rfl, by decide, by decide, by decide, by decide, by decide, by decide,
    by decide, by decide, by decide, by decide⟩

end atermpp

namespace atermpp

/-- The conditions on the store under which liveness is preserved cannot be dropped.  In a release
build the release of a node that is not in the table, from a bucket that holds other
nodes, goes on to release its argument `x`, whose count is then 0 although a handle points
at it.  And a constructor that is handed a cell with count 2 and two handles returns it
with count 1 and three handles. -/
theorem liveness_needs_store_invariants :
    (live (example_config true) store_outside_table handles_outside_table ∧
      at_reduce_reference_count (example_config true) 3 3100 store_outside_table =
        .ok (run store_outside_table
          (at_reduce_reference_count (example_config true) 3 3100 store_outside_table)) ∧
      ¬ live (example_config true)
        (run store_outside_table
          (at_reduce_reference_count (example_config true) 3 3100 store_outside_table))
        (drop_handle handles_outside_table 3100)) ∧
    (live (example_config true) store_counted_cell handles_counted_cell ∧
      aterm_int (example_config true) (example_env 1000) 5 store_counted_cell =
        .ok (1000, (run (0, store_counted_cell)
          (aterm_int (example_config true) (example_env 1000) 5 store_counted_cell)).2) ∧
      ¬ live (example_config true)
        (run (0, store_counted_cell)
          (aterm_int (example_config true) (example_env 1000) 5 store_counted_cell)).2
        (add_handle handles_counted_cell 1000)) :=
  ⟨⟨live_store_outside_table, rfl, fun hl => absurd (hl 3001) (by decide)⟩,
   ⟨live_store_counted_cell, rfl, fun hl => absurd (hl 1000) (by decide)⟩⟩

end atermpp

namespace atermpp

/-! ## The free lists stay apart during a release -/

theorem free_lists_pushed_of_terminfo {s s1 : Store} (h : s1.terminfo = s.terminfo) :
    free_lists_pushed s s1 := by
  refine ⟨fun ha => ?_, fun c x hx => Or.inl ?_⟩
  · unfold free_lists_apart at ha ⊢
    rw [h]
    exact ha
  · rw [h] at hx
    exact hx

theorem free_lists_pushed_trans {s s1 s2 : Store} (h1 : free_lists_pushed s s1)
    (h2 : free_lists_pushed s1 s2) (hsub : ∀ x ∈ nodes s1, x ∈ nodes s) :
    free_lists_pushed s s2 := by
  refine ⟨fun ha => h2.1 (h1.1 ha), fun c x hx => ?_⟩
  rcases h2.2 c x hx with e | e
  · exact h1.2 c x e
  · exact Or.inr (hsub x e)

/-- The handle assignment of the debug variant of `at_free_term` changes the free lists
only through the release of the term the argument referred to. -/
theorem assign_default_aterm_inner (cfg : Config) (hnd : cfg.ndebug = false)
    (reduce : Nat → Store → Except Fault Store) (hr : Releases cfg reduce)
    (hd : ∀ s s1, reduce cfg.default_aterm s = .ok s1 →
      2 ≤ (s.mem cfg.default_aterm).reference_count →
      s1 = with_count s cfg.default_aterm ((s.mem cfg.default_aterm).reference_count - 1))
    (t i : Nat) (s s1 : Store) (h : Nat → Nat) (P : List Nat) (ht : t ∉ nodes s)
    (hinv : Sound cfg s h ((s.mem t).arg i :: P))
    (hrun : assign_default_aterm cfg reduce t i s = .ok s1) :
    ∃ s2 s3, s2.terminfo = s.terminfo ∧ nodes s2 = nodes s ∧
      Sound cfg s2 (leak h cfg.default_aterm 2) ((s.mem t).arg i :: P) ∧
      reduce ((s.mem t).arg i) s2 = .ok s3 ∧ (∀ x ∈ nodes s3, x ∈ nodes s2) ∧
      s1.terminfo = s3.terminfo := by
  unfold assign_default_aterm at hrun
  simp only [] at hrun
  have hS2 : Sound cfg (increase_reference_count cfg.default_aterm
      (increase_reference_count cfg.default_aterm s))
      (leak h cfg.default_aterm 2) ((s.mem t).arg i :: P) := by
    have := (hinv.retain_default hnd).retain_default hnd
    rw [leak_leak] at this
    exact this
  have hmem2 : ((increase_reference_count cfg.default_aterm
      (increase_reference_count cfg.default_aterm s)).mem t).arg = (s.mem t).arg := by
    by_cases hx : t = cfg.default_aterm
    · simp [increase_reference_count, Store.write, hx]
    · simp [increase_reference_count, Store.write, hx]
  have hn2 : nodes (increase_reference_count cfg.default_aterm
      (increase_reference_count cfg.default_aterm s)) = nodes s := rfl
  have hti2 : (increase_reference_count cfg.default_aterm
      (increase_reference_count cfg.default_aterm s)).terminfo = s.terminfo := rfl
  rw [hmem2] at hrun
  generalize increase_reference_count cfg.default_aterm
      (increase_reference_count cfg.default_aterm s) = s2 at hrun hS2 hn2 hti2
  split at hrun
  · cases hrun
  · rename_i s3 h3
    obtain ⟨⟨k, -, hS3⟩, st3, -, -, -⟩ := hr _ _ _ _ _ hS2 h3
    refine ⟨s2, s3, hti2, hn2, hS2, h3, st3.nodes_subset, ?_⟩
    rw [leak_leak] at hS3
    have ht3 : t ∉ nodes s3 := st3.not_mem (by rw [hn2]; exact ht)
    have hS4 : Sound cfg (s3.write t { s3.mem t with
        arg := fun j => if j = i then cfg.default_aterm else (s3.mem t).arg j })
        (leak h cfg.default_aterm (2 + k)) P := by
      refine hS3.frame_write rfl rfl rfl rfl ?_ ?_
      · intro b hb
        have hbt : b ≠ t := by
          rintro rfl
          exact ht3 hb
        simp [Store.write, hbt]
      · intro a
        by_cases hat : a = t <;> simp [Store.write, hat]
    have hc4 : 2 ≤ ((s3.write t { s3.mem t with
        arg := fun j => if j = i then cfg.default_aterm else (s3.mem t).arg j }).mem
        cfg.default_aterm).reference_count := by
      rw [hS4.releasing.count cfg.default_aterm]
      simp only [leak, if_true]
      omega
    have e := hd _ _ hrun hc4
    rw [e]
    rfl

/-- One round of the loop of `at_free_term`, in either build, on the free lists. -/
theorem release_argument_tidies (cfg : Config) (reduce : Nat → Store → Except Fault Store)
    (hr : Releases cfg reduce) (hT : Tidies cfg reduce)
    (hd : ∀ s s1, reduce cfg.default_aterm s = .ok s1 →
      2 ≤ (s.mem cfg.default_aterm).reference_count →
      s1 = with_count s cfg.default_aterm ((s.mem cfg.default_aterm).reference_count - 1))
    (t i : Nat) (s s2 : Store) (h : Nat → Nat) (P : List Nat) (ht : t ∉ nodes s)
    (hinv : Sound cfg s h ((s.mem t).arg i :: P))
    (h2 : (if cfg.ndebug then reduce ((s.mem t).arg i) s
      else assign_default_aterm cfg reduce t i s) = .ok s2) :
    free_lists_pushed s s2 := by
  cases hn : cfg.ndebug
  · rw [hn] at h2
    simp only [Bool.false_eq_true, if_false] at h2
    obtain ⟨sa, sb, e1, e2, hS, hrun, hsub, e3⟩ :=
      assign_default_aterm_inner cfg hn reduce hr hd t i s s2 h P ht hinv h2
    have p := hT _ _ _ _ _ hS hrun
    refine free_lists_pushed_trans (free_lists_pushed_of_terminfo e1)
      (free_lists_pushed_trans p (free_lists_pushed_of_terminfo e3) hsub) ?_
    · intro x hx
      rw [e2] at hx
      exact hx
  · rw [hn] at h2
    simp only [if_true] at h2
    exact hT _ _ _ _ _ hinv h2

/-- The loop of `at_free_term` on the free lists. -/
theorem free_arguments_tidies (cfg : Config) (reduce : Nat → Store → Except Fault Store)
    (hr : Releases cfg reduce) (hT : Tidies cfg reduce)
    (hd : ∀ s s1, reduce cfg.default_aterm s = .ok s1 →
      2 ≤ (s.mem cfg.default_aterm).reference_count →
      s1 = with_count s cfg.default_aterm ((s.mem cfg.default_aterm).reference_count - 1))
    (t n i : Nat) (s s1 : Store) (h : Nat → Nat) (P : List Nat) (ht : t ∉ nodes s)
    (htd : cfg.ndebug = false → t ≠ cfg.default_aterm)
    (hinv : Sound cfg s h ((arguments cfg (s.mem t)).drop i ++ P))
    (hrun : free_arguments cfg reduce t n i s = .ok s1) :
    free_lists_pushed s s1 := by
  induction n generalizing i s h with
  | zero =>
    unfold free_arguments at hrun
    split at hrun
    · cases hrun
    · cases hrun
      exact free_lists_pushed_of_terminfo rfl
  | succ n ih =>
    unfold free_arguments at hrun
    split at hrun
    · rename_i hi
      simp only [] at hrun
      split at hrun
      · cases hrun
      · rename_i s2 h2
        rw [arguments_drop cfg _ i hi, List.cons_append] at hinv
        have hround := release_argument_sound cfg reduce hr hd t i s s2 h _ ht htd hinv h2
        have p2 := release_argument_tidies cfg reduce hr hT hd t i s s2 h _ ht hinv h2
        obtain ⟨⟨k, hk0, hS2⟩, st2, g2, out2, ⟨t1, t2, t3⟩, rec2⟩ := hround
        have hdrop : (arguments cfg (s2.mem t)).drop (i + 1) =
            (arguments cfg (s.mem t)).drop (i + 1) :=
          arguments_drop_congr cfg _ _ _ t1 (fun j hj => t3 j (by omega))
        rw [← hdrop] at hS2
        have p1 := ih (i + 1) s2 _ (st2.not_mem ht) hS2 hrun
        exact free_lists_pushed_trans p2 p1 (fun x hx => st2.nodes_subset x hx)
    · cases hrun
      exact free_lists_pushed_of_terminfo rfl

/-- A release pushes only nodes of the table on the free lists, each on one list: free
lists that are apart stay apart through the whole cascade, in both builds. -/
theorem at_reduce_tidies (cfg : Config) (fuel : Nat) :
    Tidies cfg (at_reduce_reference_count cfg fuel) := by
  induction fuel with
  | zero =>
    intro t s s1 h P _ hrun
    cases hrun
  | succ fuel ih =>
    intro t s s1 h P hinv hrun
    have hpos := hinv.pending_pos
    have hdec : size_t_dec (s.mem t).reference_count = (s.mem t).reference_count - 1 := by
      unfold size_t_dec
      rw [if_neg (by omega)]
    have hts : t ∈ nodes s := hinv.releasing.pending_mem t (List.mem_cons_self _ _)
    have hmemt : ((with_count s t ((s.mem t).reference_count - 1)).mem t).m_function_symbol =
          (s.mem t).m_function_symbol ∧
        ((with_count s t ((s.mem t).reference_count - 1)).mem t).arg = (s.mem t).arg ∧
        ((with_count s t ((s.mem t).reference_count - 1)).mem t).reference_count =
          (s.mem t).reference_count - 1 := by
      simp [with_count, Store.write]
    unfold at_reduce_reference_count at hrun
    have h0 : (s.mem t).reference_count ≠ 0 := by omega
    simp only [h0, Bool.and_false, decide_False, Bool.false_eq_true, if_false, hdec] at hrun
    change (if ((with_count s t ((s.mem t).reference_count - 1)).mem t).reference_count = 0
      then at_free_term_body cfg (at_reduce_reference_count cfg fuel) fuel t
        (with_count s t ((s.mem t).reference_count - 1))
      else .ok (with_count s t ((s.mem t).reference_count - 1))) = .ok s1 at hrun
    split at hrun
    · rename_i hz
      rw [hmemt.2.2] at hz
      have hone : (s.mem t).reference_count = 1 := by omega
      unfold at_free_term_body at hrun
      split at hrun
      · cases hrun
        exact free_lists_pushed_of_terminfo rfl
      · split at hrun
        · cases hrun
        · simp only [] at hrun
          split at hrun
          · cases hrun
          · rename_i sr hfree
            split at hrun
            · cases hrun
            · rename_i sl hloop
              cases hrun
              rw [hz] at hfree hmemt ⊢
              obtain ⟨r1, r2, r3, r4, r5, r6⟩ := hinv.take_node hone hfree
              have htd : cfg.ndebug = false → t ≠ cfg.default_aterm := by
                intro hnd e
                exact (hinv.default_outside hnd).1 (e ▸ hts)
              have hargs : arguments cfg (sr.mem t) = arguments cfg (s.mem t) := by
                rw [r4]
                exact arguments_congr cfg _ _ hmemt.1 hmemt.2.1
              rw [← hargs, ← List.drop_zero (arguments cfg (sr.mem t))] at r1
              have hd := fun s s1 => at_reduce_shared cfg fuel cfg.default_aterm s s1
              have p := free_arguments_tidies cfg _ (at_reduce_sound cfg fuel) ih hd
                t fuel 0 sr sl h P r3 htd r1 hloop
              have hfl : ∀ c, t ∉ (sl.terminfo c).at_freelist := by
                intro c hm
                rcases p.2 c t hm with e | e
                · rw [r5] at e
                  exact hinv.apart c t e hts
                · exact r3 e
              refine ⟨fun ha => ?_, fun c x hx => ?_⟩
              · have hal : free_lists_apart sl := p.1 (by
                  unfold free_lists_apart at ha ⊢
                  rw [r5]
                  exact ha)
                refine ⟨fun c => ?_, fun c d a hc hdd => ?_⟩
                · by_cases hc : c = term_size cfg ((with_count s t 0).mem t)
                  · subst hc
                    simp only [Store.set_terminfo, Store.write, if_true]
                    exact List.nodup_cons.2 ⟨hfl _, hal.1 _⟩
                  · simp only [Store.set_terminfo, Store.write, if_neg hc]
                    exact hal.1 c
                · by_cases hat : a = t
                  · subst hat
                    by_contra hne
                    by_cases h1 : c = term_size cfg ((with_count s a 0).mem a)
                    · have h2 : d ≠ term_size cfg ((with_count s a 0).mem a) := by
                        rintro rfl
                        exact hne h1
                      simp only [Store.set_terminfo, Store.write, if_neg h2] at hdd
                      exact hfl d hdd
                    · simp only [Store.set_terminfo, Store.write, if_neg h1] at hc
                      exact hfl c hc
                  · have hc1 : a ∈ (sl.terminfo c).at_freelist := by
                      by_cases h1 : c = term_size cfg ((with_count s t 0).mem t)
                      · subst h1
                        simp only [Store.set_terminfo, Store.write, if_true,
                          List.mem_cons] at hc
                        rcases hc with e | e
                        · exact absurd e hat
                        · exact e
                      · simp only [Store.set_terminfo, Store.write, if_neg h1] at hc
                        exact hc
                    have hd1 : a ∈ (sl.terminfo d).at_freelist := by
                      by_cases h1 : d = term_size cfg ((with_count s t 0).mem t)
                      · subst h1
                        simp only [Store.set_terminfo, Store.write, if_true,
                          List.mem_cons] at hdd
                        rcases hdd with e | e
                        · exact absurd e hat
                        · exact e
                      · simp only [Store.set_terminfo, Store.write, if_neg h1] at hdd
                        exact hdd
                    exact hal.2 c d a hc1 hd1
              · by_cases hxt : x = t
                · exact Or.inr (hxt ▸ hts)
                · have hx1 : x ∈ (sl.terminfo c).at_freelist := by
                    by_cases h1 : c = term_size cfg ((with_count s t 0).mem t)
                    · subst h1
                      simp only [Store.set_terminfo, Store.write, if_true,
                        List.mem_cons] at hx
                      rcases hx with e | e
                      · exact absurd e hxt
                      · exact e
                    · simp only [Store.set_terminfo, Store.write, if_neg h1] at hx
                      exact hx
                  rcases p.2 c x hx1 with e | e
                  · rw [r5] at e
                    exact Or.inl e
                  · exact Or.inr (r2.nodes_subset x e)
    · cases hrun
      exact free_lists_pushed_of_terminfo rfl

end atermpp

namespace atermpp

/-! ## C13: what `at_free_term` does to the allocator -/

/-- The release of the last reference on a node is the call of `at_free_term` on the node
with count 0. -/
theorem at_reduce_reference_count_last (cfg : Config) (fuel t : Nat) (s : Store)
    (hone : (s.mem t).reference_count = 1) :
    at_reduce_reference_count cfg (fuel + 1) t s =
      at_free_term cfg fuel t (with_count s t 0) := by
  unfold at_reduce_reference_count at_free_term with_count
  simp [hone, size_t_dec, Store.write]

theorem free_lists_apart_initial_store (k : Nat) : free_lists_apart (initial_store k) :=
  ⟨fun _ => List.nodup_nil, fun _ _ _ h => by cases h⟩

theorem free_lists_apart_store_f_of_x : free_lists_apart store_f_of_x :=
  ⟨fun _ => List.nodup_nil, fun _ _ _ h => by cases h⟩

/-- C13 (amended). Freeing a node touches the free lists only.  Let `t` be a node whose
last reference is given up in a sound store with free lists that are apart, so that `t` is
on the chain of its bucket and on no free list, and let `t` not be the empty list of a
debug build.  When `at_free_term(t)`, called with the count of `t` at 0, returns, the free
list of the size class `term_size(t)` is `t` followed by what the cascade on the arguments
of `t` freed in that class and then the previous list; every size class has the blocks and
the bump pointer it had; the free list of every other size class is the previous list
with what the cascade freed in front of it; and what the cascade freed were nodes of the
table that have left it.  For a node without arguments the free list of its class is `t`
followed by the previous list and the entry of every other size class is unchanged.
Afterwards the free lists are still apart and hold no node of the table, and `t` has left
the table.  The call returns when the fuel is at least the number of nodes of the table
plus the largest arity. -/
theorem at_free_term_pushes_node (cfg : Config) (s : Store) (h : Nat → Nat) (P : List Nat)
    (t : Nat) (hinv : Sound cfg s h (t :: P)) (hap : free_lists_apart s)
    (hone : (s.mem t).reference_count = 1)
    (hel : cfg.ndebug = false → (s.mem t).m_function_symbol ≠ cfg.AS_EMPTY_LIST) :
    (t ∈ nodes s ∧ ∀ c, t ∉ (s.terminfo c).at_freelist) ∧
    (∀ fuel s1, at_free_term cfg fuel t (with_count s t 0) = .ok s1 →
      (∃ freed, (s1.terminfo (term_size cfg (s.mem t))).at_freelist =
          t :: (freed ++ (s.terminfo (term_size cfg (s.mem t))).at_freelist) ∧
        ∀ x ∈ freed, x ∈ nodes s ∧ x ∉ nodes s1) ∧
      (∀ c, (s1.terminfo c).at_block = (s.terminfo c).at_block ∧
        (s1.terminfo c).top_at_blocks = (s.terminfo c).top_at_blocks) ∧
      (∀ c, c ≠ term_size cfg (s.mem t) →
        ∃ freed, (s1.terminfo c).at_freelist = freed ++ (s.terminfo c).at_freelist ∧
          ∀ x ∈ freed, x ∈ nodes s ∧ x ∉ nodes s1) ∧
      (cfg.arity (s.mem t).m_function_symbol = 0 →
        (s1.terminfo (term_size cfg (s.mem t))).at_freelist =
          t :: (s.terminfo (term_size cfg (s.mem t))).at_freelist ∧
        ∀ c, c ≠ term_size cfg (s.mem t) → s1.terminfo c = s.terminfo c) ∧
      free_lists_apart s1 ∧ (∀ c, ∀ x ∈ (s1.terminfo c).at_freelist, x ∉ nodes s1) ∧
      t ∉ nodes s1) ∧
    (∀ A fuel, (∀ b ∈ nodes s, cfg.arity (s.mem b).m_function_symbol ≤ A) →
      (nodes s).length + A ≤ fuel →
      ∃ s1, at_free_term cfg fuel t (with_count s t 0) = .ok s1) := by
  have hts : t ∈ nodes s := hinv.releasing.pending_mem t (List.mem_cons_self _ _)
  have hsym : ((with_count s t 0).mem t).m_function_symbol = (s.mem t).m_function_symbol := by
    simp [with_count, Store.write]
  have hsz : term_size cfg ((with_count s t 0).mem t) = term_size cfg (s.mem t) :=
    term_size_congr cfg _ _ hsym
  refine ⟨⟨hts, fun c hm => hinv.apart c t hm hts⟩, ?_, ?_⟩
  · intro fuel s1 hrun
    have hred : at_reduce_reference_count cfg (fuel + 1) t s = .ok s1 := by
      rw [at_reduce_reference_count_last cfg fuel t s hone]
      exact hrun
    have hrel := at_reduce_sound cfg (fuel + 1) t s s1 h P hinv hred
    obtain ⟨k, -, hS1⟩ := hrel.sound
    have hpush := at_reduce_tidies cfg (fuel + 1) t s s1 h P hinv hred
    have hap1 := hpush.1 hap
    have hold := (at_free_term_allocator cfg fuel t (with_count s t 0)
      (fun hn => by rw [hsym]; exact hel hn)).1 s1 hrun
    rw [hsz, hsym] at hold
    obtain ⟨⟨freed, hf⟩, hblocks, hothers, hnone⟩ := hold
    have hfreed : ∀ c l, (s1.terminfo c).at_freelist = l ++ (s.terminfo c).at_freelist →
        ∀ x ∈ l, x ∈ nodes s ∧ x ∉ nodes s1 := by
      intro c l hl x hx
      have hx1 : x ∈ (s1.terminfo c).at_freelist := by
        rw [hl]
        exact List.mem_append_left _ hx
      refine ⟨?_, hS1.apart c x hx1⟩
      rcases hpush.2 c x hx1 with e | e
      · have hnd := hap1.1 c
        rw [hl] at hnd
        exact absurd e (List.disjoint_of_nodup_append hnd hx)
      · exact e
    have ht1 : t ∉ nodes s1 := by
      refine hS1.apart (term_size cfg (s.mem t)) t ?_
      rw [hf]
      exact List.mem_cons_self _ _
    refine ⟨⟨freed, hf, ?_⟩, hblocks, ?_, hnone, hap1, hS1.apart, ht1⟩
    · intro x hx
      exact hfreed _ (t :: freed) (by rw [hf]; rfl) x (List.mem_cons_of_mem _ hx)
    · intro c hc
      obtain ⟨l, hl⟩ := hothers c hc
      exact ⟨l, hl, hfreed c l hl⟩
  · intro A fuel hA hf
    obtain ⟨s1, h1⟩ := at_reduce_returns cfg A (fuel + 1) t s h P hinv hA (by omega)
    rw [at_reduce_reference_count_last cfg fuel t s hone] at h1
    exact ⟨s1, h1⟩

/-- C13 (amended), at the release of the handle on `f(x)` in the store that holds `f(x)`
and `x`, in a release build: `f(x)` is pushed on the free list of the class 4 and `x`,
freed by the cascade, on the free list of the class 3. -/
theorem at_free_term_pushes_node_witness :
    Sound (example_config true) store_f_of_x (drop_handle handles_f_of_x 3100) [3100] ∧
    free_lists_apart store_f_of_x ∧
    (3100 ∈ nodes store_f_of_x ∧ ∀ c, 3100 ∉ (store_f_of_x.terminfo c).at_freelist) ∧
    free_lists_apart (run store_f_of_x
      (at_free_term (example_config true) 2 3100 (with_count store_f_of_x 3100 0))) ∧
    ((run store_f_of_x (at_free_term (example_config true) 2 3100
      (with_count store_f_of_x 3100 0))).terminfo 4).at_freelist = [3100] ∧
    ((run store_f_of_x (at_free_term (example_config true) 2 3100
      (with_count store_f_of_x 3100 0))).terminfo 3).at_freelist = [3001] ∧
    ∃ s1, at_free_term (example_config true) 3 3100 (with_count store_f_of_x 3100 0)
      = .ok s1 :=
  have h := at_free_term_pushes_node (example_config true) store_f_of_x _ [] 3100
    ((sound_store_f_of_x true).give_up (by decide) (by decide))
    free_lists_apart_store_f_of_x (by decide) (fun h => absurd h (by decide))
  ⟨(sound_store_f_of_x true).give_up (by decide) (by decide), free_lists_apart_store_f_of_x,
    h.1, (h.2.1 2 _ rfl).2.2.2.2.1, by decide, by decide,
    h.2.2 1 3 (by decide) (by decide)⟩

end atermpp

namespace atermpp

/-! ## The cell that `AT_allocate` hands out is fresh -/

theorem Tidy.congr {cfg : Config} {s s1 : Store} (h : Tidy cfg s)
    (hti : s1.terminfo = s.terminfo) (hn : ∀ a, a ∈ nodes s1 → a ∈ nodes s) :
    Tidy cfg s1 := by
  have hu : ∀ c a, in_unused s1 c a → in_unused s c a := by
    intro c a hx
    unfold in_unused at hx ⊢
    rw [hti] at hx
    exact hx
  refine ⟨?_, ?_, ?_, ?_⟩
  · have := h.apart
    unfold free_lists_apart at this ⊢
    rw [hti]
    exact this
  · rw [hti]
    exact h.sized
  · intro c a hx
    obtain ⟨u1, u2, u3⟩ := h.unused c a (hu c a hx)
    rw [hti]
    exact ⟨fun hm => u1 (hn a hm), u2, u3⟩
  · intro c d a hcd hx hy
    exact h.disjoint c d a hcd (hu c a hx) (hu d a hy)

theorem fresh_block_congr {cfg : Config} {s s1 : Store} {env : Env}
    (h : fresh_block cfg s env)
    (hti : s1.terminfo = s.terminfo) (hn : ∀ a, a ∈ nodes s1 → a ∈ nodes s) :
    fresh_block cfg s1 env := by
  intro data hd a h1 h2
  obtain ⟨f1, f2, f3, f4⟩ := h data hd a h1 h2
  refine ⟨fun hm => f1 (hn a hm), ?_, ?_, f4⟩
  · rw [hti]
    exact f2
  · intro c hx
    apply f3 c
    unfold in_unused at hx ⊢
    rw [hti] at hx
    exact hx

/-- The cell that `AT_allocate` chooses in a tidy allocator is fresh, and the allocator is
tidy again when the cell has become a node of the table. -/
theorem AT_allocate_cell_tidy (cfg : Config) (env : Env) (size : Nat) (s : Store) (m : Nat)
    (s1 : Store) (hT : Tidy cfg s) (hfb : fresh_block cfg s env)
    (hsize : size ≤ cfg.BLOCK_SIZE)
    (hap : ∀ c, ∀ a ∈ (s.terminfo c).at_freelist, a ∉ nodes s)
    (hdef : cfg.ndebug = false → ∀ c, cfg.default_aterm ∉ (s.terminfo c).at_freelist)
    (h : AT_allocate_cell cfg env size s = .ok (m, s1)) :
    m ∉ nodes s ∧ (∀ c, m ∉ (s1.terminfo c).at_freelist) ∧
    (cfg.ndebug = false → m ≠ cfg.default_aterm) ∧
    free_lists_apart s1 ∧ (∀ c, (s1.terminfo c).at_block ≠ [] → 0 < c) ∧
    (∀ c, ∀ x ∈ (s1.terminfo c).at_freelist, x ∈ (s.terminfo c).at_freelist) ∧
    (∀ c a, in_unused s1 c a → a ≠ m ∧ a ∉ nodes s ∧
      (∀ d, a ∉ (s.terminfo d).at_freelist) ∧ (cfg.ndebug = false → a ≠ cfg.default_aterm)) ∧
    (∀ c d a, c ≠ d → in_unused s1 c a → ¬ in_unused s1 d a) := by
  rcases AT_allocate_cell_cases cfg env size s m s1 h with
    ⟨⟨b, hb, hlt⟩, hbump⟩ | ⟨-, next, hfl, hs1, -⟩ | ⟨-, hfl, s0, hblock, hbump⟩
  · -- the current block has room
    simp only [bump_allocate, Prod.mk.injEq] at hbump
    obtain ⟨hm, hs1⟩ := hbump
    have hpos : 0 < size := hT.sized size (by
      intro e
      rw [e] at hb
      cases hb)
    have hmu : in_unused s size m := ⟨b, hb, by rw [hm], by rw [hm]; exact hlt⟩
    have hti : ∀ c, (s1.terminfo c).at_freelist = (s.terminfo c).at_freelist ∧
        (s1.terminfo c).at_block = (s.terminfo c).at_block ∧
        (s.terminfo c).top_at_blocks ≤ (s1.terminfo c).top_at_blocks ∧
        (c = size →
          (s.terminfo c).top_at_blocks + size = (s1.terminfo c).top_at_blocks) := by
      intro c
      rw [hs1]
      by_cases hc : c = size
      · subst hc
        simp [Store.set_terminfo, Store.write]
      · simp [Store.set_terminfo, Store.write, hc]
    have hu : ∀ c a, in_unused s1 c a → in_unused s c a ∧ a ≠ m := by
      intro c a ⟨b1, h1, h2, h3⟩
      rw [(hti c).2.1] at h1
      have hin : in_unused s c a := ⟨b1, h1, le_trans (hti c).2.2.1 h2, h3⟩
      refine ⟨hin, ?_⟩
      by_cases hc : c = size
      · have := (hti c).2.2.2 hc
        rw [hc] at this h2
        rw [hm]
        omega
      · rintro rfl
        exact hT.disjoint c size a hc hin hmu
    obtain ⟨m1, m2, m3⟩ := hT.unused size m hmu
    refine ⟨m1, ?_, m3, ?_, ?_, ?_, ?_, ?_⟩
    · intro c
      rw [(hti c).1]
      exact m2 c
    · refine ⟨fun c => ?_, fun c d a hc hd => ?_⟩
      · rw [(hti c).1]
        exact hT.apart.1 c
      · rw [(hti c).1] at hc
        rw [(hti d).1] at hd
        exact hT.apart.2 c d a hc hd
    · intro c hc
      rw [(hti c).2.1] at hc
      exact hT.sized c hc
    · intro c x hx
      rw [(hti c).1] at hx
      exact hx
    · intro c a hx
      obtain ⟨h1, h2⟩ := hu c a hx
      obtain ⟨u1, u2, u3⟩ := hT.unused c a h1
      exact ⟨h2, u1, u2, u3⟩
    · intro c d a hcd hx hy
      exact hT.disjoint c d a hcd (hu c a hx).1 (hu d a hy).1
  · -- the head of the free list
    have hti : ∀ c, (∀ x ∈ (s1.terminfo c).at_freelist, x ∈ (s.terminfo c).at_freelist ∧
          (c = size → x ∈ next)) ∧
        (s1.terminfo c).at_block = (s.terminfo c).at_block ∧
        (s1.terminfo c).top_at_blocks = (s.terminfo c).top_at_blocks ∧
        (s1.terminfo c).at_freelist.Sublist (s.terminfo c).at_freelist := by
      intro c
      rw [hs1]
      by_cases hc : c = size
      · subst hc
        simp only [Store.set_terminfo, if_true]
        rw [hfl]
        exact ⟨fun x hx => ⟨List.mem_cons_of_mem _ hx, fun _ => hx⟩, trivial, trivial,
          List.sublist_cons_self _ _⟩
      · simp only [Store.set_terminfo, if_neg hc]
        exact ⟨fun x hx => ⟨hx, fun e => absurd e hc⟩, trivial, trivial, List.Sublist.refl _⟩
    have hmf : m ∈ (s.terminfo size).at_freelist := by
      rw [hfl]
      exact List.mem_cons_self _ _
    have hu : ∀ c a, in_unused s1 c a → in_unused s c a := by
      intro c a ⟨b1, h1, h2, h3⟩
      rw [(hti c).2.1] at h1
      rw [(hti c).2.2.1] at h2
      exact ⟨b1, h1, h2, h3⟩
    have hnd := hT.apart.1 size
    rw [hfl] at hnd
    refine ⟨hap size m hmf, ?_, ?_, ?_, ?_, ?_, ?_, ?_⟩
    · intro c hx
      obtain ⟨x1, x2⟩ := (hti c).1 m hx
      by_cases hc : c = size
      · exact (List.nodup_cons.1 hnd).1 (x2 hc)
      · exact hc (hT.apart.2 c size m x1 hmf)
    · intro hnd1 e
      exact hdef hnd1 size (e ▸ hmf)
    · refine ⟨fun c => (hT.apart.1 c).sublist (hti c).2.2.2, fun c d a hc hd => ?_⟩
      exact hT.apart.2 c d a ((hti c).1 a hc).1 ((hti d).1 a hd).1
    · intro c hc
      rw [(hti c).2.1] at hc
      exact hT.sized c hc
    · intro c x hx
      exact ((hti c).1 x hx).1
    · intro c a hx
      obtain ⟨u1, u2, u3⟩ := hT.unused c a (hu c a hx)
      refine ⟨?_, u1, u2, u3⟩
      rintro rfl
      exact u2 size hmf
    · intro c d a hcd hx hy
      exact hT.disjoint c d a hcd (hu c a hx) (hu d a hy)
  · -- a new block
    have hpos : 0 < size := allocate_block_pos cfg env size s s0 hblock
    obtain ⟨data, hdata, hs0⟩ := allocate_block_ok cfg env size s s0 hblock
    simp only [bump_allocate, Prod.mk.injEq] at hbump
    obtain ⟨hm, hs1⟩ := hbump
    have hmd : m = data := by
      rw [hm, hs0]
      simp [Store.set_terminfo]
    have hmod : cfg.BLOCK_SIZE % size ≤ cfg.BLOCK_SIZE := Nat.mod_le _ _
    have hti : ∀ c, (s1.terminfo c).at_freelist = (s.terminfo c).at_freelist ∧
        (c ≠ size → (s1.terminfo c).at_block = (s.terminfo c).at_block ∧
          (s1.terminfo c).top_at_blocks = (s.terminfo c).top_at_blocks) ∧
        (c = size → (s1.terminfo c).at_block.head? = some
            { data := data, end_ := data + (cfg.BLOCK_SIZE - cfg.BLOCK_SIZE % size),
              size := size } ∧
          (s1.terminfo c).top_at_blocks = data + size) := by
      intro c
      rw [hs1, hs0]
      by_cases hc : c = size
      · subst hc
        simp [Store.set_terminfo, Store.write]
      · simp [Store.set_terminfo, Store.write, hc]
    have hu : ∀ c a, in_unused s1 c a →
        (c = size ∧ data + size ≤ a ∧ a < data + cfg.BLOCK_SIZE) ∨
        (c ≠ size ∧ in_unused s c a) := by
      intro c a ⟨b1, h1, h2, h3⟩
      by_cases hc : c = size
      · left
        obtain ⟨e1, e2⟩ := (hti c).2.2 hc
        rw [e1] at h1
        cases h1
        rw [e2] at h2
        simp only at h3
        exact ⟨hc, h2, by omega⟩
      · right
        obtain ⟨e1, e2⟩ := (hti c).2.1 hc
        rw [e1] at h1
        rw [e2] at h2
        exact ⟨hc, b1, h1, h2, h3⟩
    obtain ⟨f1, f2, f3, f4⟩ := hfb data hdata data (le_refl _) (by omega)
    refine ⟨by rw [hmd]; exact f1, ?_, by rw [hmd]; exact f4, ?_, ?_, ?_, ?_, ?_⟩
    · intro c
      rw [(hti c).1, hmd]
      exact f2 c
    · refine ⟨fun c => ?_, fun c d a hc hd => ?_⟩
      · rw [(hti c).1]
        exact hT.apart.1 c
      · rw [(hti c).1] at hc
        rw [(hti d).1] at hd
        exact hT.apart.2 c d a hc hd
    · intro c hc
      by_cases hcs : c = size
      · rw [hcs]
        exact hpos
      · rw [((hti c).2.1 hcs).1] at hc
        exact hT.sized c hc
    · intro c x hx
      rw [(hti c).1] at hx
      exact hx
    · intro c a hx
      rcases hu c a hx with ⟨-, h1, h2⟩ | ⟨hc, hin⟩
      · obtain ⟨g1, g2, -, g4⟩ := hfb data hdata a (by omega) h2
        exact ⟨by rw [hmd]; omega, g1, g2, g4⟩
      · obtain ⟨u1, u2, u3⟩ := hT.unused c a hin
        refine ⟨?_, u1, u2, u3⟩
        rintro rfl
        rw [hmd] at hin
        exact f3 c hin
    · intro c d a hcd hx hy
      rcases hu c a hx with ⟨hc, h1, h2⟩ | ⟨hc, hin⟩
      · rcases hu d a hy with ⟨hd, -, -⟩ | ⟨-, hin2⟩
        · exact hcd (hc.trans hd.symm)
        · exact (hfb data hdata a (by omega) h2).2.2.1 d hin2
      · rcases hu d a hy with ⟨-, h1, h2⟩ | ⟨-, hin2⟩
        · exact (hfb data hdata a (by omega) h2).2.2.1 c hin
        · exact hT.disjoint c d a hcd hin hin2

end atermpp

namespace atermpp

/-! ## The constructors and the release keep the stores between public operations -/

theorem handles_add_leak (h : Nat → Nat) (d k n : Nat) :
    add_handle (leak h d k) n = leak (add_handle h n) d k := by
  funext a
  simp only [add_handle, leak]
  split_ifs <;> omega

theorem handles_drop_leak (h : Nat → Nat) (d k j t : Nat) (ht : 1 ≤ h t) :
    leak (drop_handle (leak h d k) t) d j = leak (drop_handle h t) d (k + j) := by
  funext a
  simp only [drop_handle, leak]
  split_ifs <;> (try subst_vars) <;> omega

/-- Outside the table of a sound store whose handles are held on nodes of the table, every
count is 0 (the default term of a debug build apart). -/
theorem Sound.outside_zero {cfg : Config} {s : Store} {h : Nat → Nat} {k : Nat}
    (hinv : Sound cfg s (leak h cfg.default_aterm k) []) (hk : cfg.ndebug = true → k = 0)
    (hheld : ∀ a, 0 < h a → a ∈ nodes s) (a : Nat) (ha : a ∉ nodes s)
    (had : cfg.ndebug = false → a ≠ cfg.default_aterm) :
    (s.mem a).reference_count = 0 := by
  have hc := hinv.releasing.count a
  have hi : inrefs cfg s a = 0 := by
    unfold inrefs
    apply List.sum_eq_zero
    intro x hx
    obtain ⟨b, hb, rfl⟩ := List.mem_map.1 hx
    apply List.count_eq_zero_of_not_mem
    intro hm
    exact ha (hinv.releasing.closed b hb a hm)
  have hh : h a = 0 := by
    by_contra hne
    exact ha (hheld a (Nat.pos_of_ne_zero hne))
  have hl : leak h cfg.default_aterm k a = 0 := by
    unfold leak
    by_cases hd : a = cfg.default_aterm
    · cases hn : cfg.ndebug
      · exact absurd hd (had hn)
      · rw [if_pos hd, hh, hk hn]
    · rw [if_neg hd, hh]
  rw [hc, hl, hi]
  rfl

/-- The cell that `AT_allocate` hands out in a store between public operations is fresh,
and the allocator is tidy again when the cell has become a node of the table. -/
theorem AT_allocate_tidy (cfg : Config) (env : Env) (size : Nat) (s : Store) (m : Nat)
    (sa : Store) (h : Nat → Nat) (hS : Sound cfg s h []) (hT : Tidy cfg s)
    (hfb : fresh_block cfg s env) (hsize : size ≤ cfg.BLOCK_SIZE)
    (hal : AT_allocate cfg env size s = .ok (m, sa)) :
    m ∉ nodes s ∧ (∀ c, m ∉ (sa.terminfo c).at_freelist) ∧
    (cfg.ndebug = false → m ≠ cfg.default_aterm) ∧
    free_lists_apart sa ∧ (∀ c, (sa.terminfo c).at_block ≠ [] → 0 < c) ∧
    (∀ c, ∀ x ∈ (sa.terminfo c).at_freelist, x ∈ (s.terminfo c).at_freelist) ∧
    (∀ c a, in_unused sa c a → a ≠ m ∧ a ∉ nodes s ∧
      (∀ d, a ∉ (s.terminfo d).at_freelist) ∧ (cfg.ndebug = false → a ≠ cfg.default_aterm)) ∧
    (∀ c d a, c ≠ d → in_unused sa c a → ¬ in_unused sa d a) := by
  obtain ⟨s0, s1, hres, hcell, hsa⟩ := AT_allocate_cases cfg env size s m sa hal
  have h0 : s0.terminfo = s.terminfo ∧ ∀ a, a ∈ nodes s0 ↔ a ∈ nodes s := by
    rcases hres with ⟨-, e⟩ | ⟨-, e⟩
    · rw [e]
      exact ⟨rfl, fun a => Iff.rfl⟩
    · obtain ⟨-, r2, -, r4⟩ := resize_hashtable_cases cfg env s s0 e
      refine ⟨r2, fun a => ?_⟩
      rcases r4 with ⟨-, r5, -⟩ | ⟨-, -, -, -, -, r5, -⟩
      · unfold nodes
        rw [r5]
      · exact r5.mem_iff
  obtain ⟨hti0, hn0⟩ := h0
  have hT0 : Tidy cfg s0 := hT.congr hti0 (fun a ha => (hn0 a).1 ha)
  have hfb0 : fresh_block cfg s0 env := fresh_block_congr hfb hti0 (fun a ha => (hn0 a).1 ha)
  have hap0 : ∀ c, ∀ a ∈ (s0.terminfo c).at_freelist, a ∉ nodes s0 := by
    intro c a ha hm
    rw [hti0] at ha
    exact hS.apart c a ha ((hn0 a).1 hm)
  have hdef0 : cfg.ndebug = false →
      ∀ c, cfg.default_aterm ∉ (s0.terminfo c).at_freelist := by
    intro hnd c
    rw [hti0]
    exact (hS.default_outside hnd).2 c
  obtain ⟨c1, c2, c3, c4, c5, c6, c7, c8⟩ :=
    AT_allocate_cell_tidy cfg env size s0 m s1 hT0 hfb0 hsize hap0 hdef0 hcell
  have hti : sa.terminfo = s1.terminfo := by rw [hsa]
  have hu : ∀ c a, in_unused sa c a → in_unused s1 c a := by
    intro c a hx
    unfold in_unused at hx ⊢
    rw [hti] at hx
    exact hx
  refine ⟨fun hm => c1 ((hn0 m).2 hm), ?_, c3, ?_, ?_, ?_, ?_, ?_⟩
  · rw [hti]
    exact c2
  · unfold free_lists_apart at c4 ⊢
    rw [hti]
    exact c4
  · rw [hti]
    exact c5
  · rw [hti, ← hti0]
    exact c6
  · intro c a hx
    obtain ⟨u1, u2, u3, u4⟩ := c7 c a (hu c a hx)
    rw [hti0] at u3
    exact ⟨u1, fun hm => u2 ((hn0 a).2 hm), u3, u4⟩
  · intro c d a hcd hx hy
    exact c8 c d a hcd (hu c a hx) (hu d a hy)

/-- A constructor that returns a node of the table keeps the store as it should be. -/
theorem Kept.share_node {cfg : Config} {s s1 : Store} {h : Nat → Nat} {n : Nat}
    (hK : Kept cfg s h)
    (hS1 : ∀ k, Sound cfg s (leak h cfg.default_aterm k) [] →
      Sound cfg s1 (add_handle (leak h cfg.default_aterm k) n) [])
    (hshape : table_shape s1) (hti : s1.terminfo = s.terminfo)
    (hp : (nodes s1).Perm (nodes s)) (hn : n ∈ nodes s) :
    Kept cfg s1 (add_handle h n) := by
  obtain ⟨k, hk, hS⟩ := hK.sound
  refine ⟨⟨k, hk, ?_⟩, hshape, ?_, hK.tidy.congr hti (fun a ha => hp.subset ha)⟩
  · rw [← handles_add_leak]
    exact hS1 k hS
  · intro a ha
    unfold add_handle at ha
    by_cases han : a = n
    · rw [han]
      exact hp.symm.subset hn
    · rw [if_neg han] at ha
      exact hp.symm.subset (hK.held a ha)

/-- A constructor that makes a node in the cell of `AT_allocate` keeps the store as it
should be. -/
theorem Kept.insert_node {cfg : Config} {s sa s1 : Store} {h : Nat → Nat} {n : Nat} {env : Env}
    {size : Nat} (hK : Kept cfg s h) (hfb : fresh_block cfg s env)
    (hsize : size ≤ cfg.BLOCK_SIZE)
    (hal : AT_allocate cfg env size s = .ok (n, sa))
    (hS1 : ∀ k, Sound cfg s (leak h cfg.default_aterm k) [] →
      Sound cfg s1 (add_handle (leak h cfg.default_aterm k) n) [])
    (hshape : table_shape s1) (hti : s1.terminfo = sa.terminfo)
    (hp : (nodes s1).Perm (n :: nodes s)) :
    Kept cfg s1 (add_handle h n) := by
  obtain ⟨k, hk, hS⟩ := hK.sound
  obtain ⟨c1, c2, c3, c4, c5, c6, c7, c8⟩ :=
    AT_allocate_tidy cfg env size s n sa _ hS hK.tidy hfb hsize hal
  have hu : ∀ c a, in_unused s1 c a → in_unused sa c a := by
    intro c a hx
    unfold in_unused at hx ⊢
    rw [hti] at hx
    exact hx
  refine ⟨⟨k, hk, ?_⟩, hshape, ?_, ⟨?_, ?_, ?_, ?_⟩⟩
  · rw [← handles_add_leak]
    exact hS1 k hS
  · intro a ha
    unfold add_handle at ha
    by_cases han : a = n
    · rw [han]
      exact hp.symm.subset (List.mem_cons_self _ _)
    · rw [if_neg han] at ha
      exact hp.symm.subset (List.mem_cons_of_mem _ (hK.held a ha))
  · unfold free_lists_apart at c4 ⊢
    rw [hti]
    exact c4
  · rw [hti]
    exact c5
  · intro c a hx
    obtain ⟨u1, u2, u3, u4⟩ := c7 c a (hu c a hx)
    refine ⟨?_, ?_, u4⟩
    · intro hm
      rcases List.mem_cons.1 (hp.subset hm) with e | e
      · exact u1 e
      · exact u2 e
    · intro d hd
      rw [hti] at hd
      exact u3 d (c6 d a hd)
  · intro c d a hcd hx hy
    exact c8 c d a hcd (hu c a hx) (hu d a hy)

theorem table_shape_mask {s : Store} (hs : table_shape s) :
    s.table_mask = 2 ^ s.table_class - 1 := by
  obtain ⟨h1, h2, -⟩ := hs
  rw [h2, h1]

/-- The constructor `aterm_int` keeps the stores between public operations. -/
theorem aterm_int_kept (cfg : Config) (hint : cfg.TERM_SIZE_INT = cfg.ARG_OFFSET + 1)
    (harity : cfg.arity cfg.AS_INT = 0) (hsize : cfg.TERM_SIZE_INT ≤ cfg.BLOCK_SIZE)
    (env : Env) (v : Int) (s : Store) (h : Nat → Nat) (n : Nat) (s1 : Store)
    (hK : Kept cfg s h) (hfb : fresh_block cfg s env)
    (hrun : aterm_int cfg env v s = .ok (n, s1)) :
    Kept cfg s1 (add_handle h n) := by
  have hshape := (aterm_int_kept_or_grown cfg env v s n s1 hK.has_shape hrun).1
  have hS1 : ∀ k, Sound cfg s (leak h cfg.default_aterm k) [] →
      Sound cfg s1 (add_handle (leak h cfg.default_aterm k) n) [] := by
    intro k hS
    obtain ⟨k0, hk0, hS0⟩ := hK.sound
    refine aterm_int_sound cfg env v s _ n s1 hint harity
      (fun _ => table_shape_mask hK.has_shape) hS ?_ hrun
    intro m sa hal
    obtain ⟨c1, c2, c3, -⟩ := AT_allocate_tidy cfg env _ s m sa _ hS hK.tidy hfb hsize hal
    exact ⟨c1, hS0.outside_zero hk0 hK.held m c1 c3, c2, c3⟩
  rcases aterm_int_cases cfg env v s n s1 hrun with
    ⟨chain, hb, hf, hs, -⟩ | ⟨chain, sa, chain1, hb, hf, hal, hb1, hs, -⟩
  · have hn : n ∈ nodes s := by
      have hlt := lt_of_getElem? _ _ _ hb
      refine (mem_nodes_iff s n).2 ⟨_, hlt, ?_⟩
      rw [getD_of_getElem? _ _ _ _ hb]
      exact (find_int_some cfg _ _ _ _ hf).1
    refine hK.share_node hS1 hshape ?_ ?_ hn
    · rw [hs]
      rfl
    · rw [hs]
      exact List.Perm.refl _
  · obtain ⟨a1, -⟩ := AT_allocate_frame cfg env _ s n sa hal
    refine hK.insert_node hfb hsize hal hS1 hshape ?_ ?_
    · rw [hs]
      rfl
    · rw [hs]
      exact (nodes_set_bucket_cons (sa.write n (int_node cfg (int_word v) (sa.mem n)))
        _ n chain1 hb1).trans (a1.cons n)

/-- The constructor `aterm`, for a symbol of arity 0 other than `AS_INT`, keeps the stores
between public operations. -/
theorem aterm_kept (cfg : Config) (happl : cfg.TERM_SIZE_APPL 0 ≤ cfg.ARG_OFFSET)
    (hsize : cfg.TERM_SIZE_APPL 0 ≤ cfg.BLOCK_SIZE)
    (env : Env) (sym : Nat) (s : Store) (h : Nat → Nat) (n : Nat) (s1 : Store)
    (hK : Kept cfg s h) (hfb : fresh_block cfg s env) (harity : cfg.arity sym = 0)
    (hsym : sym ≠ cfg.AS_INT) (hrun : aterm cfg env sym s = .ok (n, s1)) :
    Kept cfg s1 (add_handle h n) := by
  have hshape := (aterm_kept_or_grown cfg env sym s n s1 hK.has_shape hrun).1
  have hS1 : ∀ k, Sound cfg s (leak h cfg.default_aterm k) [] →
      Sound cfg s1 (add_handle (leak h cfg.default_aterm k) n) [] := by
    intro k hS
    obtain ⟨k0, hk0, hS0⟩ := hK.sound
    refine aterm_sound cfg env sym s _ n s1 happl harity hsym
      (fun _ => table_shape_mask hK.has_shape) hS ?_ hrun
    intro m sa hal
    obtain ⟨c1, c2, c3, -⟩ := AT_allocate_tidy cfg env _ s m sa _ hS hK.tidy hfb hsize hal
    exact ⟨c1, hS0.outside_zero hk0 hK.held m c1 c3, c2, c3⟩
  obtain ⟨-, hcases⟩ := aterm_cases cfg env sym s n s1 hrun
  rcases hcases with ⟨chain, others, hb, hf, hs⟩ | ⟨chain, sa, chain1, hb, hf, hal, hb1, hs⟩
  · have hn : n ∈ nodes s := by
      have hlt := lt_of_getElem? _ _ _ hb
      refine (mem_nodes_iff s n).2 ⟨_, hlt, ?_⟩
      rw [getD_of_getElem? _ _ _ _ hb]
      exact (find_symbol_some _ _ _ _ _ hf).2.2
    refine hK.share_node hS1 hshape ?_ ?_ hn
    · rw [hs]
      rfl
    · rw [hs]
      exact flatten_set_perm s.hashtable _ chain (n :: others) hb
        (unlink_perm n chain others (find_symbol_some _ _ _ _ _ hf).2.1)
  · obtain ⟨a1, -⟩ := AT_allocate_frame cfg env _ s n sa hal
    refine hK.insert_node hfb hsize hal hS1 hshape ?_ ?_
    · rw [hs]
      rfl
    · rw [hs]
      exact (nodes_set_bucket_cons (sa.write n { sa.mem n with m_function_symbol := sym })
        _ n chain1 hb1).trans (a1.cons n)

/-- The release of an outstanding handle keeps the stores between public operations. -/
theorem at_reduce_reference_count_kept (cfg : Config) (fuel t : Nat) (s : Store)
    (h : Nat → Nat) (s1 : Store) (hK : Kept cfg s h) (hh : 1 ≤ h t)
    (hrun : at_reduce_reference_count cfg fuel t s = .ok s1) :
    Kept cfg s1 (drop_handle h t) := by
  obtain ⟨k, hk, hS⟩ := hK.sound
  have ht : t ∈ nodes s := hK.held t hh
  have hht : 1 ≤ leak h cfg.default_aterm k t := by
    unfold leak
    split <;> omega
  have hgive := hS.give_up ht hht
  have hrel := at_reduce_sound cfg fuel t s s1 _ [] hgive hrun
  have hpush := at_reduce_tidies cfg fuel t s s1 _ [] hgive hrun
  obtain ⟨j, hj, hS1⟩ := hrel.sound
  rw [handles_drop_leak h _ k j t hh] at hS1
  have hu : ∀ c a, in_unused s1 c a → in_unused s c a := by
    intro c a ⟨b, h1, h2, h3⟩
    obtain ⟨g1, g2, -⟩ := hrel.grows c
    rw [g1] at h1
    rw [g2] at h2
    exact ⟨b, h1, h2, h3⟩
  refine ⟨⟨k + j, ?_, hS1⟩, ?_, ?_, ⟨hpush.1 hK.tidy.apart, ?_, ?_, ?_⟩⟩
  · intro hn
    rw [hk hn, hj hn]
  · exact (table_kept_or_grown_of_same s s1 hK.has_shape (at_reduce_reference_count_steps
      same_table_variables same_table_variables_steps cfg fuel t s s1 hrun)).1
  · intro a ha
    have ha0 : 0 < h a := by
      unfold drop_handle at ha
      split at ha <;> omega
    have has : a ∈ nodes s := hK.held a ha0
    by_contra hna
    have hfl := hrel.reclaimed a has hna
    have hz := hS1.free_zero _ a hfl
    have hc := hS1.releasing.count a
    have : drop_handle h t a ≤ leak (drop_handle h t) cfg.default_aterm (k + j) a := by
      unfold leak
      split <;> omega
    omega
  · intro c hc
    rw [(hrel.grows c).1] at hc
    exact hK.tidy.sized c hc
  · intro c a hx
    obtain ⟨u1, u2, u3⟩ := hK.tidy.unused c a (hu c a hx)
    refine ⟨fun hm => u1 (hrel.stable.nodes_subset a hm), ?_, u3⟩
    intro d hd
    rcases hpush.2 d a hd with e | e
    · exact u2 d e
    · exact u1 e
  · intro c d a hcd hx hy
    exact hK.tidy.disjoint c d a hcd (hu c a hx) (hu d a hy)

theorem tidy_initial_store (cfg : Config) (k : Nat) : Tidy cfg (initial_store k) := by
  refine ⟨free_lists_apart_initial_store k, ?_, ?_, ?_⟩
  · intro c hc
    exact absurd rfl hc
  · rintro c a ⟨b, hb, -⟩
    cases hb
  · rintro c d a - ⟨b, hb, -⟩
    cases hb

/-- Every store between public operations is as it should be. -/
theorem Public.kept {cfg : Config} (hint : cfg.TERM_SIZE_INT = cfg.ARG_OFFSET + 1)
    (happl : cfg.TERM_SIZE_APPL 0 ≤ cfg.ARG_OFFSET) (harity : cfg.arity cfg.AS_INT = 0)
    (hblock : cfg.TERM_SIZE_INT ≤ cfg.BLOCK_SIZE)
    {s : Store} {h : Nat → Nat} (hp : Public cfg s h) : Kept cfg s h := by
  have happl1 : cfg.TERM_SIZE_APPL 0 ≤ cfg.BLOCK_SIZE := by omega
  induction hp with
  | initial k =>
    refine ⟨⟨0, fun _ => rfl, ?_⟩, initial_store_shape k, ?_, tidy_initial_store cfg k⟩
    · rw [leak_zero]
      exact sound_initial_store cfg k
    · intro a ha
      cases ha
  | aterm_int env v s h n s1 _ hfb hrun ih =>
    exact aterm_int_kept cfg hint harity hblock env v s h n s1 ih hfb hrun
  | aterm env sym s h n s1 _ hfb ha hs hrun ih =>
    exact aterm_kept cfg happl happl1 env sym s h n s1 ih hfb ha hs hrun
  | at_reduce_reference_count fuel t s h s1 _ hh hrun ih =>
    exact at_reduce_reference_count_kept cfg fuel t s h s1 ih hh hrun

end atermpp

namespace atermpp

/-! ## C26: counts of the nodes on the bucket chains and on the free lists -/

/-- C26 (amended).  Between public operations, that is, in every store reached from the
initial store by constructors `aterm_int(v)` and `aterm(sym)`, for symbols of arity 0 other
than `AS_INT`, and by releases of outstanding handles, `calloc` returning memory that is
not in use: the counts are exact (in a debug build up to the references that destroyed
nodes keep on the default term); every node of a bucket chain has a positive count,
except, in a debug build, the empty list, which `at_free_term` leaves in its chain when
its count reaches zero; every node of a free list has count 0 and is on no bucket chain;
no node is twice on a free list or on two free lists.  So the assertion on the count in
the free-list branch of `AT_allocate` holds for the head of every free list; the release
of an outstanding handle returns, with its whole cascade, when the fuel is above the
number of nodes of the table plus the largest arity, so that no assertion of
`at_reduce_reference_count` and `at_free_term` fails; and `resize_hashtable` returns, so
that its assertion on the count does not fail, in a release build and, in a debug build, as
long as no node of the table has count 0. -/
theorem reference_count_invariant (cfg : Config)
    (hint : cfg.TERM_SIZE_INT = cfg.ARG_OFFSET + 1)
    (happl : cfg.TERM_SIZE_APPL 0 ≤ cfg.ARG_OFFSET) (harity : cfg.arity cfg.AS_INT = 0)
    (hblock : cfg.TERM_SIZE_INT ≤ cfg.BLOCK_SIZE)
    (s : Store) (handles : Nat → Nat) (hp : Public cfg s handles) :
    (∃ k, (cfg.ndebug = true → k = 0) ∧
      Sound cfg s (leak handles cfg.default_aterm k) []) ∧
    (∀ a ∈ nodes s, 0 < (s.mem a).reference_count ∨
      (cfg.ndebug = false ∧ (s.mem a).m_function_symbol = cfg.AS_EMPTY_LIST)) ∧
    (∀ c, ∀ a ∈ (s.terminfo c).at_freelist,
      (s.mem a).reference_count = 0 ∧ a ∉ nodes s) ∧
    free_lists_apart s ∧
    (∀ c a next, (s.terminfo c).at_freelist = a :: next → (s.mem a).reference_count = 0) ∧
    (∀ t, 1 ≤ handles t → t ∈ nodes s ∧ 0 < (s.mem t).reference_count ∧
      ∀ A fuel, (∀ b ∈ nodes s, cfg.arity (s.mem b).m_function_symbol ≤ A) →
        (nodes s).length + A + 1 ≤ fuel →
        ∃ s1, at_reduce_reference_count cfg fuel t s = .ok s1) ∧
    (cfg.ndebug = true ∨ (∀ a ∈ nodes s, 0 < (s.mem a).reference_count) →
      ∀ env, ∃ s1, resize_hashtable cfg env s = .ok s1) := by
  have hK := hp.kept hint happl harity hblock
  obtain ⟨k, hk, hS⟩ := hK.sound
  refine ⟨⟨k, hk, hS⟩, hS.positive, fun c a ha => ⟨hS.free_zero c a ha, hS.apart c a ha⟩,
    hK.tidy.apart, ?_, ?_, ?_⟩
  · intro c a next hfl
    exact hS.free_zero c a (by rw [hfl]; exact List.mem_cons_self _ _)
  · intro t ht
    have hts : t ∈ nodes s := hK.held t ht
    have hht : 1 ≤ leak handles cfg.default_aterm k t := by
      unfold leak
      split <;> omega
    have hgive := hS.give_up hts hht
    exact ⟨hts, hgive.pending_pos, fun A fuel hA hf =>
      at_reduce_returns cfg A fuel t s _ [] hgive hA hf⟩
  · intro hd env
    cases hb : env.bad_alloc
    · refine resize_hashtable_total cfg env s hb ?_
      rcases hd with e | e
      · exact Or.inl e
      · exact Or.inr ⟨e, consistent_nodup cfg s hS.releasing.consistent⟩
    · unfold resize_hashtable
      simp only [hb, if_true]
      exact ⟨_, rfl⟩

/-- The run-time system `example_env base` returns memory that is not in use in an initial
store. -/
theorem fresh_block_initial_store (b : Bool) (k base : Nat) (hbase : 7 < base) :
    fresh_block (example_config b) (initial_store k) (example_env base) := by
  intro data hd a h1 h2
  cases hd
  refine ⟨by simp [nodes, initial_store], fun c => by simp [initial_store], ?_, ?_⟩
  · rintro c ⟨b1, hb1, -⟩
    cases hb1
  · intro _
    show a ≠ 7
    omega

/-- The store after `aterm_int(5)` in the initial store of class 2, in a debug build, is a
store between public operations, with a handle on the node at 1000. -/
theorem public_store_debug_5 :
    Public (example_config false)
      (run (0, initial_store 2)
        (aterm_int (example_config false) (example_env 1000) 5 (initial_store 2))).2
      (add_handle (fun _ => 0) 1000) :=
  Public.aterm_int (example_env 1000) 5 (initial_store 2) _ 1000 _ (Public.initial 2)
    (fresh_block_initial_store false 2 1000 (by decide)) rfl

/-- C26 (amended), in a debug build, at the store after `aterm_int(5)` in the initial store
and the release of the handle: the node at 1000 is on the free list of the class 4, with
count 0, and not in the table. -/
theorem reference_count_invariant_witness :
    Public (example_config false)
      (run (initial_store 2) (at_reduce_reference_count (example_config false) 2 1000
        (run (0, initial_store 2)
          (aterm_int (example_config false) (example_env 1000) 5 (initial_store 2))).2))
      (drop_handle (add_handle (fun _ => 0) 1000) 1000) ∧
    ((run (initial_store 2) (at_reduce_reference_count (example_config false) 2 1000
        (run (0, initial_store 2)
          (aterm_int (example_config false) (example_env 1000) 5
            (initial_store 2))).2)).terminfo 4).at_freelist = [1000] ∧
    (∀ c, ∀ a ∈ ((run (initial_store 2) (at_reduce_reference_count (example_config false) 2
        1000 (run (0, initial_store 2)
          (aterm_int (example_config false) (example_env 1000) 5
            (initial_store 2))).2)).terminfo c).at_freelist,
      ((run (initial_store 2) (at_reduce_reference_count (example_config false) 2 1000
        (run (0, initial_store 2)
          (aterm_int (example_config false) (example_env 1000) 5
            (initial_store 2))).2)).mem a).reference_count = 0 ∧
      a ∉ nodes (run (initial_store 2) (at_reduce_reference_count (example_config false) 2
        1000 (run (0, initial_store 2)
          (aterm_int (example_config false) (example_env 1000) 5 (initial_store 2))).2))) ∧
    (∃ s1, at_reduce_reference_count (example_config false) 3 1000
        (run (0, initial_store 2)
          (aterm_int (example_config false) (example_env 1000) 5 (initial_store 2))).2
        = .ok s1) :=
  have hp := Public.at_reduce_reference_count 2 1000 _ _ _ public_store_debug_5
    (by decide) rfl
  ⟨hp, by decide,
    (reference_count_invariant (example_config false) rfl (by decide) rfl (by decide) _ _
      hp).2.2.1,
    ((reference_count_invariant (example_config false) rfl (by decide) rfl (by decide) _ _
      public_store_debug_5).2.2.2.2.2.1 1000 (by decide)).2.2 0 3 (by decide) (by decide)⟩

/-- C26 as stated fails.  In a debug build, after `aterm(AS_EMPTY_LIST)` in the initial
store and the release of the handle it returned, the node of the empty list is on its
bucket chain with reference count 0, and the assertion on the reference count in
`resize_hashtable` fails in that state.  In a release build, after `aterm_int(0)`,
`aterm(AS_INT)` and the release of the handle that `aterm(AS_INT)` returned, the node that
`aterm(AS_INT)` made, at 2000, has count 0, is still on the chain of bucket 1, since
`AT_freeTerm` has looked for it in the bucket of its hash as an integer, bucket 2, and has
returned without finding it, and is on the free list of the size class 4. -/
theorem chain_node_with_count_zero :
    ((run (0, initial_store 2)
        (aterm (example_config false) (example_env 1000) 3 (initial_store 2))) =
        (1000, store_with_empty_list) ∧
      ∃ s1, at_reduce_reference_count (example_config false) 2 1000 store_with_empty_list
          = .ok s1 ∧
        s1.hashtable = [[], [], [], [1000]] ∧ (s1.mem 1000).reference_count = 0 ∧
        resize_hashtable (example_config false) (example_env 2000) s1
          = .error .assertion_failed) ∧
    (∃ s1 s2, aterm (example_config true) (example_env 2000) (example_config true).AS_INT
          store_with_0 = .ok (2000, s1) ∧
        at_reduce_reference_count (example_config true) 2 2000 s1 = .ok s2 ∧
        s2.hashtable = [[], [2000], [1000], []] ∧ (s2.mem 2000).reference_count = 0 ∧
        (s2.terminfo 4).at_freelist = [2000]) :=
  ⟨⟨rfl, _, rfl, by decide, by decide, rfl⟩,
    ⟨_, _, rfl, rfl, by decide, by decide, by decide⟩⟩

end atermpp

namespace atermpp

/-! ## C31: the release of a handle that is not the last one -/

/-- C31. Releasing a handle that is not the last one changes only the count: for a node
`t` with a reference count of at least 2, `at_reduce_reference_count` returns (at every
bound on the recursion depth of at least one call), the count of `t` is one less, the
symbol and the payload of `t` and every other node are as they were, and so are the
bucket chains, the blocks, bump pointers and free lists of every size class,
`total_nodes` and the table variables. -/
theorem release_shared_handle (cfg : Config) (fuel t : Nat) (s : Store)
    (hc : 2 ≤ (s.mem t).reference_count) :
    ∃ s1, at_reduce_reference_count cfg (fuel + 1) t s = .ok s1 ∧
      (s1.mem t).reference_count + 1 = (s.mem t).reference_count ∧
      (s1.mem t).m_function_symbol = (s.mem t).m_function_symbol ∧
      (s1.mem t).arg = (s.mem t).arg ∧
      (∀ a, a ≠ t → s1.mem a = s.mem a) ∧
      s1.hashtable = s.hashtable ∧ s1.terminfo = s.terminfo ∧
      s1.total_nodes = s.total_nodes ∧ s1.table_class = s.table_class ∧
      s1.table_size = s.table_size ∧ s1.table_mask = s.table_mask := by
  refine ⟨_, at_reduce_shared_returns cfg fuel t s hc, ?_, ?_, ?_, ?_, rfl, rfl, rfl, rfl,
    rfl, rfl⟩
  · simp only [with_count, Store.write, if_true]
    omega
  · simp only [with_count, Store.write, if_true]
  · simp only [with_count, Store.write, if_true]
  · intro a ha
    simp only [with_count, Store.write, if_neg ha]

theorem release_shared_handle_witness :
    2 ≤ ((increase_reference_count 1000 store_with_5).mem 1000).reference_count ∧
    ∃ s1, at_reduce_reference_count (example_config true) 1 1000
        (increase_reference_count 1000 store_with_5) = .ok s1 ∧
      (s1.mem 1000).reference_count + 1 =
        ((increase_reference_count 1000 store_with_5).mem 1000).reference_count ∧
      (s1.mem 1000).m_function_symbol =
        ((increase_reference_count 1000 store_with_5).mem 1000).m_function_symbol ∧
      (s1.mem 1000).arg = ((increase_reference_count 1000 store_with_5).mem 1000).arg ∧
      (∀ a, a ≠ 1000 → s1.mem a = (increase_reference_count 1000 store_with_5).mem a) ∧
      s1.hashtable = (increase_reference_count 1000 store_with_5).hashtable ∧
      s1.terminfo = (increase_reference_count 1000 store_with_5).terminfo ∧
      s1.total_nodes = (increase_reference_count 1000 store_with_5).total_nodes ∧
      s1.table_class = (increase_reference_count 1000 store_with_5).table_class ∧
      s1.table_size = (increase_reference_count 1000 store_with_5).table_size ∧
      s1.table_mask = (increase_reference_count 1000 store_with_5).table_mask :=
  ⟨by decide, release_shared_handle (example_config true) 0 1000
    (increase_reference_count 1000 store_with_5) (by decide)⟩

/-- The bound of C31 on the count cannot be dropped: the release of the only handle on
the node of 5 takes the node out of its bucket and puts it on a free list. -/
theorem release_last_handle_changes_the_table :
    (store_with_5.mem 1000).reference_count = 1 ∧
    ∃ s1, at_reduce_reference_count (example_config true) 1 1000 store_with_5 = .ok s1 ∧
      nodes store_with_5 = [1000] ∧ nodes s1 = [] ∧ (s1.terminfo 4).at_freelist = [1000] ∧
      s1.total_nodes + 1 = store_with_5.total_nodes :=
  ⟨by decide, _, rfl, by decide, by decide, by decide, by decide⟩

/-! ## C32: the debug leak check -/

/-- C32 (the code at the failing input). `check_that_all_objects_are_free` returns true
for every store.  In the store after `aterm(4)` in a debug build, the slot at 1000 is
below the bump pointer of the block of its size class, its reference count is 1 and its
symbol is not `AS_EMPTY_LIST`, and the check returns true. -/
theorem check_that_all_objects_are_free_finds_nothing :
    (∀ cfg s, check_that_all_objects_are_free cfg s = true) ∧
    ((store_with_symbol_4.terminfo 3).at_block.map Block.data = [1000] ∧
      1000 < (store_with_symbol_4.terminfo 3).top_at_blocks ∧
      (store_with_symbol_4.mem 1000).reference_count = 1 ∧
      (store_with_symbol_4.mem 1000).m_function_symbol = 4 ∧
      (example_config false).AS_EMPTY_LIST = 3 ∧
      check_that_all_objects_are_free (example_config false) store_with_symbol_4 = true) :=
  ⟨fun _ _ => rfl, by decide, by decide, by decide, by decide, rfl, rfl⟩

end atermpp

namespace mcrl2.utilities

/-! ## C40: the rewrite strategies of the tests -/

/-- The list of `initialise_test_rewrite_strategies` starts with `jitty` and holds
`jitty_prover` exactly when `with_prover` is true. -/
theorem initialise_test_rewrite_strategies_list (m : Macros) (with_prover : Bool) :
    (initialise_test_rewrite_strategies m with_prover).head? = some rewrite_strategy.jitty ∧
    (rewrite_strategy.jitty_prover ∈ initialise_test_rewrite_strategies m with_prover ↔
      with_prover = true) := by
  cases m with
  | mk a b => cases a <;> cases b <;> cases with_prover <;> decide

/-- The first call of `get_test_rewrite_strategies` returns the list of
`initialise_test_rewrite_strategies` for its argument, and every later call returns the
list of the first call, whatever its argument. -/
theorem get_test_rewrite_strategies_first_call (m : Macros) (with_prover : Bool)
    (later : List Bool) :
    get_test_rewrite_strategies_calls m (with_prover :: later) none =
      List.replicate (later.length + 1) (initialise_test_rewrite_strategies m with_prover) := by
  have h : ∀ (l : List Bool) (r : List rewrite_strategy),
      get_test_rewrite_strategies_calls m l (some r) = List.replicate l.length r := by
    intro l r
    induction l with
    | nil => rfl
    | cons b l ih =>
      simp only [get_test_rewrite_strategies_calls, get_test_rewrite_strategies, ih,
        List.length_cons, List.replicate_succ]
  simp only [get_test_rewrite_strategies_calls, get_test_rewrite_strategies, h,
    List.replicate_succ]

/-- C40 (the code at the failing input). After a call with `with_prover` false, the call
`get_test_rewrite_strategies(true)` returns the list of the first call, which is not
`initialise_test_rewrite_strategies(true)`: it does not hold `jitty_prover`. -/
theorem get_test_rewrite_strategies_ignores_later_argument (m : Macros) :
    get_test_rewrite_strategies_calls m [false, true] none =
      [initialise_test_rewrite_strategies m false,
       initialise_test_rewrite_strategies m false] ∧
    rewrite_strategy.jitty_prover ∉ initialise_test_rewrite_strategies m false ∧
    rewrite_strategy.jitty_prover ∈ initialise_test_rewrite_strategies m true ∧
    initialise_test_rewrite_strategies m false ≠ initialise_test_rewrite_strategies m true := by
  cases m with
  | mk a b => cases a <;> cases b <;> decide

end mcrl2.utilities

namespace mcrl2.pbes_system.detail

/-! ## C39: `Par` -/

/-- The traversal of `par_traverser` pushes one list on the stack, the list of the
structural recursion, and leaves the rest of the stack as it is. -/
theorem par_traverser_apply_eq {D A V N : Type} [DecidableEq N] (X : N) :
    ∀ (x : state_formula D A V N) (l : List V) (st : List (List V)),
      par_traverser.apply X l x st = .ok (Par_recursion X l x :: st)
  | .data_expression _, _, _ => rfl
  | .true_, _, _ => rfl
  | .false_, _, _ => rfl
  | .not_ operand, l, st => by
    simp only [par_traverser.apply, Par_recursion, par_traverser_apply_eq X operand]
  | .and_ left right, l, st => by
    simp only [par_traverser.apply, Par_recursion, par_traverser_apply_eq X left,
      par_traverser_apply_eq X right, par_traverser.join]
  | .or_ left right, l, st => by
    simp only [par_traverser.apply, Par_recursion, par_traverser_apply_eq X left,
      par_traverser_apply_eq X right, par_traverser.join]
  | .imp left right, l, st => by
    simp only [par_traverser.apply, Par_recursion, par_traverser_apply_eq X left,
      par_traverser_apply_eq X right, par_traverser.join]
  | .forall_ variables_ body, l, st => by
    simp only [par_traverser.apply, Par_recursion, par_traverser_apply_eq X body]
  | .exists_ variables_ body, l, st => by
    simp only [par_traverser.apply, Par_recursion, par_traverser_apply_eq X body]
  | .must _ operand, l, st => by
    simp only [par_traverser.apply, Par_recursion, par_traverser_apply_eq X operand]
  | .may _ operand, l, st => by
    simp only [par_traverser.apply, Par_recursion, par_traverser_apply_eq X operand]
  | .yaled, _, _ => rfl
  | .yaled_timed _, _, _ => rfl
  | .delay, _, _ => rfl
  | .delay_timed _, _, _ => rfl
  | .variable _ _, _, _ => rfl
  | .nu name assignments operand, l, st => by
    simp only [par_traverser.apply, Par_recursion, par_traverser_apply_eq X operand]
    split <;> rfl
  | .mu name assignments operand, l, st => by
    simp only [par_traverser.apply, Par_recursion, par_traverser_apply_eq X operand]
    split <;> rfl

theorem Par_eq {D A V N : Type} [DecidableEq N] (X : N) (l : List V)
    (x : state_formula D A V N) : Par X l x = .ok (Par_recursion X l x) := by
  simp only [Par, par_traverser_apply_eq]

/-- C39. `Par(X, l, x)` returns, for every state formula `x`, the list of the structural
recursion: the empty list for `true`, `false`, a data expression, a variable
instantiation, `yaled`, `delay` and their timed forms; that of the operand for `not`,
`must` and `may`; the concatenation of those of the operands for `and`, `or` and `imp`;
that of the body with `l ++ vars` for `forall` and `exists`; `l` for a `mu` or `nu` that
binds `X`; and that of the operand with the left-hand sides of the assignments appended
to `l` for a `mu` or `nu` that binds another name.  The traversal pushes exactly one list
on whatever stack it starts with, so that the stack of the traverser of `Par` holds
exactly one list when `Par` returns, and neither `top` nor a `pop` of `join` meets an
empty stack (the traversal does not end with the fault `empty_stack`). -/
theorem Par_structural_recursion {D A V N : Type} [DecidableEq N] (X : N) (l : List V)
    (x : state_formula D A V N) :
    Par X l x = .ok (Par_recursion X l x) ∧
    par_traverser.apply X l x [] = .ok [Par_recursion X l x] ∧
    (∀ st, par_traverser.apply X l x st = .ok (Par_recursion X l x :: st)) ∧
    (∀ (d : D), Par_recursion X l (.data_expression d : state_formula D A V N) = []) ∧
    Par_recursion X l (.true_ : state_formula D A V N) = [] ∧
    Par_recursion X l (.false_ : state_formula D A V N) = [] ∧
    (∀ n (a : List D), Par_recursion X l (.variable n a : state_formula D A V N) = []) ∧
    Par_recursion X l (.yaled : state_formula D A V N) = [] ∧
    Par_recursion X l (.delay : state_formula D A V N) = [] ∧
    (∀ (t : D), Par_recursion X l (.yaled_timed t : state_formula D A V N) = []) ∧
    (∀ (t : D), Par_recursion X l (.delay_timed t : state_formula D A V N) = []) ∧
    (∀ y : state_formula D A V N, Par X l (.not_ y) = Par X l y) ∧
    (∀ (a : A) (y : state_formula D A V N), Par X l (.must a y) = Par X l y) ∧
    (∀ (a : A) (y : state_formula D A V N), Par X l (.may a y) = Par X l y) ∧
    (∀ y z : state_formula D A V N,
      Par X l (.and_ y z) = .ok (Par_recursion X l y ++ Par_recursion X l z)) ∧
    (∀ y z : state_formula D A V N,
      Par X l (.or_ y z) = .ok (Par_recursion X l y ++ Par_recursion X l z)) ∧
    (∀ y z : state_formula D A V N,
      Par X l (.imp y z) = .ok (Par_recursion X l y ++ Par_recursion X l z)) ∧
    (∀ v (y : state_formula D A V N), Par X l (.forall_ v y) = Par X (l ++ v) y) ∧
    (∀ v (y : state_formula D A V N), Par X l (.exists_ v y) = Par X (l ++ v) y) ∧
    (∀ (a : List (V × D)) (y : state_formula D A V N),
      Par X l (.mu X a y) = .ok l ∧ Par X l (.nu X a y) = .ok l) ∧
    (∀ n (a : List (V × D)) (y : state_formula D A V N), n ≠ X →
      Par X l (.mu n a y) = Par X (l ++ left_hand_sides a) y ∧
      Par X l (.nu n a y) = Par X (l ++ left_hand_sides a) y) := by
  refine ⟨Par_eq X l x, par_traverser_apply_eq X x l [], par_traverser_apply_eq X x l,
    fun _ => rfl, rfl, rfl, fun _ _ => rfl, rfl, rfl, fun _ => rfl, fun _ => rfl,
    ?_, ?_, ?_, ?_, ?_, ?_, ?_, ?_, ?_, ?_⟩
  · intro y
    simp only [Par_eq, Par_recursion]
  · intro a y
    simp only [Par_eq, Par_recursion]
  · intro a y
    simp only [Par_eq, Par_recursion]
  · intro y z
    simp only [Par_eq, Par_recursion]
  · intro y z
    simp only [Par_eq, Par_recursion]
  · intro y z
    simp only [Par_eq, Par_recursion]
  · intro v y
    simp only [Par_eq, Par_recursion]
  · intro v y
    simp only [Par_eq, Par_recursion]
  · intro a y
    simp only [Par_eq, Par_recursion, if_true, and_self]
  · intro n a y hn
    simp only [Par_eq, Par_recursion, if_neg hn, and_self]

/-- An instance of C39: in `[1](true && nu 7(5 := 0). mu 8(6 := 1). 7(5))` the variable
7 is bound under no other binder, so `Par` gives the list it was called with; the
variable 8 is bound under the fixpoint of 7, so `Par` gives that list with the parameter
5; and for a name that is not bound `Par` gives the empty list. -/
theorem Par_example :
    Par 7 [3] example_formula = .ok [3] ∧ Par 8 [3] example_formula = .ok [3, 5] ∧
    Par 9 [3] example_formula = .ok [] :=
  ⟨rfl, rfl, rfl⟩

end mcrl2.pbes_system.detail

namespace mcrl2.pbes_system.detail

/-! ## C38: the operators that `RHS` rejects -/

/-- For a supported formula the traversal of `rhs_traverser` raises nothing and pushes
exactly one expression, which does not depend on the stack it starts with. -/
theorem rhs_traverser_apply_supported {D A V N E I : Type} [DecidableEq N]
    (c : RhsContext D A V N E I) (phi0 : state_formula D A V N) :
    ∀ (x : state_formula D A V N), supported x → ∀ (g : I), ∃ e g1, ∀ st,
      rhs_traverser.apply c phi0 x (st, g) = .ok (e :: st, g1)
  | .data_expression d, _, g => ⟨c.of_data_expression d, g, fun _ => rfl⟩
  | .true_, _, g => ⟨c.true_, g, fun _ => rfl⟩
  | .false_, _, g => ⟨c.false_, g, fun _ => rfl⟩
  | .not_ _, h, _ => absurd h (by simp only [supported, not_false_eq_true])
  | .and_ left right, h, g => by
    simp only [supported] at h
    obtain ⟨el, g1, hl⟩ := rhs_traverser_apply_supported c phi0 left h.1 g
    obtain ⟨er, g2, hr⟩ := rhs_traverser_apply_supported c phi0 right h.2 g1
    refine ⟨c.optimized_and el er, g2, fun st => ?_⟩
    simp only [rhs_traverser.apply, hl, hr]
  | .or_ left right, h, g => by
    simp only [supported] at h
    obtain ⟨el, g1, hl⟩ := rhs_traverser_apply_supported c phi0 left h.1 g
    obtain ⟨er, g2, hr⟩ := rhs_traverser_apply_supported c phi0 right h.2 g1
    refine ⟨c.optimized_or el er, g2, fun st => ?_⟩
    simp only [rhs_traverser.apply, hl, hr]
  | .imp _ _, h, _ => absurd h (by simp only [supported, not_false_eq_true])
  | .forall_ variables_ body, h, g => by
    simp only [supported] at h
    obtain ⟨e, g1, hb⟩ :=
      rhs_traverser_apply_supported c phi0 body h (c.add_identifiers variables_ g)
    refine ⟨c.forall_ variables_ e, g1, fun st => ?_⟩
    simp only [rhs_traverser.apply, hb]
  | .exists_ variables_ body, h, g => by
    simp only [supported] at h
    obtain ⟨e, g1, hb⟩ :=
      rhs_traverser_apply_supported c phi0 body h (c.add_identifiers variables_ g)
    refine ⟨c.exists_ variables_ e, g1, fun st => ?_⟩
    simp only [rhs_traverser.apply, hb]
  | .must formula operand, h, g => by
    simp only [supported] at h
    obtain ⟨e, g1, hb⟩ := rhs_traverser_apply_supported c phi0 operand h g
    refine ⟨(c.must_may true formula e g1).1, (c.must_may true formula e g1).2,
      fun st => ?_⟩
    simp only [rhs_traverser.apply, hb]
  | .may formula operand, h, g => by
    simp only [supported] at h
    obtain ⟨e, g1, hb⟩ := rhs_traverser_apply_supported c phi0 operand h g
    refine ⟨(c.must_may false formula e g1).1, (c.must_may false formula e g1).2,
      fun st => ?_⟩
    simp only [rhs_traverser.apply, hb]
  | .yaled, h, _ => absurd h (by simp only [supported, not_false_eq_true])
  | .yaled_timed t, _, g => ⟨c.yaled_timed t, g, fun _ => rfl⟩
  | .delay, h, _ => absurd h (by simp only [supported, not_false_eq_true])
  | .delay_timed t, _, g => ⟨c.delay_timed t, g, fun _ => rfl⟩
  | .variable name arguments, _, g => by
    refine ⟨c.instantiation name arguments (Par_recursion name [] phi0), g, fun st => ?_⟩
    simp only [rhs_traverser.apply, Par_eq]
  | .nu name assignments operand, _, g => by
    refine ⟨c.instantiation name (c.mu_expressions (.nu name assignments operand))
      (Par_recursion name [] phi0), g, fun st => ?_⟩
    simp only [rhs_traverser.apply, Par_eq]
  | .mu name assignments operand, _, g => by
    refine ⟨c.instantiation name (c.mu_expressions (.mu name assignments operand))
      (Par_recursion name [] phi0), g, fun st => ?_⟩
    simp only [rhs_traverser.apply, Par_eq]

/-- For a formula that is not supported the traversal of `rhs_traverser` ends with
`mcrl2::runtime_error`. -/
theorem rhs_traverser_apply_unsupported {D A V N E I : Type} [DecidableEq N]
    (c : RhsContext D A V N E I) (phi0 : state_formula D A V N) :
    ∀ (x : state_formula D A V N), ¬ supported x → ∀ (p : List E × I), ∃ u,
      rhs_traverser.apply c phi0 x p = .error (.runtime_error u)
  | .data_expression _, h, _ => absurd trivial h
  | .true_, h, _ => absurd trivial h
  | .false_, h, _ => absurd trivial h
  | .not_ _, _, _ => ⟨.negation, rfl⟩
  | .and_ left right, h, (st, g) => by
    by_cases hl : supported left
    · have hr : ¬ supported right := fun hr => h ⟨hl, hr⟩
      obtain ⟨e, g1, he⟩ := rhs_traverser_apply_supported c phi0 left hl g
      obtain ⟨u, hu⟩ := rhs_traverser_apply_unsupported c phi0 right hr (e :: st, g1)
      exact ⟨u, by simp only [rhs_traverser.apply, he, hu]⟩
    · obtain ⟨u, hu⟩ := rhs_traverser_apply_unsupported c phi0 left hl (st, g)
      exact ⟨u, by simp only [rhs_traverser.apply, hu]⟩
  | .or_ left right, h, (st, g) => by
    by_cases hl : supported left
    · have hr : ¬ supported right := fun hr => h ⟨hl, hr⟩
      obtain ⟨e, g1, he⟩ := rhs_traverser_apply_supported c phi0 left hl g
      obtain ⟨u, hu⟩ := rhs_traverser_apply_unsupported c phi0 right hr (e :: st, g1)
      exact ⟨u, by simp only [rhs_traverser.apply, he, hu]⟩
    · obtain ⟨u, hu⟩ := rhs_traverser_apply_unsupported c phi0 left hl (st, g)
      exact ⟨u, by simp only [rhs_traverser.apply, hu]⟩
  | .imp _ _, _, _ => ⟨.implication, rfl⟩
  | .forall_ variables_ body, h, (st, g) => by
    obtain ⟨u, hu⟩ := rhs_traverser_apply_unsupported c phi0 body h
      (st, c.add_identifiers variables_ g)
    exact ⟨u, by simp only [rhs_traverser.apply, hu]⟩
  | .exists_ variables_ body, h, (st, g) => by
    obtain ⟨u, hu⟩ := rhs_traverser_apply_unsupported c phi0 body h
      (st, c.add_identifiers variables_ g)
    exact ⟨u, by simp only [rhs_traverser.apply, hu]⟩
  | .must formula operand, h, (st, g) => by
    obtain ⟨u, hu⟩ := rhs_traverser_apply_unsupported c phi0 operand h ([], g)
    exact ⟨u, by simp only [rhs_traverser.apply, hu]⟩
  | .may formula operand, h, (st, g) => by
    obtain ⟨u, hu⟩ := rhs_traverser_apply_unsupported c phi0 operand h ([], g)
    exact ⟨u, by simp only [rhs_traverser.apply, hu]⟩
  | .yaled, _, _ => ⟨.yaled, rfl⟩
  | .yaled_timed _, h, _ => absurd trivial h
  | .delay, _, _ => ⟨.delay, rfl⟩
  | .delay_timed _, h, _ => absurd trivial h
  | .variable _ _, h, _ => absurd trivial h
  | .nu _ _ _, h, _ => absurd trivial h
  | .mu _ _ _, h, _ => absurd trivial h

/-- `RHS` returns exactly for the supported formulas; for the others it raises
`mcrl2::runtime_error`. -/
theorem RHS_returns_iff_supported {D A V N E I : Type} [DecidableEq N]
    (c : RhsContext D A V N E I) (x0 x : state_formula D A V N) (g : I) :
    (supported x → ∃ e g1, RHS c x0 x g = .ok (e, g1)) ∧
    (¬ supported x → ∃ u, RHS c x0 x g = .error (.runtime_error u)) := by
  constructor
  · intro h
    obtain ⟨e, g1, he⟩ := rhs_traverser_apply_supported c x0 x h g
    exact ⟨e, g1, by simp only [RHS, he]⟩
  · intro h
    obtain ⟨u, hu⟩ := rhs_traverser_apply_unsupported c x0 x h ([], g)
    exact ⟨u, by simp only [RHS, hu]⟩

/-- C38. `RHS` rejects the unsupported operators: for a negation and for an implication
it raises `mcrl2::runtime_error` whatever the operands are, so before any subformula is
translated, and for the untimed `yaled` and the untimed `delay` it raises it as well.
For `true` and `false` it raises nothing and the result stack holds exactly one
expression, and so it is for the conjunction and the disjunction of two supported
formulas `y` and `z`: the stack holds the one expression made of the result of `RHS` for
`y` and the result of `RHS` for `z` (with the identifier generator as `y` left it). -/
theorem RHS_rejects_unsupported_operators {D A V N E I : Type} [DecidableEq N]
    (c : RhsContext D A V N E I) (x0 y z : state_formula D A V N) (g : I)
    (hy : supported y) (hz : supported z) :
    RHS c x0 (.not_ y) g = .error (.runtime_error .negation) ∧
    RHS c x0 (.imp y z) g = .error (.runtime_error .implication) ∧
    (∀ y1 z1 : state_formula D A V N,
      RHS c x0 (.not_ y1) g = .error (.runtime_error .negation) ∧
      RHS c x0 (.imp y1 z1) g = .error (.runtime_error .implication)) ∧
    RHS c x0 .yaled g = .error (.runtime_error .yaled) ∧
    RHS c x0 .delay g = .error (.runtime_error .delay) ∧
    rhs_traverser.apply c x0 .true_ ([], g) = .ok ([c.true_], g) ∧
    RHS c x0 .true_ g = .ok (c.true_, g) ∧
    rhs_traverser.apply c x0 .false_ ([], g) = .ok ([c.false_], g) ∧
    RHS c x0 .false_ g = .ok (c.false_, g) ∧
    ∃ ey g1 ez g2, RHS c x0 y g = .ok (ey, g1) ∧ RHS c x0 z g1 = .ok (ez, g2) ∧
      rhs_traverser.apply c x0 (.and_ y z) ([], g) = .ok ([c.optimized_and ey ez], g2) ∧
      RHS c x0 (.and_ y z) g = .ok (c.optimized_and ey ez, g2) ∧
      rhs_traverser.apply c x0 (.or_ y z) ([], g) = .ok ([c.optimized_or ey ez], g2) ∧
      RHS c x0 (.or_ y z) g = .ok (c.optimized_or ey ez, g2) := by
  refine ⟨rfl, rfl, fun _ _ => ⟨rfl, rfl⟩, rfl, rfl, rfl, rfl, rfl, rfl, ?_⟩
  obtain ⟨ey, g1, h1⟩ := rhs_traverser_apply_supported c x0 y hy g
  obtain ⟨ez, g2, h2⟩ := rhs_traverser_apply_supported c x0 z hz g1
  refine ⟨ey, g1, ez, g2, ?_, ?_, ?_, ?_, ?_, ?_⟩
  · simp only [RHS, h1]
  · simp only [RHS, h2]
  · simp only [rhs_traverser.apply, h1, h2]
  · simp only [RHS, rhs_traverser.apply, h1, h2]
  · simp only [rhs_traverser.apply, h1, h2]
  · simp only [RHS, rhs_traverser.apply, h1, h2]

theorem RHS_rejects_unsupported_operators_witness :
    supported example_formula ∧
    supported (state_formula.delay_timed 4 : state_formula Nat Nat Nat Nat) ∧
    RHS example_context example_formula (.not_ example_formula) [] =
      .error (.runtime_error .negation) ∧
    RHS example_context example_formula (.imp example_formula (.delay_timed 4)) [] =
      .error (.runtime_error .implication) ∧
    ∃ ey g1 ez g2, RHS example_context example_formula example_formula [] = .ok (ey, g1) ∧
      RHS example_context example_formula (.delay_timed 4) g1 = .ok (ez, g2) ∧
      rhs_traverser.apply example_context example_formula
        (.and_ example_formula (.delay_timed 4)) ([], []) =
          .ok ([example_context.optimized_and ey ez], g2) :=
  have h := RHS_rejects_unsupported_operators example_context example_formula example_formula
    (.delay_timed 4) [] (by simp [example_formula, supported]) (by simp [supported])
  ⟨by simp [example_formula, supported], by simp [supported], h.1, h.2.1,
    match h.2.2.2.2.2.2.2.2.2 with
    | ⟨ey, g1, ez, g2, h1, h2, h3, _⟩ => ⟨ey, g1, ez, g2, h1, h2, h3⟩⟩

/-- The translation of the example: the operand of `[1]` is translated first, the
fixpoint is replaced by the instantiation of its variable with the list of `Par`, and its
operand is not translated. -/
theorem RHS_example :
    RHS example_context example_formula example_formula [] =
      .ok (.must_may true 1 (.and_ .true_ (.instantiation 7 [0] [])), [1]) ∧
    RHS example_context example_formula (.and_ .true_ (.or_ .yaled .false_)) [] =
      .error (.runtime_error .yaled) ∧
    RHS example_context example_formula (.nu 7 [] (.not_ .true_)) [] =
      .ok (.instantiation 7 [] [], []) :=
  ⟨rfl, rfl, rfl⟩

end mcrl2.pbes_system.detail

namespace mcrl2.pbes_system.detail

/-! ## C33: the invariant of the queue `todo` -/

theorem ends_with_mono {V T P G α : Type} (R R1 : State V T P G → Prop)
    (proj : α → State V T P G) (h : ∀ s, R s → R1 s)
    (r : Except (Abort (State V T P G)) α) (hr : ends_with R proj r) :
    ends_with R1 proj r := by
  cases r with
  | ok a => exact h _ hr
  | error a =>
    cases a with
    | stop_early st => exact h _ hr
    | out_of_bounds => exact hr
    | out_of_fuel => trivial

theorem queue_grows_refl {V T P G : Type} (st : State V T P G) : queue_grows st st :=
  ⟨rfl, List.prefix_refl _⟩

theorem queue_grows_trans {V T P G : Type} {st st1 st2 : State V T P G}
    (h1 : queue_grows st st1) (h2 : queue_grows st1 st2) : queue_grows st st2 :=
  ⟨h2.1.trans h1.1, h1.2.trans h2.2⟩

/-- A loop over a sequence ends as its body does. -/
theorem for_each_ends {V T P G α β : Type} (R : State V T P G → State V T P G → Prop)
    (hrefl : ∀ s, R s s) (htrans : ∀ s s1 s2, R s s1 → R s1 s2 → R s s2)
    (proj : α → State V T P G) (body : β → α → Except (Abort (State V T P G)) α)
    (hbody : ∀ d a, ends_with (R (proj a)) proj (body d a)) :
    ∀ (ds : List β) (a : α), ends_with (R (proj a)) proj (for_each body ds a)
  | [], a => hrefl _
  | d :: ds, a => by
    have hb := hbody d a
    simp only [for_each]
    cases hd : body d a with
    | error f =>
      rw [hd] at hb
      exact hb
    | ok a1 =>
      rw [hd] at hb
      exact ends_with_mono _ _ proj (fun s hs => htrans _ _ _ hb hs) _
        (for_each_ends R hrefl htrans proj body hbody ds a1)

/-- The relation between the states of `foreach_sequence`: the sequences `D` and the
queue `todo` are not touched. -/
theorem sequence_action_ends {V T P G : Type} [DecidableEq P] (e : Enumeration V T P G)
    (phi : P) (sigma_ : V → Option T) (p : State V T P G × Bool) :
    ends_with (fun s => s.D = p.1.D ∧ s.todo = p.1.todo) Prod.fst
      (sequence_action e phi sigma_ p) := by
  unfold sequence_action
  simp only []
  split
  · exact ⟨rfl, rfl⟩
  · split
    · exact ⟨rfl, rfl⟩
    · exact ⟨rfl, rfl⟩

/-- `foreach_sequence` leaves the sequences `D` and the queue `todo` as they are, also
when it is stopped early, and it does not run past the end of `x` when `x` has a variable
for every sequence. -/
theorem foreach_sequence_ends {V T P G : Type} [DecidableEq V] [DecidableEq P]
    (e : Enumeration V T P G) (phi : P) (sigma_ : V → Option T) :
    ∀ (Ds : List (List T)) (xs : List V) (p : State V T P G × Bool),
      Ds.length ≤ xs.length →
      ends_with (fun s => s.D = p.1.D ∧ s.todo = p.1.todo) Prod.fst
        (foreach_sequence Abort.out_of_bounds (sequence_action e phi sigma_)
          sequence_assign Ds xs p)
  | [], xs, p, _ => by
    simp only [foreach_sequence]
    exact sequence_action_ends e phi sigma_ p
  | Dj :: rest, [], p, h => by
    simp only [List.length_cons, List.length_nil] at h
    omega
  | Dj :: rest, v :: xs, p, h => by
    simp only [foreach_sequence]
    have hlen : rest.length ≤ xs.length := by
      simp only [List.length_cons] at h
      omega
    exact for_each_ends (fun s s1 => s1.D = s.D ∧ s1.todo = s.todo)
      (fun _ => ⟨rfl, rfl⟩)
      (fun _ _ _ h1 h2 => ⟨h2.1.trans h1.1, h2.2.trans h1.2⟩) Prod.fst _
      (fun d a => foreach_sequence_ends e phi sigma_ rest xs (sequence_assign v d a) hlen)
      Dj p

/-- The loop over the enumerated terms keeps the invariant of `todo` and pushes elements
at the back of the queue only. -/
theorem enumerate_terms_ends {V T P G : Type} [DecidableEq V] [DecidableEq P]
    (e : Enumeration V T P G) (x : List V) (phi : P) (xk : V) (k : Nat)
    (hk : x[k]? = some xk) :
    ∀ (z : List T) (a : State V T P G × List T × Bool), todo_invariant x a.1 →
      ends_with (fun s => todo_invariant x s ∧ queue_grows a.1 s) (fun a => a.1)
        (enumerate_terms e x phi xk k z a)
  | [], a, h => ⟨h, queue_grows_refl _⟩
  | i :: z, (st, Dk, is_constant), h => by
    have hkx : k < x.length := by
      rcases Nat.lt_or_ge k x.length with h1 | h1
      · exact h1
      · rw [List.getElem?_eq_none h1] at hk
        cases hk
    have hkD : k < st.D.length := by
      rw [h.1]
      exact hkx
    simp only [enumerate_terms, hkD, if_true]
    have hf := foreach_sequence_ends e phi (sigma_assign st.sigma xk i) (st.D.set k [i]) x
      ({ st with sigma := sigma_assign st.sigma xk i, D := st.D.set k [i] }, is_constant)
      (by rw [List.length_set, h.1])
    cases hr : foreach_sequence Abort.out_of_bounds
        (sequence_action e phi (sigma_assign st.sigma xk i)) sequence_assign
        (st.D.set k [i]) x
        ({ st with sigma := sigma_assign st.sigma xk i, D := st.D.set k [i] }, is_constant)
      with
    | error f =>
      rw [hr] at hf
      cases f with
      | stop_early st1 =>
        have hf1 : st1.D = st.D.set k [i] ∧ st1.todo = st.todo := hf
        refine ⟨⟨?_, ?_⟩, ?_, ?_⟩
        · rw [hf1.1, List.length_set, h.1]
        · rw [hf1.2]
          exact h.2
        · rw [hf1.1, List.length_set]
        · rw [hf1.2]
      | out_of_bounds => exact hf
      | out_of_fuel => trivial
    | ok r =>
      obtain ⟨st3, is_constant1⟩ := r
      rw [hr] at hf
      have hf1 : st3.D = st.D.set k [i] ∧ st3.todo = st.todo := hf
      have hD3 : st3.D.length = st.D.length := by rw [hf1.1, List.length_set]
      have h3 : todo_invariant x st3 := by
        refine ⟨?_, ?_⟩
        · rw [hD3, h.1]
        · rw [hf1.2]
          exact h.2
      have g3 : queue_grows st st3 := ⟨hD3, by rw [hf1.2]⟩
      simp only []
      split
      · have h4 : todo_invariant x
            (if (!e.data_is_constant i) = true then
              { st3 with todo := st3.todo ++ [(xk, i, k)] } else st3) := by
          split
          · refine ⟨h3.1, ?_⟩
            intro el hel
            rcases List.mem_append.1 hel with h5 | h5
            · exact h3.2 el h5
            · rw [List.mem_singleton.1 h5]
              exact hk
          · exact h3
        have g4 : queue_grows st3
            (if (!e.data_is_constant i) = true then
              { st3 with todo := st3.todo ++ [(xk, i, k)] } else st3) := by
          split
          · exact ⟨rfl, List.prefix_append _ _⟩
          · exact queue_grows_refl _
        exact ends_with_mono _ _ _
          (fun s hs => ⟨hs.1, queue_grows_trans (queue_grows_trans g3 g4) hs.2⟩) _
          (enumerate_terms_ends e x phi xk k hk z _ h4)
      · exact ends_with_mono _ _ _
          (fun s hs => ⟨hs.1, queue_grows_trans g3 hs.2⟩) _
          (enumerate_terms_ends e x phi xk k hk z (st3, Dk, is_constant1) h3)

/-- One round of the `while` loop: for a dequeued element that satisfies the invariant,
the access `D[k]` is in bounds, and the round keeps the invariant of `todo`. -/
theorem process_front_ends {V T P G : Type} [DecidableEq V] [DecidableEq P]
    (e : Enumeration V T P G) (x : List V) (phi : P) (front : V × T × Nat)
    (st : State V T P G) (h : todo_invariant x st) (hk : x[front.2.2]? = some front.1) :
    front.2.2 < st.D.length ∧
    ends_with (fun s => todo_invariant x s ∧ queue_grows st s) id
      (process_front e x phi front st) := by
  have hkx : front.2.2 < x.length := by
    rcases Nat.lt_or_ge front.2.2 x.length with h1 | h1
    · exact h1
    · rw [List.getElem?_eq_none h1] at hk
      cases hk
  have hkD : front.2.2 < st.D.length := by
    rw [h.1]
    exact hkx
  refine ⟨hkD, ?_⟩
  unfold process_front
  simp only [List.getElem?_eq_getElem hkD]
  have ht := enumerate_terms_ends e x phi front.1 front.2.2 hk
    (e.enumerate st.datae front.2.1).1
    ({ st with datae := (e.enumerate st.datae front.2.1).2 }, st.D[front.2.2], false) h
  cases hr : enumerate_terms e x phi front.1 front.2.2 (e.enumerate st.datae front.2.1).1
      ({ st with datae := (e.enumerate st.datae front.2.1).2 }, st.D[front.2.2], false) with
  | error f =>
    rw [hr] at ht
    cases f with
    | stop_early st1 => exact ht
    | out_of_bounds => exact ht
    | out_of_fuel => trivial
  | ok r =>
    obtain ⟨st1, Dk1, b⟩ := r
    rw [hr] at ht
    have ht1 : todo_invariant x st1 ∧
        queue_grows { st with datae := (e.enumerate st.datae front.2.1).2 } st1 := ht
    have hk1 : front.2.2 < st1.D.length := by
      rw [ht1.1.1]
      exact hkx
    simp only [hk1, if_true]
    refine ⟨⟨?_, ht1.1.2⟩, ?_, ht1.2.2⟩
    · show (st1.D.set front.2.2 Dk1).length = x.length
      rw [List.length_set]
      exact ht1.1.1
    · show (st1.D.set front.2.2 Dk1).length = st.D.length
      rw [List.length_set]
      exact ht1.2.1

/-- The `while` loop keeps the invariant of `todo`. -/
theorem enumerate_loop_ends {V T P G : Type} [DecidableEq V] [DecidableEq P]
    (e : Enumeration V T P G) (x : List V) (phi : P) :
    ∀ (fuel : Nat) (st : State V T P G), todo_invariant x st →
      ends_with (todo_invariant x) id (enumerate_loop e x phi fuel st) := by
  intro fuel
  induction fuel with
  | zero =>
    intro st h
    unfold enumerate_loop
    split
    · exact h
    · trivial
  | succ fuel ih =>
    intro st h
    unfold enumerate_loop
    split
    · exact h
    · rename_i front rest hq
      have h1 : todo_invariant x { st with todo := rest } :=
        ⟨h.1, fun el hel => h.2 el (by rw [hq]; exact List.mem_cons_of_mem _ hel)⟩
      have hk : x[front.2.2]? = some front.1 := h.2 front (by rw [hq]; exact List.mem_cons_self _ _)
      have hp := (process_front_ends e x phi front _ h1 hk).2
      simp only []
      cases hr : process_front e x phi front { st with todo := rest } with
      | error f =>
        rw [hr] at hp
        cases f with
        | stop_early st1 => exact hp.1
        | out_of_bounds => exact hp
        | out_of_fuel => trivial
      | ok st1 =>
        rw [hr] at hp
        exact ih st1 hp.1

/-- The loop that fills `D` and `todo`: the counter `j` is an `unsigned int`, and it is
the index of the variable as long as `x` has at most `2^32` variables. -/
theorem fill_D_and_todo_invariant {V T P G : Type} (e : Enumeration V T P G) :
    ∀ (rest filled : List V) (acc : List (List T) × List (V × T × Nat)),
      (filled ++ rest).length ≤ 4294967296 →
      acc.1.length = filled.length →
      (∀ el ∈ acc.2, (filled ++ rest)[el.2.2]? = some el.1) →
      (fill_D_and_todo e rest filled.length acc).1.length = (filled ++ rest).length ∧
      ∀ el ∈ (fill_D_and_todo e rest filled.length acc).2,
        (filled ++ rest)[el.2.2]? = some el.1
  | [], filled, acc, _, hD, ht => by
    simp only [fill_D_and_todo, List.append_nil] at *
    exact ⟨hD, ht⟩
  | i :: rest, filled, (D, todo), hlen, hD, ht => by
    simp only [fill_D_and_todo]
    have hlt : filled.length + 1 ≤ 4294967296 := by
      simp only [List.length_append, List.length_cons] at hlen
      omega
    have hj : (filled.length + 1) % 4294967296 = (filled ++ [i]).length ∨
        rest = [] := by
      rcases Nat.lt_or_ge (filled.length + 1) 4294967296 with h1 | h1
      · left
        rw [Nat.mod_eq_of_lt h1]
        simp
      · right
        simp only [List.length_append, List.length_cons] at hlen
        have : rest.length = 0 := by omega
        exact List.length_eq_zero.1 this
    have happ : filled ++ i :: rest = (filled ++ [i]) ++ rest := by simp
    have ht1 : ∀ el ∈ todo ++ [(i, e.variable2term i, filled.length)],
        (filled ++ i :: rest)[el.2.2]? = some el.1 := by
      intro el hel
      rcases List.mem_append.1 hel with h5 | h5
      · exact ht el h5
      · rw [List.mem_singleton.1 h5]
        show (filled ++ i :: rest)[filled.length]? = some i
        rw [List.getElem?_append_right (le_refl _)]
        simp
    rcases hj with hj | hj
    · rw [hj, happ]
      refine fill_D_and_todo_invariant e rest (filled ++ [i]) _ ?_ ?_ ?_
      · rw [← happ]
        exact hlen
      · simp only [List.length_append, List.length_cons, List.length_nil]
        have : D.length = filled.length := hD
        omega
      · rw [← happ]
        exact ht1
    · subst hj
      simp only [fill_D_and_todo]
      refine ⟨?_, ht1⟩
      simp only [List.length_append, List.length_cons, List.length_nil]
      have : D.length = filled.length := hD
      omega

theorem initial_state_invariant {V T P G : Type} (e : Enumeration V T P G) (x : List V)
    (sigma : V → Option T) (datae : G) (hx : x.length ≤ 4294967296) :
    todo_invariant x (initial_state e x sigma datae) := by
  have h := fill_D_and_todo_invariant e x [] ([], []) hx rfl
    (fun el hel => by cases hel)
  exact h

/-- C33. In `enumerate_quantifiers`, for every variable sequence `x` (of at most `2^32`
variables, the range of the counter `j`), every enumerator, rewriter and stop criterion:
every element `(v, t, k)` of the queue `todo` satisfies `v == x[k]` with `k < |x|`, and
`D` has `|x|` entries, after the initialisation and after every round of the `while`
loop, also in the state in which the loop is stopped early; a round only pushes elements
at the back of the queue, so that every element ever placed on it is covered; the access
`D[k]` for a dequeued element is in bounds, and no round, and so neither the loop nor
`enumerate_quantifiers`, ends with an access out of bounds. -/
theorem todo_queue_invariant {V T P G : Type} [DecidableEq V] [DecidableEq P]
    (e : Enumeration V T P G) (x : List V) (phi : P) (sigma : V → Option T) (datae : G)
    (hx : x.length ≤ 4294967296) :
    todo_invariant x (initial_state e x sigma datae) ∧
    (∀ (st : State V T P G) (front : V × T × Nat) (rest : List (V × T × Nat)),
      todo_invariant x st → st.todo = front :: rest →
      x[front.2.2]? = some front.1 ∧ front.2.2 < x.length ∧ front.2.2 < st.D.length ∧
      process_front e x phi front { st with todo := rest } ≠ .error .out_of_bounds ∧
      (∀ st1, process_front e x phi front { st with todo := rest } = .ok st1 →
        todo_invariant x st1 ∧ rest <+: st1.todo) ∧
      (∀ st1, process_front e x phi front { st with todo := rest } =
          .error (.stop_early st1) → todo_invariant x st1 ∧ rest <+: st1.todo)) ∧
    (∀ fuel, enumerate_loop e x phi fuel (initial_state e x sigma datae) ≠
        .error .out_of_bounds ∧
      (∀ st1, enumerate_loop e x phi fuel (initial_state e x sigma datae) = .ok st1 →
        todo_invariant x st1) ∧
      (∀ st1, enumerate_loop e x phi fuel (initial_state e x sigma datae) =
          .error (.stop_early st1) → todo_invariant x st1)) ∧
    (∀ fuel stop_value, enumerate_quantifiers e x phi sigma datae stop_value fuel ≠
        .error .out_of_bounds) := by
  have h0 := initial_state_invariant e x sigma datae hx
  refine ⟨h0, ?_, ?_, ?_⟩
  · intro st front rest h hq
    have h1 : todo_invariant x { st with todo := rest } :=
      ⟨h.1, fun el hel => h.2 el (by rw [hq]; exact List.mem_cons_of_mem _ hel)⟩
    have hk : x[front.2.2]? = some front.1 :=
      h.2 front (by rw [hq]; exact List.mem_cons_self _ _)
    have hp := process_front_ends e x phi front _ h1 hk
    have hkx : front.2.2 < x.length := by
      rw [← h.1]
      exact hp.1
    refine ⟨hk, hkx, hp.1, ?_, ?_, ?_⟩
    · intro hr
      have := hp.2
      rw [hr] at this
      exact this
    · intro st1 hr
      have := hp.2
      rw [hr] at this
      exact ⟨this.1, this.2.2⟩
    · intro st1 hr
      have := hp.2
      rw [hr] at this
      exact ⟨this.1, this.2.2⟩
  · intro fuel
    have hl := enumerate_loop_ends e x phi fuel _ h0
    refine ⟨?_, ?_, ?_⟩
    · intro hr
      rw [hr] at hl
      exact hl
    · intro st1 hr
      rw [hr] at hl
      exact hl
    · intro st1 hr
      rw [hr] at hl
      exact hl
  · intro fuel stop_value hr
    have hl := enumerate_loop_ends e x phi fuel _ h0
    unfold enumerate_quantifiers at hr
    split at hr
    · cases hr
    · rename_i a ha hne
      cases hr
      rw [hne] at hl
      exact hl
    · cases hr

theorem todo_queue_invariant_witness :
    [0, 1].length ≤ 4294967296 ∧
    todo_invariant [0, 1] (initial_state (example_enumeration true) [0, 1] (fun _ => none) 0) ∧
    (∀ fuel stop_value, enumerate_quantifiers (example_enumeration true) [0, 1] 2
        (fun _ => none) 0 stop_value fuel ≠ .error .out_of_bounds) :=
  ⟨by decide,
   (todo_queue_invariant (example_enumeration true) [0, 1] 2 (fun _ => none) 0
      (by decide)).1,
   (todo_queue_invariant (example_enumeration true) [0, 1] 2 (fun _ => none) 0
      (by decide)).2.2.2⟩

end mcrl2.pbes_system.detail

namespace mcrl2.pbes_system.detail

/-! ## C34: the substitutions that `enumerate_quantifiers` adds -/

theorem foldl_sigma_erase {V T : Type} [DecidableEq V] (v : V) :
    ∀ (x : List V) (sigma : V → Option T),
      (x.foldl sigma_erase sigma) v = if v ∈ x then none else sigma v
  | [], sigma => by simp
  | i :: x, sigma => by
    rw [List.foldl_cons, foldl_sigma_erase v x]
    by_cases hx : v ∈ x
    · simp [hx]
    · by_cases hi : v = i
      · simp [hx, hi, sigma_erase]
      · simp [hx, hi, sigma_erase]

/-- When `enumerate_quantifiers` returns the joined result, `sigma` has no binding for a
variable of `x`; when it returns `stop_value` after an early stop, `sigma` is as it was
at the stop. -/
theorem enumerate_quantifiers_sigma {V T P G : Type} [DecidableEq V] [DecidableEq P]
    (e : Enumeration V T P G) (x : List V) (phi : P) (sigma : V → Option T) (datae : G)
    (stop_value : P) (fuel : Nat) :
    (∀ st, enumerate_loop e x phi fuel (initial_state e x sigma datae) = .ok st →
      ∃ r, enumerate_quantifiers e x phi sigma datae stop_value fuel = .ok r ∧
        r.1 = e.join st.A ∧ (∀ v ∈ x, r.2.1 v = none) ∧
        ∀ v, v ∉ x → r.2.1 v = st.sigma v) ∧
    (∀ st, enumerate_loop e x phi fuel (initial_state e x sigma datae) =
        .error (.stop_early st) →
      enumerate_quantifiers e x phi sigma datae stop_value fuel =
        .ok (stop_value, st.sigma, st.datae)) := by
  constructor
  · intro st h
    refine ⟨(e.join st.A, x.foldl sigma_erase st.sigma, st.datae), ?_, rfl, ?_, ?_⟩
    · simp only [enumerate_quantifiers, h]
    · intro v hv
      show (x.foldl sigma_erase st.sigma) v = none
      rw [foldl_sigma_erase, if_pos hv]
    · intro v hv
      show (x.foldl sigma_erase st.sigma) v = st.sigma v
      rw [foldl_sigma_erase, if_neg hv]
  · intro st h
    simp only [enumerate_quantifiers, h]

/-- C34 (the code at the failing input). For the variable sequence `[0]`, the formula
that is the value of the variable 0, an empty `sigma` and the stop criterion `is_false`,
the first enumerated term 0 makes the formula `false`: `enumerate_quantifiers` stops
early and returns `stop_value`, and `sigma` still binds the variable 0 of `x` to the
term 0.  Without the stop criterion the call returns the joined result `false`, and
`sigma` has no binding for the variable 0. -/
theorem enumerate_quantifiers_keeps_substitution_after_stop :
    (∃ r, enumerate_quantifiers (example_enumeration true) [0] 2 (fun _ => none) 0 0 10 =
        .ok r ∧ r.1 = 0 ∧ r.2.1 0 = some 0) ∧
    (∃ st, enumerate_loop (example_enumeration true) [0] 2 10
        (initial_state (example_enumeration true) [0] (fun _ => none) 0) =
          .error (.stop_early st)) ∧
    (∃ r, enumerate_quantifiers (example_enumeration false) [0] 2 (fun _ => none) 0 0 10 =
        .ok r ∧ r.1 = 0 ∧ r.2.1 0 = none) :=
  ⟨⟨_, rfl, rfl, rfl⟩, ⟨_, rfl⟩, ⟨_, rfl, rfl, rfl⟩⟩

end mcrl2.pbes_system.detail

namespace atermpp

/-! ## C35 and C36: `total_nodes`, the chains and the size of the table -/

theorem chain_lengths_eq (s : Store) : chain_lengths s = (nodes s).length := by
  have h : ∀ l : List (List Nat), (l.map List.length).sum = l.flatten.length := by
    intro l
    induction l with
    | nil => rfl
    | cons c l ih => rw [List.map_cons, List.sum_cons, List.flatten_cons, List.length_append, ih]
  exact h s.hashtable

theorem keeps_count_refl (s : Store) : keeps_count s s := fun h => ⟨h, le_refl _⟩

theorem keeps_count_trans {s s1 s2 : Store} (h1 : keeps_count s s1)
    (h2 : keeps_count s1 s2) : keeps_count s s2 := fun h =>
  ⟨(h2 (h1 h).1).1, (h2 (h1 h).1).2.trans (h1 h).2⟩

theorem keeps_count_write (s : Store) (a : Nat) (t : _aterm) : keeps_count s (s.write a t) :=
  fun h => ⟨h, le_refl _⟩

theorem keeps_count_push (s : Store) (size : Nat) (ti : TermInfo) :
    keeps_count s (s.set_terminfo size ti) :=
  fun h => ⟨h, le_refl _⟩

/-- `AT_freeTerm` keeps the count: the node it takes from a chain is one node of the
table, and `total_nodes`, which is not zero then, is decremented. -/
theorem AT_freeTerm_keeps_count (cfg : Config) (t : Nat) (s s1 : Store)
    (h : AT_freeTerm cfg t s = .ok s1) : keeps_count s s1 := by
  rcases AT_freeTerm_cases cfg t s s1 h with
    ⟨chain, chain1, hb, hu, hs⟩ | ⟨chain, -, -, -, -, hs⟩
  · intro hc
    have hp := (nodes_unlink_perm s (bucket_of cfg s t) t chain chain1 hb hu).length_eq
    simp only [List.length_cons] at hp
    have hn : nodes s1 = nodes (s.set_bucket (bucket_of cfg s t) chain1) := by
      rw [hs]
      rfl
    have ht : s1.total_nodes = size_t_dec s.total_nodes := by
      rw [hs]
    have hd : size_t_dec s.total_nodes = s.total_nodes - 1 := by
      unfold size_t_dec
      rw [if_neg (by omega)]
    rw [hn, ht, hd]
    omega
  · rw [hs]
    exact keeps_count_refl _

theorem assign_default_aterm_keeps_count (cfg : Config)
    (reduce : Nat → Store → Except Fault Store)
    (hr : ∀ a s s1, reduce a s = .ok s1 → keeps_count s s1) (t i : Nat) (s s1 : Store)
    (h : assign_default_aterm cfg reduce t i s = .ok s1) : keeps_count s s1 := by
  unfold assign_default_aterm at h
  simp only [] at h
  split at h
  · cases h
  · rename_i s3 h3
    have r2 : keeps_count s (increase_reference_count cfg.default_aterm
        (increase_reference_count cfg.default_aterm s)) :=
      keeps_count_trans (keeps_count_write _ _ _) (keeps_count_write _ _ _)
    have r3 := keeps_count_trans r2 (hr _ _ _ h3)
    have r4 := keeps_count_trans r3 (keeps_count_write s3 t { s3.mem t with
      arg := fun j => if j = i then cfg.default_aterm else (s3.mem t).arg j })
    exact keeps_count_trans r4 (hr _ _ _ h)

theorem free_arguments_keeps_count (cfg : Config)
    (reduce : Nat → Store → Except Fault Store)
    (hr : ∀ a s s1, reduce a s = .ok s1 → keeps_count s s1) (t n i : Nat) (s s1 : Store)
    (h : free_arguments cfg reduce t n i s = .ok s1) : keeps_count s s1 := by
  induction n generalizing i s with
  | zero =>
    unfold free_arguments at h
    split at h
    · cases h
    · cases h
      exact keeps_count_refl _
  | succ n ih =>
    unfold free_arguments at h
    split at h
    · simp only [] at h
      split at h
      · cases h
      · rename_i s2 h2
        have st : keeps_count s s2 := by
          cases hn : cfg.ndebug
          · rw [hn] at h2
            exact assign_default_aterm_keeps_count cfg reduce hr t i s s2 h2
          · rw [hn] at h2
            exact hr _ _ _ h2
        exact keeps_count_trans st (ih (i + 1) s2 h)
    · cases h
      exact keeps_count_refl _

theorem at_free_term_body_keeps_count (cfg : Config)
    (reduce : Nat → Store → Except Fault Store)
    (hr : ∀ a s s1, reduce a s = .ok s1 → keeps_count s s1) (n t : Nat) (s s1 : Store)
    (h : at_free_term_body cfg reduce n t s = .ok s1) : keeps_count s s1 := by
  unfold at_free_term_body at h
  split at h
  · cases h
    exact keeps_count_refl _
  · split at h
    · cases h
    · simp only [] at h
      split at h
      · cases h
      · rename_i sa ha
        split at h
        · cases h
        · rename_i sb hb
          cases h
          have r1 := AT_freeTerm_keeps_count cfg t s sa ha
          have r2 := free_arguments_keeps_count cfg reduce hr t n 0 sa sb hb
          have r3 := keeps_count_trans (keeps_count_trans r1 r2) (keeps_count_write sb t
            { sb.mem t with m_function_symbol := cfg.AS_DEFAULT })
          exact keeps_count_trans r3 (keeps_count_push _ _ _)

/-- A release keeps the count of the nodes, whatever the cascade frees. -/
theorem at_reduce_reference_count_keeps_count (cfg : Config) (fuel t : Nat) (s s1 : Store)
    (h : at_reduce_reference_count cfg fuel t s = .ok s1) : keeps_count s s1 := by
  induction fuel generalizing t s s1 with
  | zero => cases h
  | succ fuel ih =>
    unfold at_reduce_reference_count at h
    split at h
    · cases h
    · simp only [] at h
      have r1 := keeps_count_write s t { s.mem t with
        reference_count := size_t_dec (s.mem t).reference_count }
      split at h
      · exact keeps_count_trans r1
          (at_free_term_body_keeps_count cfg _ (fun a s s1 => ih a s s1) fuel t _ _ h)
      · cases h
        exact r1

/-- The constructor `aterm_int` keeps the count of the nodes: it leaves the table and
`total_nodes` as they are, or it adds the node of `AT_allocate`, which has counted it, to
one chain. -/
theorem aterm_int_counted (cfg : Config) (env : Env) (v : Int) (s : Store) (n : Nat)
    (s1 : Store) (hc : s.total_nodes = (nodes s).length)
    (h : aterm_int cfg env v s = .ok (n, s1)) :
    s1.total_nodes = (nodes s1).length ∧
    ((s1.total_nodes = s.total_nodes ∧ same_table_variables s s1) ∨
      ∃ sa, AT_allocate cfg env cfg.TERM_SIZE_INT s = .ok (n, sa) ∧
        s1.total_nodes = sa.total_nodes ∧ same_table_variables sa s1) := by
  rcases aterm_int_cases cfg env v s n s1 h with
    ⟨chain, hb, hf, hs, -⟩ | ⟨chain, sa, chain1, hb, hf, hal, hb1, hs, -⟩
  · subst hs
    exact ⟨hc, Or.inl ⟨rfl, rfl, rfl, rfl, rfl⟩⟩
  · obtain ⟨a1, -, -, a4⟩ := AT_allocate_frame cfg env _ s n sa hal
    subst hs
    have hp := ((nodes_set_bucket_cons (sa.write n (int_node cfg (int_word v) (sa.mem n)))
      _ n chain1 hb1).trans (a1.cons n)).length_eq
    simp only [List.length_cons] at hp
    refine ⟨?_, Or.inr ⟨sa, hal, rfl, rfl, rfl, rfl, ?_⟩⟩
    · show sa.total_nodes = _
      rw [a4, hc]
      exact hp.symm
    · simp [increase_reference_count, Store.write, Store.set_bucket]

/-- The constructor `aterm` keeps the count of the nodes: it moves a node to the front of
its chain, or it adds the node of `AT_allocate`, which has counted it, to one chain. -/
theorem aterm_counted (cfg : Config) (env : Env) (sym : Nat) (s : Store) (n : Nat)
    (s1 : Store) (hc : s.total_nodes = (nodes s).length)
    (h : aterm cfg env sym s = .ok (n, s1)) :
    s1.total_nodes = (nodes s1).length ∧
    ((s1.total_nodes = s.total_nodes ∧ same_table_variables s s1) ∨
      ∃ sa, AT_allocate cfg env (cfg.TERM_SIZE_APPL 0) s = .ok (n, sa) ∧
        s1.total_nodes = sa.total_nodes ∧ same_table_variables sa s1) := by
  obtain ⟨-, hcases⟩ := aterm_cases cfg env sym s n s1 h
  rcases hcases with ⟨chain, others, hb, hf, hs⟩ | ⟨chain, sa, chain1, hb, hf, hal, hb1, hs⟩
  · subst hs
    have hp : (nodes (s.set_bucket (cfg.FINISH (cfg.START sym) &&& s.table_mask)
        (n :: others))).Perm (nodes s) :=
      flatten_set_perm s.hashtable _ chain (n :: others) hb
        (unlink_perm n chain others (find_symbol_some _ _ _ _ _ hf).2.1)
    refine ⟨?_, Or.inl ⟨rfl, rfl, rfl, rfl, ?_⟩⟩
    · show s.total_nodes = _
      rw [hc]
      exact hp.length_eq.symm
    · simp [increase_reference_count, Store.write, Store.set_bucket]
  · obtain ⟨a1, -, -, a4⟩ := AT_allocate_frame cfg env _ s n sa hal
    subst hs
    have hp := ((nodes_set_bucket_cons (sa.write n { sa.mem n with m_function_symbol := sym })
      _ n chain1 hb1).trans (a1.cons n)).length_eq
    simp only [List.length_cons] at hp
    refine ⟨?_, Or.inr ⟨sa, hal, rfl, rfl, rfl, rfl, ?_⟩⟩
    · show sa.total_nodes = _
      rw [a4, hc]
      exact hp.symm
    · simp [increase_reference_count, Store.write, Store.set_bucket]

theorem initial_store_counted (k : Nat) :
    (initial_store k).total_nodes = (nodes (initial_store k)).length := by
  have hn : nodes (initial_store k) = [] := flatten_replicate_nil _
  rw [hn]
  rfl

/-- In every store that the constructors and the releases reach, `total_nodes` is the
number of nodes of the table. -/
theorem constructed_counted {cfg : Config} {P : Env → Prop} {s : Store}
    (h : Constructed cfg P s) : s.total_nodes = (nodes s).length := by
  induction h with
  | initial k => exact initial_store_counted k
  | aterm_int env v s n s1 _ _ hrun ih => exact (aterm_int_counted cfg env v s n s1 ih hrun).1
  | aterm env sym s n s1 _ _ hrun ih => exact (aterm_counted cfg env sym s n s1 ih hrun).1
  | at_reduce_reference_count fuel t s s1 _ hrun ih =>
    exact (at_reduce_reference_count_keeps_count cfg fuel t s s1 hrun ih).1

/-- In the stores between public operations, where the lists of this embedding stand for
the links of the source, `total_nodes` counts the nodes of the table: it is the sum of the
lengths of the bucket chains of the hash table. -/
theorem total_nodes_counts_chains (cfg : Config)
    (hint : cfg.TERM_SIZE_INT = cfg.ARG_OFFSET + 1)
    (happl : cfg.TERM_SIZE_APPL 0 ≤ cfg.ARG_OFFSET) (harity : cfg.arity cfg.AS_INT = 0)
    (hblock : cfg.TERM_SIZE_INT ≤ cfg.BLOCK_SIZE)
    (s : Store) (handles : Nat → Nat) (hp : Public cfg s handles) :
    s.total_nodes = (s.hashtable.map List.length).sum := by
  obtain ⟨k, -, hS⟩ := (hp.kept hint happl harity hblock).sound
  exact hS.counted.trans (chain_lengths_eq s).symm

/-- Between the operations the count is off: after `AT_allocate`, which has counted the
new cell, and before the constructor has put the cell on a chain, `total_nodes` is one
more than the number of nodes on the chains. -/
theorem AT_allocate_counts_ahead :
    ∃ n s1, AT_allocate (example_config true) (example_env 2000) 4 store_with_5
        = .ok (n, s1) ∧
      s1.total_nodes = 2 ∧ (s1.hashtable.map List.length).sum = 1 :=
  ⟨_, _, rfl, by decide, by decide⟩

end atermpp

namespace atermpp.linked

/-! ## C35: `total_nodes` and the bucket chains in the store with the field `next` -/

/-- C35 (the code at the failing input), in the embedding that keeps the field `next`, in
a release build.  `aterm_int(5)` in the initial store of class 2, the release of its
node, `aterm_int(0)` and `aterm(AS_INT)` return, with the nodes at 1000, 1004 and 3000.
Then `total_nodes` is 2 and the chains hold the two nodes at 3000 and 1004; the node at
1000 is on the free list of the size class 4.  The release of the node at 3000, which
`aterm(AS_INT)` has put on the chain of bucket 1, returns: `AT_freeTerm` looks for the
node in bucket 2, the bucket of its hash as an integer, reaches the end of that chain
without meeting it and returns without the `throw`, and `at_free_term` links the node,
which is still on the chain of bucket 1, in front of the free list.  Afterwards
`total_nodes` is 2 and the chains of the hash table hold three nodes: the chain of
bucket 1 runs on into the free list.  In a debug build the same release stops at
`assert(0)`, and with an empty bucket 2 (without `aterm_int(0)`) `AT_freeTerm` throws. -/
theorem total_nodes_is_not_chain_length :
    aterm_int (example_config true) (example_env 1000) 8 5 (initial_store 2)
      = .ok (1000, store_5) ∧
    at_reduce_reference_count (example_config true) 8 1000 store_5 = .ok store_released_5 ∧
    aterm_int (example_config true) (example_env 2000) 8 0 store_released_5
      = .ok (1004, store_released_5_0) ∧
    aterm (example_config true) (example_env 3000) 8 (example_config true).AS_INT
      store_released_5_0 = .ok (3000, store_before_release) ∧
    store_before_release =
      { mem := [(3000, { m_function_symbol := 1, reference_count := 1, next := none,
                         arg := [] }),
                (1004, { m_function_symbol := 1, reference_count := 1, next := none,
                         arg := [0] }),
                (1000, { m_function_symbol := 0, reference_count := 0, next := none,
                         arg := [5] })],
        terminfo := [(3, { at_block := [{ data := 3000, end_ := 11190, size := 3 }],
                           top_at_blocks := 3003, at_freelist := none }),
                     (4, { at_block := [{ data := 1000, end_ := 9192, size := 4 }],
                           top_at_blocks := 1008, at_freelist := some 1000 })],
        total_nodes := 2, table_class := 2, table_size := 4, table_mask := 3,
        hashtable := [none, some 3000, some 1004, none] } ∧
    chains 8 store_before_release = [some [], some [3000], some [1004], some []] ∧
    chain store_before_release 8 (store_before_release.info 4).at_freelist = some [1000] ∧
    at_reduce_reference_count (example_config true) 8 3000 store_before_release
      = .ok store_after_release ∧
    store_after_release =
      { mem := [(3000, { m_function_symbol := 0, reference_count := 0, next := some 1000,
                         arg := [] }),
                (1004, { m_function_symbol := 1, reference_count := 1, next := none,
                         arg := [0] }),
                (1000, { m_function_symbol := 0, reference_count := 0, next := none,
                         arg := [5] })],
        terminfo := [(4, { at_block := [{ data := 1000, end_ := 9192, size := 4 }],
                           top_at_blocks := 1008, at_freelist := some 3000 }),
                     (3, { at_block := [{ data := 3000, end_ := 11190, size := 3 }],
                           top_at_blocks := 3003, at_freelist := none })],
        total_nodes := 2, table_class := 2, table_size := 4, table_mask := 3,
        hashtable := [none, some 3000, some 1004, none] } ∧
    chains 8 store_after_release = [some [], some [3000, 1000], some [1004], some []] ∧
    ((chains 8 store_after_release).map (fun c => (c.getD []).length)).sum = 3 ∧
    store_after_release.total_nodes = 2 ∧
    chain store_after_release 8 (store_after_release.info 4).at_freelist
      = some [3000, 1000] ∧
    at_reduce_reference_count (example_config false) 8 3000 store_before_release
      = .error .assertion_failed ∧
    aterm (example_config true) (example_env 3000) 8 (example_config true).AS_INT
      store_released_5 = .ok (3000, store_without_0) ∧
    at_reduce_reference_count (example_config true) 8 3000 store_without_0
      = .error .runtime_error :=
  ⟨by decide!, by decide!, by decide!, by decide!, by decide!, by decide!, by decide!,
    by decide!, by decide!, by decide!, by decide!, by decide!, by decide!, by decide!,
    by decide!, by decide!⟩

/-- On the stores of the trace before the last release the two embeddings agree: every
operation returns the same node in both, the chains that follow the field `next` are the
lists of the first embedding, and `total_nodes` is the same.  After the last release they
differ: the first embedding still has the node at 3000 alone on the chain of bucket 1. -/
theorem chains_agree_before_release :
    (atermpp.aterm_int (example_config true) (example_env 1000) 5
        (atermpp.initial_store 2)).map (fun p => (p.1, list_view p.2))
      = .ok (1000, store_5.view) ∧
    list_view list_store_5 = store_5.view ∧
    (atermpp.at_reduce_reference_count (example_config true) 8 1000 list_store_5).map
        list_view = .ok store_released_5.view ∧
    list_view list_store_released_5 = store_released_5.view ∧
    (atermpp.aterm_int (example_config true) (example_env 2000) 0
        list_store_released_5).map (fun p => (p.1, list_view p.2))
      = .ok (1004, store_released_5_0.view) ∧
    list_view list_store_released_5_0 = store_released_5_0.view ∧
    (atermpp.aterm (example_config true) (example_env 3000) (example_config true).AS_INT
        list_store_released_5_0).map (fun p => (p.1, list_view p.2))
      = .ok (3000, store_before_release.view) ∧
    list_view list_store_before_release = store_before_release.view ∧
    store_before_release.view
      = ([some [], some [3000], some [1004], some []], 2, some [1000]) ∧
    (atermpp.at_reduce_reference_count (example_config true) 8 3000
        list_store_before_release).map list_view
      = .ok ([some [], some [3000], some [1004], some []], 2, some [3000, 1000]) ∧
    store_after_release.view
      = ([some [], some [3000, 1000], some [1004], some []], 2, some [3000, 1000]) :=
  ⟨by decide!, by decide!, by decide!, by decide!, by decide!, by decide!, by decide!,
    by decide!, by decide!, by decide!, by decide!⟩

/-- A node that is pushed while it is on a free list takes the rest of that list with it.
After `aterm_int(2)`, `aterm_int(6)` and `aterm_int(10)` in the initial store of class 2
and the release of the nodes of 2 and 6 (release build), the node of 10, at 1008, is on
the chain of bucket 0 and the free list of the size class 4 holds the nodes at 1004 and
1000.  A further `at_free_term` on the node at 1004, which now has the default symbol and
so the size 3, returns, `AT_freeTerm` reaching the end of the chain of bucket 0 without
the `throw`, and pushes the node on the free list of the size class 3: the free list of
the size class 4 has lost the node at 1000. -/
theorem at_free_term_truncates_free_list :
    aterm_int (example_config true) (example_env 1000) 8 2 (initial_store 2)
      = .ok (1000, store_2) ∧
    aterm_int (example_config true) (example_env 2000) 8 6 store_2 = .ok (1004, store_2_6) ∧
    aterm_int (example_config true) (example_env 2000) 8 10 store_2_6
      = .ok (1008, store_2_6_10) ∧
    at_reduce_reference_count (example_config true) 8 1000 store_2_6_10
      = .ok store_one_free ∧
    at_reduce_reference_count (example_config true) 8 1004 store_one_free
      = .ok store_two_free ∧
    chains 8 store_two_free = [some [1008], some [], some [], some []] ∧
    chain store_two_free 8 (store_two_free.info 4).at_freelist = some [1004, 1000] ∧
    chain store_two_free 8 (store_two_free.info 3).at_freelist = some [] ∧
    at_free_term (example_config true) 8 1004 store_two_free = .ok store_free_again ∧
    chain store_free_again 8 (store_free_again.info 4).at_freelist = some [1004] ∧
    chain store_free_again 8 (store_free_again.info 3).at_freelist = some [1004] :=
  ⟨by decide!, by decide!, by decide!, by decide!, by decide!, by decide!, by decide!,
    by decide!, by decide!, by decide!, by decide!⟩

end atermpp.linked

namespace atermpp

/-- The condition of C36 on the growth cannot be dropped: in the full table of two
buckets, an `aterm_int` whose growth fails keeps the table and adds a third node. -/
theorem load_factor_needs_growth :
    store_full.total_nodes = 2 ∧ store_full.table_size = 2 ∧
    ∃ n s1, aterm_int (example_config true) { bad_alloc := true, calloc := some 3000 } 7
        store_full = .ok (n, s1) ∧ s1.total_nodes = 3 ∧ s1.table_size = 2 ∧
      (s1.hashtable.map List.length).sum = 3 :=
  ⟨by decide, by decide, _, _, rfl, by decide, by decide, by decide⟩

end atermpp

namespace atermpp

/-! ## C37: the slots and their block -/

/-- A new block of a size class of at most `BLOCK_SIZE` words has room for a cell, and
its cells end within the `BLOCK_SIZE` words of the block. -/
theorem allocate_block_fits (cfg : Config) (env : Env) (size : Nat) (s s1 : Store)
    (hpos : 0 < size) (hsize : size ≤ cfg.BLOCK_SIZE)
    (h : allocate_block cfg env size s = .ok s1) :
    blocks_fit cfg s1 size ∧
    ∃ b, (s1.terminfo size).at_block.head? = some b ∧
      (s1.terminfo size).top_at_blocks = b.data ∧ b.data + size ≤ b.end_ := by
  obtain ⟨data, -, hs1⟩ := allocate_block_ok cfg env size s s1 h
  have hti : s1.terminfo size = { s.terminfo size with
      at_block := { data := data,
                    end_ := data + (cfg.BLOCK_SIZE - cfg.BLOCK_SIZE % size),
                    size := size } :: (s.terminfo size).at_block,
      top_at_blocks := data } := by
    rw [hs1]
    simp [Store.set_terminfo]
  have hdvd : size ∣ cfg.BLOCK_SIZE - cfg.BLOCK_SIZE % size :=
    Nat.dvd_sub_mod cfg.BLOCK_SIZE
  have hle : size ≤ cfg.BLOCK_SIZE - cfg.BLOCK_SIZE % size := by
    have h1 : 0 < cfg.BLOCK_SIZE - cfg.BLOCK_SIZE % size := by
      have h2 : cfg.BLOCK_SIZE % size < size := Nat.mod_lt _ hpos
      omega
    exact Nat.le_of_dvd h1 hdvd
  constructor
  · intro b hb
    rw [hti] at hb ⊢
    simp only [List.head?_cons, Option.some.injEq] at hb
    subst hb
    refine ⟨le_refl _, Nat.le_add_right _ _, ?_, ?_⟩
    · simp only [Nat.add_sub_cancel_left]
      exact hdvd
    · exact Nat.add_le_add_left (Nat.sub_le _ _) _
  · refine ⟨_, by rw [hti]; rfl, by rw [hti], ?_⟩
    exact Nat.add_le_add_left hle _

/-- A cell taken at the bump pointer of a block in which the cells fit lies in the block,
and the cells still fit afterwards: the pointer is at the end of the cell. -/
theorem bump_allocate_fits (cfg : Config) (size : Nat) (s : Store) (b : Block)
    (hpos : 0 < size) (hfit : blocks_fit cfg s size)
    (hb : (s.terminfo size).at_block.head? = some b)
    (hroom : (s.terminfo size).top_at_blocks < b.end_) :
    ((bump_allocate cfg size s).2.terminfo size).at_block = (s.terminfo size).at_block ∧
    ((bump_allocate cfg size s).2.terminfo size).top_at_blocks =
      (bump_allocate cfg size s).1 + size ∧
    b.data ≤ (bump_allocate cfg size s).1 ∧
    (bump_allocate cfg size s).1 + size ≤ b.end_ ∧
    b.end_ ≤ b.data + cfg.BLOCK_SIZE ∧
    blocks_fit cfg (bump_allocate cfg size s).2 size := by
  obtain ⟨f1, f2, f3, f4⟩ := hfit b hb
  have hslot : (bump_allocate cfg size s).1 = (s.terminfo size).top_at_blocks := rfl
  have hblock : ((bump_allocate cfg size s).2.terminfo size).at_block =
      (s.terminfo size).at_block := by
    simp [bump_allocate, Store.set_terminfo, Store.write]
  have htop : ((bump_allocate cfg size s).2.terminfo size).top_at_blocks =
      (s.terminfo size).top_at_blocks + size := by
    simp [bump_allocate, Store.set_terminfo, Store.write]
  have hle : (s.terminfo size).top_at_blocks + size ≤ b.end_ := by
    have h1 : size ≤ b.end_ - (s.terminfo size).top_at_blocks :=
      Nat.le_of_dvd (by omega) f3
    omega
  refine ⟨hblock, by rw [htop, hslot], by rw [hslot]; exact f1, by rw [hslot]; exact hle,
    f4, ?_⟩
  intro b1 hb1
  rw [hblock, hb] at hb1
  cases hb1
  rw [htop]
  refine ⟨by omega, hle, ?_, f4⟩
  have e : b.end_ - ((s.terminfo size).top_at_blocks + size) =
      b.end_ - (s.terminfo size).top_at_blocks - size := by omega
  rw [e]
  exact Nat.dvd_sub' f3 (dvd_refl _)

/-- For a size class of at most `BLOCK_SIZE` words, `AT_allocate` keeps the cells fitting
their blocks, and the slot it returns is the head of the free list or a slot taken at the
bump pointer that lies in the newest block; the bump pointer is then at the end of the
slot, so that the next slot taken from the block starts where this one ends. -/
theorem AT_allocate_slot_in_block (cfg : Config) (env : Env) (size : Nat) (s : Store)
    (n : Nat) (s1 : Store) (hpos : 0 < size) (hsize : size ≤ cfg.BLOCK_SIZE)
    (hfit : blocks_fit cfg s size) (h : AT_allocate cfg env size s = .ok (n, s1)) :
    blocks_fit cfg s1 size ∧
    ((∃ next, (s.terminfo size).at_freelist = n :: next ∧
        (s1.terminfo size).at_freelist = next) ∨
      ∃ b, (s1.terminfo size).at_block.head? = some b ∧
        b.data ≤ n ∧ n + size ≤ b.end_ ∧ b.end_ ≤ b.data + cfg.BLOCK_SIZE ∧
        (s1.terminfo size).top_at_blocks = n + size) := by
  obtain ⟨s0, sc, h0, hcell, rfl⟩ := AT_allocate_cases cfg env size s n s1 h
  have hti0 : s0.terminfo = s.terminfo := by
    rcases h0 with ⟨-, rfl⟩ | ⟨-, hr⟩
    · rfl
    · exact (resize_hashtable_cases cfg env s s0 hr).2.1
  have hfit0 : blocks_fit cfg s0 size := by
    intro b hb
    rw [hti0] at hb ⊢
    exact hfit b hb
  show blocks_fit cfg sc size ∧ ((∃ next, (s.terminfo size).at_freelist = n :: next ∧
        (sc.terminfo size).at_freelist = next) ∨
      ∃ b, (sc.terminfo size).at_block.head? = some b ∧
        b.data ≤ n ∧ n + size ≤ b.end_ ∧ b.end_ ≤ b.data + cfg.BLOCK_SIZE ∧
        (sc.terminfo size).top_at_blocks = n + size)
  rcases AT_allocate_cell_cases cfg env size s0 n sc hcell with
    ⟨⟨b, hb, hroom⟩, hbump⟩ | ⟨-, next, hfl, hsc, -⟩ | ⟨-, -, sb, hblock, hbump⟩
  · obtain ⟨g1, g2, g3, g4, g5, g6⟩ := bump_allocate_fits cfg size s0 b hpos hfit0 hb hroom
    rw [← hbump] at g1 g2 g3 g4 g6
    refine ⟨g6, Or.inr ⟨b, ?_, g3, g4, g5, g2⟩⟩
    rw [g1]
    exact hb
  · subst hsc
    refine ⟨?_, Or.inl ⟨next, ?_, ?_⟩⟩
    · intro b hb
      have e1 : ((s0.set_terminfo size { s0.terminfo size with at_freelist := next }).terminfo
          size).at_block = (s0.terminfo size).at_block := by simp [Store.set_terminfo]
      have e2 : ((s0.set_terminfo size { s0.terminfo size with at_freelist := next }).terminfo
          size).top_at_blocks = (s0.terminfo size).top_at_blocks := by
        simp [Store.set_terminfo]
      rw [e1] at hb
      rw [e2]
      exact hfit0 b hb
    · rw [← hti0]
      exact hfl
    · simp [Store.set_terminfo]
  · obtain ⟨q1, b, q2, q3, q4⟩ := allocate_block_fits cfg env size s0 sb hpos hsize hblock
    have hroom : (sb.terminfo size).top_at_blocks < b.end_ := by omega
    obtain ⟨g1, g2, g3, g4, g5, g6⟩ := bump_allocate_fits cfg size sb b hpos q1 q2 hroom
    rw [← hbump] at g1 g2 g3 g4 g6
    refine ⟨g6, Or.inr ⟨b, ?_, g3, g4, g5, g2⟩⟩
    rw [g1]
    exact q2

theorem AT_allocate_slot_in_block_example :
    blocks_fit (example_config true) (initial_store 2) 4 ∧
    ∀ n s1, AT_allocate (example_config true) (example_env 1000) 4 (initial_store 2)
        = .ok (n, s1) → blocks_fit (example_config true) s1 4 :=
  have h0 : blocks_fit (example_config true) (initial_store 2) 4 :=
    fun b hb => by cases hb
  ⟨h0, fun n s1 h => (AT_allocate_slot_in_block (example_config true) (example_env 1000) 4
    (initial_store 2) n s1 (by decide) (by decide) h0 h).1⟩

/-- C37 (the code at the failing input). In the initial store, with blocks of 8192 words,
`AT_allocate(8193)` allocates a block, whose `end` is `data + (8192 - 8192 % 8193)`, that
is `data`, and takes the slot at the bump pointer without comparing it with `end`: the
slot at `data = 1000` ends at `9193`, beyond the end `1000` of the block and beyond the
`BLOCK_SIZE` words at `data`, in a release build and in a debug build. -/
theorem AT_allocate_slot_overruns_block :
    (example_config true).MIN_TERM_SIZE ≤ 8193 ∧ (example_config true).BLOCK_SIZE = 8192 ∧
    (∃ n s1, AT_allocate (example_config true) (example_env 1000) 8193 (initial_store 2)
        = .ok (n, s1) ∧ n = 1000 ∧
      (s1.terminfo 8193).at_block = [{ data := 1000, end_ := 1000, size := 8193 }] ∧
      (s1.terminfo 8193).top_at_blocks = 9193 ∧
      ¬ n + 8193 ≤ 1000 ∧ ¬ n + 8193 ≤ 1000 + (example_config true).BLOCK_SIZE) ∧
    (∃ n s1, AT_allocate (example_config false) (example_env 1000) 8193 (initial_store 2)
        = .ok (n, s1) ∧ n = 1000 ∧
      (s1.terminfo 8193).at_block = [{ data := 1000, end_ := 1000, size := 8193 }] ∧
      (s1.terminfo 8193).top_at_blocks = 9193) :=
  ⟨by decide, rfl, ⟨_, _, rfl, rfl, by decide, by decide, by decide, by decide⟩,
    ⟨_, _, rfl, rfl, by decide, by decide⟩⟩

end atermpp
